import Mathlib

/-!
# Cel animation model of the GIMP animation plug-in

Shallow embedding of `plug-ins/animation-play/core/animation-celanimation.c`.

* The list of tracks (`priv->tracks`) is a GLib doubly linked list that the
  source edits with hand-written pointer assignments (`level_up`,
  `level_down`, `set_duration`).  It is modelled node by node: a store maps
  addresses to `GList` nodes, every node carrying its `next` and `prev`
  pointers, and the GLib functions applied to it follow `glist.c`.
* The lists that the source only handles through GLib calls (the frames of a
  track, the layers of a frame, the comments) are modelled by their contents,
  a `NULL` list being the empty list.
* A result `none` means that the C code has no defined behaviour on the input:
  it dereferences `NULL` or a node that was freed, walks a cyclic list for
  ever, or returns leaving a pointer to freed memory in the animation.
* Signal emissions (`frames-changed`, `duration-changed`) do not touch the
  private data of the animation and are left out.
-/

namespace AnimationPlay

/-! ## Machine integers -/

/-- Value of a `gint` argument once converted to a `guint` parameter. -/
def guint_of_gint (i : Int) : Nat := (i % 4294967296).toNat

/-- Range of a `gint`. -/
def is_gint (i : Int) : Prop := -2147483648 ≤ i ∧ i ≤ 2147483647

instance (i : Int) : Decidable (is_gint i) := by
  unfold is_gint; infer_instance

/-! ## Data model -/

/-- The `Track` struct: a title (possibly `NULL`) and the list of frames, each
frame being the list of layer tattoos shown at that position. -/
structure Track where
  title : Option String
  frames : List (List Int)
  deriving DecidableEq

/-- A `GList` node of the list of tracks.  The `Track` that `data` points to is
owned by this node alone, so it is stored in the node. -/
structure GListNode where
  data : Track
  next : Option Nat
  prev : Option Nat
  deriving DecidableEq

/-- Store of the `GList` nodes of the track list.  Addresses at or above `top`
were never allocated; a freed or unallocated address holds `none`. -/
structure Heap where
  cell : Nat → Option GListNode
  top : Nat

/-- The empty store. -/
def Heap.empty : Heap := { cell := fun _ => none, top := 0 }

/-- Overwrite the node at address `a`. -/
def Heap.write (h : Heap) (a : Nat) (nd : GListNode) : Heap :=
  { h with cell := Function.update h.cell a (some nd) }

/-- Release the node at address `a` (`g_list_free_1`). -/
def Heap.free (h : Heap) (a : Nat) : Heap :=
  { h with cell := Function.update h.cell a none }

/-- Allocate a fresh node (`_g_list_alloc`), returning its address. -/
def Heap.alloc (h : Heap) (nd : GListNode) : Nat × Heap :=
  (h.top, { cell := Function.update h.cell h.top (some nd), top := h.top + 1 })

/-- Assignment `a->next = x`. -/
def Heap.set_next (h : Heap) (a : Nat) (x : Option Nat) : Option Heap :=
  (h.cell a).map fun nd => h.write a { nd with next := x }

/-- Assignment `a->prev = x`. -/
def Heap.set_prev (h : Heap) (a : Nat) (x : Option Nat) : Option Heap :=
  (h.cell a).map fun nd => h.write a { nd with prev := x }

/-- Assignment to the `Track` that `a->data` points to. -/
def Heap.set_data (h : Heap) (a : Nat) (t : Track) : Option Heap :=
  (h.cell a).map fun nd => h.write a { nd with data := t }

/-- Modelled from the spec: the camera component (`animation-camera.c`) is a
sequence of keyframes `(frame_position, offset_x, offset_y)`. -/
structure AnimationCamera where
  keyframes : List (Int × Int × Int)
  deriving DecidableEq

/-- `AnimationCelAnimationPrivate`, with the image size kept by the base
class. `tracks` is the head pointer of the track list in `heap`. -/
structure CelAnimation where
  duration : Int
  onion_skins : Int
  comments : List (Option String)
  heap : Heap
  tracks : Option Nat
  camera : AnimationCamera
  width : Int
  height : Int

/-! ## GLib list functions on the node store (`glist.c`) -/

/-- `g_list_nth`: `while ((n-- > 0) && list) list = list->next; return list;`. -/
def g_list_nth (h : Heap) : Option Nat → Nat → Option (Option Nat)
  | list, 0 => some list
  | none, _ + 1 => some none
  | some a, n + 1 =>
    match h.cell a with
    | none => none
    | some nd => g_list_nth h nd.next n

/-- `g_list_nth_data`: the `data` of the n-th node, `NULL` past the end.  The
track is stored in its node, so the pointer to the track is the address of the
node. -/
def g_list_nth_data (h : Heap) (list : Option Nat) (n : Nat) : Option (Option Nat) :=
  match g_list_nth h list n with
  | none => none
  | some none => some none
  | some (some a) => (h.cell a).map fun _ => some a

/-- Loop of `g_list_length`, with a bound on the number of nodes visited. -/
def g_list_length_aux (h : Heap) : Nat → Option Nat → Option Nat
  | _, none => some 0
  | 0, some _ => none
  | fuel + 1, some a =>
    match h.cell a with
    | none => none
    | some nd => (g_list_length_aux h fuel nd.next).map (· + 1)

/-- `g_list_length`.  A walk through more nodes than were ever allocated is a
walk round a cycle, which never ends. -/
def g_list_length (h : Heap) (list : Option Nat) : Option Nat :=
  g_list_length_aux h (h.top + 1) list

/-- Loop of `g_list_last`. -/
def g_list_last_aux (h : Heap) : Nat → Nat → Option Nat
  | 0, _ => none
  | fuel + 1, a =>
    match h.cell a with
    | none => none
    | some nd =>
      match nd.next with
      | none => some a
      | some b => g_list_last_aux h fuel b

/-- `g_list_last`. -/
def g_list_last (h : Heap) (list : Option Nat) : Option (Option Nat) :=
  match list with
  | none => some none
  | some a => (g_list_last_aux h (h.top + 1) a).map some

/-- `g_list_prepend`. -/
def g_list_prepend (h : Heap) (list : Option Nat) (data : Track) : Option (Heap × Option Nat) :=
  match list with
  | none =>
    let (n, h1) := h.alloc { data := data, next := none, prev := none }
    some (h1, some n)
  | some a =>
    match h.cell a with
    | none => none
    | some nd =>
      let (n, h1) := h.alloc { data := data, next := some a, prev := nd.prev }
      match nd.prev with
      | none => (h1.set_prev a (some n)).map fun h2 => (h2, some n)
      | some p =>
        (h1.set_next p (some n)).bind fun h2 =>
        (h2.set_prev a (some n)).map fun h3 => (h3, some n)

/-- `g_list_append`. -/
def g_list_append (h : Heap) (list : Option Nat) (data : Track) : Option (Heap × Option Nat) :=
  match list with
  | none =>
    let (n, h1) := h.alloc { data := data, next := none, prev := none }
    some (h1, some n)
  | some a =>
    match g_list_last_aux h (h.top + 1) a with
    | none => none
    | some last =>
      let (n, h1) := h.alloc { data := data, next := none, prev := some last }
      (h1.set_next last (some n)).map fun h2 => (h2, list)

/-- `g_list_insert`. -/
def g_list_insert (h : Heap) (list : Option Nat) (data : Track) (position : Int) :
    Option (Heap × Option Nat) :=
  if position < 0 then g_list_append h list data
  else if position = 0 then g_list_prepend h list data
  else
    match g_list_nth h list (guint_of_gint position) with
    | none => none
    | some none => g_list_append h list data
    | some (some tmp) =>
      match h.cell tmp with
      | none => none
      | some nd =>
        let (n, h1) := h.alloc { data := data, next := some tmp, prev := nd.prev }
        match nd.prev with
        | none => none
        | some p =>
          (h1.set_next p (some n)).bind fun h2 =>
          (h2.set_prev tmp (some n)).map fun h3 => (h3, list)

/-- `g_list_delete_link`: `_g_list_remove_link` followed by the release of the
node.  A neighbour that does not point back to the link is left alone. -/
def g_list_delete_link (h : Heap) (list : Option Nat) (link : Nat) :
    Option (Heap × Option Nat) :=
  match h.cell link with
  | none => none
  | some nd =>
    let h1 : Option Heap :=
      match nd.prev with
      | none => some h
      | some p =>
        match h.cell p with
        | none => none
        | some pn => if pn.next = some link then h.set_next p nd.next else some h
    h1.bind fun h1 =>
    let h2 : Option Heap :=
      match nd.next with
      | none => some h1
      | some n =>
        match h1.cell n with
        | none => none
        | some nn => if nn.prev = some link then h1.set_prev n nd.prev else some h1
    h2.map fun h2 =>
    let list1 := if list = some link then nd.next else list
    (h2.free link, list1)

/-- Loop of `g_list_reverse`:
`while (list) { last = list; list = last->next; last->next = last->prev; last->prev = list; }`. -/
def g_list_reverse_aux (h : Heap) : Nat → Option Nat → Option Nat → Option (Heap × Option Nat)
  | _, none, last => some (h, last)
  | 0, some _, _ => none
  | fuel + 1, some a, _ =>
    match h.cell a with
    | none => none
    | some nd =>
      g_list_reverse_aux (h.write a { nd with next := nd.prev, prev := nd.next }) fuel nd.next (some a)

/-- `g_list_reverse`. -/
def g_list_reverse (h : Heap) (list : Option Nat) : Option (Heap × Option Nat) :=
  g_list_reverse_aux h (h.top + 1) list none

/-- Loop of `g_list_free_full` with `animation_cel_animation_clean_track`: every
node from `list` on is released together with its track. -/
def g_list_free_full_aux (h : Heap) : Nat → Option Nat → Option Heap
  | _, none => some h
  | 0, some _ => none
  | fuel + 1, some a =>
    match h.cell a with
    | none => none
    | some nd => g_list_free_full_aux (h.free a) fuel nd.next

/-- `g_list_free_full`. -/
def g_list_free_full (h : Heap) (list : Option Nat) : Option Heap :=
  g_list_free_full_aux h (h.top + 1) list

/-- The tracks met when walking the list from `list` (at most `fuel` nodes). -/
def tracks_from (h : Heap) : Nat → Option Nat → Option (List Track)
  | _, none => some []
  | 0, some _ => none
  | fuel + 1, some a =>
    match h.cell a with
    | none => none
    | some nd => (tracks_from h fuel nd.next).map (nd.data :: ·)

/-- The track list of an animation, traversed from its head. -/
def track_list (a : CelAnimation) : Option (List Track) :=
  tracks_from a.heap (a.heap.top + 1) a.tracks

/-! ## GLib list functions on lists handled by value -/

/-- `g_list_nth_data` on a list handled by value: the n-th element, `NULL`
(the empty list) past the end. -/
def glist_nth_data (l : List (List Int)) (n : Nat) : List Int :=
  match l[n]? with
  | some x => x
  | none => []

/-- Loop `for (i = from; i < upto; i++) list = g_list_prepend (list, NULL);`. -/
def prepend_nulls {α : Type} (null : α) : Nat → List α → List α
  | 0, l => l
  | n + 1, l => prepend_nulls null n (null :: l)

/-- Growth of a list up to index `position`: the list is reversed, `NULL` is
prepended for `i = length .. position`, and the list is reversed back. -/
def glist_grow {α : Type} (null : α) (l : List α) (position : Int) : List α :=
  (prepend_nulls null (position + 1 - (l.length : Int)).toNat l.reverse).reverse

/-- `g_list_insert` on a list handled by value. -/
def glist_insert {α : Type} (l : List α) (data : α) (position : Int) : List α :=
  if position < 0 then l ++ [data]
  else if position = 0 then data :: l
  else
    let n := guint_of_gint position
    if n < l.length then l.take n ++ data :: l.drop n else l ++ [data]

/-- The cut made by `animation_cel_animation_set_duration` on a list handled
by value: `iter = g_list_nth (list, n); if (iter && iter->prev) { iter->prev->next = NULL;
iter->prev = NULL; } g_list_free_full (iter, ...)`.  When `iter` is the head of
the list the whole list is released while the owner keeps pointing to it. -/
def glist_cut {α : Type} (l : List α) (n : Nat) : Option (List α) :=
  if n < l.length then (if n = 0 then none else some (l.take n)) else some l

/-! ## Public functions of the cel animation -/

/-- `animation_cel_animation_get_layers`. -/
def animation_cel_animation_get_layers (a : CelAnimation) (level position : Int) :
    Option (List Int) :=
  match g_list_nth_data a.heap a.tracks (guint_of_gint level) with
  | none => none
  | some none => some []
  | some (some t) =>
    if ¬ (position ≥ 0 ∧ position < a.duration) then some []
    else (a.heap.cell t).map fun nd => glist_nth_data nd.data.frames (guint_of_gint position)

/-- `animation_cel_animation_set_comment`. -/
def animation_cel_animation_set_comment (a : CelAnimation) (position : Int)
    (comment : Option String) : CelAnimation :=
  if ¬ (position ≥ 0 ∧ position < a.duration) then a
  else
    let n := guint_of_gint position
    let (comments1, item) :=
      if n < a.comments.length then (a.comments, n)
      else
        let grown := glist_grow none a.comments position
        (grown, grown.length - 1)
    { a with comments := comments1.set item comment }

/-- `animation_cel_animation_get_comment`. -/
def animation_cel_animation_get_comment (a : CelAnimation) (position : Int) : Option String :=
  if ¬ (position ≥ 0 ∧ position < a.duration) then none
  else (a.comments[guint_of_gint position]?).join

/-- `animation_cel_animation_set_onion_skins`. -/
def animation_cel_animation_set_onion_skins (a : CelAnimation) (skins : Int) : CelAnimation :=
  { a with onion_skins := skins }

/-- `animation_cel_animation_get_onion_skins`. -/
def animation_cel_animation_get_onion_skins (a : CelAnimation) : Int := a.onion_skins

/-- First block of the shrinking branch of `set_duration`:
`iter = g_list_nth (priv->tracks, duration)`, the cut before `iter` and
`g_list_free_full (iter, clean_track)`.  `priv->tracks` itself is not assigned. -/
def set_duration_free_tracks (h : Heap) (tracks : Option Nat) (duration : Int) : Option Heap :=
  match g_list_nth h tracks (guint_of_gint duration) with
  | none => none
  | some none => some h
  | some (some iter) =>
    match h.cell iter with
    | none => none
    | some nd =>
      let h1 : Option Heap :=
        match nd.prev with
        | none => some h
        | some p => (h.set_next p none).bind fun h => h.set_prev iter none
      h1.bind fun h1 => g_list_free_full h1 (some iter)

/-- Last block of the shrinking branch of `set_duration`:
`for (iter = priv->tracks; iter; iter = iter->next)`, cutting the frames of
every track. -/
def set_duration_cut_frames (duration : Int) : Nat → Heap → Option Nat → Option Heap
  | _, h, none => some h
  | 0, _, some _ => none
  | fuel + 1, h, some iter =>
    match h.cell iter with
    | none => none
    | some nd =>
      match glist_cut nd.data.frames (guint_of_gint duration) with
      | none => none
      | some frames1 =>
        set_duration_cut_frames duration fuel
          (h.write iter { nd with data := { nd.data with frames := frames1 } }) nd.next

/-- `animation_cel_animation_set_duration`. -/
def animation_cel_animation_set_duration (a : CelAnimation) (duration : Int) :
    Option CelAnimation :=
  let a1 : Option CelAnimation :=
    if duration < a.duration then
      (set_duration_free_tracks a.heap a.tracks duration).bind fun h1 =>
      (glist_cut a.comments (guint_of_gint duration)).bind fun comments1 =>
      (set_duration_cut_frames duration (h1.top + 1) h1 a.tracks).map fun h2 =>
        { a with heap := h2, comments := comments1 }
    else some a
  a1.map fun a1 => if duration ≠ a1.duration then { a1 with duration := duration } else a1

/-- `animation_cel_animation_get_levels`. -/
def animation_cel_animation_get_levels (a : CelAnimation) : Option Nat :=
  g_list_length a.heap a.tracks

/-- `animation_cel_animation_level_up`.  The guard compares `level` with the
unsigned value `g_list_length (tracks) - 1`. -/
def animation_cel_animation_level_up (a : CelAnimation) (level : Int) :
    Option (CelAnimation × Int) :=
  match g_list_length a.heap a.tracks with
  | none => none
  | some len =>
    if ¬ (level ≥ 0 ∧ level < ((len : Int) - 1) % 4294967296) then some (a, level)
    else
      match g_list_nth a.heap a.tracks (guint_of_gint level) with
      | none => none
      | some none => none
      | some (some track) =>
        match a.heap.cell track with
        | none => none
        | some tn =>
          let prev_track := tn.prev
          match tn.next with
          | none => none
          | some next_track =>
            -- if (prev_track) prev_track->next = next_track; else tracks = next_track;
            let s1 : Option (Heap × Option Nat) :=
              match prev_track with
              | some p => (a.heap.set_next p (some next_track)).map fun h => (h, a.tracks)
              | none => some (a.heap, some next_track)
            s1.bind fun (h1, tracks1) =>
            -- next_track->prev = prev_track;
            (h1.set_prev next_track prev_track).bind fun h2 =>
            -- track->prev = next_track;
            (h2.set_prev track (some next_track)).bind fun h3 =>
            -- track->next = next_track->next;
            (h3.cell next_track).bind fun nn =>
            (h3.set_next track nn.next).bind fun h4 =>
            -- next_track->next = track;
            (h4.set_next next_track (some track)).map fun h5 =>
            ({ a with heap := h5, tracks := tracks1 }, level + 1)

/-- `animation_cel_animation_level_down`. -/
def animation_cel_animation_level_down (a : CelAnimation) (level : Int) :
    Option (CelAnimation × Int) :=
  match g_list_length a.heap a.tracks with
  | none => none
  | some len =>
    if ¬ (level > 0 ∧ level < (len : Int)) then some (a, level)
    else
      match g_list_nth a.heap a.tracks (guint_of_gint level) with
      | none => none
      | some none => none
      | some (some track) =>
        match a.heap.cell track with
        | none => none
        | some tn =>
          let next_track := tn.next
          match tn.prev with
          | none => none
          | some prev_track =>
            (a.heap.cell prev_track).bind fun pn =>
            -- if (! prev_track->prev) tracks = track;
            let tracks1 := if pn.prev = none then some track else a.tracks
            -- if (next_track) next_track->prev = prev_track;
            let h1 : Option Heap :=
              match next_track with
              | some n => a.heap.set_prev n (some prev_track)
              | none => some a.heap
            h1.bind fun h1 =>
            -- prev_track->next = next_track;
            (h1.set_next prev_track next_track).bind fun h2 =>
            -- track->next = prev_track;
            (h2.set_next track (some prev_track)).bind fun h3 =>
            -- track->prev = prev_track->prev;
            (h3.cell prev_track).bind fun pn3 =>
            (h3.set_prev track pn3.prev).bind fun h4 =>
            -- prev_track->prev = track;
            (h4.set_prev prev_track (some track)).map fun h5 =>
            ({ a with heap := h5, tracks := tracks1 }, level - 1)

/-- `animation_cel_animation_level_delete`. -/
def animation_cel_animation_level_delete (a : CelAnimation) (level : Int) :
    Option (CelAnimation × Bool) :=
  match g_list_length a.heap a.tracks with
  | none => none
  | some tracks_n =>
    if ¬ (level ≥ 0 ∧ level < (tracks_n : Int)) then some (a, false)
    else if (tracks_n : Int) > 1 then
      match g_list_nth a.heap a.tracks (guint_of_gint level) with
      | none => none
      | some none => none
      | some (some item) =>
        (g_list_delete_link a.heap a.tracks item).map fun (h1, tracks1) =>
          ({ a with heap := h1, tracks := tracks1 }, true)
    else some (a, false)

/-- `animation_cel_animation_level_add`; `name_me` is the translated default
title `_("Name me")`. -/
def animation_cel_animation_level_add (name_me : String) (a : CelAnimation) (level : Int) :
    Option (CelAnimation × Bool) :=
  match g_list_length a.heap a.tracks with
  | none => none
  | some tracks_n =>
    if ¬ (level ≥ 0 ∧ level ≤ (tracks_n : Int)) then some (a, false)
    else
      (g_list_insert a.heap a.tracks { title := some name_me, frames := [] } level).map
        fun (h1, tracks1) => ({ a with heap := h1, tracks := tracks1 }, true)

/-- `animation_cel_animation_get_track_title`. -/
def animation_cel_animation_get_track_title (a : CelAnimation) (level : Int) :
    Option (Option String) :=
  match g_list_nth a.heap a.tracks (guint_of_gint level) with
  | none => none
  | some none => some none
  | some (some track) => (a.heap.cell track).map fun nd => nd.data.title

/-- `animation_cel_animation_set_track_title`. -/
def animation_cel_animation_set_track_title (a : CelAnimation) (level : Int)
    (title : Option String) : Option CelAnimation :=
  match g_list_nth a.heap a.tracks (guint_of_gint level) with
  | none => none
  | some none => some a
  | some (some track) =>
    (a.heap.cell track).bind fun nd =>
    (a.heap.set_data track { nd.data with title := title }).map fun h => { a with heap := h }

/-- `animation_cel_animation_cel_delete`. -/
def animation_cel_animation_cel_delete (a : CelAnimation) (level position : Int) :
    Option (CelAnimation × Bool) :=
  match g_list_nth_data a.heap a.tracks (guint_of_gint level) with
  | none => none
  | some none => some (a, false)
  | some (some t) =>
    (a.heap.cell t).bind fun nd =>
    let n := guint_of_gint position
    if n < nd.data.frames.length then
      (a.heap.set_data t { nd.data with frames := nd.data.frames.eraseIdx n }).map fun h =>
        ({ a with heap := h }, true)
    else some (a, false)

/-- The `contents` given to the new slot by `cel_add`: a copy of the layers of
the slot before `position` when `dup_previous && position > 0` and that slot
exists, `NULL` otherwise. -/
def cel_add_contents (frames : List (List Int)) (position : Int) (dup_previous : Bool) :
    List Int :=
  if (dup_previous && decide (position > 0)) = true then
    match frames[guint_of_gint (position - 1)]? with
    | some prev_cell => prev_cell
    | none => []
  else []

/-- `animation_cel_animation_cel_add`.  The test for the growth of the duration
compares the unsigned `g_list_length (track->frames)` with `priv->duration`. -/
def animation_cel_animation_cel_add (a : CelAnimation) (level position : Int)
    (dup_previous : Bool) : Option (CelAnimation × Bool) :=
  match g_list_nth_data a.heap a.tracks (guint_of_gint level) with
  | none => none
  | some none => some (a, false)
  | some (some t) =>
    (a.heap.cell t).bind fun nd =>
    let dup : Bool := dup_previous && decide (position > 0)
    let i : Int := if dup then position + 1 else position
    let contents : List Int := cel_add_contents nd.data.frames position dup_previous
    let frames1 := glist_insert nd.data.frames contents position
    (a.heap.set_data t { nd.data with frames := frames1 }).bind fun h1 =>
    let a1 : CelAnimation := { a with heap := h1 }
    let a2 : Option CelAnimation :=
      if frames1.length > guint_of_gint a1.duration ∧ frames1.getLast? ≠ some [] then
        animation_cel_animation_set_duration a1 (frames1.length : Int)
      else some a1
    a2.bind fun a2 =>
    (a2.heap.cell t).map fun nd2 =>
    (a2, decide (guint_of_gint i < nd2.data.frames.length))

/-! ## Well-formed track lists -/

/-- The node at index `i` of the address sequence `addrs`, with the track and
the `next` pointer it must hold for the sequence to spell the list `l`. -/
def fwd_ok_at (h : Heap) (addrs : List Nat) (l : List Track) (i : Nat) : Prop :=
  ((addrs[i]?).bind h.cell).map (fun nd => (nd.data, nd.next)) =
    (l[i]?).map (fun t => (t, addrs[i + 1]?))

instance (h : Heap) (addrs : List Nat) (l : List Track) (i : Nat) :
    Decidable (fwd_ok_at h addrs l i) := by
  unfold fwd_ok_at; infer_instance

/-- The `prev` pointer the node at index `i` must hold. -/
def prev_ok_at (h : Heap) (addrs : List Nat) (i : Nat) : Prop :=
  ((addrs[i]?).bind h.cell).map (fun nd => nd.prev) =
    some (if i = 0 then none else addrs[i - 1]?)

instance (h : Heap) (addrs : List Nat) (i : Nat) : Decidable (prev_ok_at h addrs i) := by
  unfold prev_ok_at; infer_instance

/-- Walking the `next` pointers from `list` visits the pairwise distinct nodes
`addrs`, which hold the tracks `l` in this order, and then reaches `NULL`. -/
def IsFwdList (h : Heap) (list : Option Nat) (addrs : List Nat) (l : List Track) : Prop :=
  addrs.length = l.length ∧ addrs.Nodup ∧ (∀ a ∈ addrs, a < h.top) ∧ list = addrs[0]? ∧
    ∀ i, i < addrs.length → fwd_ok_at h addrs l i

instance (h : Heap) (list : Option Nat) (addrs : List Nat) (l : List Track) :
    Decidable (IsFwdList h list addrs l) := by
  unfold IsFwdList; infer_instance

/-- A well-formed `GList`: the `next` pointers spell `l` and every `prev`
pointer designates the node before. -/
def IsGList (h : Heap) (list : Option Nat) (addrs : List Nat) (l : List Track) : Prop :=
  IsFwdList h list addrs l ∧ ∀ i, i < addrs.length → prev_ok_at h addrs i

instance (h : Heap) (list : Option Nat) (addrs : List Nat) (l : List Track) :
    Decidable (IsGList h list addrs l) := by
  unfold IsGList; infer_instance

/-- Nodes of the well-formed list holding the tracks `l` at addresses
`0 .. l.length - 1`. -/
def list_cell (l : List Track) (i : Nat) : Option GListNode :=
  (l[i]?).map fun t =>
    { data := t
      next := if i + 1 < l.length then some (i + 1) else none
      prev := if i = 0 then none else some (i - 1) }

/-- The animation whose track list is the well-formed list `l`, laid out at
addresses `0 .. l.length - 1`. -/
def cel_animation_of (duration onion_skins : Int) (comments : List (Option String))
    (l : List Track) : CelAnimation :=
  { duration := duration
    onion_skins := onion_skins
    comments := comments
    heap := { cell := list_cell l, top := l.length }
    tracks := if l = [] then none else some 0
    camera := { keyframes := [] }
    width := 0
    height := 0 }

/-! ## Reference operations on lists of frames -/

/-- The list `l` with the entries at indices `k` and `k + 1` exchanged (`l`
itself when there is no entry at `k + 1`). -/
def swap_at {α : Type} (l : List α) (k : Nat) : List α :=
  match l[k]?, l[k + 1]? with
  | some x, some y => (l.set k y).set (k + 1) x
  | _, _ => l

/-! ## Sample animations -/

/-- Three tracks with some content. -/
def sample_tracks : List Track :=
  [{ title := some "Background", frames := [[1], [1], [2]] },
   { title := some "Name me", frames := [] },
   { title := some "Figure", frames := [[3], [], [4, 5]] }]

/-- A five-frame animation over `sample_tracks`. -/
def sample_animation : CelAnimation := cel_animation_of 5 0 [none, some "intro"] sample_tracks

/-- A one-frame animation of four tracks. -/
def four_track_animation : CelAnimation :=
  cel_animation_of 1 0 []
    [{ title := some "A", frames := [[1]] }, { title := some "B", frames := [[2]] },
     { title := some "C", frames := [[3]] }, { title := some "D", frames := [[4]] }]

/-- A one-frame animation with a single track. -/
def single_track_animation : CelAnimation :=
  cel_animation_of 1 0 [] [{ title := some "Background", frames := [[1]] }]

/-- A one-frame animation whose only track holds one frame. -/
def one_frame_animation : CelAnimation :=
  cel_animation_of 1 0 [] [{ title := some "Background", frames := [[7]] }]

/-- The animation of the second end-to-end scenario: two tracks, duration 10,
the first track holding ten non-empty frames. -/
def ten_frame_animation : CelAnimation :=
  cel_animation_of 10 0 []
    [{ title := some "Background",
       frames := [[10], [11], [12], [13], [14], [15], [16], [17], [18], [19]] },
     { title := some "Name me", frames := [] }]

/-! ## Decimal text of integers

`printf ("%d")` on the writing side, `g_ascii_strtoll` and `g_ascii_strtoull`
(`gstrfuncs.c`) on the reading side. -/

/-- The character of a decimal digit. -/
def digit_char (d : Nat) : Char :=
  match d with
  | 0 => '0' | 1 => '1' | 2 => '2' | 3 => '3' | 4 => '4'
  | 5 => '5' | 6 => '6' | 7 => '7' | 8 => '8' | _ => '9'

/-- Decimal digits of `n`, most significant first, in front of `acc`; `fuel`
bounds the number of digits. -/
def nat_digits_aux : Nat → Nat → List Char → List Char
  | 0, _, acc => acc
  | fuel + 1, n, acc =>
    if n < 10 then digit_char n :: acc
    else nat_digits_aux fuel (n / 10) (digit_char (n % 10) :: acc)

/-- Decimal digits of `n`. -/
def nat_digits (n : Nat) : List Char := nat_digits_aux (n + 1) n []

/-- The text printed by `%d`. -/
def fmt_d (i : Int) : String :=
  String.mk (if i < 0 then '-' :: nat_digits (-i).toNat else nat_digits i.toNat)

/-- Value of a decimal digit. -/
def digit_value (c : Char) : Option Nat :=
  if 48 ≤ c.toNat ∧ c.toNat ≤ 57 then some (c.toNat - 48) else none

/-- Value of the longest run of decimal digits at the start of the text,
continuing from `acc`. -/
def parse_digits : List Char → Nat → Nat
  | [], acc => acc
  | c :: cs, acc =>
    match digit_value c with
    | some d => parse_digits cs (acc * 10 + d)
    | none => acc

/-- `g_ascii_isspace`. -/
def g_ascii_isspace (c : Char) : Bool :=
  c = ' ' || c = '\t' || c = '\n' || c = '\r' || c.toNat = 11 || c.toNat = 12

/-- `g_parse_long_long` in base 10: leading spaces, an optional sign, digits.
Returns the sign and the magnitude read. -/
def g_parse_long_long (s : String) : Bool × Nat :=
  match s.data.dropWhile g_ascii_isspace with
  | '-' :: ds => (true, parse_digits ds 0)
  | '+' :: ds => (false, parse_digits ds 0)
  | ds => (false, parse_digits ds 0)

/-- `g_ascii_strtoll (s, NULL, 10)`, a `gint64`. -/
def g_ascii_strtoll (s : String) : Int :=
  let r := g_parse_long_long s
  if r.1 then (if r.2 > 9223372036854775808 then -9223372036854775808 else -(r.2 : Int))
  else (if r.2 > 9223372036854775807 then 9223372036854775807 else (r.2 : Int))

/-- `g_ascii_strtoull (s, NULL, 10)`, a `guint64`: the magnitude saturates and a
minus sign negates it modulo 2^64. -/
def g_ascii_strtoull (s : String) : Int :=
  let r := g_parse_long_long s
  let m : Int := if r.2 > 18446744073709551615 then 18446744073709551615 else (r.2 : Int)
  if r.1 then (-m) % 18446744073709551616 else m

/-- Conversion of a 64-bit value to `gint`: the low 32 bits, signed. -/
def to_gint (i : Int) : Int := (i + 2147483648) % 4294967296 - 2147483648

/-! ## The XML document

The serializer writes text with `g_markup_printf_escaped` and the deserializer
is driven by a `GMarkupParseContext`.  A document is the sequence of start-tag,
end-tag and text elements written, with the attribute values and the text as
handed to `g_markup_printf_escaped`.  Escaping on the way out and resolving the
escapes on the way in cancel; what GMarkup does besides to a value it reads is
the treatment of white space of `unescape_gstring_inplace`. -/

/-- An event reported by the GMarkup reader. -/
inductive XmlEvent where
  | start_element (element_name : String) (attributes : List (String × String))
  | end_element (element_name : String)
  | text (content : String)
  deriving DecidableEq

/-- Modelled from the spec: `animation_camera_has_keyframe`. -/
def animation_camera_has_keyframe (camera : AnimationCamera) (position : Int) : Bool :=
  camera.keyframes.any fun k => k.1 = position

/-- Modelled from the spec: `animation_camera_get` at a keyframe returns the
offsets stored for it; the interpolation between keyframes belongs to the camera
component and is not modelled (zero offsets stand for it). -/
def animation_camera_get (camera : AnimationCamera) (position : Int) : Int × Int :=
  match camera.keyframes.find? fun k => k.1 = position with
  | some k => k.2
  | none => (0, 0)

/-- Modelled from the spec: `animation_camera_set_keyframe` stores the offsets
of the keyframe at `position`, replacing a former keyframe there. -/
def animation_camera_set_keyframe (camera : AnimationCamera) (position x y : Int) :
    AnimationCamera :=
  { keyframes := (position, x, y) :: camera.keyframes.filter fun k => k.1 ≠ position }

/-! ## `animation_cel_animation_serialize` -/

/-- The comparison loop of the serializer on two layer lists of equal length:
`for (; layer1; layer1 = layer1->next, layer2 = layer2->next) if (layer1->data != layer2->data) ...`. -/
def layers_identical : List Int → List Int → Bool
  | [], _ => true
  | _ :: _, [] => false
  | x :: xs, y :: ys => if x ≠ y then false else layers_identical xs ys

/-- The flag `next_identical` of the serializer: there is a next slot, it is not
empty, it has as many layers as the current one and the comparison loop finds
no difference. -/
def next_identical (layers : List Int) (rest : List (List Int)) : Bool :=
  match rest with
  | [] => false
  | next :: _ =>
    if next ≠ [] ∧ layers.length = next.length then layers_identical layers next else false

/-- The `<layer id="%d"/>` elements of a frame. -/
def serialize_layers : List Int → List XmlEvent
  | [] => []
  | tattoo :: layers =>
    XmlEvent.start_element "layer" [("id", fmt_d tattoo)] :: XmlEvent.end_element "layer" ::
      serialize_layers layers

/-- The loop over `track->frames`, with its counters `position` (starting at 1)
and `duration` (starting at 0). -/
def serialize_frames : List (List Int) → Int → Int → List XmlEvent
  | [], _, _ => []
  | layers :: rest, position, duration =>
    if layers ≠ [] then
      let duration1 := duration + 1
      if ¬ next_identical layers rest then
        XmlEvent.start_element "frame"
            [("position", fmt_d (position - duration1)), ("duration", fmt_d duration1)] ::
          (serialize_layers layers ++
            XmlEvent.end_element "frame" :: serialize_frames rest (position + 1) 0)
      else serialize_frames rest (position + 1) duration1
    else serialize_frames rest (position + 1) duration

/-- The `<sequence>` element of a track.  A `NULL` title is passed to `%s`,
which has no defined behaviour. -/
def serialize_track (t : Track) : Option (List XmlEvent) :=
  t.title.map fun title =>
    XmlEvent.start_element "sequence" [("name", title)] ::
      (serialize_frames t.frames 1 0 ++ [XmlEvent.end_element "sequence"])

/-- The loop over `priv->tracks`. -/
def serialize_tracks : List Track → Option (List XmlEvent)
  | [] => some []
  | t :: ts =>
    (serialize_track t).bind fun e => (serialize_tracks ts).map fun es => e ++ es

/-- The loop `for (i = 0; i < priv->duration; i++)` over the camera keyframes,
run from `i` for `n` more positions. -/
def serialize_camera (camera : AnimationCamera) : Nat → Int → List XmlEvent
  | 0, _ => []
  | n + 1, i =>
    (if animation_camera_has_keyframe camera i then
      [XmlEvent.start_element "keyframe"
          [("position", fmt_d i), ("x", fmt_d (animation_camera_get camera i).1),
            ("y", fmt_d (animation_camera_get camera i).2)],
        XmlEvent.end_element "keyframe"]
    else []) ++ serialize_camera camera n (i + 1)

/-- The loop over `priv->comments`. -/
def serialize_comments : List (Option String) → Int → List XmlEvent
  | [], _ => []
  | comment :: rest, i =>
    (match comment with
      | some c =>
        if c.length > 0 then
          [XmlEvent.start_element "comment" [("frame-position", fmt_d i)], XmlEvent.text c,
            XmlEvent.end_element "comment"]
        else []
      | none => []) ++ serialize_comments rest (i + 1)

/-- `animation_cel_animation_serialize`.  `framerate` is the text printed by
`%f` for the framerate of the base class, `playback_xml` the events of the block
passed in by the caller. -/
def animation_cel_animation_serialize (a : CelAnimation) (framerate : String)
    (playback_xml : List XmlEvent) : Option (List XmlEvent) :=
  (track_list a).bind fun tracks =>
  (serialize_tracks tracks).map fun sequences =>
    XmlEvent.start_element "animation"
        [("type", "cels"), ("framerate", framerate), ("duration", fmt_d a.duration),
          ("onion-skins", fmt_d a.onion_skins), ("width", fmt_d a.width),
          ("height", fmt_d a.height)] ::
      (playback_xml ++ sequences ++
        XmlEvent.start_element "camera" [] ::
          (serialize_camera a.camera a.duration.toNat 0 ++
            XmlEvent.end_element "camera" ::
              XmlEvent.start_element "comments" [("title", "")] ::
                (serialize_comments a.comments 0 ++
                  [XmlEvent.end_element "comments", XmlEvent.end_element "animation"])))

/-! ## Values read by GMarkup -/

/-- One character of a value read by `unescape_gstring_inplace` (`gmarkup.c`):
in an attribute value a tab or a line feed becomes a space, a carriage return
becomes a space in an attribute value and a line feed in text. -/
def unescape_char (normalize_attribute : Bool) (c : Char) : Char :=
  if normalize_attribute = true ∧ (c = '\t' ∨ c = '\n') then ' '
  else if c = '\r' then (if normalize_attribute then ' ' else '\n')
  else c

/-- The loop of `unescape_gstring_inplace` over the characters of a value: a
line feed that follows a carriage return is skipped. -/
def unescape_gstring_chars (normalize_attribute : Bool) : List Char → List Char
  | [] => []
  | [c] => [unescape_char normalize_attribute c]
  | c :: d :: rest =>
    if c = '\r' ∧ d = '\n' then
      unescape_char normalize_attribute c :: unescape_gstring_chars normalize_attribute rest
    else
      unescape_char normalize_attribute c ::
        unescape_gstring_chars normalize_attribute (d :: rest)

/-- `unescape_gstring_inplace` on a value free of escapes. -/
def unescape_gstring_inplace (normalize_attribute : Bool) (s : String) : String :=
  String.mk (unescape_gstring_chars normalize_attribute s.data)

/-- A written element as GMarkup reports it to the callbacks. -/
def g_markup_read_element : XmlEvent → XmlEvent
  | .start_element element_name attributes =>
    .start_element element_name
      (attributes.map fun nv => (nv.1, unescape_gstring_inplace true nv.2))
  | .end_element element_name => .end_element element_name
  | .text content => .text (unescape_gstring_inplace false content)

/-! ## `animation_cel_animation_deserialize` -/

/-- `AnimationParseState`. -/
inductive AnimationParseState where
  | START_STATE
  | ANIMATION_STATE
  | PLAYBACK_STATE
  | SEQUENCE_STATE
  | FRAME_STATE
  | LAYER_STATE
  | CAMERA_STATE
  | KEYFRAME_STATE
  | COMMENTS_STATE
  | COMMENT_STATE
  | END_STATE
  deriving DecidableEq

/-- `ParseStatus`; `track` is the address of the node that holds the track being
read. -/
structure ParseStatus where
  state : AnimationParseState
  track : Option Nat
  frame_position : Int
  frame_duration : Int
  deriving DecidableEq

/-- Attribute loop of `START_STATE`.  The flag tells that `g_set_error` was
called (unknown animation type), in which case the function returns at once.
The framerate goes to the base class and is not modelled. -/
def start_state_attributes (a : CelAnimation) :
    List (String × String) → Option (CelAnimation × Bool)
  | [] => some (a, false)
  | (name, value) :: rest =>
    if name = "type" then
      if value = "" ∨ value ≠ "cels" then some (a, true)
      else start_state_attributes a rest
    else if name = "width" ∧ value ≠ "" then
      start_state_attributes { a with width := to_gint (g_ascii_strtoull value) } rest
    else if name = "height" ∧ value ≠ "" then
      start_state_attributes { a with height := to_gint (g_ascii_strtoull value) } rest
    else if name = "framerate" ∧ value ≠ "" then
      start_state_attributes a rest
    else if name = "duration" ∧ value ≠ "" then
      (animation_cel_animation_set_duration a (to_gint (g_ascii_strtoull value))).bind
        fun a1 => start_state_attributes a1 rest
    else if name = "onion-skins" ∧ value ≠ "" then
      start_state_attributes
        (animation_cel_animation_set_onion_skins a (to_gint (g_ascii_strtoull value))) rest
    else start_state_attributes a rest

/-- Attribute loop of `<sequence>`: the title of the new track. -/
def sequence_attributes (title : Option String) : List (String × String) → Option String
  | [] => title
  | (name, value) :: rest =>
    if name = "name" then sequence_attributes (some value) rest
    else sequence_attributes title rest

/-- Attribute loop of `<frame>`: `status->frame_position` and
`status->frame_duration`. -/
def frame_attributes (frame_position frame_duration : Int) :
    List (String × String) → Int × Int
  | [] => (frame_position, frame_duration)
  | (name, value) :: rest =>
    if name = "position" ∧ value ≠ "" then
      let position := to_gint (g_ascii_strtoll value)
      frame_attributes (if position ≥ 0 then position else frame_position) frame_duration rest
    else if name = "duration" ∧ value ≠ "" then
      let duration := to_gint (g_ascii_strtoll value)
      frame_attributes frame_position (if duration > 0 then duration else frame_duration) rest
    else frame_attributes frame_position frame_duration rest

/-- The loop `for (i = 0; i < frame_position + frame_duration; i++)` of
`<layer>`, which appends the tattoo to the slots from `frame_position` on.  The
list was grown to `frame_position + frame_duration` slots before, so `iter` is
not `NULL` inside the loop. -/
def append_tattoo (frame_position limit tattoo : Int) : Int → List (List Int) → List (List Int)
  | _, [] => []
  | i, layers :: rest =>
    if i < limit then
      (if i ≥ frame_position then layers ++ [tattoo] else layers) ::
        append_tattoo frame_position limit tattoo (i + 1) rest
    else layers :: rest

/-- Effect of one `id` attribute of `<layer>` on `status->track->frames`. -/
def layer_frames (frames : List (List Int)) (frame_position frame_duration tattoo : Int) :
    List (List Int) :=
  let track_length : Int := frames.length
  let frames1 :=
    if track_length < frame_position + frame_duration then
      glist_grow [] frames (frame_position + frame_duration - 1)
    else frames
  append_tattoo frame_position (frame_position + frame_duration) tattoo 0 frames1

/-- Attribute loop of `<layer>`. -/
def layer_attributes (status : ParseStatus) (h : Heap) : List (String × String) → Option Heap
  | [] => some h
  | (name, value) :: rest =>
    if name = "id" ∧ value ≠ "" then
      match status.track with
      | none => none
      | some t =>
        (h.cell t).bind fun nd =>
        let frames1 := layer_frames nd.data.frames status.frame_position status.frame_duration
          (to_gint (g_ascii_strtoll value))
        (h.set_data t { nd.data with frames := frames1 }).bind fun h1 =>
        layer_attributes status h1 rest
    else layer_attributes status h rest

/-- Attribute loop of `<keyframe>`: `position`, and `x`, `y` when present. -/
def keyframe_attributes (position : Int) (x y : Option Int) :
    List (String × String) → Int × Option Int × Option Int
  | [] => (position, x, y)
  | (name, value) :: rest =>
    if name = "position" ∧ value ≠ "" then
      keyframe_attributes (to_gint (g_ascii_strtoll value)) x y rest
    else if name = "x" ∧ value ≠ "" then
      keyframe_attributes position (some (to_gint (g_ascii_strtoll value))) y rest
    else if name = "y" ∧ value ≠ "" then
      keyframe_attributes position x (some (to_gint (g_ascii_strtoll value))) rest
    else keyframe_attributes position x y rest

/-- Attribute loop of `<comment>`, which stops at the first non-empty
`frame-position`. -/
def comment_attributes (frame_position : Int) : List (String × String) → Int
  | [] => frame_position
  | (name, value) :: rest =>
    if name = "frame-position" ∧ value ≠ "" then to_gint (g_ascii_strtoll value)
    else comment_attributes frame_position rest

/-- `animation_cel_animation_start_element`.  The flag of the result tells that
`g_set_error` was called. -/
def animation_cel_animation_start_element (a : CelAnimation) (status : ParseStatus)
    (element_name : String) (attributes : List (String × String)) :
    Option (CelAnimation × ParseStatus × Bool) :=
  match status.state with
  | .START_STATE =>
    if element_name ≠ "animation" then some (a, status, true)
    else
      (start_state_attributes a attributes).map fun r =>
        if r.2 then (r.1, status, true)
        else (r.1, { status with state := .ANIMATION_STATE }, false)
  | .ANIMATION_STATE =>
    if element_name = "sequence" then
      (g_list_prepend a.heap a.tracks
          { title := sequence_attributes none attributes, frames := [] }).map fun r =>
        ({ a with heap := r.1, tracks := r.2 },
          { status with track := r.2, state := .SEQUENCE_STATE }, false)
    else if element_name = "comments" then
      some (a, { status with state := .COMMENTS_STATE }, false)
    else if element_name = "playback" then
      some (a, { status with state := .PLAYBACK_STATE }, false)
    else if element_name = "camera" then
      some (a, { status with state := .CAMERA_STATE }, false)
    else some (a, status, true)
  | .PLAYBACK_STATE => some (a, status, false)
  | .SEQUENCE_STATE =>
    if element_name ≠ "frame" then some (a, status, true)
    else
      let r := frame_attributes (-1) (-1) attributes
      some (a,
        { status with frame_position := r.1, frame_duration := r.2, state := .FRAME_STATE },
        decide (r.1 = -1 ∨ r.2 = -1))
  | .FRAME_STATE =>
    if element_name ≠ "layer" then some (a, status, true)
    else
      (layer_attributes status a.heap attributes).map fun h =>
        ({ a with heap := h }, { status with state := .LAYER_STATE }, false)
  | .LAYER_STATE => some (a, status, true)
  | .CAMERA_STATE =>
    if element_name ≠ "keyframe" then some (a, status, true)
    else
      let r := keyframe_attributes (-1) none none attributes
      let a1 :=
        match r.2.1, r.2.2 with
        | some x, some y =>
          if r.1 ≥ 0 then
            { a with camera := animation_camera_set_keyframe a.camera r.1 x y }
          else a
        | _, _ => a
      some (a1, { status with state := .KEYFRAME_STATE }, false)
  | .COMMENTS_STATE =>
    if element_name ≠ "comment" then some (a, status, true)
    else
      let position := comment_attributes (-1) attributes
      some (a,
        { status with frame_position := position, frame_duration := -1, state := .COMMENT_STATE },
        false)
  | .COMMENT_STATE => some (a, status, true)
  | .KEYFRAME_STATE => some (a, status, true)
  | .END_STATE => some (a, status, true)

/-- `animation_cel_animation_end_element`. -/
def animation_cel_animation_end_element (status : ParseStatus) : ParseStatus :=
  match status.state with
  | .SEQUENCE_STATE => { status with state := .ANIMATION_STATE }
  | .COMMENTS_STATE => { status with state := .ANIMATION_STATE }
  | .PLAYBACK_STATE => { status with state := .ANIMATION_STATE }
  | .CAMERA_STATE => { status with state := .ANIMATION_STATE }
  | .FRAME_STATE => { status with state := .SEQUENCE_STATE }
  | .LAYER_STATE => { status with state := .FRAME_STATE }
  | .ANIMATION_STATE => { status with state := .END_STATE }
  | .COMMENT_STATE => { status with state := .COMMENTS_STATE }
  | .KEYFRAME_STATE => { status with state := .CAMERA_STATE }
  | .START_STATE => status
  | .END_STATE => status

/-- `animation_cel_animation_text`. -/
def animation_cel_animation_text (a : CelAnimation) (status : ParseStatus) (content : String) :
    CelAnimation × ParseStatus :=
  match status.state with
  | .COMMENT_STATE =>
    if status.frame_position = -1 then (a, status)
    else
      (animation_cel_animation_set_comment a status.frame_position (some content),
        { status with frame_position := -1 })
  | _ => (a, status)

/-- State of the GMarkup reader: the animation and status handed to the
callbacks, the names of the open elements, whether an element was seen, and
whether an error is set. -/
structure MarkupContext where
  animation : CelAnimation
  status : ParseStatus
  open_elements : List String
  seen_element : Bool
  error : Bool

/-- `g_markup_parse_context_parse` (`gmarkup.c`) on the events of a document:
the callbacks are run in order and the reading stops at the first error, set
by a callback or by the reader itself (an end tag that does not close the open
element, text other than spaces outside every element). -/
def g_markup_parse_context_parse (c : MarkupContext) : List XmlEvent → Option MarkupContext
  | [] => some c
  | ev :: rest =>
    if c.error then some c
    else
      match ev with
      | .start_element element_name attributes =>
        (animation_cel_animation_start_element c.animation c.status element_name
            attributes).bind fun r =>
          g_markup_parse_context_parse
            { animation := r.1, status := r.2.1, open_elements := element_name :: c.open_elements,
              seen_element := true, error := r.2.2 } rest
      | .end_element element_name =>
        match c.open_elements with
        | [] => some { c with error := true }
        | top :: below =>
          if top ≠ element_name then some { c with error := true }
          else
            let status1 := animation_cel_animation_end_element c.status
            g_markup_parse_context_parse { c with status := status1, open_elements := below } rest
      | .text content =>
        match c.open_elements with
        | [] =>
          if content.data.all g_ascii_isspace then g_markup_parse_context_parse c rest
          else some { c with error := true }
        | _ :: _ =>
          let r := animation_cel_animation_text c.animation c.status content
          g_markup_parse_context_parse { c with animation := r.1, status := r.2 } rest

/-- `g_markup_parse_context_end_parse`: an error is set when an element is
still open or the document held no element. -/
def g_markup_parse_context_end_parse (c : MarkupContext) : Bool :=
  decide (c.open_elements ≠ []) || !c.seen_element

/-- `animation_cel_animation_deserialize`: the animation left by the call and
the value returned. -/
def animation_cel_animation_deserialize (a : CelAnimation) (xml : List XmlEvent) :
    Option (CelAnimation × Bool) :=
  (g_markup_parse_context_parse
      { animation := a
        status := { state := .START_STATE, track := none, frame_position := 0,
                    frame_duration := 0 }
        open_elements := []
        seen_element := false
        error := false } (xml.map g_markup_read_element)).bind fun c =>
    if c.error then some (c.animation, false)
    else
      (g_list_reverse c.animation.heap c.animation.tracks).map fun r =>
        ({ c.animation with heap := r.1, tracks := r.2 },
          !(g_markup_parse_context_end_parse c))

/-- A new animation: no track, no comment, no keyframe, duration 0. -/
def new_cel_animation : CelAnimation := cel_animation_of 0 0 [] []

/-- An animation of one frame with one track, whose title holds a tab. -/
def tab_title_animation : CelAnimation :=
  cel_animation_of 1 0 [] [{ title := some "a\tb", frames := [[7]] }]

/-- An animation of one frame whose comment is the empty string. -/
def empty_comment_animation : CelAnimation :=
  cel_animation_of 1 0 [some ""] [{ title := some "Background", frames := [[7]] }]

/-- A document that starts like one of a cel animation, opens a track and then
holds an element that a `<sequence>` does not allow. -/
def broken_document : List XmlEvent :=
  [XmlEvent.start_element "animation" [("type", "cels"), ("duration", "7")],
   XmlEvent.start_element "sequence" [("name", "New")],
   XmlEvent.start_element "bogus" [],
   XmlEvent.end_element "bogus",
   XmlEvent.end_element "sequence",
   XmlEvent.end_element "animation"]

/-- The block written for the playback settings in the examples: one element
without content. -/
def sample_playback : List XmlEvent :=
  [XmlEvent.start_element "playback" [("position", "0")], XmlEvent.end_element "playback"]

/-! ## Reference description of the frames read back -/

/-- The list of frames without the empty slots at its end. -/
def drop_trailing_empty (frames : List (List Int)) : List (List Int) :=
  (frames.reverse.dropWhile fun layers => decide (layers = [])).reverse

/-- The frames written back by a `<frame>` element that covers `duration` slots
from `position` with the layers `layers`, on a list `frames` that ends before
`position`: empty slots up to `position`, then the run. -/
def frames_with_run (frames : List (List Int)) (position duration : Nat) (layers : List Int) :
    List (List Int) :=
  frames ++ List.replicate (position - frames.length) [] ++ List.replicate duration layers

/-- The frames read back from the `<frame>` elements that the serializer emits
for `frames`, started with counters `position` and `duration` on the frames
`read` read so far.  It follows the loop of `serialize_frames`. -/
def read_back_frames : List (List Int) → Int → Int → List (List Int) → List (List Int)
  | [], _, _, read => read
  | layers :: rest, position, duration, read =>
    if layers ≠ [] then
      let duration1 := duration + 1
      if ¬ next_identical layers rest then
        read_back_frames rest (position + 1) 0
          (frames_with_run read (position - duration1).toNat duration1.toNat layers)
      else read_back_frames rest (position + 1) duration1 read
    else read_back_frames rest (position + 1) duration read

/-- The comment that the round trip through the document gives back for a
comment: an absent or empty comment is not written, so none comes back; the
text of any other goes through `unescape_gstring_inplace`. -/
def comment_read_back (comment : Option String) : Option String :=
  comment.bind fun s => if s.length > 0 then some (unescape_gstring_inplace false s) else none

/-! ## The `<frame>` elements of a track as runs -/

/-- What a `<frame>` element says: the position and duration printed in its
attributes and the layers listed inside. -/
structure FrameRun where
  position : Nat
  duration : Nat
  layers : List Int
  deriving DecidableEq

/-- The `<frame>` element written for a run. -/
def frame_element (r : FrameRun) : List XmlEvent :=
  XmlEvent.start_element "frame"
      [("position", fmt_d r.position), ("duration", fmt_d r.duration)] ::
    (serialize_layers r.layers ++ [XmlEvent.end_element "frame"])

/-- The loop over `track->frames` of the serializer, collecting what it prints
instead of printing it: `index` is the index of the current slot (`position - 1`)
and `duration` the counter of the loop. -/
def frame_runs : List (List Int) → Nat → Nat → List FrameRun
  | [], _, _ => []
  | layers :: rest, index, duration =>
    if layers ≠ [] then
      if ¬ next_identical layers rest then
        { position := index - duration, duration := duration + 1, layers := layers } ::
          frame_runs rest (index + 1) 0
      else frame_runs rest (index + 1) (duration + 1)
    else frame_runs rest (index + 1) duration

/-! ## Reader contexts while a `<sequence>` is read -/

/-- The context `c` in which the track node at address `a`, read as `nd`, holds
the frames `frames`, and the status is in state `state` with the given frame
position and duration. -/
def sequence_context (c : MarkupContext) (a : Nat) (nd : GListNode) (frames : List (List Int))
    (state : AnimationParseState) (frame_position frame_duration : Int) : MarkupContext :=
  let node : GListNode := { nd with data := { nd.data with frames := frames } }
  let animation : CelAnimation := { c.animation with heap := c.animation.heap.write a node }
  let status : ParseStatus :=
    { c.status with state := state, frame_position := frame_position,
                    frame_duration := frame_duration }
  { c with animation := animation, status := status }

/-! # The animatic (`animationanimatic.c`)

## Tags in layer names

A layer name is read as its list of characters.  The functions below look only
for ASCII characters, which UTF-8 encodes as themselves and uses nowhere else,
so that reading characters instead of bytes changes neither their results nor
the lengths they report. -/

/-- `g_ascii_isdigit`. -/
def g_ascii_isdigit (c : Char) : Bool := decide (48 ≤ c.toNat ∧ c.toNat ≤ 57)

/-- `g_ascii_toupper`. -/
def g_ascii_toupper (c : Char) : Char :=
  if 97 ≤ c.toNat ∧ c.toNat ≤ 122 then Char.ofNat (c.toNat - 32) else c

/-- The loops `while ((offset < length) && (str[offset] == ' ')) offset++;` of
`is_ms_tag`, run on the text `rest` that starts at `offset`; the result is the
text left and the new offset. -/
def eat_spaces : List Char → Int → List Char × Int
  | [], offset => ([], offset)
  | c :: rest, offset => if c = ' ' then eat_spaces rest (offset + 1) else (c :: rest, offset)

/-- One turn of the loop that reads the number: `sum *= 10; sum += str[offset] - '0';`,
in `gint` arithmetic. -/
def add_digit (sum : Int) (c : Char) : Int := to_gint (to_gint (sum * 10) + ((c.toNat : Int) - 48))

/-- The turns of the `do ... while ((offset<length) && (g_ascii_isdigit (str[offset])))`
loop of `is_ms_tag` after the first one; the result is the sum, the text left
and the new offset. -/
def read_digits : List Char → Int → Int → Int × List Char × Int
  | [], sum, offset => (sum, [], offset)
  | c :: rest, sum, offset =>
    if g_ascii_isdigit c then read_digits rest (add_digit sum c) (offset + 1)
    else (sum, c :: rest, offset)

/-- `is_ms_tag`: `none` stands for `FALSE`, and `some (duration, taglength)` for
`TRUE` with the two values written through the pointers.  `str[offset]` at the
end of the text is the terminating zero. -/
def is_ms_tag (str : List Char) : Option (Int × Int) :=
  let length : Int := str.length
  if str.headD (Char.ofNat 0) ≠ '(' then none
  else
    let r1 := eat_spaces (str.drop 1) 1
    if r1.2 ≥ length ∨ ¬ g_ascii_isdigit (r1.1.headD (Char.ofNat 0)) then none
    else
      let r2 := read_digits (r1.1.drop 1) (add_digit 0 (r1.1.headD (Char.ofNat 0))) (r1.2 + 1)
      if length - r2.2.2 ≤ 2 then none
      else
        let r3 := eat_spaces r2.2.1 r2.2.2
        if length - r3.2 ≤ 2 ∨ g_ascii_toupper (r3.1.headD (Char.ofNat 0)) ≠ 'M' ∨
            g_ascii_toupper ((r3.1.drop 1).headD (Char.ofNat 0)) ≠ 'S' then none
        else
          let r4 := eat_spaces (r3.1.drop 2) (r3.2 + 2)
          if length - r4.2 < 1 ∨ r4.1.headD (Char.ofNat 0) ≠ ')' then none
          else some (r2.1, r4.2 + 1)

/-- A `gdouble`, an IEEE 754 binary64 number.  A finite value is the fraction
`num / den` with `den > 0`; `den = 0` stands for the infinity of the sign of
`num`, and for NaN when `num = 0`.  The sign of a zero is not kept. -/
structure GDouble where
  num : Int
  den : Nat
  deriving DecidableEq

/-- The number of binary digits of `n` (`fuel` bounds their number). -/
def bit_length_aux : Nat → Nat → Nat
  | 0, _ => 0
  | fuel + 1, n => if n = 0 then 0 else bit_length_aux fuel (n / 2) + 1

/-- The number of binary digits of `n`. -/
def bit_length (n : Nat) : Nat := bit_length_aux n n

/-- The integer nearest to `a / b`, a tie going to the even one. -/
def round_half_even (a b : Nat) : Nat :=
  let q := a / b
  let r := a % b
  if 2 * r < b then q
  else if b < 2 * r then q + 1
  else if q % 2 = 0 then q else q + 1

/-- The binary64 number nearest to the fraction `num / den` (`den > 0`), a tie
going to the even significand: the rounding that every arithmetic operation on
`gdouble` ends with.  With `2 ^ e ≤ |num / den| < 2 ^ (e + 1)` the result is a
multiple of `2 ^ (e - 52)`, of `2 ^ (-1074)` for a subnormal one, and an
infinity when the rounding reaches `2 ^ 1024`.  A finite result is given in
lowest terms. -/
def binary64_round (num : Int) (den : Nat) : GDouble :=
  let n := num.natAbs
  if n = 0 then { num := 0, den := 1 }
  else
    let e0 : Int := (bit_length n : Int) - (bit_length den : Int)
    let e : Int :=
      if (if e0 ≥ 0 then decide (den * 2 ^ e0.toNat ≤ n) else decide (den ≤ n * 2 ^ (-e0).toNat))
      then e0 else e0 - 1
    if e > 1023 then { num := num.sign, den := 0 }
    else
      let shift : Int := 52 - max e (-1022)
      if shift ≥ 0 then
        let m := round_half_even (n * 2 ^ shift.toNat) den
        let g := Nat.gcd m (2 ^ shift.toNat)
        { num := num.sign * ((m / g : Nat) : Int), den := 2 ^ shift.toNat / g }
      else
        let m := round_half_even n (den * 2 ^ (-shift).toNat)
        if e = 1023 ∧ m = 2 ^ 53 then { num := num.sign, den := 0 }
        else { num := num.sign * ((m * 2 ^ (-shift).toNat : Nat) : Int), den := 1 }

/-- The conversion `(gdouble)` of a `gint`, which is exact. -/
def gdouble_of_gint (i : Int) : GDouble := { num := i, den := 1 }

/-- Product of two `gdouble`: the exact product rounded to binary64.  With an
infinity or a NaN among the factors the result is NaN when a factor is NaN or
zero, and the infinity of the product of the signs otherwise. -/
def gdouble_mul (x y : GDouble) : GDouble :=
  if x.den = 0 ∨ y.den = 0 then { num := (x.num * y.num).sign, den := 0 }
  else binary64_round (x.num * y.num) (x.den * y.den)

/-- Quotient of two `gdouble`: the exact quotient rounded to binary64.  A zero
divisor counts as `+0.0`. -/
def gdouble_div (x y : GDouble) : GDouble :=
  if (x.den = 0 ∧ x.num = 0) ∨ (y.den = 0 ∧ y.num = 0) then { num := 0, den := 0 }
  else if x.den = 0 then
    if y.den = 0 then { num := 0, den := 0 }
    else { num := if y.num < 0 then -x.num.sign else x.num.sign, den := 0 }
  else if y.den = 0 then { num := 0, den := 1 }
  else if y.num = 0 then { num := x.num.sign, den := 0 }
  else binary64_round (if y.num < 0 then -(x.num * y.den) else x.num * y.den)
    (x.den * y.num.natAbs)

/-- The comparison `x <= y` of two `gdouble`, false when one of them is NaN. -/
def gdouble_le (x y : GDouble) : Bool :=
  if (x.den = 0 ∧ x.num = 0) ∨ (y.den = 0 ∧ y.num = 0) then false
  else if x.den = 0 then decide (x.num < 0) || (decide (y.den = 0) && decide (0 < y.num))
  else if y.den = 0 then decide (0 < y.num)
  else decide (x.num * y.den ≤ y.num * x.den)

/-- The conversion `(gint)` of a `gdouble`, which drops the fractional part.  C
defines no result when the integral part is outside the range of `gint`, nor for
an infinity or a NaN. -/
def gint_of_gdouble (x : GDouble) : Option Int :=
  if x.den = 0 then none
  else if is_gint (x.num.tdiv x.den) then some (x.num.tdiv x.den) else none

/-- The loop `for (i = 0; i < length; i++)` of `parse_ms_tag` on the text from
index `i` on, and the `return 6` after it: the frame count of the first tag
found, 6 without a tag. -/
def parse_ms_tag_from (fps : GDouble) : List Char → Option Int
  | [] => some 6
  | c :: rest =>
    match is_ms_tag (c :: rest) with
    | some r =>
      gint_of_gdouble
        (gdouble_div (gdouble_mul fps (gdouble_of_gint r.1)) (gdouble_of_gint 1000))
    | none => parse_ms_tag_from fps rest

/-- `parse_ms_tag`, with the framerate of the animation as `fps`.  There is no
result when the conversion to `gint` has none. -/
def parse_ms_tag (fps : GDouble) (str : Option String) : Option Int :=
  match str with
  | none => some 6
  | some s => parse_ms_tag_from fps s.data

/-- The text of a duration tag, after the grammar of the spec: `(`, `a`
spaces, the digits, `b` spaces, the two letters, `c` spaces, `)`. -/
def ms_tag_text (a : Nat) (digits : List Char) (b : Nat) (m s : Char) (c : Nat) : List Char :=
  '(' :: (List.replicate a ' ' ++ (digits ++ (List.replicate b ' ' ++
    (m :: s :: (List.replicate c ' ' ++ [')'])))))

/-- The frame count that the spec gives for a tag of `ms` milliseconds:
`round (fps * ms / 1000)`, the nearest integer (a half counting upwards). -/
def frames_rounded (fps : GDouble) (ms : Int) : Int :=
  Int.fdiv (2 * (fps.num * ms) + fps.den * 1000) (2 * (fps.den * 1000))

/-! ## The state of an animatic -/

/-- Modelled from the spec: a layer of the host image as far as the animatic
reads it, its name (`gimp_item_get_name`) and its tattoo
(`gimp_item_get_tattoo`), the stable identifier of the source layer of a
panel. -/
structure Layer where
  name : String
  tattoo : Int
  deriving DecidableEq

/-- A cached panel image (`GeglBuffer`), described by the tattoos of the layers
composited into it, the backdrop first. -/
abbrev GeglBuffer := List Int

/-- `AnimationAnimaticPrivate`, with the framerate and the position of the base
class `Animation` and the positions for which the signal `render` was emitted,
the latest first.  The arrays of `n_panels` entries are lists; an access past
the end of one has no defined result. -/
structure AnimationAnimatic where
  framerate : GDouble
  position : Int
  proxy_ratio : GDouble
  n_panels : Int
  tattoos : List Int
  durations : List Int
  combine : List Bool
  comments : List (Option String)
  cache : List (Option GeglBuffer)
  render_signals : List Int
  deriving DecidableEq

/-- The loop `for (i = 0; i < priv->n_panels; i++) count += priv->durations[i];`
of `animation_animatic_get_length`, from `i` on for `n` more turns, in `gint`
arithmetic. -/
def get_length_loop (durations : List Int) : Nat → Nat → Int → Option Int
  | 0, _, count => some count
  | n + 1, i, count =>
    (durations[i]?).bind fun d => get_length_loop durations n (i + 1) (to_gint (count + d))

/-- `animation_animatic_get_length`. -/
def animation_animatic_get_length (a : AnimationAnimatic) : Option Int :=
  get_length_loop a.durations a.n_panels.toNat 0 0

/-- The loop of `animation_animatic_get_panel`, from `i` on for `n` more turns:
the value of `i` when the loop is left. -/
def get_panel_loop (durations : List Int) (pos : Int) : Nat → Nat → Int → Option Int
  | 0, i, _ => some i
  | n + 1, i, count =>
    (durations[i]?).bind fun d =>
      let count1 := to_gint (count + d)
      if count1 ≥ pos then some i else get_panel_loop durations pos n (i + 1) count1

/-- `animation_animatic_get_panel`. -/
def animation_animatic_get_panel (a : AnimationAnimatic) (pos : Int) : Option Int :=
  let i : Option Int :=
    if pos ≥ 1 then
      (animation_animatic_get_length a).bind fun length =>
        if pos ≤ length then get_panel_loop a.durations pos a.n_panels.toNat 0 0 else some (-1)
    else some (-1)
  i.map fun i => if i ≠ -1 ∧ i < a.n_panels then i + 1 else -1

/-- The loop of `animation_animatic_same`, from `i` on for `n` more turns. -/
def same_loop (durations : List Int) (previous_pos next_pos : Int) : Nat → Nat → Int → Option Bool
  | 0, _, _ => some false
  | n + 1, i, count =>
    (durations[i]?).bind fun d =>
      let count1 := to_gint (count + d)
      if count1 ≥ previous_pos ∧ count1 ≥ next_pos then some true
      else if count1 ≥ previous_pos ∨ count1 ≥ next_pos then some false
      else same_loop durations previous_pos next_pos n (i + 1) count1

/-- `animation_animatic_same`. -/
def animation_animatic_same (a : AnimationAnimatic) (previous_pos next_pos : Int) : Option Bool :=
  same_loop a.durations previous_pos next_pos a.n_panels.toNat 0 0

/-- An animatic of three panels lasting 12, 6 and 6 frames. -/
def sample_animatic : AnimationAnimatic :=
  { framerate := gdouble_of_gint 24
    position := 1
    proxy_ratio := gdouble_of_gint 1
    n_panels := 3
    tattoos := [1, 2, 3]
    durations := [12, 6, 6]
    combine := [false, true, false]
    comments := [some "A (500ms)", some "B(combine)", some "C"]
    cache := [some [1], some [1, 2], some [3]]
    render_signals := [] }

/-! ## Loading an animatic from the image -/

/-- The loop of `parse_combine_tag`, for `n` turns; nothing changes from one
turn to the next. -/
def parse_combine_tag_loop (str : List Char) : Nat → Bool
  | 0 => false
  | n + 1 =>
    if str.length ≠ 9 then parse_combine_tag_loop str n
    else if str.take 9 = "(combine)".data then true
    else if str.take 9 = "(replace)".data then false
    else parse_combine_tag_loop str n

/-- `parse_combine_tag`. -/
def parse_combine_tag (str : Option String) : Bool :=
  match str with
  | none => false
  | some s => parse_combine_tag_loop s.data s.data.length

/-- Entry `i` of a C array held as a list; there is none outside of the array. -/
def array_get {α : Type} (l : List α) (i : Int) : Option α :=
  if i < 0 then none else l[i.toNat]?

/-- Assignment to entry `i` of a C array held as a list; it has no defined
result outside of the array. -/
def array_set {α : Type} (l : List α) (i : Int) (x : α) : Option (List α) :=
  if 0 ≤ i ∧ i.toNat < l.length then some (l.set i.toNat x) else none

/-- Modelled from the spec: `gimp_image_get_layer_by_tattoo`, the layer of the
image that bears the tattoo, if there is one. -/
def gimp_image_get_layer_by_tattoo (image : List Layer) (tattoo : Int) : Option Layer :=
  image.find? fun layer => decide (layer.tattoo = tattoo)

/-- `animation_animatic_cache`, the image being the list of its layers as
`gimp_image_get_layers` returns them.  `fuel` bounds the depth of the recursion
on the next panel. -/
def animation_animatic_cache_aux (image : List Layer) :
    Nat → AnimationAnimatic → Int → Bool → Option AnimationAnimatic
  | 0, _, _, _ => none
  | fuel + 1, a, panel, recursion =>
    (array_get a.tattoos (panel - 1)).bind fun tattoo =>
    match gimp_image_get_layer_by_tattoo image tattoo with
    | none => some a
    | some layer =>
      (array_get a.cache (panel - 1)).bind fun _ =>
      (if panel > 1 then array_get a.combine (panel - 1) else some false).bind fun combined =>
      (if combined then (array_get a.cache (panel - 2)).map fun backdrop =>
          backdrop.getD [] ++ [layer.tattoo]
        else some [layer.tattoo]).bind fun buffer =>
      (array_set a.cache (panel - 1) (some buffer)).bind fun cache1 =>
      let a1 : AnimationAnimatic := { a with cache := cache1 }
      (if recursion ∧ panel < a1.n_panels then array_get a1.combine panel
        else some false).bind fun next_combined =>
      (if next_combined then animation_animatic_cache_aux image fuel a1 (panel + 1) true
        else some a1).bind fun a2 =>
      (animation_animatic_get_panel a2 a2.position).map fun shown =>
        if shown = panel then { a2 with render_signals := a2.position :: a2.render_signals }
        else a2

/-- `animation_animatic_cache`. -/
def animation_animatic_cache (image : List Layer) (a : AnimationAnimatic) (panel : Int)
    (recursion : Bool) : Option AnimationAnimatic :=
  animation_animatic_cache_aux image (a.n_panels.toNat + 1) a panel recursion

/-- The loop `for (i = 0; i < priv->n_panels; i++)` of `animation_animatic_load`,
from `i` on for `n` more turns. -/
def animation_animatic_load_panels (image : List Layer) :
    Nat → Int → AnimationAnimatic → Option AnimationAnimatic
  | 0, _, a => some a
  | n + 1, i, a =>
    (array_get image (a.n_panels - (i + 1))).bind fun layer =>
    (parse_ms_tag a.framerate (some layer.name)).bind fun duration =>
    let combine := parse_combine_tag (some layer.name)
    (array_set a.tattoos i layer.tattoo).bind fun tattoos1 =>
    (array_set a.durations i duration).bind fun durations1 =>
    (array_set a.combine i combine).bind fun combine1 =>
    (array_set a.comments i (some layer.name)).bind fun comments1 =>
    (animation_animatic_cache image
        { a with tattoos := tattoos1, durations := durations1, combine := combine1,
                 comments := comments1 } (i + 1) false).bind fun a1 =>
    animation_animatic_load_panels image n (i + 1) a1

/-- `animation_animatic_load`.  An image without layer makes the allocations
return `NULL` and the plug-in quit: no state results. -/
def animation_animatic_load (image : List Layer) (a : AnimationAnimatic)
    (proxy_ratio : GDouble) : Option AnimationAnimatic :=
  if ¬ (proxy_ratio.num > 0 ∧ gdouble_le proxy_ratio (gdouble_of_gint 1) = true) then some a
  else if image.length = 0 then none
  else
    animation_animatic_load_panels image image.length 0
      { a with n_panels := image.length
               tattoos := List.replicate image.length 0
               durations := List.replicate image.length 0
               combine := List.replicate image.length false
               comments := List.replicate image.length none
               cache := List.replicate image.length none
               proxy_ratio := proxy_ratio }

/-- `animation_animatic_set_comment`. -/
def animation_animatic_set_comment (a : AnimationAnimatic) (panel_num : Int)
    (comment : Option String) : Option AnimationAnimatic :=
  if ¬ (panel_num > 0 ∧ panel_num ≤ a.n_panels) then some a
  else (array_set a.comments (panel_num - 1) comment).map fun comments1 =>
    { a with comments := comments1 }

/-- An image of three layers, listed from the top of the stack. -/
def sample_image : List Layer :=
  [{ name := "C", tattoo := 3 }, { name := "B(combine)", tattoo := 2 },
   { name := "A (500ms)", tattoo := 1 }]

/-- An animatic before its first load, at 24 frames per second. -/
def blank_animatic : AnimationAnimatic :=
  { framerate := gdouble_of_gint 24
    position := 1
    proxy_ratio := gdouble_of_gint 1
    n_panels := 0
    tattoos := []
    durations := []
    combine := []
    comments := []
    cache := []
    render_signals := [] }

/-! ## Reading an animatic from a document -/

/-- `g_strtod` on plain decimal text: leading white space, an optional sign,
digits, and optionally a point followed by digits; the result is the binary64
number nearest to the decimal read.  Exponents, hexadecimal notation and the
texts of infinities and NaN are not modelled. -/
def g_strtod (s : String) : GDouble :=
  let text := s.data.dropWhile g_ascii_isspace
  let negative : Bool := decide (text.head? = some '-')
  let text1 := if text.head? = some '-' ∨ text.head? = some '+' then text.drop 1 else text
  let int_digits := text1.takeWhile g_ascii_isdigit
  let fraction :=
    match text1.dropWhile g_ascii_isdigit with
    | '.' :: rest => rest.takeWhile g_ascii_isdigit
    | _ => []
  let n : Int := parse_digits (int_digits ++ fraction) 0
  binary64_round (if negative then -n else n) (10 ^ fraction.length)

/-- Modelled from the spec: `animation_set_framerate` of the base class, which
stores the framerate. -/
def animation_set_framerate (a : AnimationAnimatic) (fps : GDouble) : AnimationAnimatic :=
  { a with framerate := fps }

/-- `AnimationParseState` of `animationanimatic.c`. -/
inductive AnimaticParseState where
  | START_STATE
  | ANIMATION_STATE
  | SEQUENCE_STATE
  | PANEL_STATE
  | LAYER_STATE
  | END_SEQUENCE_STATE
  | COMMENTS_STATE
  | COMMENT_STATE
  | END_STATE
  deriving DecidableEq

/-- `ParseStatus` of `animationanimatic.c`. -/
structure AnimaticParseStatus where
  state : AnimaticParseState
  panel : Int
  duration : Int
  xml_level : Int
  deriving DecidableEq

/-- Attribute loop of `START_STATE`; the flag tells that `g_set_error` was
called.  `max_framerate` and `default_framerate` stand for the macros
`MAX_FRAMERATE` and `DEFAULT_FRAMERATE`. -/
def animatic_start_state_attributes (max_framerate default_framerate : GDouble)
    (a : AnimationAnimatic) : List (String × String) → AnimationAnimatic × Bool
  | [] => (a, false)
  | (name, value) :: rest =>
    if name = "type" then
      if value = "" ∨ value ≠ "animatic" then (a, true)
      else animatic_start_state_attributes max_framerate default_framerate a rest
    else if name = "framerate" ∧ value ≠ "" then
      let fps := g_strtod value
      let fps1 :=
        if gdouble_le max_framerate fps then max_framerate
        else if gdouble_le fps (gdouble_of_gint 0) then default_framerate
        else fps
      animatic_start_state_attributes max_framerate default_framerate
        (animation_set_framerate a fps1) rest
    else animatic_start_state_attributes max_framerate default_framerate a rest

/-- Attribute loop of `<panel>`: the durations after the loop and the value of
`combine`.  `panel` is `status->panel` after its increment. -/
def panel_attributes (panel : Int) (durations : List Int) (combine : Bool) :
    List (String × String) → Option (List Int × Bool)
  | [] => some (durations, combine)
  | (name, value) :: rest =>
    if name = "duration" ∧ value ≠ "" then
      let duration := to_gint (g_ascii_strtoll value)
      if duration > 0 then
        (array_set durations (panel - 1) duration).bind fun durations1 =>
          panel_attributes panel durations1 combine rest
      else panel_attributes panel durations combine rest
    else if name = "blend-mode" ∧ value ≠ "" ∧ value = "normal" then
      panel_attributes panel durations true rest
    else panel_attributes panel durations combine rest

/-- Attribute loop of `<comment>` of an animatic, which stops at the first
non-empty `panel`. -/
def comment_panel_attribute (panel : Int) : List (String × String) → Int
  | [] => panel
  | (name, value) :: rest =>
    if name = "panel" ∧ value ≠ "" then to_gint (g_ascii_strtoll value)
    else comment_panel_attribute panel rest

/-- `animation_animatic_start_element`; the flag of the result tells that
`g_set_error` was called. -/
def animation_animatic_start_element (max_framerate default_framerate : GDouble)
    (image : List Layer) (a : AnimationAnimatic) (status0 : AnimaticParseStatus)
    (element_name : String) (attributes : List (String × String)) :
    Option (AnimationAnimatic × AnimaticParseStatus × Bool) :=
  let status : AnimaticParseStatus := { status0 with xml_level := status0.xml_level + 1 }
  match status.state with
  | .START_STATE =>
    if element_name ≠ "animation" then some (a, status, true)
    else
      let r := animatic_start_state_attributes max_framerate default_framerate a attributes
      if r.2 then some (r.1, status, true)
      else some (r.1, { status with state := .ANIMATION_STATE }, false)
  | .ANIMATION_STATE =>
    if element_name ≠ "sequence" then some (a, status, true)
    else some (a, { status with state := .SEQUENCE_STATE }, false)
  | .SEQUENCE_STATE =>
    if element_name ≠ "panel" then some (a, status, true)
    else
      let panel := status.panel + 1
      (panel_attributes panel a.durations false attributes).bind fun r =>
      let a1 : AnimationAnimatic := { a with durations := r.1 }
      (array_get a1.combine (panel - 1)).bind fun old =>
      (if old ≠ r.2 then
        (array_set a1.combine (panel - 1) r.2).bind fun combine1 =>
          animation_animatic_cache image { a1 with combine := combine1 } panel false
      else some a1).map fun a2 =>
        (a2, { status with panel := panel, state := .PANEL_STATE }, false)
  | .PANEL_STATE =>
    if element_name ≠ "layer" then some (a, status, true)
    else some (a, { status with state := .LAYER_STATE }, false)
  | .LAYER_STATE => some (a, status, true)
  | .END_SEQUENCE_STATE =>
    if element_name ≠ "comments" then some (a, status, true)
    else some (a, { status with state := .COMMENTS_STATE }, false)
  | .COMMENTS_STATE =>
    if element_name ≠ "comment" then some (a, status, true)
    else
      some (a,
        { status with panel := comment_panel_attribute (-1) attributes, state := .COMMENT_STATE },
        false)
  | .COMMENT_STATE => some (a, status, true)
  | .END_STATE => some (a, status, true)

/-- `animation_animatic_end_element`. -/
def animation_animatic_end_element (status0 : AnimaticParseStatus) : AnimaticParseStatus :=
  let status : AnimaticParseStatus := { status0 with xml_level := status0.xml_level - 1 }
  match status.state with
  | .SEQUENCE_STATE => { status with state := .END_SEQUENCE_STATE }
  | .COMMENTS_STATE => { status with state := .END_SEQUENCE_STATE }
  | .PANEL_STATE => { status with state := .SEQUENCE_STATE }
  | .LAYER_STATE => { status with state := .PANEL_STATE }
  | .END_SEQUENCE_STATE => { status with state := .END_STATE }
  | .ANIMATION_STATE => { status with state := .END_STATE }
  | .COMMENT_STATE => { status with state := .COMMENTS_STATE }
  | .START_STATE => status
  | .END_STATE => status

/-- `animation_animatic_text`. -/
def animation_animatic_text (a : AnimationAnimatic) (status : AnimaticParseStatus)
    (content : String) : Option (AnimationAnimatic × AnimaticParseStatus) :=
  match status.state with
  | .COMMENT_STATE =>
    if status.panel = -1 then some (a, status)
    else
      (animation_animatic_set_comment a status.panel (some content)).map fun a1 =>
        (a1, { status with panel := -1 })
  | _ => some (a, status)

/-- State of the GMarkup reader while it reads the document of an animatic. -/
structure AnimaticMarkupContext where
  animation : AnimationAnimatic
  status : AnimaticParseStatus
  open_elements : List String
  seen_element : Bool
  error : Bool
  deriving DecidableEq

/-- `g_markup_parse_context_parse` with the callbacks of the animatic, as
`g_markup_parse_context_parse` above with those of the cel animation. -/
def animatic_markup_parse (max_framerate default_framerate : GDouble) (image : List Layer)
    (c : AnimaticMarkupContext) : List XmlEvent → Option AnimaticMarkupContext
  | [] => some c
  | ev :: rest =>
    if c.error then some c
    else
      match ev with
      | .start_element element_name attributes =>
        (animation_animatic_start_element max_framerate default_framerate image c.animation
            c.status element_name attributes).bind fun r =>
          animatic_markup_parse max_framerate default_framerate image
            { animation := r.1, status := r.2.1, open_elements := element_name :: c.open_elements,
              seen_element := true, error := r.2.2 } rest
      | .end_element element_name =>
        match c.open_elements with
        | [] => some { c with error := true }
        | top :: below =>
          if top ≠ element_name then some { c with error := true }
          else
            let status1 := animation_animatic_end_element c.status
            animatic_markup_parse max_framerate default_framerate image
              { c with status := status1, open_elements := below } rest
      | .text content =>
        match c.open_elements with
        | [] =>
          if content.data.all g_ascii_isspace then
            animatic_markup_parse max_framerate default_framerate image c rest
          else some { c with error := true }
        | _ :: _ =>
          (animation_animatic_text c.animation c.status content).bind fun r =>
            animatic_markup_parse max_framerate default_framerate image
              { c with animation := r.1, status := r.2 } rest

/-- `animation_animatic_load_xml`: the default load, the reading of the document,
and the reset by a second load when an error was reported. -/
def animation_animatic_load_xml (max_framerate default_framerate : GDouble)
    (image : List Layer) (a : AnimationAnimatic) (xml : List XmlEvent)
    (proxy_ratio : GDouble) : Option AnimationAnimatic :=
  (animation_animatic_load image a proxy_ratio).bind fun a1 =>
  (animatic_markup_parse max_framerate default_framerate image
      { animation := a1
        status := { state := .START_STATE, panel := 0, duration := 0, xml_level := 0 }
        open_elements := []
        seen_element := false
        error := false } (xml.map g_markup_read_element)).bind fun c =>
    if c.error ∨ (decide (c.open_elements ≠ []) || !c.seen_element) = true then
      animation_animatic_load image c.animation proxy_ratio
    else some c.animation

/-- A document of an animatic that gives the framerate 12 and then holds an
element that is not allowed. -/
def broken_animatic_document : List XmlEvent :=
  [XmlEvent.start_element "animation" [("type", "animatic"), ("framerate", "12")],
   XmlEvent.start_element "bogus" [],
   XmlEvent.end_element "bogus",
   XmlEvent.end_element "animation"]

/-! ## Changing an animatic -/

/-- The loop `for (i = priv->n_panels - 1; i >= 0; i--)` of
`animation_animatic_get_layer`, from `i` on for `n` more turns: the value of `i`
when the loop is left. -/
def get_layer_loop (durations : List Int) (pos : Int) : Nat → Int → Int → Option Int
  | 0, i, _ => some i
  | n + 1, i, count =>
    (array_get durations i).bind fun d =>
      let count1 := to_gint (count + d)
      if count1 ≥ pos then some i else get_layer_loop durations pos n (i - 1) count1

/-- `animation_animatic_get_layer`. -/
def animation_animatic_get_layer (a : AnimationAnimatic) (pos : Int) : Option Int :=
  if a.n_panels > 0 ∧ pos ≥ 1 then
    (animation_animatic_get_length a).bind fun length =>
      if pos ≤ length then get_layer_loop a.durations pos a.n_panels.toNat (a.n_panels - 1) 0
      else some (-1)
  else some (-1)

/-- Modelled from the spec: `animation_jump` of the base class, which moves the
playback position. -/
def animation_jump (a : AnimationAnimatic) (position : Int) : AnimationAnimatic :=
  { a with position := position }

/-- `animation_animatic_get_frame` as far as the state is concerned: the entry
of the cache it reads must exist. -/
def animation_animatic_get_frame (a : AnimationAnimatic) (pos : Int) :
    Option (Option GeglBuffer) :=
  (animation_animatic_get_panel a pos).bind fun panel => array_get a.cache (panel - 1)

/-- `animation_animatic_set_duration`.  The signals about the duration and the
playback range are left out. -/
def animation_animatic_set_duration (a : AnimationAnimatic) (panel_num duration : Int) :
    Option AnimationAnimatic :=
  (animation_animatic_get_length a).bind fun _ =>
  if ¬ (duration ≥ 0 ∧ panel_num > 0 ∧ panel_num ≤ a.n_panels) then some a
  else
    (animation_animatic_get_layer a a.position).bind fun layer_id =>
    (array_set a.durations (panel_num - 1) duration).bind fun durations1 =>
    let a1 : AnimationAnimatic := { a with durations := durations1 }
    (animation_animatic_get_length a1).bind fun length =>
    if a1.position > length then some (animation_jump a1 length)
    else
      (animation_animatic_get_layer a1 a1.position).bind fun layer_id1 =>
      if layer_id ≠ layer_id1 then
        (animation_animatic_get_frame a1 a1.position).map fun _ =>
          { a1 with render_signals := a1.position :: a1.render_signals }
      else some a1

/-- `animation_animatic_set_combine`. -/
def animation_animatic_set_combine (image : List Layer) (a : AnimationAnimatic)
    (panel_num : Int) (combine : Bool) : Option AnimationAnimatic :=
  if ¬ (panel_num > 0 ∧ panel_num ≤ a.n_panels) then some a
  else
    (array_get a.combine (panel_num - 1)).bind fun old =>
    if old ≠ combine then
      (array_set a.combine (panel_num - 1) combine).bind fun combine1 =>
        animation_animatic_cache image { a with combine := combine1 } panel_num true
    else some a

/-- An animatic of two panels of two frames each, the playback at position 2. -/
def two_panel_animatic : AnimationAnimatic :=
  { framerate := gdouble_of_gint 24
    position := 2
    proxy_ratio := gdouble_of_gint 1
    n_panels := 2
    tattoos := [1, 2]
    durations := [2, 2]
    combine := [false, false]
    comments := [none, none]
    cache := [some [1], some [2]]
    render_signals := [] }

/-! ## `animation_cel_animation_get_hash` -/

/-- The loop over the layers of a slot in `get_hash`: a token is added to `hash`
for every layer whose tattoo is not zero. -/
def hash_layers (layers_only : Bool) (main_offset_x main_offset_y : Int) :
    List Int → String → String
  | [], hash => hash
  | tattoo :: rest, hash =>
    if tattoo ≠ 0 then
      hash_layers layers_only main_offset_x main_offset_y rest
        (if layers_only then hash ++ fmt_d tattoo ++ ";"
         else hash ++ "[" ++ fmt_d main_offset_x ++ "," ++ fmt_d main_offset_y ++ "]" ++
           fmt_d tattoo ++ ";")
    else hash_layers layers_only main_offset_x main_offset_y rest hash

/-- The loop over the tracks in `get_hash`. -/
def hash_tracks (layers_only : Bool) (main_offset_x main_offset_y : Int) (position : Int) :
    List Track → String → String
  | [], hash => hash
  | track :: rest, hash =>
    hash_tracks layers_only main_offset_x main_offset_y position rest
      (hash_layers layers_only main_offset_x main_offset_y
        (glist_nth_data track.frames (guint_of_gint position)) hash)

/-- `animation_cel_animation_get_hash`; the inner `none` is the `NULL` returned
for an empty hash. -/
def animation_cel_animation_get_hash (a : CelAnimation) (position : Int) (layers_only : Bool) :
    Option (Option String) :=
  (track_list a).map fun tracks =>
    let offsets := animation_camera_get a.camera position
    let hash := hash_tracks layers_only offsets.1 offsets.2 position tracks ""
    if hash.length = 0 then none else some hash

/-- The layers shown at a position, after the words of the spec: the tattoos
other than zero of the slots of all tracks at this position, the tracks in list
order and the tattoos in slot order. -/
def frame_layer_ids (tracks : List Track) (position : Int) : List Int :=
  (tracks.map fun t =>
    (glist_nth_data t.frames (guint_of_gint position)).filter fun tattoo =>
      decide (tattoo ≠ 0)).flatten

/-- The token of a layer in the hash of the layers only. -/
def layer_token (tattoo : Int) : List Char := (fmt_d tattoo).data ++ [';']

/-- The token of a layer in the full hash. -/
def full_token (x y tattoo : Int) : List Char :=
  '[' :: ((fmt_d x).data ++ ',' :: ((fmt_d y).data ++ ']' :: ((fmt_d tattoo).data ++ [';'])))

/-! ## Consistency of the cache of an animatic -/

/-- The arrays of an animatic have `n_panels` entries each, as
`animation_animatic_load` allocates them. -/
def animatic_arrays_sized (a : AnimationAnimatic) : Prop :=
  a.tattoos.length = a.n_panels.toNat ∧ a.durations.length = a.n_panels.toNat ∧
    a.combine.length = a.n_panels.toNat ∧ a.comments.length = a.n_panels.toNat ∧
    a.cache.length = a.n_panels.toNat

instance (a : AnimationAnimatic) : Decidable (animatic_arrays_sized a) := by
  unfold animatic_arrays_sized
  infer_instance

/-- The render of the panel of index `i` (panel `i + 1`) in the state `a`, as
`animation_animatic_cache` composes it: the source layer over the cache of the
panel before when the panel is not the first one and its `combine` flag is set,
the source layer alone otherwise.  There is none when the layer of the panel
cannot be found in the image. -/
def panel_render (image : List Layer) (a : AnimationAnimatic) (i : Nat) : Option GeglBuffer :=
  (a.tattoos[i]?).bind fun tattoo =>
  (gimp_image_get_layer_by_tattoo image tattoo).bind fun layer =>
  (if 0 < i then a.combine[i]? else some false).bind fun combined =>
  if combined then (a.cache[i - 1]?).map fun backdrop => backdrop.getD [] ++ [layer.tattoo]
  else some [layer.tattoo]

/-- The cache of the panel of index `i` is consistent: the layer of the panel is
found and the cache holds the render of the panel. -/
def cache_consistent_at (image : List Layer) (a : AnimationAnimatic) (i : Nat) : Prop :=
  (panel_render image a i).isSome = true ∧ a.cache[i]? = (panel_render image a i).map some

instance (image : List Layer) (a : AnimationAnimatic) (i : Nat) :
    Decidable (cache_consistent_at image a i) := by
  unfold cache_consistent_at
  infer_instance

/-- The cache of an animatic is consistent: the cache of every panel is. -/
def cache_consistent (image : List Layer) (a : AnimationAnimatic) : Prop :=
  ∀ i, i < a.n_panels.toNat → cache_consistent_at image a i

instance (image : List Layer) (a : AnimationAnimatic) : Decidable (cache_consistent image a) := by
  unfold cache_consistent
  infer_instance

/-- An image of three layers, listed from the top of the stack, the topmost one
bearing the combine tag. -/
def combine_image : List Layer :=
  [{ name := "(combine)", tattoo := 3 }, { name := "B", tattoo := 2 },
   { name := "A", tattoo := 1 }]

/-- A document of an animatic of three panels of 6 frames each, the second and
the third one in combine mode. -/
def combine_document : List XmlEvent :=
  [XmlEvent.start_element "animation" [("type", "animatic"), ("framerate", "24")],
   XmlEvent.start_element "sequence" [],
   XmlEvent.start_element "panel" [("duration", "6")],
   XmlEvent.start_element "layer" [("id", "1")],
   XmlEvent.end_element "layer",
   XmlEvent.end_element "panel",
   XmlEvent.start_element "panel" [("duration", "6"), ("blend-mode", "normal")],
   XmlEvent.start_element "layer" [("id", "2")],
   XmlEvent.end_element "layer",
   XmlEvent.end_element "panel",
   XmlEvent.start_element "panel" [("duration", "6"), ("blend-mode", "normal")],
   XmlEvent.start_element "layer" [("id", "3")],
   XmlEvent.end_element "layer",
   XmlEvent.end_element "panel",
   XmlEvent.end_element "sequence",
   XmlEvent.start_element "comments" [],
   XmlEvent.end_element "comments",
   XmlEvent.end_element "animation"]

/-- The animatic of the image `combine_image` as `animation_animatic_load` leaves
it at 24 frames per second. -/
def combine_animatic : AnimationAnimatic :=
  { framerate := gdouble_of_gint 24
    position := 1
    proxy_ratio := gdouble_of_gint 1
    n_panels := 3
    tattoos := [1, 2, 3]
    durations := [6, 6, 6]
    combine := [false, false, true]
    comments := [some "A", some "B", some "(combine)"]
    cache := [some [1], some [2], some [2, 3]]
    render_signals := [] }

/-! ## `animation_animatic_serialize` -/

/-- The loop over the panels of `animation_animatic_serialize`, from `i` on for
`n` more turns. -/
def serialize_panels (a : AnimationAnimatic) : Nat → Nat → Option (List XmlEvent)
  | 0, _ => some []
  | n + 1, i =>
    (a.combine[i]?).bind fun combine =>
    (a.durations[i]?).bind fun duration =>
    (a.tattoos[i]?).bind fun tattoo =>
    (serialize_panels a n (i + 1)).map fun rest =>
      XmlEvent.start_element "panel"
          (if combine then [("duration", fmt_d duration), ("blend-mode", "normal")]
            else [("duration", fmt_d duration)]) ::
        XmlEvent.start_element "layer" [("id", fmt_d tattoo)] ::
          XmlEvent.end_element "layer" :: XmlEvent.end_element "panel" :: rest

/-- The loop over the comments of `animation_animatic_serialize`, from `i` on for
`n` more turns.  An empty comment is written without text. -/
def serialize_panel_comments (a : AnimationAnimatic) : Nat → Nat → Option (List XmlEvent)
  | 0, _ => some []
  | n + 1, i =>
    (a.comments[i]?).bind fun comment =>
    (serialize_panel_comments a n (i + 1)).map fun rest =>
      (match comment with
        | some c =>
          XmlEvent.start_element "comment" [("panel", fmt_d ((i : Int) + 1))] ::
            ((if c = "" then [] else [XmlEvent.text c]) ++ [XmlEvent.end_element "comment"])
        | none => []) ++ rest

/-- `animation_animatic_serialize`.  `framerate` is the text printed by `%f` for
the framerate of the base class. -/
def animation_animatic_serialize (a : AnimationAnimatic) (framerate : String) :
    Option (List XmlEvent) :=
  (serialize_panels a a.n_panels.toNat 0).bind fun panels =>
  (serialize_panel_comments a a.n_panels.toNat 0).map fun comments =>
    XmlEvent.start_element "animation"
        [("type", "animatic"), ("framerate", framerate), ("duration", fmt_d a.n_panels),
          ("width", ""), ("height", "")] ::
      XmlEvent.start_element "sequence" [] ::
        (panels ++ XmlEvent.end_element "sequence" :: XmlEvent.start_element "comments" [] ::
          (comments ++ [XmlEvent.end_element "comments", XmlEvent.end_element "animation"]))

/-- The animatic `combine_animatic` with the second panel not shown. -/
def zero_duration_animatic : AnimationAnimatic :=
  { combine_animatic with durations := [6, 0, 6] }

/-! # Properties -/

/-! ## Machine integers -/

theorem guint_of_gint_nonneg {i : Int} (h0 : 0 ≤ i) (h1 : i < 4294967296) :
    guint_of_gint i = i.toNat := by
  unfold guint_of_gint
  rw [Int.emod_eq_of_lt h0 h1]

theorem guint_of_gint_natCast {n : Nat} (h1 : n < 4294967296) :
    guint_of_gint (n : Int) = n := by
  rw [guint_of_gint_nonneg (by omega) (by omega)]; simp

theorem guint_of_gint_lt (i : Int) : guint_of_gint i < 4294967296 := by
  unfold guint_of_gint
  have := Int.emod_lt_of_pos i (by norm_num : (0 : Int) < 4294967296)
  have := Int.emod_nonneg i (by norm_num : (4294967296 : Int) ≠ 0)
  omega

theorem guint_of_gint_neg {i : Int} (h0 : i < 0) (h1 : -2147483648 ≤ i) :
    guint_of_gint i = (i + 4294967296).toNat := by
  unfold guint_of_gint
  have : i % 4294967296 = i + 4294967296 := by omega
  rw [this]

/-! ## Well-formed track lists -/

theorem getElem?_some_lt {α : Type} {l : List α} {i : Nat} {a : α} (hi : l[i]? = some a) :
    i < l.length := by
  by_contra hge
  rw [List.getElem?_eq_none (by omega)] at hi
  exact Option.noConfusion hi

theorem IsFwdList.cell_at {h : Heap} {p : Option Nat} {addrs : List Nat} {l : List Track}
    (hv : IsFwdList h p addrs l) {i a : Nat} (hi : addrs[i]? = some a) :
    ∃ nd, h.cell a = some nd ∧ l[i]? = some nd.data ∧ nd.next = addrs[i + 1]? := by
  obtain ⟨hlen, -, -, -, hc⟩ := hv
  have hlt : i < addrs.length := getElem?_some_lt hi
  have h1 := hc i hlt
  unfold fwd_ok_at at h1
  rw [hi, List.getElem?_eq_getElem (by omega : i < l.length)] at h1
  simp only [Option.some_bind, Option.map_some'] at h1
  cases hcell : h.cell a with
  | none => rw [hcell] at h1; simp at h1
  | some nd =>
    rw [hcell] at h1
    simp only [Option.map_some', Option.some.injEq, Prod.mk.injEq] at h1
    exact ⟨nd, rfl, by rw [List.getElem?_eq_getElem (by omega : i < l.length), h1.1], h1.2⟩

theorem IsFwdList.length_le_top {h : Heap} {p : Option Nat} {addrs : List Nat} {l : List Track}
    (hv : IsFwdList h p addrs l) : l.length ≤ h.top := by
  obtain ⟨hlen, hnd, htop, -, -⟩ := hv
  have hsub : addrs ⊆ List.range h.top := by
    intro a ha
    exact List.mem_range.mpr (htop a ha)
  have := (hnd.subperm hsub).length_le
  simp at this
  omega

theorem IsFwdList.nth_from {h : Heap} {p : Option Nat} {addrs : List Nat} {l : List Track}
    (hv : IsFwdList h p addrs l) :
    ∀ (k i : Nat), g_list_nth h addrs[i]? k = some addrs[i + k]? := by
  intro k
  induction k with
  | zero => intro i; simp [g_list_nth]
  | succ k ih =>
    intro i
    cases hi : addrs[i]? with
    | none =>
      have : addrs.length ≤ i := by
        by_contra hlt
        rw [List.getElem?_eq_getElem (by omega)] at hi
        exact Option.noConfusion hi
      rw [List.getElem?_eq_none (by omega)]
      simp [g_list_nth]
    | some a =>
      obtain ⟨nd, hcell, -, hnext⟩ := hv.cell_at hi
      simp only [g_list_nth, hcell, hnext]
      rw [ih (i + 1)]
      congr 2
      omega

theorem IsFwdList.nth {h : Heap} {p : Option Nat} {addrs : List Nat} {l : List Track}
    (hv : IsFwdList h p addrs l) (k : Nat) : g_list_nth h p k = some addrs[k]? := by
  have := hv.nth_from k 0
  rw [← hv.2.2.2.1] at this
  simpa using this

theorem IsFwdList.nth_data {h : Heap} {p : Option Nat} {addrs : List Nat} {l : List Track}
    (hv : IsFwdList h p addrs l) (k : Nat) : g_list_nth_data h p k = some addrs[k]? := by
  unfold g_list_nth_data
  rw [hv.nth k]
  cases hk : addrs[k]? with
  | none => rfl
  | some a =>
    obtain ⟨nd, hcell, -, -⟩ := hv.cell_at hk
    simp [hcell]

theorem IsFwdList.length_from {h : Heap} {p : Option Nat} {addrs : List Nat} {l : List Track}
    (hv : IsFwdList h p addrs l) :
    ∀ (fuel i : Nat), addrs.length ≤ i + fuel →
      g_list_length_aux h fuel addrs[i]? = some (addrs.length - i) := by
  intro fuel
  induction fuel with
  | zero =>
    intro i hi
    rw [List.getElem?_eq_none (by omega)]
    simp [g_list_length_aux]; omega
  | succ f ih =>
    intro i hi
    cases hai : addrs[i]? with
    | none =>
      have : addrs.length ≤ i := by
        by_contra hlt
        rw [List.getElem?_eq_getElem (by omega)] at hai
        exact Option.noConfusion hai
      simp [g_list_length_aux]; omega
    | some a =>
      obtain ⟨nd, hcell, -, hnext⟩ := hv.cell_at hai
      have hlt := getElem?_some_lt hai
      simp only [g_list_length_aux, hcell, hnext]
      rw [ih (i + 1) (by omega)]
      simp; omega

theorem IsFwdList.length {h : Heap} {p : Option Nat} {addrs : List Nat} {l : List Track}
    (hv : IsFwdList h p addrs l) : g_list_length h p = some l.length := by
  unfold g_list_length
  have h1 := hv.length_from (h.top + 1) 0 (by have := hv.length_le_top; have := hv.1; omega)
  rw [← hv.2.2.2.1] at h1
  rw [h1, hv.1]; rfl

theorem IsFwdList.tracks_from {h : Heap} {p : Option Nat} {addrs : List Nat} {l : List Track}
    (hv : IsFwdList h p addrs l) :
    ∀ (fuel i : Nat), addrs.length ≤ i + fuel →
      AnimationPlay.tracks_from h fuel addrs[i]? = some (l.drop i) := by
  intro fuel
  induction fuel with
  | zero =>
    intro i hi
    rw [List.getElem?_eq_none (by omega)]
    rw [List.drop_of_length_le (by have := hv.1; omega)]
    simp [AnimationPlay.tracks_from]
  | succ f ih =>
    intro i hi
    cases hai : addrs[i]? with
    | none =>
      have : addrs.length ≤ i := by
        by_contra hlt
        rw [List.getElem?_eq_getElem (by omega)] at hai
        exact Option.noConfusion hai
      rw [List.drop_of_length_le (by have := hv.1; omega)]
      simp [AnimationPlay.tracks_from]
    | some a =>
      obtain ⟨nd, hcell, hdata, hnext⟩ := hv.cell_at hai
      have hlt := getElem?_some_lt hai
      have hlt2 : i < l.length := by have := hv.1; omega
      simp only [AnimationPlay.tracks_from, hcell, hnext]
      rw [ih (i + 1) (by omega)]
      rw [List.getElem?_eq_getElem hlt2] at hdata
      simp only [Option.some.injEq] at hdata
      rw [Option.map_some', ← hdata]
      simp

theorem IsFwdList.track_list {a : CelAnimation} {addrs : List Nat} {l : List Track}
    (hv : IsFwdList a.heap a.tracks addrs l) : track_list a = some l := by
  unfold AnimationPlay.track_list
  have h1 := hv.tracks_from (a.heap.top + 1) 0
    (by have := hv.length_le_top; have := hv.1; omega)
  rw [← hv.2.2.2.1] at h1
  simpa using h1

theorem nodup_index_inj {addrs : List Nat} (hnd : addrs.Nodup) {i j a : Nat}
    (hi : addrs[i]? = some a) (hj : addrs[j]? = some a) : i = j := by
  have hi1 := getElem?_some_lt hi
  have hj1 := getElem?_some_lt hj
  rw [List.getElem?_eq_getElem hi1] at hi
  rw [List.getElem?_eq_getElem hj1] at hj
  have : addrs[i] = addrs[j] := by
    rw [Option.some.injEq] at hi hj; rw [hi, hj]
  exact (hnd.getElem_inj_iff).mp this

theorem fwd_ok_at_of_cell {h : Heap} {addrs : List Nat} {l : List Track} {i a : Nat}
    (nd : GListNode) (hi : addrs[i]? = some a) (hc : h.cell a = some nd)
    (hd : l[i]? = some nd.data) (hn : nd.next = addrs[i + 1]?) : fwd_ok_at h addrs l i := by
  unfold fwd_ok_at
  rw [hi, hd]
  simp [hc, hn]

theorem prev_ok_at_iff {h : Heap} {addrs : List Nat} {i a : Nat} (hi : addrs[i]? = some a) :
    prev_ok_at h addrs i ↔
      ∃ nd, h.cell a = some nd ∧ nd.prev = (if i = 0 then none else addrs[i - 1]?) := by
  unfold prev_ok_at
  rw [hi]
  cases hc : h.cell a with
  | none => simp [hc]
  | some nd => simp [hc]

theorem IsFwdList.set_data {h : Heap} {p : Option Nat} {addrs : List Nat} {l : List Track}
    (hv : IsFwdList h p addrs l) {i a : Nat} {nd : GListNode}
    (hi : addrs[i]? = some a) (hc : h.cell a = some nd) (t : Track) :
    IsFwdList (h.write a { nd with data := t }) p addrs (l.set i t) := by
  have hv0 := hv
  obtain ⟨hlen, hnd, htop, hhead, hcells⟩ := hv
  refine ⟨by simpa using hlen, hnd, htop, hhead, ?_⟩
  intro j hj
  obtain ⟨b, hb⟩ : ∃ b, addrs[j]? = some b := ⟨addrs[j], List.getElem?_eq_getElem hj⟩
  obtain ⟨ndj, hcj, hdj, hnj⟩ := hv0.cell_at hb
  by_cases hji : j = i
  · subst hji
    have hab : b = a := by rw [hb] at hi; exact Option.some.inj hi
    subst hab
    rw [hc] at hcj
    have hndj : ndj = nd := (Option.some.inj hcj).symm
    subst hndj
    refine fwd_ok_at_of_cell { ndj with data := t } hb ?_ ?_ hnj
    · simp [Heap.write]
    · simp [List.getElem?_set, hj, hlen ▸ hj]
  · have hba : b ≠ a := by
      intro hba
      subst hba
      exact hji (nodup_index_inj hnd hb hi)
    refine fwd_ok_at_of_cell ndj hb ?_ ?_ hnj
    · simp [Heap.write, Function.update_apply, hba, hcj]
    · rw [List.getElem?_set_ne (by omega)]
      exact hdj

theorem IsGList.set_data_dbl {h : Heap} {p : Option Nat} {addrs : List Nat} {l : List Track}
    (hv : IsGList h p addrs l) {i a : Nat} {nd : GListNode}
    (hi : addrs[i]? = some a) (hc : h.cell a = some nd) (t : Track) :
    IsGList (h.write a { nd with data := t }) p addrs (l.set i t) := by
  refine ⟨hv.1.set_data hi hc t, ?_⟩
  intro j hj
  obtain ⟨b, hb⟩ : ∃ b, addrs[j]? = some b := ⟨addrs[j], List.getElem?_eq_getElem hj⟩
  obtain ⟨ndj, hcj, hpj⟩ := (prev_ok_at_iff hb).mp (hv.2 j hj)
  rw [prev_ok_at_iff hb]
  by_cases hba : b = a
  · subst hba
    rw [hc] at hcj
    have hndj : ndj = nd := (Option.some.inj hcj).symm
    subst hndj
    exact ⟨{ ndj with data := t }, by simp [Heap.write], hpj⟩
  · exact ⟨ndj, by simp [Heap.write, Function.update_apply, hba, hcj], hpj⟩

/-! ## Lists handled by value -/

theorem prepend_nulls_eq {α : Type} (null : α) (n : Nat) (l : List α) :
    prepend_nulls null n l = List.replicate n null ++ l := by
  induction n generalizing l with
  | zero => simp [prepend_nulls]
  | succ n ih =>
    simp only [prepend_nulls]
    rw [ih, List.replicate_succ', List.append_assoc]
    rfl

theorem glist_grow_eq {α : Type} (null : α) (l : List α) (position : Int) :
    glist_grow null l position =
      l ++ List.replicate (position + 1 - (l.length : Int)).toNat null := by
  unfold glist_grow
  rw [prepend_nulls_eq]
  simp

theorem glist_nth_data_eq (l : List (List Int)) (n : Nat) :
    glist_nth_data l n = l.getD n [] := by
  unfold glist_nth_data
  cases h : l[n]? <;> simp [List.getD, h]

/-! ## `set_layers` and `get_layers` -/

theorem get_layers_eq {a : CelAnimation} {addrs : List Nat} {l : List Track}
    (hv : IsFwdList a.heap a.tracks addrs l) (T P : Int) :
    animation_cel_animation_get_layers a T P =
      some (match l[guint_of_gint T]? with
        | none => []
        | some t =>
          if P ≥ 0 ∧ P < a.duration then glist_nth_data t.frames (guint_of_gint P) else []) := by
  unfold animation_cel_animation_get_layers
  rw [hv.nth_data]
  cases hk : addrs[guint_of_gint T]? with
  | none =>
    have : l[guint_of_gint T]? = none := by
      rw [List.getElem?_eq_none_iff] at hk ⊢
      have := hv.1; omega
    simp [this]
  | some t =>
    obtain ⟨nd, hcell, hdata, -⟩ := hv.cell_at hk
    simp only [hdata, hcell]
    by_cases hP : P ≥ 0 ∧ P < a.duration
    · simp [hP]
    · simp [hP]

/-- C4 (shrinking the duration truncates every frame list and the comment
list): the code does not do this.  On the sample animation (3 tracks, duration
5) `set_duration (0)` releases every node of the track list while `priv->tracks`
keeps pointing to the first one, so the loop over the tracks reads freed memory
and no state results; `set_duration (2)` destroys the third track instead of
shortening its frame list. -/
theorem set_duration_shrink_destroys_tracks :
    (set_duration_free_tracks sample_animation.heap sample_animation.tracks 0).map
        (fun h => (h.cell 0, h.cell 1, h.cell 2)) = some (none, none, none) ∧
      animation_cel_animation_set_duration sample_animation 0 = none ∧
      (animation_cel_animation_set_duration sample_animation 2).bind track_list =
        some [{ title := some "Background", frames := [[1], [1]] },
              { title := some "Name me", frames := [] }] :=
  ⟨by decide, rfl, by decide⟩

/-! ## `level_down` -/

/-- C5 (`level_down (k)` swaps the tracks at `k - 1` and `k`): on the sample
animation of three tracks `level_down (2)` returns 1, but the list traversed
from its head is left with the first two tracks only, in their old order; the
node before the pair still points to the old neighbour and the moved track is
no longer reached. -/
theorem level_down_loses_track :
    (animation_cel_animation_level_down sample_animation 2).map (fun r => r.2) = some 1 ∧
      (animation_cel_animation_level_down sample_animation 2).bind (fun r => track_list r.1) =
        some [{ title := some "Background", frames := [[1], [1], [2]] },
              { title := some "Name me", frames := [] }] :=
  ⟨by decide, by decide⟩

/-! ## The track list is never empty -/

/-- C8 (every public mutation keeps at least one track): `set_duration (0)` on
a one-frame animation with a single track releases the node of that track,
`priv->tracks` still pointing to it, and goes on reading it: the track list is
gone and the call has no defined result. -/
theorem set_duration_zero_frees_all_tracks :
    track_list single_track_animation = some [{ title := some "Background", frames := [[1]] }] ∧
      (set_duration_free_tracks single_track_animation.heap single_track_animation.tracks 0).map
        (fun h => h.cell 0) = some none ∧
      animation_cel_animation_set_duration single_track_animation 0 = none :=
  ⟨by decide, by decide, rfl⟩

theorem set_duration_grow (a : CelAnimation) (d dur : Int) (hdur : a.duration = dur)
    (h : ¬ d < dur) :
    animation_cel_animation_set_duration a d =
      some (if d ≠ a.duration then { a with duration := d } else a) := by
  subst hdur
  unfold animation_cel_animation_set_duration
  simp only [h, if_false, Option.map_some']

/-! ## `cel_add` -/

theorem glist_insert_eq {α : Type} (l : List α) (x : α) {p : Int} (h0 : 0 ≤ p)
    (h1 : p ≤ l.length) (hg : is_gint p) :
    glist_insert l x p = l.take p.toNat ++ x :: l.drop p.toNat := by
  unfold glist_insert
  have hgp : guint_of_gint p = p.toNat :=
    guint_of_gint_nonneg h0 (by unfold is_gint at hg; omega)
  rw [if_neg (by omega)]
  by_cases hp : p = 0
  · subst hp; simp
  · rw [if_neg hp]
    simp only [hgp]
    by_cases hlt : p.toNat < l.length
    · rw [if_pos hlt]
    · rw [if_neg hlt]
      have : p.toNat = l.length := by omega
      rw [this]
      simp

theorem glist_insert_length {α : Type} (l : List α) (x : α) (p : Int) :
    (glist_insert l x p).length = l.length + 1 := by
  unfold glist_insert
  by_cases h1 : p < 0
  · simp [h1]
  · by_cases h2 : p = 0
    · simp [h2]
    · by_cases h3 : guint_of_gint p < l.length
      · simp [h1, h2, h3]; omega
      · simp [h1, h2, h3]

theorem insert_getElem?_lt {α : Type} (l : List α) (x : α) {n j : Nat} (hn : n ≤ l.length)
    (hj : j < n) : (l.take n ++ x :: l.drop n)[j]? = l[j]? := by
  rw [List.getElem?_append_left (by simp; omega)]
  rw [List.getElem?_take_of_lt hj]

theorem insert_getElem?_eq {α : Type} (l : List α) (x : α) {n : Nat} (hn : n ≤ l.length) :
    (l.take n ++ x :: l.drop n)[n]? = some x := by
  rw [List.getElem?_append_right (by simp)]
  simp [Nat.min_eq_left hn]

theorem insert_getElem?_gt {α : Type} (l : List α) (x : α) {n i : Nat} (hn : n ≤ l.length)
    (hi : n ≤ i) : (l.take n ++ x :: l.drop n)[i + 1]? = l[i]? := by
  rw [List.getElem?_append_right (by simp; omega)]
  simp only [List.length_take, Nat.min_eq_left hn]
  have : i + 1 - n = (i - n) + 1 := by omega
  rw [this, List.getElem?_cons_succ, List.getElem?_drop]
  congr 1
  omega

/-- Effect of `cel_add` on a track that exists. -/
theorem cel_add_spec {a : CelAnimation} {addrs : List Nat} {l : List Track}
    (hv : IsFwdList a.heap a.tracks addrs l) (hd : is_gint a.duration) {T : Int} {t : Track}
    (ht : l[guint_of_gint T]? = some t) (p : Int) (dup : Bool) :
    ∃ a' r, animation_cel_animation_cel_add a T p dup = some (a', r) ∧
      a'.comments = a.comments ∧ a'.onion_skins = a.onion_skins ∧
      IsFwdList a'.heap a'.tracks addrs
        (l.set (guint_of_gint T) { t with frames := glist_insert t.frames (cel_add_contents t.frames p dup) p }) ∧
      a'.duration =
        (if (t.frames.length + 1 > guint_of_gint a.duration ∧
            (glist_insert t.frames
              (cel_add_contents t.frames p dup) p).getLast? ≠ some [])
          then ((t.frames.length + 1 : Nat) : Int) else a.duration) := by
  have hlt := getElem?_some_lt ht
  have hlt2 : guint_of_gint T < addrs.length := by have := hv.1; omega
  obtain ⟨addr, haddr⟩ : ∃ addr, addrs[guint_of_gint T]? = some addr :=
    ⟨_, List.getElem?_eq_getElem hlt2⟩
  obtain ⟨nd, hcell, hdata, -⟩ := hv.cell_at haddr
  have htd : t = nd.data := by rw [ht] at hdata; exact Option.some.inj hdata
  subst htd
  have hv1 := hv.set_data haddr hcell
    { nd.data with frames := glist_insert nd.data.frames (cel_add_contents nd.data.frames p dup) p }
  unfold animation_cel_animation_cel_add
  rw [hv.nth_data, haddr]
  simp only [hcell, Option.some_bind, Heap.set_data, Option.map_some', glist_insert_length]
  by_cases hgrow : nd.data.frames.length + 1 > guint_of_gint a.duration ∧
      (glist_insert nd.data.frames
        (cel_add_contents nd.data.frames p dup) p).getLast? ≠ some []
  · rw [if_pos hgrow, if_pos hgrow]
    have hng : ¬ (((nd.data.frames.length + 1 : Nat) : Int) < a.duration) := by
      have h1 := hgrow.1
      unfold is_gint at hd
      unfold guint_of_gint at h1
      omega
    simp only [animation_cel_animation_set_duration, hng, if_false, Option.map_some',
      Option.some_bind]
    by_cases hne : ((nd.data.frames.length + 1 : Nat) : Int) = a.duration
    · rw [if_neg (by simpa using hne)]
      simp only [Heap.write, Function.update_same, Option.map_some']
      exact ⟨_, _, rfl, rfl, rfl, hv1, hne.symm⟩
    · rw [if_pos (by simpa using hne)]
      simp only [Heap.write, Function.update_same, Option.map_some']
      exact ⟨_, _, rfl, rfl, rfl, hv1, rfl⟩
  · rw [if_neg hgrow, if_neg hgrow]
    simp only [Option.some_bind, Heap.write, Function.update_same, Option.map_some']
    exact ⟨_, _, rfl, rfl, rfl, hv1, rfl⟩

theorem cel_add_contents_eq (F : List (List Int)) {p : Int} (dup : Bool) (h0 : 0 ≤ p)
    (h1 : p ≤ F.length) (hg : is_gint p) :
    some (cel_add_contents F p dup) =
      (if dup = true ∧ p > 0 then F[p.toNat - 1]? else some []) := by
  unfold cel_add_contents
  by_cases hd : dup = true ∧ p > 0
  · have hg1 : guint_of_gint (p - 1) = p.toNat - 1 := by
      rw [guint_of_gint_nonneg (by omega) (by unfold is_gint at hg; omega)]
      omega
    have hlt : p.toNat - 1 < F.length := by omega
    simp only [hd.1, hd.2, decide_True, Bool.and_self, if_true, and_self, hg1,
      List.getElem?_eq_getElem hlt]
  · have : ¬ ((dup && decide (p > 0)) = true) := by
      simpa using fun h => not_lt.mp (fun h2 => hd ⟨h, h2⟩)
    rw [if_neg this, if_neg hd]

/-- C9: on an existing track with frame list `F` and for `0 ≤ p ≤ |F|`,
`cel_add (track, p, dup)` leaves a frame list of `|F| + 1` slots: the slots
below `p` are unchanged, slot `p` holds a copy of `F[p - 1]` when `dup` holds
and `p > 0` and is empty otherwise, slot `i + 1` holds `F[i]` for every
`i ≥ p`; the title of the track and every other track are unchanged. -/
theorem cel_add_inserts_one_slot (a : CelAnimation) (addrs : List Nat) (l : List Track)
    (hv : IsFwdList a.heap a.tracks addrs l) (hd : is_gint a.duration)
    (T p : Int) (dup : Bool) (hTg : is_gint T) (hpg : is_gint p) (t : Track)
    (hT : 0 ≤ T) (ht : l[T.toNat]? = some t) (hp : 0 ≤ p ∧ p ≤ t.frames.length) :
    ∃ a' r l' t', animation_cel_animation_cel_add a T p dup = some (a', r) ∧
      track_list a' = some l' ∧ l'[T.toNat]? = some t' ∧ t'.title = t.title ∧
      t'.frames.length = t.frames.length + 1 ∧
      (∀ j, j < p.toNat → t'.frames[j]? = t.frames[j]?) ∧
      t'.frames[p.toNat]? = (if dup = true ∧ p > 0 then t.frames[p.toNat - 1]? else some []) ∧
      (p > 0 → t.frames[p.toNat - 1]? ≠ none) ∧
      (∀ i, p.toNat ≤ i → t'.frames[i + 1]? = t.frames[i]?) ∧
      l'.length = l.length ∧ (∀ i, i ≠ T.toNat → l'[i]? = l[i]?) := by
  have hg : guint_of_gint T = T.toNat :=
    guint_of_gint_nonneg hT (by unfold is_gint at hTg; omega)
  have hlt := getElem?_some_lt ht
  rw [← hg] at ht
  obtain ⟨a', r, hadd, -, -, hv', -⟩ := cel_add_spec hv hd ht p dup
  rw [glist_insert_eq _ _ hp.1 hp.2 hpg] at hv'
  have hpn : p.toNat ≤ t.frames.length := by omega
  refine ⟨a', r, _, (⟨t.title, t.frames.take p.toNat ++
    cel_add_contents t.frames p dup :: t.frames.drop p.toNat⟩ : Track), hadd, hv'.track_list,
    ?_, rfl, ?_, ?_, ?_, ?_, ?_, by simp, ?_⟩
  · rw [← hg]; exact List.getElem?_set_self (by omega)
  · simp; omega
  · intro j hj
    exact insert_getElem?_lt _ _ hpn hj
  · rw [← cel_add_contents_eq _ dup hp.1 hp.2 hpg]
    exact insert_getElem?_eq _ _ hpn
  · intro hp0
    rw [ne_eq, List.getElem?_eq_none_iff]
    omega
  · intro i hi
    exact insert_getElem?_gt _ _ hpn hi
  · intro i hi
    rw [List.getElem?_set_ne (by omega)]

/-- Witness of C9, the scenario of the claim: a track of ten frames and
`cel_add (0, 5, TRUE)`. -/
theorem cel_add_inserts_one_slot_witness :
    ∃ a' r l' t', animation_cel_animation_cel_add ten_frame_animation 0 5 true = some (a', r) ∧
      track_list a' = some l' ∧ l'[(0 : Int).toNat]? = some t' ∧
      t'.title = some "Background" ∧
      t'.frames.length = 10 + 1 ∧
      (∀ j, j < (5 : Int).toNat →
        t'.frames[j]? = [[10], [11], [12], [13], [14], [15], [16], [17], [18], [19]][j]?) ∧
      t'.frames[(5 : Int).toNat]? =
        (if true = true ∧ (5 : Int) > 0 then
          [[10], [11], [12], [13], [14], [15], [16], [17], [18], [19]][(5 : Int).toNat - 1]?
         else some []) ∧
      ((5 : Int) > 0 →
        [[10], [11], [12], [13], [14], [15], [16], [17], [18], [19]][(5 : Int).toNat - 1]? ≠
          (none : Option (List Int))) ∧
      (∀ i, (5 : Int).toNat ≤ i →
        t'.frames[i + 1]? = [[10], [11], [12], [13], [14], [15], [16], [17], [18], [19]][i]?) ∧
      l'.length = 2 ∧
      (∀ i, i ≠ (0 : Int).toNat → l'[i]? =
        [({ title := some "Background",
            frames := [[10], [11], [12], [13], [14], [15], [16], [17], [18], [19]] } : Track),
         { title := some "Name me", frames := [] }][i]?) :=
  cel_add_inserts_one_slot ten_frame_animation [0, 1]
    [{ title := some "Background",
       frames := [[10], [11], [12], [13], [14], [15], [16], [17], [18], [19]] },
     { title := some "Name me", frames := [] }]
    (by decide) (by decide) 0 5 true (by decide) (by decide)
    { title := some "Background",
      frames := [[10], [11], [12], [13], [14], [15], [16], [17], [18], [19]] }
    (by decide) (by decide) (by decide)

/-- Counterexample to C10 as stated: on a one-frame animation whose track
holds one frame, `cel_add (0, 1, FALSE)` appends an empty slot; the frame list
then has 2 slots, more than the duration 1, and the duration is still 1 on
return. -/
theorem cel_add_keeps_duration_when_last_slot_empty :
    (animation_cel_animation_cel_add one_frame_animation 0 1 false).map
        (fun r => (r.1.duration, (track_list r.1).map (fun l => l.map (fun t => t.frames)))) =
      some (1, some [[[7], []]]) := by
  decide

/-- C10, amended: after the insertion made by `cel_add` on an existing track,
the duration on return is the length of the frame list of that track when this
length exceeds the duration read as an unsigned 32-bit value (the duration
itself when it is not negative) and the last slot of the list is not empty; in
every other case the duration is unchanged. -/
theorem cel_add_grows_duration (a : CelAnimation) (addrs : List Nat) (l : List Track)
    (hv : IsFwdList a.heap a.tracks addrs l) (hd : is_gint a.duration)
    (T p : Int) (dup : Bool) (hTg : is_gint T) (t : Track)
    (hT : 0 ≤ T) (ht : l[T.toNat]? = some t) :
    ∃ a' r l' t', animation_cel_animation_cel_add a T p dup = some (a', r) ∧
      track_list a' = some l' ∧ l'[T.toNat]? = some t' ∧
      a'.duration =
        (if (t'.frames.length : Int) > a.duration % 4294967296 ∧ t'.frames.getLast? ≠ some []
          then (t'.frames.length : Int) else a.duration) := by
  have hg : guint_of_gint T = T.toNat :=
    guint_of_gint_nonneg hT (by unfold is_gint at hTg; omega)
  have hlt := getElem?_some_lt ht
  rw [← hg] at ht
  obtain ⟨a', r, hadd, -, -, hv', hdur⟩ := cel_add_spec hv hd ht p dup
  refine ⟨a', r, _, (⟨t.title, glist_insert t.frames (cel_add_contents t.frames p dup) p⟩ :
    Track), hadd, hv'.track_list, ?_, ?_⟩
  · rw [← hg]; exact List.getElem?_set_self (by omega)
  · rw [hdur]
    simp only [glist_insert_length]
    have hiff : (t.frames.length + 1 > guint_of_gint a.duration) ↔
        (((t.frames.length + 1 : Nat) : Int) > a.duration % 4294967296) := by
      unfold guint_of_gint
      omega
    simp only [hiff]

/-- Witness of the amended C10, the second end-to-end scenario: duration 10,
`cel_add (0, 5, TRUE)` on a track of ten non-empty frames. -/
theorem cel_add_grows_duration_witness :
    ∃ a' r l' t', animation_cel_animation_cel_add ten_frame_animation 0 5 true = some (a', r) ∧
      track_list a' = some l' ∧ l'[(0 : Int).toNat]? = some t' ∧
      a'.duration =
        (if (t'.frames.length : Int) > ten_frame_animation.duration % 4294967296 ∧
            t'.frames.getLast? ≠ some []
          then (t'.frames.length : Int) else ten_frame_animation.duration) :=
  cel_add_grows_duration ten_frame_animation [0, 1]
    [{ title := some "Background",
       frames := [[10], [11], [12], [13], [14], [15], [16], [17], [18], [19]] },
     { title := some "Name me", frames := [] }]
    (by decide) (by decide) 0 5 true (by decide)
    { title := some "Background",
      frames := [[10], [11], [12], [13], [14], [15], [16], [17], [18], [19]] }
    (by decide) (by decide)

/-! ## `level_up` -/

theorem level_up_eval_head {a : CelAnimation} {n : Nat} {level : Int} {ak ak1 : Nat}
    {ndk ndk1 : GListNode}
    (hlen : g_list_length a.heap a.tracks = some n)
    (hguard : level ≥ 0 ∧ level < ((n : Int) - 1) % 4294967296)
    (hnth : g_list_nth a.heap a.tracks (guint_of_gint level) = some (some ak))
    (hck : a.heap.cell ak = some ndk) (hnext : ndk.next = some ak1)
    (hck1 : a.heap.cell ak1 = some ndk1) (hne : ak ≠ ak1) (hprev : ndk.prev = none) :
    ∃ a', animation_cel_animation_level_up a level = some (a', level + 1) ∧
      a'.tracks = some ak1 ∧ a'.heap.top = a.heap.top ∧
      a'.duration = a.duration ∧ a'.comments = a.comments ∧
      ∀ x, a'.heap.cell x =
        if x = ak1 then some { data := ndk1.data, next := some ak, prev := none }
        else if x = ak then some { data := ndk.data, next := ndk1.next, prev := some ak1 }
        else a.heap.cell x := by
  unfold animation_cel_animation_level_up
  simp only [hlen, hguard, and_self, not_true_eq_false, if_false, hnth, hck, hnext, hprev,
    Option.some_bind, Heap.set_prev, Heap.set_next, Heap.write, hck1, Option.map_some',
    Function.update_apply, hne, hne.symm, if_true, if_false]
  refine ⟨_, rfl, rfl, rfl, rfl, rfl, ?_⟩
  intro x
  by_cases h1 : x = ak1
  · simp [h1, Function.update_apply]
  · by_cases h2 : x = ak
    · simp [h1, h2, Function.update_apply, hne]
    · simp [h1, h2, Function.update_apply]

theorem level_up_eval_inner {a : CelAnimation} {n : Nat} {level : Int} {ak ak1 ap : Nat}
    {ndk ndk1 ndp : GListNode}
    (hlen : g_list_length a.heap a.tracks = some n)
    (hguard : level ≥ 0 ∧ level < ((n : Int) - 1) % 4294967296)
    (hnth : g_list_nth a.heap a.tracks (guint_of_gint level) = some (some ak))
    (hck : a.heap.cell ak = some ndk) (hnext : ndk.next = some ak1)
    (hck1 : a.heap.cell ak1 = some ndk1) (hne : ak ≠ ak1) (hprev : ndk.prev = some ap)
    (hcp : a.heap.cell ap = some ndp) (hpk : ap ≠ ak) (hpk1 : ap ≠ ak1) :
    ∃ a', animation_cel_animation_level_up a level = some (a', level + 1) ∧
      a'.tracks = a.tracks ∧ a'.heap.top = a.heap.top ∧
      a'.duration = a.duration ∧ a'.comments = a.comments ∧
      ∀ x, a'.heap.cell x =
        if x = ak1 then some { data := ndk1.data, next := some ak, prev := some ap }
        else if x = ak then some { data := ndk.data, next := ndk1.next, prev := some ak1 }
        else if x = ap then some { data := ndp.data, next := some ak1, prev := ndp.prev }
        else a.heap.cell x := by
  unfold animation_cel_animation_level_up
  simp only [hlen, hguard, and_self, not_true_eq_false, if_false, hnth, hck, hnext, hprev,
    Option.some_bind, Heap.set_prev, Heap.set_next, Heap.write, hck1, hcp, Option.map_some',
    Function.update_apply, hne, hne.symm, hpk, hpk.symm, hpk1, hpk1.symm, if_true, if_false]
  refine ⟨_, rfl, rfl, rfl, rfl, rfl, ?_⟩
  intro x
  by_cases h1 : x = ak1
  · simp [h1, Function.update_apply]
  · by_cases h2 : x = ak
    · simp [h1, h2, Function.update_apply, hne]
    · by_cases h3 : x = ap
      · simp [h1, h2, h3, Function.update_apply, hpk, hpk1]
      · simp [h1, h2, h3, Function.update_apply]

theorem swap_at_length {α : Type} (l : List α) (k : Nat) : (swap_at l k).length = l.length := by
  unfold swap_at
  split <;> simp

theorem swap_at_getElem? {α : Type} {l : List α} {k : Nat} (hk : k + 1 < l.length) (i : Nat) :
    (swap_at l k)[i]? = l[if i = k then k + 1 else if i = k + 1 then k else i]? := by
  unfold swap_at
  rw [List.getElem?_eq_getElem (by omega : k < l.length), List.getElem?_eq_getElem hk]
  simp only [List.getElem?_set, List.length_set]
  by_cases h1 : i = k
  · subst h1
    simp [hk]
    omega
  · by_cases h2 : i = k + 1
    · subst h2
      simp [hk]
    · have h3 : ¬ k + 1 = i := fun h => h2 h.symm
      have h4 : ¬ k = i := fun h => h1 h.symm
      simp [h1, h2, h3, h4]

theorem nodup_getElem?_ne {addrs : List Nat} (hnd : addrs.Nodup) {i j : Nat} (hij : i ≠ j)
    (hi : i < addrs.length) : addrs[i]? ≠ addrs[j]? := by
  intro h
  rw [List.getElem?_eq_getElem hi] at h
  exact hij (nodup_index_inj hnd (List.getElem?_eq_getElem hi) h.symm)

theorem swap_at_nodup {addrs : List Nat} (hnd : addrs.Nodup) {k : Nat}
    (hk : k + 1 < addrs.length) : (swap_at addrs k).Nodup := by
  rw [List.nodup_iff_getElem?_ne_getElem?]
  intro i j hij hj
  rw [swap_at_length] at hj
  rw [swap_at_getElem? hk, swap_at_getElem? hk]
  apply nodup_getElem?_ne hnd
  · split_ifs <;> omega
  · split_ifs <;> omega

theorem swap_at_mem {addrs : List Nat} {k : Nat} (hk : k + 1 < addrs.length) {x : Nat}
    (hx : x ∈ swap_at addrs k) : x ∈ addrs := by
  obtain ⟨i, hi⟩ := List.mem_iff_getElem?.mp hx
  rw [swap_at_getElem? hk] at hi
  exact List.mem_iff_getElem?.mpr ⟨_, hi⟩

/-- A store that holds the nodes of a forward list with the `next` pointers
around indices `k` and `k + 1` redirected spells the list with these two
entries exchanged. -/
theorem IsFwdList.swap {h h' : Heap} {p p' : Option Nat} {addrs : List Nat} {l : List Track}
    (hv : IsFwdList h p addrs l) {k ak ak1 : Nat}
    (hak : addrs[k]? = some ak) (hak1 : addrs[k + 1]? = some ak1)
    (htop : h'.top = h.top) (hp' : p' = if k = 0 then some ak1 else p)
    (hc1 : ∃ nd, h'.cell ak1 = some nd ∧ l[k + 1]? = some nd.data ∧ nd.next = some ak)
    (hc2 : ∃ nd, h'.cell ak = some nd ∧ l[k]? = some nd.data ∧ nd.next = addrs[k + 2]?)
    (hc3 : ∀ x, 0 < k → addrs[k - 1]? = some x →
      ∃ nd, h'.cell x = some nd ∧ l[k - 1]? = some nd.data ∧ nd.next = some ak1)
    (hc4 : ∀ i x, addrs[i]? = some x → i ≠ k → i ≠ k + 1 → i + 1 ≠ k →
      h'.cell x = h.cell x) :
    IsFwdList h' p' (swap_at addrs k) (swap_at l k) := by
  have hk : k + 1 < addrs.length := getElem?_some_lt hak1
  have hkl : k + 1 < l.length := by have := hv.1; omega
  refine ⟨by rw [swap_at_length, swap_at_length, hv.1], swap_at_nodup hv.2.1 hk, ?_, ?_, ?_⟩
  · intro x hx
    rw [htop]
    exact hv.2.2.1 x (swap_at_mem hk hx)
  · rw [hp', swap_at_getElem? hk]
    by_cases h0 : k = 0
    · subst h0
      simpa using hak1.symm
    · have : ¬ (0 = k) := fun h => h0 h.symm
      have h01 : ¬ (0 = k + 1) := by omega
      simp only [h0, this, h01, if_false]
      exact hv.2.2.2.1
  · intro i hi
    rw [swap_at_length] at hi
    by_cases h1 : i = k
    · subst h1
      obtain ⟨nd, hc, hd, hn⟩ := hc1
      refine fwd_ok_at_of_cell nd ?_ hc ?_ ?_
      · rw [swap_at_getElem? hk]; simpa using hak1
      · rw [swap_at_getElem? hkl]; simpa using hd
      · rw [swap_at_getElem? hk, hn]; simpa using hak.symm
    · by_cases h2 : i = k + 1
      · subst h2
        obtain ⟨nd, hc, hd, hn⟩ := hc2
        refine fwd_ok_at_of_cell nd ?_ hc ?_ ?_
        · rw [swap_at_getElem? hk]; simpa using hak
        · rw [swap_at_getElem? hkl]; simpa using hd
        · rw [swap_at_getElem? hk, hn]
          have e1 : ¬ (k + 1 + 1 = k) := by omega
          have e2 : ¬ (k + 1 + 1 = k + 1) := by omega
          simp only [e1, e2, if_false]
      · obtain ⟨x, hx⟩ : ∃ x, addrs[i]? = some x := ⟨_, List.getElem?_eq_getElem hi⟩
        by_cases h3 : i + 1 = k
        · have hik : i = k - 1 := by omega
          subst hik
          obtain ⟨nd, hc, hd, hn⟩ := hc3 x (by omega) hx
          refine fwd_ok_at_of_cell nd ?_ hc ?_ ?_
          · rw [swap_at_getElem? hk]; simpa [h1, h2] using hx
          · rw [swap_at_getElem? hkl]; simpa [h1, h2] using hd
          · rw [swap_at_getElem? hk, hn]
            simpa [h3] using hak1.symm
        · obtain ⟨nd, hc, hd, hn⟩ := hv.cell_at hx
          refine @fwd_ok_at_of_cell _ _ _ _ x nd ?_ ?_ ?_ ?_
          · rw [swap_at_getElem? hk]; simpa [h1, h2] using hx
          · rw [hc4 i x hx h1 h2 h3]; exact hc
          · rw [swap_at_getElem? hkl]; simpa [h1, h2] using hd
          · rw [swap_at_getElem? hk, hn]
            have e2 : ¬ (i + 1 = k + 1) := by omega
            simp only [h3, e2, if_false]

/-- Effect of `level_up` on a list that is walkable from its head and whose
node at index `k` has a correct `prev` pointer. -/
theorem level_up_spec {a : CelAnimation} {addrs : List Nat} {l : List Track}
    (hv : IsFwdList a.heap a.tracks addrs l) {k : Nat} (hk : k + 1 < l.length)
    (hpk : prev_ok_at a.heap addrs k) (hn : l.length ≤ 2147483647) :
    ∃ a', animation_cel_animation_level_up a (k : Int) = some (a', (k : Int) + 1) ∧
      a'.duration = a.duration ∧ a'.comments = a.comments ∧
      IsFwdList a'.heap a'.tracks (swap_at addrs k) (swap_at l k) := by
  have hlen := hv.1
  have hnd := hv.2.1
  have hka : k + 1 < addrs.length := by omega
  obtain ⟨ak, hak⟩ : ∃ x, addrs[k]? = some x :=
    ⟨_, List.getElem?_eq_getElem (by omega : k < addrs.length)⟩
  obtain ⟨ak1, hak1⟩ : ∃ x, addrs[k + 1]? = some x := ⟨_, List.getElem?_eq_getElem hka⟩
  obtain ⟨ndk, hck, hdk, hnk⟩ := hv.cell_at hak
  obtain ⟨ndk1, hck1, hdk1, hnk1⟩ := hv.cell_at hak1
  rw [hak1] at hnk
  obtain ⟨ndk', hck', hprev⟩ := (prev_ok_at_iff hak).mp hpk
  rw [hck] at hck'
  have hnn : ndk' = ndk := (Option.some.inj hck').symm
  rw [hnn] at hprev
  have hne : ak ≠ ak1 := by
    intro h
    rw [← h] at hak1
    have := nodup_index_inj hnd hak hak1
    omega
  have hguard : (k : Int) ≥ 0 ∧ (k : Int) < ((l.length : Int) - 1) % 4294967296 := by
    omega
  have hnth : g_list_nth a.heap a.tracks (guint_of_gint (k : Int)) = some (some ak) := by
    rw [guint_of_gint_natCast (by omega), hv.nth k, hak]
  by_cases h0 : k = 0
  · rw [if_pos h0] at hprev
    obtain ⟨a', heq, htr, htop, hdur, hcom, hcell⟩ :=
      level_up_eval_head hv.length hguard hnth hck hnk hck1 hne hprev
    refine ⟨a', heq, hdur, hcom, ?_⟩
    refine hv.swap hak hak1 htop (by rw [htr, if_pos h0]) ?_ ?_ ?_ ?_
    · exact ⟨⟨ndk1.data, some ak, none⟩, by rw [hcell, if_pos rfl], hdk1, rfl⟩
    · exact ⟨⟨ndk.data, ndk1.next, some ak1⟩, by rw [hcell, if_neg hne, if_pos rfl], hdk, hnk1⟩
    · intro x hk0; omega
    · intro i x hx h1 h2 _
      have hx1 : x ≠ ak1 := fun h => h2 (nodup_index_inj hnd hx (h ▸ hak1))
      have hx2 : x ≠ ak := fun h => h1 (nodup_index_inj hnd hx (h ▸ hak))
      rw [hcell, if_neg hx1, if_neg hx2]
  · rw [if_neg h0] at hprev
    obtain ⟨ap, hap⟩ : ∃ x, addrs[k - 1]? = some x :=
      ⟨_, List.getElem?_eq_getElem (by omega : k - 1 < addrs.length)⟩
    rw [hap] at hprev
    obtain ⟨ndp, hcp, hdp, -⟩ := hv.cell_at hap
    have hpk : ap ≠ ak := by
      intro h
      rw [h] at hap
      have := nodup_index_inj hnd hap hak
      omega
    have hpk1 : ap ≠ ak1 := by
      intro h
      rw [h] at hap
      have := nodup_index_inj hnd hap hak1
      omega
    obtain ⟨a', heq, htr, htop, hdur, hcom, hcell⟩ :=
      level_up_eval_inner hv.length hguard hnth hck hnk hck1 hne hprev hcp hpk hpk1
    refine ⟨a', heq, hdur, hcom, ?_⟩
    refine hv.swap hak hak1 htop (by rw [htr, if_neg h0]) ?_ ?_ ?_ ?_
    · exact ⟨⟨ndk1.data, some ak, some ap⟩, by rw [hcell, if_pos rfl], hdk1, rfl⟩
    · exact ⟨⟨ndk.data, ndk1.next, some ak1⟩, by rw [hcell, if_neg hne, if_pos rfl], hdk, hnk1⟩
    · intro x _ hx
      rw [hap] at hx
      have : ap = x := Option.some.inj hx
      subst this
      exact ⟨⟨ndp.data, some ak1, ndp.prev⟩,
        by rw [hcell, if_neg hpk1, if_neg hpk, if_pos rfl], hdp, rfl⟩
    · intro i x hx h1 h2 h3
      have hx1 : x ≠ ak1 := fun h => h2 (nodup_index_inj hnd hx (h ▸ hak1))
      have hx2 : x ≠ ak := fun h => h1 (nodup_index_inj hnd hx (h ▸ hak))
      have hx3 : x ≠ ap := by
        intro h
        have := nodup_index_inj hnd hx (h ▸ hap)
        omega
      rw [hcell, if_neg hx1, if_neg hx2, if_neg hx3]

/-- On a doubly linked list of `n` tracks whose `prev` pointers are all right
and for `0 ≤ k < n - 1`, `level_up (k)` returns `k + 1` and the track list
traversed from its head is the old one with the entries at `k` and `k + 1`
exchanged: it has `n` tracks and every other index holds the same track (title
and frames).  Nothing is said of the `prev` pointers of the result. -/
theorem level_up_swaps_adjacent_tracks (a : CelAnimation) (addrs : List Nat) (l : List Track)
    (hv : IsGList a.heap a.tracks addrs l) (hn : l.length ≤ 2147483647)
    (k : Int) (hk : 0 ≤ k ∧ k < (l.length : Int) - 1) :
    ∃ a' l', animation_cel_animation_level_up a k = some (a', k + 1) ∧
      track_list a' = some l' ∧ l'.length = l.length ∧
      l'[k.toNat]? = l[k.toNat + 1]? ∧ l'[k.toNat + 1]? = l[k.toNat]? ∧
      ∀ i, i ≠ k.toNat → i ≠ k.toNat + 1 → l'[i]? = l[i]? := by
  obtain ⟨m, rfl⟩ : ∃ m : Nat, k = (m : Int) := ⟨k.toNat, by omega⟩
  have hm : m + 1 < l.length := by omega
  obtain ⟨a', heq, -, -, hv'⟩ :=
    level_up_spec hv.1 hm (hv.2 m (by have := hv.1.1; omega)) hn
  refine ⟨a', _, heq, hv'.track_list, swap_at_length _ _, ?_, ?_, ?_⟩
  · rw [swap_at_getElem? hm]; simp
  · rw [swap_at_getElem? hm]; simp
  · intro i h1 h2
    rw [swap_at_getElem? hm]
    simp only [Int.toNat_ofNat] at h1 h2
    simp [h1, h2]

/-- Example on the sample animation: the middle track moves up. -/
theorem level_up_swaps_adjacent_tracks_example :
    ∃ a' l', animation_cel_animation_level_up sample_animation 1 = some (a', 1 + 1) ∧
      track_list a' = some l' ∧ l'.length = sample_tracks.length ∧
      l'[(1 : Int).toNat]? = sample_tracks[(1 : Int).toNat + 1]? ∧
      l'[(1 : Int).toNat + 1]? = sample_tracks[(1 : Int).toNat]? ∧
      ∀ i, i ≠ (1 : Int).toNat → i ≠ (1 : Int).toNat + 1 → l'[i]? = sample_tracks[i]? :=
  level_up_swaps_adjacent_tracks sample_animation [0, 1, 2] sample_tracks (by decide)
    (by decide) 1 (by decide)

/-- C6 (`level_up (k)` exchanges the tracks at `k` and `k + 1`): on four tracks
`A`, `B`, `C`, `D`, `level_up (0)` returns 1 and leaves `B`, `A`, `C`, `D`, but
the node of `C` keeps `B` as its `prev`.  `level_up (2)` on this list returns 3
and writes `next_track` into the `next` of that stale `prev`: the list traversed
from its head is `B`, `D`, `C`, three tracks, and `A` is no longer reached. -/
theorem level_up_twice_loses_track :
    (animation_cel_animation_level_up four_track_animation 0).map (fun r => r.2) = some 1 ∧
    (animation_cel_animation_level_up four_track_animation 0).bind (fun r => track_list r.1) =
      some [{ title := some "B", frames := [[2]] }, { title := some "A", frames := [[1]] },
        { title := some "C", frames := [[3]] }, { title := some "D", frames := [[4]] }] ∧
    (animation_cel_animation_level_up four_track_animation 0).map
        (fun r => (r.1.heap.cell 2).map fun nd => nd.prev) = some (some (some 1)) ∧
    ((animation_cel_animation_level_up four_track_animation 0).bind fun r =>
      animation_cel_animation_level_up r.1 2).map (fun r => r.2) = some 3 ∧
    ((animation_cel_animation_level_up four_track_animation 0).bind fun r =>
      animation_cel_animation_level_up r.1 2).bind (fun r => track_list r.1) =
      some [{ title := some "B", frames := [[2]] }, { title := some "D", frames := [[4]] },
        { title := some "C", frames := [[3]] }] := by
  exact ⟨rfl, rfl, rfl, rfl, rfl⟩

/-! ## `level_delete` -/

theorem g_list_delete_link_eval {h : Heap} (list : Option Nat) {link : Nat} {nd : GListNode}
    (hc : h.cell link = some nd)
    (hp : ∀ p, nd.prev = some p → ∃ pn, h.cell p = some pn ∧ pn.next = some link ∧ p ≠ link)
    (hx : ∀ nx, nd.next = some nx →
      ∃ nn, h.cell nx = some nn ∧ nn.prev = some link ∧ nx ≠ link ∧ nd.prev ≠ some nx) :
    ∃ h', g_list_delete_link h list link =
        some (h', if list = some link then nd.next else list) ∧
      h'.top = h.top ∧
      ∀ x, h'.cell x =
        if x = link then none
        else if nd.prev = some x then (h.cell x).map (fun c => { c with next := nd.next })
        else if nd.next = some x then (h.cell x).map (fun c => { c with prev := nd.prev })
        else h.cell x := by
  unfold g_list_delete_link
  cases hprev : nd.prev with
  | none =>
    cases hnext : nd.next with
    | none =>
      simp only [hc, hprev, hnext, Option.some_bind, Option.map_some', Heap.free]
      refine ⟨_, rfl, rfl, ?_⟩
      intro x
      by_cases h1 : x = link <;> simp [h1, Function.update_apply]
    | some nx =>
      obtain ⟨nn, hcn, hnp, hne, -⟩ := hx nx hnext
      simp only [hc, hnext, hprev, Option.some_bind, hcn, hnp, if_true, Heap.set_prev,
        Option.map_some', Heap.free, Heap.write]
      refine ⟨_, rfl, rfl, ?_⟩
      intro x
      by_cases h1 : x = link
      · simp [h1, Function.update_apply]
      · by_cases h2 : x = nx
        · subst h2
          simp [h1, Function.update_apply, hcn]
        · have : ¬ (nx = x) := fun h => h2 h.symm
          simp [h1, h2, this, Function.update_apply]
  | some p =>
    obtain ⟨pn, hcp, hpn, hpl⟩ := hp p hprev
    cases hnext : nd.next with
    | none =>
      simp only [hc, hnext, hprev, Option.some_bind, hcp, hpn, if_true, Heap.set_next,
        Option.map_some', Heap.free, Heap.write]
      refine ⟨_, rfl, rfl, ?_⟩
      intro x
      by_cases h1 : x = link
      · simp [h1, Function.update_apply]
      · by_cases h2 : x = p
        · subst h2
          simp [h1, Function.update_apply, hcp]
        · have : ¬ (p = x) := fun h => h2 h.symm
          simp [h1, h2, this, Function.update_apply]
    | some nx =>
      obtain ⟨nn, hcn, hnp, hne, hpx⟩ := hx nx hnext
      have hpx' : nx ≠ p := by
        intro h
        apply hpx
        rw [hprev, h]
      simp only [hc, hnext, hprev, Option.some_bind, hcp, hpn, if_true, Heap.set_next,
        Heap.set_prev, Option.map_some', Heap.free, Heap.write, Function.update_apply, hpx',
        if_false, hcn, hnp]
      refine ⟨_, rfl, rfl, ?_⟩
      intro x
      by_cases h1 : x = link
      · simp [h1, Function.update_apply]
      · by_cases h2 : x = p
        · subst h2
          simp [h1, Function.update_apply, hcp, hpx'.symm]
        · have h2' : ¬ (p = x) := fun h => h2 h.symm
          by_cases h3 : x = nx
          · subst h3
            simp [h1, h2, h2', Function.update_apply, hcn]
          · have h3' : ¬ (nx = x) := fun h => h3 h.symm
            simp [h1, h2, h2', h3, h3', Function.update_apply]

theorem prev_ok_at_of_cell {h : Heap} {addrs : List Nat} {i a : Nat}
    (nd : GListNode) (hi : addrs[i]? = some a) (hc : h.cell a = some nd)
    (hp : nd.prev = (if i = 0 then none else addrs[i - 1]?)) : prev_ok_at h addrs i :=
  (prev_ok_at_iff hi).mpr ⟨nd, hc, hp⟩

/-- A store that holds the nodes of a well-formed list except the one at index
`k`, with the pointers of its two neighbours joined, spells the list without
its entry `k`. -/
theorem IsGList.erase {h h' : Heap} {p p' : Option Nat} {addrs : List Nat} {l : List Track}
    (hv : IsGList h p addrs l) {k : Nat} (hk : k < addrs.length)
    (htop : h'.top = h.top) (hp' : p' = if k = 0 then addrs[1]? else p)
    (hcell : ∀ j x, addrs[j]? = some x → j ≠ k →
      ∃ nd, h'.cell x = some nd ∧ l[j]? = some nd.data ∧
        nd.next = (if j + 1 = k then addrs[k + 1]? else addrs[j + 1]?) ∧
        nd.prev = (if j = k + 1 then (if k = 0 then none else addrs[k - 1]?)
          else if j = 0 then none else addrs[j - 1]?)) :
    IsGList h' p' (addrs.eraseIdx k) (l.eraseIdx k) := by
  obtain ⟨⟨hlen, hnd, hmem, hhead, -⟩, -⟩ := hv
  have hkl : k < l.length := by omega
  have hlen' : (addrs.eraseIdx k).length = addrs.length - 1 := by
    rw [List.length_eraseIdx, if_pos hk]
  refine ⟨⟨?_, List.Nodup.eraseIdx k hnd, ?_, ?_, ?_⟩, ?_⟩
  · rw [List.length_eraseIdx, List.length_eraseIdx, if_pos hk, if_pos hkl, hlen]
  · intro x hx
    rw [htop]
    exact hmem x ((List.eraseIdx_sublist addrs k).subset hx)
  · rw [hp', List.getElem?_eraseIdx]
    by_cases h0 : k = 0
    · simp [h0]
    · have : 0 < k := by omega
      simp [h0, this, hhead]
  · intro i hi
    rw [hlen'] at hi
    by_cases hik : i < k
    · obtain ⟨x, hx⟩ : ∃ x, addrs[i]? = some x :=
        ⟨_, List.getElem?_eq_getElem (by omega : i < addrs.length)⟩
      obtain ⟨nd, hc, hd, hn, -⟩ := hcell i x hx (by omega)
      refine fwd_ok_at_of_cell nd ?_ hc ?_ ?_
      · rw [List.getElem?_eraseIdx, if_pos hik]; exact hx
      · rw [List.getElem?_eraseIdx, if_pos hik]; exact hd
      · rw [hn, List.getElem?_eraseIdx]
        by_cases h1 : i + 1 = k
        · rw [if_pos h1, if_neg (by omega), h1]
        · rw [if_neg h1, if_pos (by omega)]
    · obtain ⟨x, hx⟩ : ∃ x, addrs[i + 1]? = some x :=
        ⟨_, List.getElem?_eq_getElem (by omega : i + 1 < addrs.length)⟩
      obtain ⟨nd, hc, hd, hn, -⟩ := hcell (i + 1) x hx (by omega)
      refine fwd_ok_at_of_cell nd ?_ hc ?_ ?_
      · rw [List.getElem?_eraseIdx, if_neg hik]; exact hx
      · rw [List.getElem?_eraseIdx, if_neg hik]; exact hd
      · rw [hn, List.getElem?_eraseIdx, if_neg (by omega), if_neg (by omega)]
  · intro i hi
    rw [hlen'] at hi
    by_cases hik : i < k
    · obtain ⟨x, hx⟩ : ∃ x, addrs[i]? = some x :=
        ⟨_, List.getElem?_eq_getElem (by omega : i < addrs.length)⟩
      obtain ⟨nd, hc, -, -, hpv⟩ := hcell i x hx (by omega)
      refine prev_ok_at_of_cell nd ?_ hc ?_
      · rw [List.getElem?_eraseIdx, if_pos hik]; exact hx
      · rw [hpv, if_neg (by omega), List.getElem?_eraseIdx]
        by_cases h0 : i = 0
        · rw [if_pos h0, if_pos h0]
        · rw [if_neg h0, if_neg h0, if_pos (by omega)]
    · obtain ⟨x, hx⟩ : ∃ x, addrs[i + 1]? = some x :=
        ⟨_, List.getElem?_eq_getElem (by omega : i + 1 < addrs.length)⟩
      obtain ⟨nd, hc, -, -, hpv⟩ := hcell (i + 1) x hx (by omega)
      refine prev_ok_at_of_cell nd ?_ hc ?_
      · rw [List.getElem?_eraseIdx, if_neg hik]; exact hx
      · rw [hpv, List.getElem?_eraseIdx]
        by_cases h1 : i = k
        · subst h1
          rw [if_pos rfl]
          by_cases h0 : i = 0
          · rw [if_pos h0, if_pos h0]
          · rw [if_neg h0, if_neg h0, if_pos (by omega)]
        · rw [if_neg (by omega), if_neg (by omega), if_neg (by omega), if_neg (by omega)]
          congr 1
          omega

theorem IsGList.node_at {h : Heap} {p : Option Nat} {addrs : List Nat} {l : List Track}
    (hv : IsGList h p addrs l) {i a : Nat} (hi : addrs[i]? = some a) :
    ∃ nd, h.cell a = some nd ∧ l[i]? = some nd.data ∧ nd.next = addrs[i + 1]? ∧
      nd.prev = (if i = 0 then none else addrs[i - 1]?) := by
  obtain ⟨nd, hc, hd, hn⟩ := hv.1.cell_at hi
  obtain ⟨nd', hc', hp⟩ := (prev_ok_at_iff hi).mp (hv.2 i (getElem?_some_lt hi))
  rw [hc] at hc'
  have : nd' = nd := (Option.some.inj hc').symm
  rw [this] at hp
  exact ⟨nd, hc, hd, hn, hp⟩

/-- Effect of `level_delete` on a well-formed list of at least two tracks. -/
theorem level_delete_spec {a : CelAnimation} {addrs : List Nat} {l : List Track}
    (hv : IsGList a.heap a.tracks addrs l) {k : Nat} (hk : k < l.length)
    (h1 : 1 < l.length) (hn : l.length ≤ 2147483647) :
    ∃ a', animation_cel_animation_level_delete a (k : Int) = some (a', true) ∧
      a'.duration = a.duration ∧ a'.comments = a.comments ∧
      IsGList a'.heap a'.tracks (addrs.eraseIdx k) (l.eraseIdx k) := by
  have hlen := hv.1.1
  have hnd := hv.1.2.1
  have hka : k < addrs.length := by omega
  obtain ⟨link, hlink⟩ : ∃ x, addrs[k]? = some x := ⟨_, List.getElem?_eq_getElem hka⟩
  obtain ⟨nd, hc, hd, hnx, hpv⟩ := hv.node_at hlink
  have hp : ∀ p, nd.prev = some p →
      ∃ pn, a.heap.cell p = some pn ∧ pn.next = some link ∧ p ≠ link := by
    intro p hpp
    rw [hpv] at hpp
    by_cases h0 : k = 0
    · rw [if_pos h0] at hpp; exact Option.noConfusion hpp
    · rw [if_neg h0] at hpp
      obtain ⟨pn, hcp, -, hpn, -⟩ := hv.node_at hpp
      refine ⟨pn, hcp, ?_, ?_⟩
      · rw [hpn, ← hlink]; congr 1; omega
      · intro h
        rw [h] at hpp
        have := nodup_index_inj hnd hpp hlink
        omega
  have hx : ∀ nx, nd.next = some nx →
      ∃ nn, a.heap.cell nx = some nn ∧ nn.prev = some link ∧ nx ≠ link ∧ nd.prev ≠ some nx := by
    intro nx hnn
    rw [hnx] at hnn
    obtain ⟨nn, hcn, -, -, hnp⟩ := hv.node_at hnn
    refine ⟨nn, hcn, ?_, ?_, ?_⟩
    · rw [hnp, if_neg (by omega), ← hlink]; congr 1
    · intro h
      rw [h] at hnn
      have := nodup_index_inj hnd hnn hlink
      omega
    · rw [hpv]
      by_cases h0 : k = 0
      · rw [if_pos h0]; exact fun h => Option.noConfusion h
      · rw [if_neg h0]
        intro h
        have := nodup_index_inj hnd h hnn
        omega
  obtain ⟨h', hdel, htop, hcell⟩ := g_list_delete_link_eval a.tracks hc hp hx
  have heq : animation_cel_animation_level_delete a (k : Int) =
      some ({ a with heap := h', tracks := if a.tracks = some link then nd.next else a.tracks },
        true) := by
    unfold animation_cel_animation_level_delete
    rw [hv.1.length]
    have hg : ((k : Int) ≥ 0 ∧ (k : Int) < (l.length : Int)) := by omega
    have hg1 : ((l.length : Int) > 1) := by omega
    simp only [hg, and_self, not_true_eq_false, if_false, hg1, if_true]
    rw [guint_of_gint_natCast (by omega), hv.1.nth k, hlink]
    simp only [hdel, Option.map_some']
  refine ⟨_, heq, rfl, rfl, ?_⟩
  refine hv.erase hka htop ?_ ?_
  · show (if a.tracks = some link then nd.next else a.tracks) = _
    rw [hv.1.2.2.2.1]
    by_cases h0 : k = 0
    · subst h0
      rw [if_pos hlink, if_pos rfl, hnx]
    · rw [if_neg h0, if_neg]
      intro h
      have := nodup_index_inj hnd h hlink
      omega
  · intro j x hjx hjk
    obtain ⟨c, hcc, hcd, hcn, hcp⟩ := hv.node_at hjx
    have hxl : x ≠ link := by
      intro h
      rw [h] at hjx
      exact hjk (nodup_index_inj hnd hjx hlink)
    rw [hcell, if_neg hxl, hcc]
    by_cases hj1 : j + 1 = k
    · have hprevx : nd.prev = some x := by
        rw [hpv, if_neg (by omega), ← hjx]; congr 1; omega
      rw [if_pos hprevx]
      refine ⟨_, rfl, hcd, ?_, ?_⟩
      · simp only [hj1, if_true, hnx]
      · simp only [hcp]
        rw [if_neg (show ¬ j = k + 1 by omega)]
    · have hprevx : ¬ nd.prev = some x := by
        rw [hpv]
        by_cases h0 : k = 0
        · rw [if_pos h0]; exact fun h => Option.noConfusion h
        · rw [if_neg h0]
          intro h
          have := nodup_index_inj hnd h hjx
          omega
      rw [if_neg hprevx]
      by_cases hj2 : j = k + 1
      · have hnextx : nd.next = some x := by
          rw [hnx, ← hjx, hj2]
        rw [if_pos hnextx]
        refine ⟨_, rfl, hcd, ?_, ?_⟩
        · simp only [hcn, hj1, if_false]
        · simp only [hj2, if_true, hpv]
      · have hnextx : ¬ nd.next = some x := by
          rw [hnx]
          intro h
          exact hj2 (nodup_index_inj hnd hjx h)
        rw [if_neg hnextx]
        refine ⟨c, rfl, hcd, ?_, ?_⟩
        · rw [hcn, if_neg hj1]
        · rw [hcp, if_neg hj2]

/-- On a doubly linked list of `n` tracks whose `prev` pointers are all right,
`level_delete (k)` returns `TRUE` and leaves the list without its `k`-th track,
the others in the same order, when `0 ≤ k < n` and `n > 1`; otherwise (sole
track, or `k` out of range) it returns `FALSE` and the animation is
unchanged. -/
theorem level_delete_contract (a : CelAnimation) (addrs : List Nat) (l : List Track)
    (hv : IsGList a.heap a.tracks addrs l) (hn : l.length ≤ 2147483647) (k : Int) :
    ∃ a' r, animation_cel_animation_level_delete a k = some (a', r) ∧
      ((0 ≤ k ∧ k < l.length ∧ 1 < l.length) →
        r = true ∧ track_list a' = some (l.eraseIdx k.toNat)) ∧
      (¬ (0 ≤ k ∧ k < l.length ∧ 1 < l.length) →
        r = false ∧ a' = a ∧ track_list a' = some l) := by
  by_cases hg : 0 ≤ k ∧ k < l.length ∧ 1 < l.length
  · obtain ⟨m, rfl⟩ : ∃ m : Nat, k = (m : Int) := ⟨k.toNat, by omega⟩
    obtain ⟨a', heq, -, -, hv'⟩ := level_delete_spec hv (by omega : m < l.length) hg.2.2 hn
    refine ⟨a', true, heq, fun _ => ⟨rfl, ?_⟩, fun h => absurd hg h⟩
    simpa using hv'.1.track_list
  · have heq : animation_cel_animation_level_delete a k = some (a, false) := by
      unfold animation_cel_animation_level_delete
      rw [hv.1.length]
      by_cases h1 : k ≥ 0 ∧ k < (l.length : Int)
      · have h2 : ¬ ((l.length : Int) > 1) := by omega
        simp only [h1, and_self, not_true_eq_false, if_false, h2]
      · simp only [h1, not_false_eq_true, if_true]
    exact ⟨a, false, heq, fun h => absurd h hg, fun _ => ⟨rfl, rfl, hv.1.track_list⟩⟩

/-- Example on the sample animation: the middle track is deleted. -/
theorem level_delete_contract_example :
    ∃ a' r, animation_cel_animation_level_delete sample_animation 1 = some (a', r) ∧
      (((0 : Int) ≤ 1 ∧ (1 : Int) < sample_tracks.length ∧ 1 < sample_tracks.length) →
        r = true ∧ track_list a' = some (sample_tracks.eraseIdx (1 : Int).toNat)) ∧
      (¬ ((0 : Int) ≤ 1 ∧ (1 : Int) < sample_tracks.length ∧ 1 < sample_tracks.length) →
        r = false ∧ a' = sample_animation ∧ track_list a' = some sample_tracks) :=
  level_delete_contract sample_animation [0, 1, 2] sample_tracks (by decide) (by decide) 1

/-- C7 (`level_delete (k)` removes exactly the `k`-th track): on the four tracks
`B`, `A`, `C`, `D` that `level_up (0)` leaves, the node of `C` having `B` as its
`prev`, `level_delete (2)` returns `TRUE`; `g_list_delete_link` finds that `B`
does not point to `C` and leaves it alone, so `A` (node 0) still points to the
node of `C` (node 2), which is released: the list has no defined traversal any
more, where the claim wants `B`, `A`, `D`. -/
theorem level_delete_after_level_up_breaks_list :
    ((animation_cel_animation_level_up four_track_animation 0).bind fun r =>
      animation_cel_animation_level_delete r.1 2).map (fun r => r.2) = some true ∧
    ((animation_cel_animation_level_up four_track_animation 0).bind fun r =>
      animation_cel_animation_level_delete r.1 2).map
        (fun r => (r.1.tracks, (r.1.heap.cell 1).map (fun nd => nd.next),
          (r.1.heap.cell 0).map (fun nd => nd.next), r.1.heap.cell 2, track_list r.1)) =
      some (some 1, some (some 0), some (some 2), none, none) := by
  exact ⟨rfl, rfl⟩

/-! ## Decimal text of integers -/

theorem digit_value_digit_char {d : Nat} (hd : d < 10) : digit_value (digit_char d) = some d := by
  interval_cases d <;> rfl

theorem digit_char_not_space {d : Nat} (hd : d < 10) : g_ascii_isspace (digit_char d) = false := by
  interval_cases d <;> rfl

theorem digit_char_ne_minus {d : Nat} (hd : d < 10) : digit_char d ≠ '-' := by
  interval_cases d <;> decide

theorem digit_char_ne_plus {d : Nat} (hd : d < 10) : digit_char d ≠ '+' := by
  interval_cases d <;> decide

theorem parse_digits_nat_digits_aux :
    ∀ (fuel n : Nat) (acc : List Char), n < 10 ^ fuel →
      parse_digits (nat_digits_aux fuel n acc) 0 = parse_digits acc n := by
  intro fuel
  induction fuel with
  | zero =>
    intro n acc hn
    simp at hn
    subst hn
    rfl
  | succ f ih =>
    intro n acc hn
    unfold nat_digits_aux
    by_cases h10 : n < 10
    · rw [if_pos h10]
      simp only [parse_digits, digit_value_digit_char h10]
      simp
    · rw [if_neg h10]
      have hdiv : n / 10 < 10 ^ f := by
        rw [Nat.div_lt_iff_lt_mul (by norm_num)]
        rw [pow_succ] at hn
        exact hn
      rw [ih (n / 10) _ hdiv]
      simp only [parse_digits, digit_value_digit_char (Nat.mod_lt n (by norm_num : 10 > 0))]
      congr 1
      omega

theorem lt_ten_pow_succ (n : Nat) : n < 10 ^ (n + 1) := by
  have h1 : n < 10 ^ n := Nat.lt_pow_self (by norm_num) n
  have h2 : 10 ^ n ≤ 10 ^ (n + 1) := Nat.pow_le_pow_right (by norm_num) (by omega)
  omega

theorem parse_digits_nat_digits (n : Nat) : parse_digits (nat_digits n) 0 = n := by
  unfold nat_digits
  rw [parse_digits_nat_digits_aux _ _ _ (lt_ten_pow_succ n)]
  rfl

theorem nat_digits_aux_head :
    ∀ (fuel n : Nat) (acc : List Char),
      ∃ d rest, d < 10 ∧ nat_digits_aux (fuel + 1) n acc = digit_char d :: rest := by
  intro fuel
  induction fuel with
  | zero =>
    intro n acc
    unfold nat_digits_aux
    by_cases h10 : n < 10
    · rw [if_pos h10]; exact ⟨n, acc, h10, rfl⟩
    · rw [if_neg h10]
      exact ⟨n % 10, acc, Nat.mod_lt n (by norm_num), rfl⟩
  | succ f ih =>
    intro n acc
    unfold nat_digits_aux
    by_cases h10 : n < 10
    · rw [if_pos h10]; exact ⟨n, acc, h10, rfl⟩
    · rw [if_neg h10]
      exact ih (n / 10) _

theorem nat_digits_head (n : Nat) :
    ∃ d rest, d < 10 ∧ nat_digits n = digit_char d :: rest :=
  nat_digits_aux_head n n []

theorem g_parse_long_long_digits (n : Nat) :
    g_parse_long_long (String.mk (nat_digits n)) = (false, n) := by
  unfold g_parse_long_long
  have hp := parse_digits_nat_digits n
  obtain ⟨d, rest, hd, heq⟩ := nat_digits_head n
  rw [heq] at hp
  simp only [heq, List.dropWhile, digit_char_not_space hd]
  have h1 := digit_char_ne_minus hd
  have h2 := digit_char_ne_plus hd
  split
  · next ds hh => exact absurd (List.cons.inj hh).1 h1
  · next ds hh => exact absurd (List.cons.inj hh).1 h2
  · next ds hh1 hh2 => rw [hp]

theorem g_parse_long_long_minus (n : Nat) :
    g_parse_long_long (String.mk ('-' :: nat_digits n)) = (true, n) := by
  unfold g_parse_long_long
  have hsp : g_ascii_isspace '-' = false := by rfl
  simp only [List.dropWhile, hsp]
  rw [parse_digits_nat_digits]

theorem fmt_d_ne_empty (i : Int) : fmt_d i ≠ "" := by
  unfold fmt_d
  intro h
  have h2 := congrArg String.data h
  simp only at h2
  by_cases hi : i < 0
  · rw [if_pos hi] at h2
    exact List.cons_ne_nil _ _ h2
  · rw [if_neg hi] at h2
    obtain ⟨d, rest, -, heq⟩ := nat_digits_head i.toNat
    rw [heq] at h2
    exact List.cons_ne_nil _ _ h2

theorem strtoll_fmt_d {i : Int} (hi : is_gint i) : to_gint (g_ascii_strtoll (fmt_d i)) = i := by
  unfold is_gint at hi
  unfold g_ascii_strtoll fmt_d to_gint
  by_cases hneg : i < 0
  · rw [if_pos hneg, g_parse_long_long_minus]
    simp only [if_true]
    have : ¬ ((-i).toNat > 9223372036854775808) := by omega
    rw [if_neg this]
    omega
  · rw [if_neg hneg, g_parse_long_long_digits]
    simp only [Bool.false_eq_true, if_false]
    have : ¬ (i.toNat > 9223372036854775807) := by omega
    rw [if_neg this]
    omega

theorem strtoull_fmt_d {i : Int} (hi : is_gint i) : to_gint (g_ascii_strtoull (fmt_d i)) = i := by
  unfold is_gint at hi
  unfold g_ascii_strtoull fmt_d to_gint
  by_cases hneg : i < 0
  · rw [if_pos hneg, g_parse_long_long_minus]
    simp only [if_true]
    have : ¬ ((-i).toNat > 18446744073709551615) := by omega
    rw [if_neg this]
    omega
  · rw [if_neg hneg, g_parse_long_long_digits]
    simp only [Bool.false_eq_true, if_false]
    have : ¬ (i.toNat > 18446744073709551615) := by omega
    rw [if_neg this]
    omega

/-! ## Frames written and read back -/

theorem append_tattoo_all (fp limit x : Int) :
    ∀ (R : List (List Int)) (i : Int), fp ≤ i → i + R.length = limit →
      append_tattoo fp limit x i R = R.map (· ++ [x]) := by
  intro R
  induction R with
  | nil => intro i _ _; rfl
  | cons r rs ih =>
    intro i hi hlen
    simp only [List.length_cons, Nat.cast_add, Nat.cast_one] at hlen
    unfold append_tattoo
    rw [if_pos (by omega), if_pos (by omega), ih (i + 1) (by omega) (by omega)]
    rfl

theorem append_tattoo_skip (fp limit x : Int) (R : List (List Int)) (hfl : fp ≤ limit)
    (hR : fp + R.length = limit) :
    ∀ (Q : List (List Int)) (i : Int), i + Q.length = fp →
      append_tattoo fp limit x i (Q ++ R) = Q ++ R.map (· ++ [x]) := by
  intro Q
  induction Q with
  | nil =>
    intro i hi
    simp only [List.length_nil, Nat.cast_zero, add_zero] at hi
    simp only [List.nil_append]
    exact append_tattoo_all fp limit x R i (by omega) (by omega)
  | cons q qs ih =>
    intro i hi
    simp only [List.length_cons, Nat.cast_add, Nat.cast_one] at hi
    simp only [List.cons_append]
    unfold append_tattoo
    rw [if_pos (by omega), if_neg (by omega), ih (i + 1) (by omega)]

theorem layer_frames_first (D : List (List Int)) (p d : Nat) (x : Int) (hD : D.length ≤ p)
    (hd : 0 < d) :
    layer_frames D (p : Int) (d : Int) x = frames_with_run D p d [x] := by
  unfold layer_frames frames_with_run
  have hlt : ((D.length : Int) < (p : Int) + (d : Int)) := by omega
  simp only [hlt, if_true]
  rw [glist_grow_eq]
  have h1 : ((p : Int) + (d : Int) - 1 + 1 - (D.length : Int)).toNat = (p - D.length) + d := by
    omega
  rw [h1, List.replicate_add, ← List.append_assoc]
  rw [append_tattoo_skip (p : Int) ((p : Int) + (d : Int)) x _ (by omega) (by simp) _ 0
    (by simp; omega)]
  simp

theorem layer_frames_next (Q : List (List Int)) (p d : Nat) (M : List Int) (x : Int)
    (hQ : Q.length = p) :
    layer_frames (Q ++ List.replicate d M) (p : Int) (d : Int) x =
      Q ++ List.replicate d (M ++ [x]) := by
  unfold layer_frames
  have hlt : ¬ (((Q ++ List.replicate d M).length : Int) < (p : Int) + (d : Int)) := by
    simp; omega
  simp only [hlt, if_false]
  rw [append_tattoo_skip (p : Int) ((p : Int) + (d : Int)) x _ (by omega) (by simp) _ 0
    (by simp; omega)]
  simp

theorem layer_frames_fold (Q : List (List Int)) (p d : Nat) (hQ : Q.length = p) :
    ∀ (xs M : List Int),
      xs.foldl (fun F x => layer_frames F (p : Int) (d : Int) x) (Q ++ List.replicate d M) =
        Q ++ List.replicate d (M ++ xs) := by
  intro xs
  induction xs with
  | nil => intro M; simp
  | cons x xs ih =>
    intro M
    simp only [List.foldl_cons]
    rw [layer_frames_next Q p d M x hQ, ih (M ++ [x])]
    simp

/-- The layers of a `<frame>` element, read one `<layer>` after the other, fill
the run of the element. -/
theorem layer_frames_run (D : List (List Int)) (p d : Nat) (L : List Int) (hD : D.length ≤ p)
    (hd : 0 < d) (hL : L ≠ []) :
    L.foldl (fun F x => layer_frames F (p : Int) (d : Int) x) D = frames_with_run D p d L := by
  cases L with
  | nil => exact absurd rfl hL
  | cons x xs =>
    simp only [List.foldl_cons]
    rw [layer_frames_first D p d x hD hd]
    unfold frames_with_run
    rw [layer_frames_fold _ p d (by simp; omega) xs [x]]
    simp

theorem layers_identical_iff :
    ∀ (L N : List Int), L.length = N.length → (layers_identical L N = true ↔ L = N) := by
  intro L
  induction L with
  | nil =>
    intro N hlen
    cases N with
    | nil => simp [layers_identical]
    | cons y ys => simp at hlen
  | cons x xs ih =>
    intro N hlen
    cases N with
    | nil => simp at hlen
    | cons y ys =>
      simp only [List.length_cons, add_left_inj] at hlen
      unfold layers_identical
      by_cases hxy : x = y
      · subst hxy
        simp [ih ys hlen]
      · simp [hxy]

theorem next_identical_iff (L : List Int) (rest : List (List Int)) (hL : L ≠ []) :
    next_identical L rest = true ↔ ∃ rest', rest = L :: rest' := by
  cases rest with
  | nil => simp [next_identical]
  | cons next rest' =>
    simp only [next_identical, List.cons.injEq, exists_and_left, exists_eq', and_true]
    by_cases hc : next ≠ [] ∧ L.length = next.length
    · rw [if_pos hc, layers_identical_iff L next hc.2]
      exact eq_comm
    · rw [if_neg hc]
      simp only [Bool.false_eq_true, false_iff]
      intro h
      subst h
      exact hc ⟨hL, rfl⟩

theorem drop_trailing_empty_append_replicate (D : List (List Int)) (k : Nat) :
    drop_trailing_empty (D ++ List.replicate k []) = drop_trailing_empty D := by
  unfold drop_trailing_empty
  rw [List.reverse_append, List.reverse_replicate]
  congr 1
  induction k with
  | zero => simp
  | succ k ih =>
    rw [List.replicate_succ, List.cons_append, List.dropWhile_cons]
    simp [ih]

theorem drop_trailing_empty_append_nonempty (X : List (List Int)) {L : List Int} (hL : L ≠ []) :
    drop_trailing_empty (X ++ [L]) = X ++ [L] := by
  unfold drop_trailing_empty
  rw [List.reverse_append]
  simp [List.dropWhile_cons, hL]

theorem frames_with_run_fixed (D : List (List Int)) (p d : Nat) {L : List Int} (hL : L ≠ []) :
    drop_trailing_empty (frames_with_run D p (d + 1) L) = frames_with_run D p (d + 1) L := by
  unfold frames_with_run
  rw [List.replicate_succ', ← List.append_assoc]
  exact drop_trailing_empty_append_nonempty _ hL

/-- What is read back from the frame elements of a list of frames, with the
counters of the loop at `pos` and `dur`. -/
theorem read_back_frames_eq :
    ∀ (F : List (List Int)) (pos dur : Nat) (D : List (List Int)),
      D.length + dur + 1 ≤ pos → drop_trailing_empty D = D →
      (0 < dur → ∃ L rest, F = L :: rest ∧ L ≠ []) →
      read_back_frames F (pos : Int) (dur : Int) D =
        drop_trailing_empty (D ++ List.replicate (pos - 1 - dur - D.length) [] ++
          List.replicate dur (F.headD []) ++ F) := by
  intro F
  induction F with
  | nil =>
    intro pos dur D h1 h2 h3
    have hdur : dur = 0 := by
      by_contra hne
      obtain ⟨L, rest, hF, -⟩ := h3 (by omega)
      exact List.noConfusion hF
    subst hdur
    simp only [read_back_frames, List.replicate_zero, List.append_nil]
    rw [drop_trailing_empty_append_replicate, h2]
  | cons L rest ih =>
    intro pos dur D h1 h2 h3
    unfold read_back_frames
    by_cases hL : L = []
    · have hdur : dur = 0 := by
        by_contra hne
        obtain ⟨L', rest', hF, hne'⟩ := h3 (by omega)
        rw [(List.cons.inj hF).1] at hL
        exact hne' hL
      subst hdur hL
      simp only [ne_eq, not_true_eq_false, if_false]
      have := ih (pos + 1) 0 D (by omega) h2 (fun h => absurd h (by omega))
      rw [Nat.cast_add, Nat.cast_one, Nat.cast_zero] at this
      simp only [Nat.cast_zero]
      rw [this]
      congr 1
      simp only [List.replicate_zero, List.append_nil, List.headD_cons]
      have hk : pos + 1 - 1 - 0 - D.length = (pos - 1 - 0 - D.length) + 1 := by omega
      rw [hk, List.replicate_succ']
      simp
    · simp only [ne_eq, hL, not_false_eq_true, if_true]
      by_cases hid : next_identical L rest = true
      · -- the run goes on: the next slot holds the same layers
        have hrest : ∃ rest', rest = L :: rest' := (next_identical_iff L rest hL).mp hid
        obtain ⟨rest', hrest'⟩ := hrest
        rw [if_neg (not_not.mpr hid)]
        have := ih (pos + 1) (dur + 1) D (by omega) h2
          (fun _ => ⟨L, rest', hrest', hL⟩)
        rw [Nat.cast_add, Nat.cast_one, Nat.cast_add, Nat.cast_one] at this
        rw [this]
        congr 1
        subst hrest'
        simp only [List.headD_cons]
        have hk : pos + 1 - 1 - (dur + 1) - D.length = pos - 1 - dur - D.length := by omega
        rw [hk, List.replicate_succ']
        simp
      · -- the run ends here
        rw [if_pos hid]
        have e1 : ((pos : Int) - ((dur : Int) + 1)).toNat = pos - (dur + 1) := by omega
        have e2 : ((dur : Int) + 1).toNat = dur + 1 := by omega
        rw [e1, e2]
        have hlen : (frames_with_run D (pos - (dur + 1)) (dur + 1) L).length = pos := by
          unfold frames_with_run
          simp
          omega
        have := ih (pos + 1) 0 (frames_with_run D (pos - (dur + 1)) (dur + 1) L)
          (by omega) (frames_with_run_fixed D _ dur hL) (fun h => absurd h (by omega))
        rw [Nat.cast_add, Nat.cast_one, Nat.cast_zero] at this
        rw [this]
        congr 1
        rw [hlen]
        have hk : pos + 1 - 1 - 0 - pos = 0 := by omega
        rw [hk]
        unfold frames_with_run
        simp only [List.replicate_zero, List.append_nil, List.headD_cons]
        have hk2 : pos - (dur + 1) - D.length = pos - 1 - dur - D.length := by omega
        rw [hk2, List.replicate_succ']
        simp

theorem read_back_frames_all (F : List (List Int)) :
    read_back_frames F 1 0 [] = drop_trailing_empty F := by
  have := read_back_frames_eq F 1 0 [] (by simp) (by rfl) (fun h => absurd h (by omega))
  simpa using this

/-! ## `g_list_prepend` and `g_list_reverse` on a well-formed list -/

theorem IsGList.head_eq {h : Heap} {p : Option Nat} {addrs : List Nat} {l : List Track}
    (hv : IsGList h p addrs l) : p = addrs[0]? := hv.1.2.2.2.1

theorem IsGList.lt_top {h : Heap} {p : Option Nat} {addrs : List Nat} {l : List Track}
    (hv : IsGList h p addrs l) {i a : Nat} (hi : addrs[i]? = some a) : a < h.top :=
  hv.1.2.2.1 a (List.mem_iff_getElem?.mpr ⟨i, hi⟩)

theorem g_list_prepend_spec {h : Heap} {p : Option Nat} {addrs : List Nat} {l : List Track}
    (hv : IsGList h p addrs l) (t : Track) :
    ∃ h', g_list_prepend h p t = some (h', some h.top) ∧ h'.top = h.top + 1 ∧
      IsGList h' (some h.top) (h.top :: addrs) (t :: l) := by
  have hlen := hv.1.1
  have hnd := hv.1.2.1
  have hmem := hv.1.2.2.1
  have hfresh : h.top ∉ addrs := fun hin => by have := hmem _ hin; omega
  cases addrs with
  | nil =>
    have hl : l = [] := List.length_eq_zero.mp (by simpa using hlen.symm)
    subst hl
    have hp : p = none := hv.head_eq
    subst hp
    refine ⟨_, rfl, rfl, ⟨⟨rfl, by simp, ?_, rfl, ?_⟩, ?_⟩⟩
    · intro a ha
      simp only [List.mem_singleton] at ha
      subst ha
      simp [Heap.alloc]
    · intro i hi
      simp only [List.length_singleton, Nat.lt_one_iff] at hi
      subst hi
      exact @fwd_ok_at_of_cell _ _ _ _ h.top ⟨t, none, none⟩ (by simp) (by simp [Heap.alloc])
        (by simp) (by simp)
    · intro i hi
      simp only [List.length_singleton, Nat.lt_one_iff] at hi
      subst hi
      exact @prev_ok_at_of_cell _ _ _ h.top ⟨t, none, none⟩ (by simp) (by simp [Heap.alloc])
        (by simp)
  | cons a as =>
    have hp : p = some a := by rw [hv.head_eq]; simp
    subst hp
    have ha0 : (a :: as)[0]? = some a := by simp
    obtain ⟨nd, hc, hd, hn, hpv⟩ := hv.node_at ha0
    simp only [if_true] at hpv
    have hat : a < h.top := hv.lt_top ha0
    have hne : a ≠ h.top := by omega
    have heq : g_list_prepend h (some a) t =
        some ({ cell := Function.update (Function.update h.cell h.top
                  (some ⟨t, some a, none⟩)) a (some { nd with prev := some h.top }),
                top := h.top + 1 }, some h.top) := by
      unfold g_list_prepend
      simp only [hc, hpv, Heap.alloc, Heap.set_prev, Heap.write, Function.update_apply, hne,
        if_false, Option.map_some']
    refine ⟨_, heq, rfl, ⟨⟨?_, ?_, ?_, rfl, ?_⟩, ?_⟩⟩
    · simp only [List.length_cons] at hlen ⊢
      omega
    · exact List.nodup_cons.mpr ⟨hfresh, hnd⟩
    · intro x hx
      rcases List.mem_cons.mp hx with hx | hx
      · subst hx; simp
      · have := hmem x hx
        simp only
        omega
    · intro i hi
      cases i with
      | zero =>
        refine @fwd_ok_at_of_cell _ _ _ _ h.top ⟨t, some a, none⟩ (by simp) ?_ (by simp) (by simp)
        simp [Function.update_apply, hne.symm]
      | succ j =>
        obtain ⟨x, hx⟩ : ∃ x, (a :: as)[j]? = some x :=
          ⟨_, List.getElem?_eq_getElem (by simpa using hi)⟩
        obtain ⟨ndx, hcx, hdx, hnx, -⟩ := hv.node_at hx
        have hxt : x ≠ h.top := by have := hv.lt_top hx; omega
        by_cases hxa : x = a
        · subst hxa
          rw [hc] at hcx
          have hnn : nd = ndx := Option.some.inj hcx
          subst hnn
          refine @fwd_ok_at_of_cell _ _ _ _ x { nd with prev := some h.top } ?_ ?_ ?_ ?_
          · simpa using hx
          · simp [Function.update_apply]
          · simpa using hdx
          · simpa using hnx
        · refine @fwd_ok_at_of_cell _ _ _ _ x ndx ?_ ?_ ?_ ?_
          · simpa using hx
          · simp [Function.update_apply, hxa, hxt, hcx]
          · simpa using hdx
          · simpa using hnx
    · intro i hi
      cases i with
      | zero =>
        refine @prev_ok_at_of_cell _ _ _ h.top ⟨t, some a, none⟩ (by simp) ?_ (by simp)
        simp [Function.update_apply, hne.symm]
      | succ j =>
        obtain ⟨x, hx⟩ : ∃ x, (a :: as)[j]? = some x :=
          ⟨_, List.getElem?_eq_getElem (by simpa using hi)⟩
        obtain ⟨ndx, hcx, -, -, hpx⟩ := hv.node_at hx
        have hxt : x ≠ h.top := by have := hv.lt_top hx; omega
        by_cases hj : j = 0
        · subst hj
          have hxa : x = a := by simpa using hx.symm
          subst hxa
          refine @prev_ok_at_of_cell _ _ _ x { nd with prev := some h.top } ?_ ?_ ?_
          · simp
          · simp [Function.update_apply]
          · simp
        · have hxa : x ≠ a := by
            intro hxa
            rw [hxa] at hx
            exact hj (nodup_index_inj hnd hx ha0)
          refine @prev_ok_at_of_cell _ _ _ x ndx ?_ ?_ ?_
          · simpa using hx
          · simp [Function.update_apply, hxa, hxt, hcx]
          · rw [hpx, if_neg hj]
            simp only [Nat.add_sub_cancel, Nat.succ_ne_zero, if_false]
            obtain ⟨j', rfl⟩ : ∃ j', j = j' + 1 := ⟨j - 1, by omega⟩
            simp

/-- The nodes of `addrs` below index `m` have their two pointers exchanged in
`hm`, the others are as in `h`. -/
theorem g_list_reverse_aux_spec {h : Heap} {p : Option Nat} {addrs : List Nat} {l : List Track}
    (hv : IsGList h p addrs l) :
    ∀ (k m : Nat) (hm : Heap) (fuel : Nat) (last : Option Nat),
      m + k = addrs.length → k ≤ fuel → hm.top = h.top →
      (last = if m = 0 then none else addrs[m - 1]?) →
      (∀ (i x : Nat), addrs[i]? = some x → i < m →
        hm.cell x = (h.cell x).map fun nd => { nd with next := nd.prev, prev := nd.next }) →
      (∀ (i x : Nat), addrs[i]? = some x → m ≤ i → hm.cell x = h.cell x) →
      ∃ h', g_list_reverse_aux hm fuel addrs[m]? last = some (h', addrs.getLast?) ∧
        h'.top = h.top ∧
        ∀ (i x : Nat), addrs[i]? = some x →
          h'.cell x = (h.cell x).map fun nd => { nd with next := nd.prev, prev := nd.next } := by
  intro k
  induction k with
  | zero =>
    intro m hm fuel last hmk _ htop hlast hlow _
    have hmn : m = addrs.length := by omega
    rw [List.getElem?_eq_none (by omega : addrs.length ≤ m)]
    refine ⟨hm, ?_, htop, ?_⟩
    · have : g_list_reverse_aux hm fuel none last = some (hm, last) := by
        cases fuel <;> rfl
      rw [this, hlast]
      congr 2
      by_cases h0 : m = 0
      · rw [if_pos h0]
        have : addrs = [] := List.length_eq_zero.mp (by omega)
        rw [this]; rfl
      · rw [if_neg h0, List.getLast?_eq_getElem?, hmn]
    · intro i x hx
      exact hlow i x hx (by have := getElem?_some_lt hx; omega)
  | succ k ih =>
    intro m hm fuel last hmk hfuel htop hlast hlow hhigh
    have hmlt : m < addrs.length := by omega
    obtain ⟨a, ha⟩ : ∃ a, addrs[m]? = some a := ⟨_, List.getElem?_eq_getElem hmlt⟩
    obtain ⟨nd, hc, -, hn, -⟩ := hv.node_at ha
    obtain ⟨f, rfl⟩ : ∃ f, fuel = f + 1 := ⟨fuel - 1, by omega⟩
    rw [ha]
    have hcm : hm.cell a = some nd := by rw [hhigh m a ha (le_refl m), hc]
    simp only [g_list_reverse_aux, hcm, hn]
    have := ih (m + 1) (hm.write a { nd with next := nd.prev, prev := addrs[m + 1]? }) f (some a)
      (by omega) (by omega) htop (by simp [ha]) ?_ ?_
    · exact this
    · intro i x hx hi
      by_cases him : i = m
      · subst him
        rw [ha] at hx
        have : a = x := Option.some.inj hx
        subst this
        simp [Heap.write, hc, hn]
      · have hxa : x ≠ a := fun hxa => him (nodup_index_inj hv.1.2.1 hx (hxa ▸ ha))
        simp only [Heap.write, Function.update_apply, hxa, if_false]
        exact hlow i x hx (by omega)
    · intro i x hx hi
      have hxa : x ≠ a := by
        intro hxa
        have := nodup_index_inj hv.1.2.1 hx (hxa ▸ ha)
        omega
      simp only [Heap.write, Function.update_apply, hxa, if_false]
      exact hhigh i x hx (by omega)

theorem g_list_reverse_spec {h : Heap} {p : Option Nat} {addrs : List Nat} {l : List Track}
    (hv : IsGList h p addrs l) :
    ∃ h', g_list_reverse h p = some (h', addrs.getLast?) ∧ h'.top = h.top ∧
      IsGList h' addrs.getLast? addrs.reverse l.reverse := by
  have hlen := hv.1.1
  obtain ⟨h', heq, htop, hcell⟩ := g_list_reverse_aux_spec hv addrs.length 0 h (h.top + 1) none
    (by omega) (by have := hv.1.length_le_top; omega) rfl rfl
    (fun i x _ hi => absurd hi (by omega)) (fun _ _ _ _ => rfl)
  refine ⟨h', ?_, htop, ⟨⟨?_, ?_, ?_, ?_, ?_⟩, ?_⟩⟩
  · unfold g_list_reverse
    rw [hv.head_eq]
    exact heq
  · simp [hlen]
  · exact List.nodup_reverse.mpr hv.1.2.1
  · intro a ha
    rw [htop]
    exact hv.1.2.2.1 a (List.mem_reverse.mp ha)
  · rw [List.getLast?_eq_getElem?]
    by_cases h0 : addrs.length = 0
    · have : addrs = [] := List.length_eq_zero.mp h0
      rw [this]; rfl
    · rw [List.getElem?_reverse (by omega)]
      congr 1
  · intro i hi
    rw [List.length_reverse] at hi
    have hi' : addrs.length - 1 - i < addrs.length := by omega
    obtain ⟨x, hx⟩ : ∃ x, addrs[addrs.length - 1 - i]? = some x :=
      ⟨_, List.getElem?_eq_getElem hi'⟩
    obtain ⟨nd, hc, hd, -, hpv⟩ := hv.node_at hx
    refine @fwd_ok_at_of_cell _ _ _ _ x { nd with next := nd.prev, prev := nd.next } ?_ ?_ ?_ ?_
    · rw [List.getElem?_reverse hi]; exact hx
    · rw [hcell _ x hx, hc]; rfl
    · rw [List.getElem?_reverse (by omega), ← hlen]; exact hd
    · simp only [hpv]
      by_cases h0 : addrs.length - 1 - i = 0
      · rw [if_pos h0, List.getElem?_eq_none]
        rw [List.length_reverse]; omega
      · rw [if_neg h0, List.getElem?_reverse (by omega)]
        congr 1
  · intro i hi
    rw [List.length_reverse] at hi
    have hi' : addrs.length - 1 - i < addrs.length := by omega
    obtain ⟨x, hx⟩ : ∃ x, addrs[addrs.length - 1 - i]? = some x :=
      ⟨_, List.getElem?_eq_getElem hi'⟩
    obtain ⟨nd, hc, -, hn, -⟩ := hv.node_at hx
    refine @prev_ok_at_of_cell _ _ _ x { nd with next := nd.prev, prev := nd.next } ?_ ?_ ?_
    · rw [List.getElem?_reverse hi]; exact hx
    · rw [hcell _ x hx, hc]; rfl
    · simp only [hn]
      by_cases h0 : i = 0
      · rw [if_pos h0, List.getElem?_eq_none]
        omega
      · rw [if_neg h0, List.getElem?_reverse (by omega)]
        congr 1
        omega

/-! ## Reading a document piece by piece -/

theorem parse_of_error (c : MarkupContext) (hc : c.error = true) (evs : List XmlEvent) :
    g_markup_parse_context_parse c evs = some c := by
  cases evs with
  | nil => rfl
  | cons ev rest => simp [g_markup_parse_context_parse, hc]

theorem parse_append :
    ∀ (e1 e2 : List XmlEvent) (c : MarkupContext),
      g_markup_parse_context_parse c (e1 ++ e2) =
        (g_markup_parse_context_parse c e1).bind fun c1 => g_markup_parse_context_parse c1 e2 := by
  intro e1
  induction e1 with
  | nil => intro e2 c; rfl
  | cons ev rest ih =>
    intro e2 c
    by_cases herr : c.error = true
    · rw [parse_of_error c herr, parse_of_error c herr]
      simp [parse_of_error c herr]
    · simp only [List.cons_append, g_markup_parse_context_parse, herr, Bool.false_eq_true,
        if_false]
      cases ev with
      | start_element name attrs =>
        simp only
        cases animation_cel_animation_start_element c.animation c.status name attrs with
        | none => rfl
        | some r => simp only [Option.some_bind]; exact ih e2 _
      | end_element name =>
        simp only
        cases c.open_elements with
        | nil => simp [parse_of_error]
        | cons top below =>
          simp only
          by_cases ht : top ≠ name
          · simp [ht, parse_of_error]
          · simp only [ht, if_false]; exact ih e2 _
      | text content =>
        simp only
        cases c.open_elements with
        | nil =>
          simp only
          by_cases hs : content.data.all g_ascii_isspace = true
          · simp only [hs, if_true]; exact ih e2 _
          · simp [hs, parse_of_error]
        | cons top below => simp only; exact ih e2 _

theorem g_list_nth_null (h : Heap) (n : Nat) : g_list_nth h none n = some none := by
  cases n <;> rfl

/-- `set_duration` on an animation without tracks and comments only stores the
duration. -/
theorem set_duration_fresh (b : CelAnimation) (d : Int) (ht : b.tracks = none)
    (hc : b.comments = []) :
    animation_cel_animation_set_duration b d = some { b with duration := d } := by
  unfold animation_cel_animation_set_duration
  by_cases hlt : d < b.duration
  · have h1 : set_duration_free_tracks b.heap b.tracks d = some b.heap := by
      unfold set_duration_free_tracks
      rw [ht, g_list_nth_null]
    have h2 : glist_cut b.comments (guint_of_gint d) = some [] := by
      rw [hc]; simp [glist_cut]
    have h3 : set_duration_cut_frames d (b.heap.top + 1) b.heap b.tracks = some b.heap := by
      rw [ht]; rfl
    have hne : d ≠ b.duration := by omega
    simp only [hlt, if_true, h1, h2, h3, Option.some_bind, Option.map_some', ne_eq, hne,
      not_false_eq_true]
    rw [← hc]
  · by_cases hne : d = b.duration
    · subst hne
      simp
    · simp only [hlt, if_false, Option.map_some', ne_eq, hne, not_false_eq_true, if_true]

theorem parse_layer_element (c : MarkupContext) (a : Nat) (nd : GListNode)
    (D : List (List Int)) (fp fd x : Int) (rest : List XmlEvent)
    (herr : c.error = false) (htrack : c.status.track = some a) (hseen : c.seen_element = true)
    (hx : is_gint x) :
    g_markup_parse_context_parse (sequence_context c a nd D .FRAME_STATE fp fd)
        (XmlEvent.start_element "layer" [("id", fmt_d x)] :: XmlEvent.end_element "layer" :: rest) =
      g_markup_parse_context_parse
        (sequence_context c a nd (layer_frames D fp fd x) .FRAME_STATE fp fd) rest := by
  simp only [g_markup_parse_context_parse, sequence_context, herr, Bool.false_eq_true, if_false,
    animation_cel_animation_start_element, layer_attributes, fmt_d_ne_empty, ne_eq,
    not_false_eq_true, and_self, if_true, htrack, Heap.write, Function.update_same,
    Option.some_bind, Heap.set_data, Option.map_some', strtoll_fmt_d hx, Function.update_idem,
    not_true_eq_false, animation_cel_animation_end_element, hseen]

theorem parse_layers (c : MarkupContext) (a : Nat) (nd : GListNode) (fp fd : Int)
    (herr : c.error = false) (htrack : c.status.track = some a) (hseen : c.seen_element = true) :
    ∀ (L : List Int) (D : List (List Int)) (rest : List XmlEvent), (∀ x ∈ L, is_gint x) →
      g_markup_parse_context_parse (sequence_context c a nd D .FRAME_STATE fp fd)
          (serialize_layers L ++ rest) =
        g_markup_parse_context_parse
          (sequence_context c a nd (L.foldl (fun F x => layer_frames F fp fd x) D)
            .FRAME_STATE fp fd) rest := by
  intro L
  induction L with
  | nil => intro D rest _; rfl
  | cons x xs ih =>
    intro D rest hL
    simp only [serialize_layers, List.cons_append, List.foldl_cons]
    rw [parse_layer_element c a nd D fp fd x _ herr htrack hseen (hL x (List.mem_cons_self x xs))]
    exact ih _ rest (fun y hy => hL y (List.mem_cons_of_mem x hy))

theorem frame_attributes_eq {p d : Int} (hp : 0 ≤ p) (hpg : is_gint p) (hd : 0 < d)
    (hdg : is_gint d) :
    frame_attributes (-1) (-1) [("position", fmt_d p), ("duration", fmt_d d)] = (p, d) := by
  simp [frame_attributes, fmt_d_ne_empty, strtoll_fmt_d hpg, strtoll_fmt_d hdg, hp, hd]

theorem parse_frame_element (c : MarkupContext) (a : Nat) (nd : GListNode)
    (D : List (List Int)) (fp0 fd0 : Int) (p d : Nat) (L : List Int) (rest : List XmlEvent)
    (herr : c.error = false) (htrack : c.status.track = some a) (hseen : c.seen_element = true)
    (hL : ∀ x ∈ L, is_gint x) (hne : L ≠ []) (hD : D.length ≤ p) (hd : 0 < d)
    (hpg : p ≤ 2147483647) (hdg : d ≤ 2147483647) :
    g_markup_parse_context_parse (sequence_context c a nd D .SEQUENCE_STATE fp0 fd0)
        (XmlEvent.start_element "frame" [("position", fmt_d p), ("duration", fmt_d d)] ::
          (serialize_layers L ++ XmlEvent.end_element "frame" :: rest)) =
      g_markup_parse_context_parse
        (sequence_context c a nd (frames_with_run D p d L) .SEQUENCE_STATE p d) rest := by
  have hfa := frame_attributes_eq (p := (p : Int)) (d := (d : Int)) (by omega)
    (by unfold is_gint; omega) (by omega) (by unfold is_gint; omega)
  have h1 : g_markup_parse_context_parse (sequence_context c a nd D .SEQUENCE_STATE fp0 fd0)
        (XmlEvent.start_element "frame" [("position", fmt_d p), ("duration", fmt_d d)] ::
          (serialize_layers L ++ XmlEvent.end_element "frame" :: rest)) =
      g_markup_parse_context_parse
        (sequence_context { c with open_elements := "frame" :: c.open_elements } a nd D
          .FRAME_STATE p d) (serialize_layers L ++ XmlEvent.end_element "frame" :: rest) := by
    have hneq : ¬ ((p : Int) = -1 ∨ (d : Int) = -1) := by omega
    simp only [g_markup_parse_context_parse, sequence_context, herr, Bool.false_eq_true,
      if_false, animation_cel_animation_start_element, ne_eq, not_true_eq_false, hfa,
      Option.some_bind, hneq, decide_False, hseen]
  rw [h1, parse_layers { c with open_elements := "frame" :: c.open_elements } a nd (p : Int)
    (d : Int) herr htrack hseen L D _ hL, layer_frames_run D p d L hD hd hne]
  simp only [g_markup_parse_context_parse, sequence_context, herr, Bool.false_eq_true, if_false,
    ne_eq, not_true_eq_false, animation_cel_animation_end_element]

theorem frames_with_run_length (D : List (List Int)) (p d : Nat) (L : List Int)
    (hD : D.length ≤ p) : (frames_with_run D p d L).length = p + d := by
  unfold frames_with_run
  simp
  omega

theorem parse_frames (c : MarkupContext) (a : Nat) (nd : GListNode)
    (herr : c.error = false) (htrack : c.status.track = some a) (hseen : c.seen_element = true) :
    ∀ (F : List (List Int)) (pos dur : Nat) (D : List (List Int)) (fp fd : Int),
      (∀ L ∈ F, ∀ x ∈ L, is_gint x) → D.length + dur + 1 ≤ pos →
      pos + F.length ≤ 2147483647 →
      ∃ fp' fd', ∀ rest : List XmlEvent,
        g_markup_parse_context_parse (sequence_context c a nd D .SEQUENCE_STATE fp fd)
            (serialize_frames F (pos : Int) (dur : Int) ++ rest) =
          g_markup_parse_context_parse
            (sequence_context c a nd (read_back_frames F (pos : Int) (dur : Int) D)
              .SEQUENCE_STATE fp' fd') rest := by
  intro F
  induction F with
  | nil =>
    intro pos dur D fp fd _ _ _
    exact ⟨fp, fd, fun _ => rfl⟩
  | cons L more ih =>
    intro pos dur D fp fd hF hinv hbound
    have hmore : ∀ L' ∈ more, ∀ x ∈ L', is_gint x :=
      fun L' hL' => hF L' (List.mem_cons_of_mem L hL')
    simp only [List.length_cons] at hbound
    unfold serialize_frames read_back_frames
    by_cases hL : L = []
    · simp only [hL, ne_eq, not_true_eq_false, if_false]
      have := ih (pos + 1) dur D fp fd hmore (by omega) (by omega)
      rw [Nat.cast_add, Nat.cast_one] at this
      exact this
    · simp only [ne_eq, hL, not_false_eq_true, if_true]
      by_cases hid : next_identical L more = true
      · rw [if_neg (not_not.mpr hid), if_neg (not_not.mpr hid)]
        have := ih (pos + 1) (dur + 1) D fp fd hmore (by omega) (by omega)
        rw [Nat.cast_add, Nat.cast_one, Nat.cast_add, Nat.cast_one] at this
        exact this
      · rw [if_pos hid, if_pos hid]
        have e1 : ((pos : Int) - ((dur : Int) + 1)) = ((pos - (dur + 1) : Nat) : Int) := by omega
        have e2 : ((dur : Int) + 1) = ((dur + 1 : Nat) : Int) := by omega
        have e3 : ((pos : Int) - ((dur : Int) + 1)).toNat = pos - (dur + 1) := by omega
        have e4 : ((dur : Int) + 1).toNat = dur + 1 := by omega
        rw [e3, e4]
        have hlen := frames_with_run_length D (pos - (dur + 1)) (dur + 1) L (by omega)
        obtain ⟨fp', fd', hrun⟩ := ih (pos + 1) 0 (frames_with_run D (pos - (dur + 1)) (dur + 1) L)
          ((pos - (dur + 1) : Nat) : Int) ((dur + 1 : Nat) : Int) hmore (by omega) (by omega)
        rw [Nat.cast_add, Nat.cast_one, Nat.cast_zero] at hrun
        refine ⟨fp', fd', fun rest => ?_⟩
        simp only [List.cons_append, List.append_assoc]
        rw [e1, e2]
        rw [parse_frame_element c a nd D fp fd (pos - (dur + 1)) (dur + 1) L _ herr htrack hseen
          (hF L (List.mem_cons_self L more)) hL (by omega) (by omega) (by omega) (by omega)]
        exact hrun rest

theorem heap_write_self (h : Heap) (a : Nat) (nd : GListNode) (hc : h.cell a = some nd) :
    h.write a nd = h := by
  unfold Heap.write
  rw [← hc, Function.update_eq_self]

/-- Reading the `<sequence>` element of a track prepends the track, with its
title and its frames up to the last non-empty one. -/
theorem parse_sequence (c : MarkupContext) (addrs : List Nat) (l : List Track)
    (herr : c.error = false) (hstate : c.status.state = .ANIMATION_STATE)
    (hv : IsGList c.animation.heap c.animation.tracks addrs l)
    (t : Track) (s : String) (ht : t.title = some s)
    (hg : ∀ L ∈ t.frames, ∀ x ∈ L, is_gint x) (hlen : t.frames.length < 2147483647) :
    ∃ evs c', serialize_track t = some evs ∧
      (∀ rest : List XmlEvent,
        g_markup_parse_context_parse c (evs ++ rest) = g_markup_parse_context_parse c' rest) ∧
      c'.error = false ∧ c'.seen_element = true ∧ c'.status.state = .ANIMATION_STATE ∧
      c'.open_elements = c.open_elements ∧
      c'.animation.duration = c.animation.duration ∧
      c'.animation.onion_skins = c.animation.onion_skins ∧
      c'.animation.comments = c.animation.comments ∧
      c'.animation.camera = c.animation.camera ∧
      c'.animation.width = c.animation.width ∧ c'.animation.height = c.animation.height ∧
      IsGList c'.animation.heap c'.animation.tracks (c.animation.heap.top :: addrs)
        ({ title := some s, frames := drop_trailing_empty t.frames } :: l) := by
  obtain ⟨h1, hpre, htop1, hv1⟩ :=
    g_list_prepend_spec hv { title := some s, frames := [] }
  have hidx0 : (c.animation.heap.top :: addrs)[0]? = some c.animation.heap.top := by simp
  obtain ⟨nd0, hc0, hd0, -, -⟩ := hv1.node_at hidx0
  have hd0' : nd0.data = { title := some s, frames := [] } := by
    simp only [List.getElem?_cons_zero, Option.some.injEq] at hd0
    exact hd0.symm
  -- the context once the track is prepended
  let cbase : MarkupContext :=
    { animation := { c.animation with heap := h1, tracks := some c.animation.heap.top }
      status := { c.status with track := some c.animation.heap.top }
      open_elements := "sequence" :: c.open_elements
      seen_element := true
      error := false }
  have hstep1 : ∀ evs, g_markup_parse_context_parse c
      (XmlEvent.start_element "sequence" [("name", s)] :: evs) =
      g_markup_parse_context_parse
        (sequence_context cbase c.animation.heap.top nd0 [] .SEQUENCE_STATE
          c.status.frame_position c.status.frame_duration) evs := by
    intro evs
    have hw : h1.write c.animation.heap.top
        { nd0 with data := { nd0.data with frames := [] } } = h1 := by
      apply heap_write_self
      rw [hc0]
      cases nd0 with
      | mk dat nx pv =>
        simp only at hd0'
        subst hd0'
        rfl
    simp only [g_markup_parse_context_parse, herr, Bool.false_eq_true, if_false,
      animation_cel_animation_start_element, hstate, if_true, hpre, Option.map_some',
      Option.some_bind, sequence_attributes, sequence_context, cbase, hw]
  obtain ⟨fp', fd', hstep2⟩ := parse_frames cbase c.animation.heap.top nd0 rfl rfl rfl
    t.frames 1 0 [] c.status.frame_position c.status.frame_duration hg (by simp) (by omega)
  rw [Nat.cast_one, Nat.cast_zero, read_back_frames_all] at hstep2
  let cfinal : MarkupContext :=
    { animation :=
        { c.animation with
          heap := h1.write c.animation.heap.top
            { nd0 with data := { nd0.data with frames := drop_trailing_empty t.frames } }
          tracks := some c.animation.heap.top }
      status :=
        { state := .ANIMATION_STATE, track := some c.animation.heap.top, frame_position := fp',
          frame_duration := fd' }
      open_elements := c.open_elements
      seen_element := true
      error := false }
  refine ⟨XmlEvent.start_element "sequence" [("name", s)] ::
      (serialize_frames t.frames 1 0 ++ [XmlEvent.end_element "sequence"]), cfinal,
    by rw [serialize_track, ht]; rfl, ?_, ?_⟩
  · intro rest
    rw [List.cons_append, hstep1, List.append_assoc, List.singleton_append, hstep2]
    simp only [g_markup_parse_context_parse, sequence_context, cbase, Bool.false_eq_true,
      if_false, ne_eq, not_true_eq_false, animation_cel_animation_end_element, cfinal]
  · refine ⟨rfl, rfl, rfl, rfl, rfl, rfl, rfl, rfl, rfl, rfl, ?_⟩
    have := hv1.set_data_dbl hidx0 hc0 { nd0.data with frames := drop_trailing_empty t.frames }
    simp only [List.set_cons_zero, hd0'] at this
    simp only [cfinal, hd0']
    exact this

/-- Reading the `<sequence>` elements of a list of tracks prepends them one
after the other. -/
theorem parse_tracks :
    ∀ (ts : List Track) (c : MarkupContext) (addrs : List Nat) (l : List Track),
      c.error = false → c.seen_element = true → c.status.state = .ANIMATION_STATE →
      IsGList c.animation.heap c.animation.tracks addrs l →
      (∀ t ∈ ts, t.title ≠ none) → (∀ t ∈ ts, ∀ L ∈ t.frames, ∀ x ∈ L, is_gint x) →
      (∀ t ∈ ts, t.frames.length < 2147483647) →
      ∃ evs c' addrs', serialize_tracks ts = some evs ∧
        (∀ rest : List XmlEvent,
          g_markup_parse_context_parse c (evs ++ rest) = g_markup_parse_context_parse c' rest) ∧
        c'.error = false ∧ c'.seen_element = true ∧ c'.status.state = .ANIMATION_STATE ∧
        c'.open_elements = c.open_elements ∧
        c'.animation.duration = c.animation.duration ∧
        c'.animation.onion_skins = c.animation.onion_skins ∧
        c'.animation.comments = c.animation.comments ∧
        c'.animation.camera = c.animation.camera ∧
        c'.animation.width = c.animation.width ∧ c'.animation.height = c.animation.height ∧
        IsGList c'.animation.heap c'.animation.tracks addrs'
          ((ts.map fun t => { t with frames := drop_trailing_empty t.frames }).reverse ++ l) := by
  intro ts
  induction ts with
  | nil =>
    intro c addrs l herr hseen hstate hv _ _ _
    exact ⟨[], c, addrs, rfl, fun _ => rfl, herr, hseen, hstate, rfl, rfl, rfl, rfl, rfl, rfl, rfl,
      by simpa using hv⟩
  | cons t ts ih =>
    intro c addrs l herr hseen hstate hv htitle hg hlen
    obtain ⟨s, hs⟩ : ∃ s, t.title = some s := by
      cases hts : t.title with
      | none => exact absurd hts (htitle t (List.mem_cons_self t ts))
      | some s => exact ⟨s, rfl⟩
    obtain ⟨e1, c1, hser1, hrun1, herr1, hseen1, hstate1, hopen1, hdur1, hon1, hcom1, hcam1, hw1,
      hh1, hv1⟩ := parse_sequence c addrs l herr hstate hv t s hs
        (hg t (List.mem_cons_self t ts)) (hlen t (List.mem_cons_self t ts))
    obtain ⟨e2, c2, addrs2, hser2, hrun2, herr2, hseen2, hstate2, hopen2, hdur2, hon2, hcom2, hcam2,
      hw2, hh2, hv2⟩ := ih c1 _ _ herr1 hseen1 hstate1 hv1
        (fun t' ht' => htitle t' (List.mem_cons_of_mem t ht'))
        (fun t' ht' => hg t' (List.mem_cons_of_mem t ht'))
        (fun t' ht' => hlen t' (List.mem_cons_of_mem t ht'))
    refine ⟨e1 ++ e2, c2, addrs2, ?_, ?_, herr2, hseen2, hstate2, by rw [hopen2, hopen1],
      by rw [hdur2, hdur1], by rw [hon2, hon1], by rw [hcom2, hcom1], by rw [hcam2, hcam1],
      by rw [hw2, hw1], by rw [hh2, hh1], ?_⟩
    · simp only [serialize_tracks, hser1, hser2, Option.some_bind, Option.map_some']
    · intro rest
      rw [List.append_assoc, hrun1 (e2 ++ rest), hrun2]
    · have hts : ({ t with frames := drop_trailing_empty t.frames } : Track) =
          { title := some s, frames := drop_trailing_empty t.frames } := by
        rw [← hs]
      simp only [List.map_cons, List.reverse_cons, List.append_assoc, List.singleton_append, hts]
      exact hv2

theorem parse_playback (c : MarkupContext) (attrs : List (String × String))
    (herr : c.error = false) (hseen : c.seen_element = true)
    (hstate : c.status.state = .ANIMATION_STATE) (rest : List XmlEvent) :
    g_markup_parse_context_parse c
        (XmlEvent.start_element "playback" attrs :: XmlEvent.end_element "playback" :: rest) =
      g_markup_parse_context_parse c rest := by
  have hc : c =
      { animation := c.animation, status := { c.status with state := .ANIMATION_STATE },
        open_elements := c.open_elements, seen_element := true, error := false } := by
    cases c with
    | mk an st op se er =>
      cases st with
      | mk s1 s2 s3 s4 =>
        simp only at herr hseen hstate
        subst herr hseen hstate
        rfl
  conv_rhs => rw [hc]
  simp [g_markup_parse_context_parse, herr, animation_cel_animation_start_element, hstate,
    animation_cel_animation_end_element]

theorem parse_keyframe_element (c : MarkupContext) (attrs : List (String × String))
    (herr : c.error = false) (hstate : c.status.state = .CAMERA_STATE) :
    ∃ c', (∀ rest : List XmlEvent, g_markup_parse_context_parse c
          (XmlEvent.start_element "keyframe" attrs :: XmlEvent.end_element "keyframe" :: rest) =
        g_markup_parse_context_parse c' rest) ∧
      c'.error = false ∧ c'.seen_element = true ∧ c'.status.state = .CAMERA_STATE ∧
      c'.open_elements = c.open_elements ∧ c'.animation.heap = c.animation.heap ∧
      c'.animation.tracks = c.animation.tracks ∧
      c'.animation.duration = c.animation.duration ∧
      c'.animation.onion_skins = c.animation.onion_skins ∧
      c'.animation.comments = c.animation.comments := by
  have hcb : ∃ a1 : CelAnimation,
      animation_cel_animation_start_element c.animation c.status "keyframe" attrs =
        some (a1, { c.status with state := .KEYFRAME_STATE }, false) ∧
      a1.heap = c.animation.heap ∧ a1.tracks = c.animation.tracks ∧
      a1.duration = c.animation.duration ∧ a1.onion_skins = c.animation.onion_skins ∧
      a1.comments = c.animation.comments := by
    simp only [animation_cel_animation_start_element, hstate, ne_eq, not_true_eq_false, if_false]
    refine ⟨_, rfl, ?_⟩
    split <;> (try split) <;> exact ⟨rfl, rfl, rfl, rfl, rfl⟩
  obtain ⟨a1, hstart, hheap, htr, hdur, hon, hcom⟩ := hcb
  refine ⟨
    { animation := a1, status := { c.status with state := .CAMERA_STATE },
      open_elements := c.open_elements, seen_element := true, error := false }, ?_,
    rfl, rfl, rfl, rfl, hheap, htr, hdur, hon, hcom⟩
  intro rest
  simp only [g_markup_parse_context_parse, herr, Bool.false_eq_true, if_false, hstart,
    Option.some_bind, ne_eq, not_true_eq_false, animation_cel_animation_end_element]

theorem parse_keyframes (camera : AnimationCamera) :
    ∀ (n : Nat) (i : Int) (c : MarkupContext),
      c.error = false → c.seen_element = true → c.status.state = .CAMERA_STATE →
      ∃ c', (∀ rest : List XmlEvent,
          g_markup_parse_context_parse c (serialize_camera camera n i ++ rest) =
            g_markup_parse_context_parse c' rest) ∧
        c'.error = false ∧ c'.seen_element = true ∧ c'.status.state = .CAMERA_STATE ∧
        c'.open_elements = c.open_elements ∧ c'.animation.heap = c.animation.heap ∧
        c'.animation.tracks = c.animation.tracks ∧
        c'.animation.duration = c.animation.duration ∧
        c'.animation.onion_skins = c.animation.onion_skins ∧
        c'.animation.comments = c.animation.comments := by
  intro n
  induction n with
  | zero =>
    intro i c herr hseen hstate
    exact ⟨c, fun _ => rfl, herr, hseen, hstate, rfl, rfl, rfl, rfl, rfl, rfl⟩
  | succ n ih =>
    intro i c herr hseen hstate
    unfold serialize_camera
    by_cases hk : animation_camera_has_keyframe camera i = true
    · rw [if_pos hk]
      obtain ⟨c1, hrun1, herr1, hseen1, hstate1, hopen1, hheap1, htr1, hdur1, hon1, hcom1⟩ :=
        parse_keyframe_element c
          [("position", fmt_d i), ("x", fmt_d (animation_camera_get camera i).1),
            ("y", fmt_d (animation_camera_get camera i).2)] herr hstate
      obtain ⟨c2, hrun2, herr2, hseen2, hstate2, hopen2, hheap2, htr2, hdur2, hon2, hcom2⟩ :=
        ih (i + 1) c1 herr1 hseen1 hstate1
      refine ⟨c2, ?_, herr2, hseen2, hstate2, by rw [hopen2, hopen1], by rw [hheap2, hheap1],
        by rw [htr2, htr1], by rw [hdur2, hdur1], by rw [hon2, hon1], by rw [hcom2, hcom1]⟩
      intro rest
      simp only [List.cons_append, List.nil_append, List.append_assoc]
      rw [hrun1, hrun2]
    · rw [if_neg hk]
      simpa using ih (i + 1) c herr hseen hstate

theorem parse_camera (camera : AnimationCamera) (n : Nat) (c : MarkupContext)
    (herr : c.error = false) (hstate : c.status.state = .ANIMATION_STATE) :
    ∃ c', (∀ rest : List XmlEvent, g_markup_parse_context_parse c
          (XmlEvent.start_element "camera" [] ::
            (serialize_camera camera n 0 ++ XmlEvent.end_element "camera" :: rest)) =
        g_markup_parse_context_parse c' rest) ∧
      c'.error = false ∧ c'.seen_element = true ∧ c'.status.state = .ANIMATION_STATE ∧
      c'.open_elements = c.open_elements ∧ c'.animation.heap = c.animation.heap ∧
      c'.animation.tracks = c.animation.tracks ∧
      c'.animation.duration = c.animation.duration ∧
      c'.animation.onion_skins = c.animation.onion_skins ∧
      c'.animation.comments = c.animation.comments := by
  obtain ⟨c1, hrun1, herr1, hseen1, hstate1, hopen1, hheap1, htr1, hdur1, hon1, hcom1⟩ :=
    parse_keyframes camera n 0
      { animation := c.animation, status := { c.status with state := .CAMERA_STATE },
        open_elements := "camera" :: c.open_elements, seen_element := true, error := false }
      rfl rfl rfl
  refine ⟨
    { c1 with status := { c1.status with state := .ANIMATION_STATE },
              open_elements := c.open_elements }, ?_, herr1, hseen1, rfl, rfl, hheap1,
    htr1, hdur1, hon1, hcom1⟩
  intro rest
  have h0 : g_markup_parse_context_parse c
      (XmlEvent.start_element "camera" [] ::
        (serialize_camera camera n 0 ++ XmlEvent.end_element "camera" :: rest)) =
      g_markup_parse_context_parse
        { animation := c.animation, status := { c.status with state := .CAMERA_STATE },
          open_elements := "camera" :: c.open_elements, seen_element := true, error := false }
        (serialize_camera camera n 0 ++ XmlEvent.end_element "camera" :: rest) := by
    simp [g_markup_parse_context_parse, herr, animation_cel_animation_start_element, hstate]
  rw [h0, hrun1]
  simp only [g_markup_parse_context_parse, herr1, Bool.false_eq_true, if_false, hopen1, ne_eq,
    not_true_eq_false, animation_cel_animation_end_element, hstate1]

theorem set_comment_fields (a : CelAnimation) (position : Int) (comment : Option String) :
    (animation_cel_animation_set_comment a position comment).heap = a.heap ∧
      (animation_cel_animation_set_comment a position comment).tracks = a.tracks ∧
      (animation_cel_animation_set_comment a position comment).duration = a.duration ∧
      (animation_cel_animation_set_comment a position comment).onion_skins = a.onion_skins := by
  unfold animation_cel_animation_set_comment
  split_ifs <;> exact ⟨rfl, rfl, rfl, rfl⟩

theorem text_fields (a : CelAnimation) (status : ParseStatus) (content : String) :
    (animation_cel_animation_text a status content).1.heap = a.heap ∧
      (animation_cel_animation_text a status content).1.tracks = a.tracks ∧
      (animation_cel_animation_text a status content).1.duration = a.duration ∧
      (animation_cel_animation_text a status content).1.onion_skins = a.onion_skins ∧
      (animation_cel_animation_text a status content).2.state = status.state := by
  unfold animation_cel_animation_text
  split
  · split_ifs
    · exact ⟨rfl, rfl, rfl, rfl, rfl⟩
    · have := set_comment_fields a status.frame_position (some content)
      exact ⟨this.1, this.2.1, this.2.2.1, this.2.2.2, rfl⟩
  · exact ⟨rfl, rfl, rfl, rfl, rfl⟩

theorem parse_comment_element (c : MarkupContext) (attrs : List (String × String))
    (content : String) (herr : c.error = false) (hstate : c.status.state = .COMMENTS_STATE) :
    ∃ c', (∀ rest : List XmlEvent, g_markup_parse_context_parse c
          (XmlEvent.start_element "comment" attrs :: XmlEvent.text content ::
            XmlEvent.end_element "comment" :: rest) =
        g_markup_parse_context_parse c' rest) ∧
      c'.error = false ∧ c'.seen_element = true ∧ c'.status.state = .COMMENTS_STATE ∧
      c'.open_elements = c.open_elements ∧ c'.animation.heap = c.animation.heap ∧
      c'.animation.tracks = c.animation.tracks ∧
      c'.animation.duration = c.animation.duration ∧
      c'.animation.onion_skins = c.animation.onion_skins := by
  have hf := text_fields c.animation
    { c.status with frame_position := comment_attributes (-1) attrs, frame_duration := -1,
                    state := .COMMENT_STATE } content
  refine ⟨
    { animation := (animation_cel_animation_text c.animation
        { c.status with frame_position := comment_attributes (-1) attrs, frame_duration := -1,
                        state := .COMMENT_STATE } content).1,
      status := { (animation_cel_animation_text c.animation
        { c.status with frame_position := comment_attributes (-1) attrs, frame_duration := -1,
                        state := .COMMENT_STATE } content).2 with state := .COMMENTS_STATE },
      open_elements := c.open_elements, seen_element := true, error := false }, ?_,
    rfl, rfl, rfl, rfl, hf.1, hf.2.1, hf.2.2.1, hf.2.2.2.1⟩
  intro rest
  simp only [g_markup_parse_context_parse, herr, Bool.false_eq_true, if_false,
    animation_cel_animation_start_element, hstate, ne_eq, not_true_eq_false, Option.some_bind,
    animation_cel_animation_end_element, hf.2.2.2.2]

theorem parse_comment_list :
    ∀ (comments : List (Option String)) (i : Int) (c : MarkupContext),
      c.error = false → c.seen_element = true → c.status.state = .COMMENTS_STATE →
      ∃ c', (∀ rest : List XmlEvent,
          g_markup_parse_context_parse c
              ((serialize_comments comments i).map g_markup_read_element ++ rest) =
            g_markup_parse_context_parse c' rest) ∧
        c'.error = false ∧ c'.seen_element = true ∧ c'.status.state = .COMMENTS_STATE ∧
        c'.open_elements = c.open_elements ∧ c'.animation.heap = c.animation.heap ∧
        c'.animation.tracks = c.animation.tracks ∧
        c'.animation.duration = c.animation.duration ∧
        c'.animation.onion_skins = c.animation.onion_skins := by
  intro comments
  induction comments with
  | nil =>
    intro i c herr hseen hstate
    exact ⟨c, fun _ => rfl, herr, hseen, hstate, rfl, rfl, rfl, rfl, rfl⟩
  | cons comment more ih =>
    intro i c herr hseen hstate
    unfold serialize_comments
    rw [List.map_append]
    have hskip : ∃ c', (∀ rest : List XmlEvent,
          g_markup_parse_context_parse c
            (([] : List XmlEvent).map g_markup_read_element ++
              (serialize_comments more (i + 1)).map g_markup_read_element ++ rest) =
            g_markup_parse_context_parse c' rest) ∧
        c'.error = false ∧ c'.seen_element = true ∧ c'.status.state = .COMMENTS_STATE ∧
        c'.open_elements = c.open_elements ∧ c'.animation.heap = c.animation.heap ∧
        c'.animation.tracks = c.animation.tracks ∧
        c'.animation.duration = c.animation.duration ∧
        c'.animation.onion_skins = c.animation.onion_skins := by
      simpa using ih (i + 1) c herr hseen hstate
    cases comment with
    | none => exact hskip
    | some s =>
      simp only
      by_cases hs : s.length > 0
      · rw [if_pos hs]
        obtain ⟨c1, hrun1, herr1, hseen1, hstate1, hopen1, hheap1, htr1, hdur1, hon1⟩ :=
          parse_comment_element c
            [("frame-position", unescape_gstring_inplace true (fmt_d i))]
            (unescape_gstring_inplace false s) herr hstate
        obtain ⟨c2, hrun2, herr2, hseen2, hstate2, hopen2, hheap2, htr2, hdur2, hon2⟩ :=
          ih (i + 1) c1 herr1 hseen1 hstate1
        refine ⟨c2, ?_, herr2, hseen2, hstate2, by rw [hopen2, hopen1], by rw [hheap2, hheap1],
          by rw [htr2, htr1], by rw [hdur2, hdur1], by rw [hon2, hon1]⟩
        intro rest
        simp only [List.map, g_markup_read_element, List.cons_append, List.nil_append,
          List.append_assoc]
        rw [hrun1, hrun2]
      · rw [if_neg hs]
        exact hskip

theorem parse_comments (comments : List (Option String)) (c : MarkupContext)
    (herr : c.error = false) (hstate : c.status.state = .ANIMATION_STATE) :
    ∃ c', (∀ rest : List XmlEvent, g_markup_parse_context_parse c
          (XmlEvent.start_element "comments" [("title", "")] ::
            ((serialize_comments comments 0).map g_markup_read_element ++
              XmlEvent.end_element "comments" :: rest)) =
        g_markup_parse_context_parse c' rest) ∧
      c'.error = false ∧ c'.seen_element = true ∧ c'.status.state = .ANIMATION_STATE ∧
      c'.open_elements = c.open_elements ∧ c'.animation.heap = c.animation.heap ∧
      c'.animation.tracks = c.animation.tracks ∧
      c'.animation.duration = c.animation.duration ∧
      c'.animation.onion_skins = c.animation.onion_skins := by
  obtain ⟨c1, hrun1, herr1, hseen1, hstate1, hopen1, hheap1, htr1, hdur1, hon1⟩ :=
    parse_comment_list comments 0
      { animation := c.animation, status := { c.status with state := .COMMENTS_STATE },
        open_elements := "comments" :: c.open_elements, seen_element := true, error := false }
      rfl rfl rfl
  refine ⟨
    { c1 with status := { c1.status with state := .ANIMATION_STATE },
              open_elements := c.open_elements }, ?_, herr1, hseen1, rfl, rfl, hheap1,
    htr1, hdur1, hon1⟩
  intro rest
  have h0 : g_markup_parse_context_parse c
      (XmlEvent.start_element "comments" [("title", "")] ::
        ((serialize_comments comments 0).map g_markup_read_element ++
          XmlEvent.end_element "comments" :: rest)) =
      g_markup_parse_context_parse
        { animation := c.animation, status := { c.status with state := .COMMENTS_STATE },
          open_elements := "comments" :: c.open_elements, seen_element := true, error := false }
        ((serialize_comments comments 0).map g_markup_read_element ++
          XmlEvent.end_element "comments" :: rest) := by
    simp [g_markup_parse_context_parse, herr, animation_cel_animation_start_element, hstate]
  rw [h0, hrun1]
  simp only [g_markup_parse_context_parse, herr1, Bool.false_eq_true, if_false, hopen1, ne_eq,
    not_true_eq_false, animation_cel_animation_end_element, hstate1]

/-! ### Values that GMarkup reads back unchanged -/

theorem unescape_char_id (na : Bool) {c : Char}
    (h : c ≠ '\t' ∧ c ≠ '\n' ∧ c ≠ '\r') : unescape_char na c = c := by
  simp [unescape_char, h.1, h.2.1, h.2.2]

theorem unescape_gstring_chars_id (na : Bool) :
    ∀ cs : List Char, (∀ c ∈ cs, c ≠ '\t' ∧ c ≠ '\n' ∧ c ≠ '\r') →
      unescape_gstring_chars na cs = cs := by
  intro cs
  induction cs with
  | nil => intro _; rfl
  | cons c cs ih =>
    intro h
    have hc := h c (List.mem_cons_self _ _)
    cases cs with
    | nil => simp [unescape_gstring_chars, unescape_char_id na hc]
    | cons d rest =>
      unfold unescape_gstring_chars
      rw [if_neg (fun hh => hc.2.2 hh.1), unescape_char_id na hc,
        ih (fun x hx => h x (List.mem_cons_of_mem _ hx))]

theorem digit_char_plain (d : Nat) :
    digit_char d ≠ '\t' ∧ digit_char d ≠ '\n' ∧ digit_char d ≠ '\r' := by
  unfold digit_char
  split <;> decide

theorem nat_digits_aux_plain :
    ∀ (fuel n : Nat) (acc : List Char), (∀ c ∈ acc, c ≠ '\t' ∧ c ≠ '\n' ∧ c ≠ '\r') →
      ∀ c ∈ nat_digits_aux fuel n acc, c ≠ '\t' ∧ c ≠ '\n' ∧ c ≠ '\r' := by
  intro fuel
  induction fuel with
  | zero => intro n acc h; simpa [nat_digits_aux] using h
  | succ fuel ih =>
    intro n acc h
    unfold nat_digits_aux
    split_ifs
    · intro c hc
      rcases List.mem_cons.mp hc with rfl | hc
      · exact digit_char_plain n
      · exact h c hc
    · apply ih
      intro c hc
      rcases List.mem_cons.mp hc with rfl | hc
      · exact digit_char_plain _
      · exact h c hc

theorem fmt_d_plain (i : Int) : ∀ c ∈ (fmt_d i).data, c ≠ '\t' ∧ c ≠ '\n' ∧ c ≠ '\r' := by
  have hn : ∀ n : Nat, ∀ c ∈ nat_digits n, c ≠ '\t' ∧ c ≠ '\n' ∧ c ≠ '\r' := fun n =>
    nat_digits_aux_plain (n + 1) n [] (fun c hc => absurd hc (List.not_mem_nil c))
  unfold fmt_d
  split_ifs
  · intro c hc
    rcases List.mem_cons.mp hc with rfl | hc
    · decide
    · exact hn _ c hc
  · exact hn _

theorem unescape_fmt_d (na : Bool) (i : Int) : unescape_gstring_inplace na (fmt_d i) = fmt_d i := by
  unfold unescape_gstring_inplace
  rw [unescape_gstring_chars_id na _ (fmt_d_plain i)]

theorem serialize_layers_read (layers : List Int) :
    (serialize_layers layers).map g_markup_read_element = serialize_layers layers := by
  induction layers with
  | nil => rfl
  | cons tattoo layers ih =>
    simp only [serialize_layers, List.map_cons, g_markup_read_element, List.map_nil,
      unescape_fmt_d, ih]

theorem serialize_frames_read :
    ∀ (frames : List (List Int)) (position duration : Int),
      (serialize_frames frames position duration).map g_markup_read_element =
        serialize_frames frames position duration := by
  intro frames
  induction frames with
  | nil => intro _ _; rfl
  | cons layers rest ih =>
    intro position duration
    unfold serialize_frames
    by_cases hl : layers ≠ []
    · rw [if_pos hl]
      simp only
      by_cases hn : ¬ next_identical layers rest = true
      · rw [if_pos hn]
        simp only [List.map_cons, List.map_append, g_markup_read_element, List.map_nil,
          unescape_fmt_d, serialize_layers_read, ih]
      · rw [if_neg hn]
        exact ih _ _
    · rw [if_neg hl]
      exact ih _ _

theorem serialize_camera_read (camera : AnimationCamera) :
    ∀ (n : Nat) (i : Int),
      (serialize_camera camera n i).map g_markup_read_element = serialize_camera camera n i := by
  intro n
  induction n with
  | zero => intro _; rfl
  | succ n ih =>
    intro i
    unfold serialize_camera
    rw [List.map_append, ih]
    split_ifs
    · simp only [List.map_cons, g_markup_read_element, List.map_nil, unescape_fmt_d]
    · rfl

/-- The track as GMarkup reads it back from its `<sequence>` element, before the
frames are considered: the title has gone through `unescape_gstring_inplace`. -/
theorem serialize_track_read (t : Track) :
    (serialize_track t).map (List.map g_markup_read_element) =
      serialize_track { t with title := t.title.map (unescape_gstring_inplace true) } := by
  cases ht : t.title with
  | none => simp [serialize_track, ht]
  | some s =>
    simp [serialize_track, ht, g_markup_read_element, serialize_frames_read]

theorem serialize_tracks_read (l : List Track) :
    (serialize_tracks l).map (List.map g_markup_read_element) =
      serialize_tracks
        (l.map fun t => { t with title := t.title.map (unescape_gstring_inplace true) }) := by
  induction l with
  | nil => rfl
  | cons t ts ih =>
    simp only [serialize_tracks, List.map_cons]
    rw [← serialize_track_read, ← ih]
    cases serialize_track t with
    | none => rfl
    | some e =>
      cases serialize_tracks ts with
      | none => rfl
      | some es => simp

theorem start_state_attributes_root (b : CelAnimation) (framerate : String) (d o w h : Int)
    (hd : is_gint d) (ho : is_gint o) (hb : b.tracks = none) (hbc : b.comments = []) :
    start_state_attributes b
        [("type", "cels"), ("framerate", framerate), ("duration", fmt_d d),
          ("onion-skins", fmt_d o), ("width", fmt_d w), ("height", fmt_d h)] =
      some ({ b with duration := d, onion_skins := o,
                     width := to_gint (g_ascii_strtoull (fmt_d w)),
                     height := to_gint (g_ascii_strtoull (fmt_d h)) }, false) := by
  have hfr : start_state_attributes b
      [("framerate", framerate), ("duration", fmt_d d),
          ("onion-skins", fmt_d o), ("width", fmt_d w), ("height", fmt_d h)] =
      start_state_attributes b
        [("duration", fmt_d d), ("onion-skins", fmt_d o), ("width", fmt_d w),
          ("height", fmt_d h)] := by
    rw [start_state_attributes]
    simp
  have h1 : start_state_attributes b
      [("type", "cels"), ("framerate", framerate), ("duration", fmt_d d),
          ("onion-skins", fmt_d o), ("width", fmt_d w), ("height", fmt_d h)] =
      start_state_attributes b
        [("framerate", framerate), ("duration", fmt_d d),
          ("onion-skins", fmt_d o), ("width", fmt_d w), ("height", fmt_d h)] := by
    rw [start_state_attributes]
    simp
  rw [h1, hfr]
  simp [start_state_attributes, fmt_d_ne_empty, strtoull_fmt_d hd, strtoull_fmt_d ho,
    set_duration_fresh b d hb hbc, animation_cel_animation_set_onion_skins]

theorem drop_trailing_empty_split (F : List (List Int)) :
    ∃ k, F = drop_trailing_empty F ++ List.replicate k [] := by
  refine ⟨(F.reverse.takeWhile fun layers => decide (layers = [])).length, ?_⟩
  have h1 : F.reverse =
      (F.reverse.takeWhile fun layers => decide (layers = [])) ++
        (F.reverse.dropWhile fun layers => decide (layers = [])) :=
    (List.takeWhile_append_dropWhile _ _).symm
  have h2 : (F.reverse.takeWhile fun layers => decide (layers = [])) =
      List.replicate (F.reverse.takeWhile fun layers => decide (layers = [])).length [] := by
    rw [List.eq_replicate_iff]
    refine ⟨rfl, ?_⟩
    intro x hx
    simpa using List.mem_takeWhile_imp hx
  have h3 : F = F.reverse.reverse := (List.reverse_reverse F).symm
  unfold drop_trailing_empty
  conv_lhs => rw [h3, h1, List.reverse_append, h2, List.reverse_replicate]

theorem glist_nth_data_drop_trailing_empty (F : List (List Int)) (n : Nat) :
    glist_nth_data (drop_trailing_empty F) n = glist_nth_data F n := by
  rw [glist_nth_data_eq, glist_nth_data_eq]
  obtain ⟨k, hk⟩ := drop_trailing_empty_split F
  conv_rhs => rw [hk]
  rw [List.getD_eq_getElem?_getD, List.getD_eq_getElem?_getD]
  by_cases hn : n < (drop_trailing_empty F).length
  · rw [List.getElem?_append_left hn]
  · have hn1 : (drop_trailing_empty F).length ≤ n := Nat.le_of_not_lt hn
    rw [List.getElem?_append_right hn1, List.getElem?_eq_none hn1]
    by_cases hk1 : n - (drop_trailing_empty F).length < k
    · rw [List.getElem?_eq_getElem (by simpa using hk1)]
      simp
    · rw [List.getElem?_eq_none (by simpa using hk1)]

/-- Reading the document written for `A` into the fresh animation `b`, up to
the end of the `<camera>` element: the reader is back in the state of the root
element, without error, on an animation without comments whose track list,
still in reverse order, holds the tracks of `A` with the titles as read and
the frames without their trailing empty slots. -/
theorem parse_document_head (A b : CelAnimation) (l : List Track) (framerate : String)
    (playback_attributes : List (String × String)) (seqs : List XmlEvent)
    (hd : is_gint A.duration) (ho : is_gint A.onion_skins)
    (hseqs : serialize_tracks l = some seqs)
    (ht : ∀ t ∈ l, t.title ≠ none)
    (hg : ∀ t ∈ l, ∀ L ∈ t.frames, ∀ x ∈ L, is_gint x)
    (hlen : ∀ t ∈ l, t.frames.length < 2147483647)
    (hb : b.tracks = none) (hbc : b.comments = []) :
    ∃ c addrs,
      (∀ tail : List XmlEvent,
        g_markup_parse_context_parse
            { animation := b
              status := { state := .START_STATE, track := none, frame_position := 0,
                          frame_duration := 0 }
              open_elements := []
              seen_element := false
              error := false }
            ((XmlEvent.start_element "animation"
                [("type", "cels"), ("framerate", framerate), ("duration", fmt_d A.duration),
                  ("onion-skins", fmt_d A.onion_skins), ("width", fmt_d A.width),
                  ("height", fmt_d A.height)] ::
              ([XmlEvent.start_element "playback" playback_attributes,
                  XmlEvent.end_element "playback"] ++ seqs ++
                XmlEvent.start_element "camera" [] ::
                  (serialize_camera A.camera A.duration.toNat 0 ++
                    XmlEvent.end_element "camera" :: tail))).map g_markup_read_element) =
          g_markup_parse_context_parse c (tail.map g_markup_read_element)) ∧
      c.error = false ∧ c.seen_element = true ∧ c.status.state = .ANIMATION_STATE ∧
      c.open_elements = ["animation"] ∧
      c.animation.duration = A.duration ∧ c.animation.onion_skins = A.onion_skins ∧
      c.animation.comments = [] ∧
      IsGList c.animation.heap c.animation.tracks addrs
        ((l.map fun t =>
          ({ title := t.title.map (unescape_gstring_inplace true),
             frames := drop_trailing_empty t.frames } : Track)).reverse) := by
  have hroot := start_state_attributes_root b (unescape_gstring_inplace true framerate)
    A.duration A.onion_skins A.width A.height hd ho hb hbc
  obtain ⟨evs, c2, addrs2, hser, hrun2, herr2, hseen2, hstate2, hopen2, hdur2, hon2, hcom2, -,
      -, -, hv2⟩ :=
    parse_tracks
      (l.map fun t => { t with title := t.title.map (unescape_gstring_inplace true) })
      { animation :=
          { b with duration := A.duration, onion_skins := A.onion_skins,
                   width := to_gint (g_ascii_strtoull (fmt_d A.width)),
                   height := to_gint (g_ascii_strtoull (fmt_d A.height)) }
        status := { state := .ANIMATION_STATE, track := none, frame_position := 0,
                    frame_duration := 0 }
        open_elements := ["animation"]
        seen_element := true
        error := false } [] [] rfl rfl rfl
      (by
        refine ⟨⟨rfl, List.nodup_nil, ?_, ?_, ?_⟩, ?_⟩
        · intro a ha; exact absurd ha (List.not_mem_nil a)
        · simpa using hb
        · intro i hi; exact absurd hi (Nat.not_lt_zero i)
        · intro i hi; exact absurd hi (Nat.not_lt_zero i))
      (by
        intro t htm
        obtain ⟨t0, ht0, rfl⟩ := List.mem_map.mp htm
        have := ht t0 ht0
        cases h : t0.title with
        | none => exact absurd h this
        | some s => simp [h])
      (by
        intro t htm
        obtain ⟨t0, ht0, rfl⟩ := List.mem_map.mp htm
        exact hg t0 ht0)
      (by
        intro t htm
        obtain ⟨t0, ht0, rfl⟩ := List.mem_map.mp htm
        exact hlen t0 ht0)
  obtain ⟨c3, hrun3, herr3, hseen3, hstate3, hopen3, hheap3, htr3, hdur3, hon3, hcom3⟩ :=
    parse_camera A.camera A.duration.toNat c2 herr2 hstate2
  have hevs : seqs.map g_markup_read_element = evs := by
    have h := serialize_tracks_read l
    rw [hseqs, hser] at h
    simpa using h
  refine ⟨c3, addrs2, ?_, herr3, hseen3, hstate3, by rw [hopen3, hopen2], by rw [hdur3, hdur2],
    by rw [hon3, hon2], by rw [hcom3, hcom2]; exact hbc, ?_⟩
  · intro tail
    have hcels : unescape_gstring_inplace true "cels" = "cels" := by decide
    simp only [List.map_cons, List.map_append, List.map_nil, g_markup_read_element,
      unescape_fmt_d, serialize_camera_read, hevs, hcels, List.cons_append,
      List.nil_append]
    rw [g_markup_parse_context_parse]
    simp only [Bool.false_eq_true, if_false, animation_cel_animation_start_element, ne_eq,
      not_true_eq_false, hroot, Option.map_some', Option.some_bind]
    rw [parse_playback _ _ rfl rfl rfl, hrun2, hrun3]
  · rw [hheap3, htr3]
    simpa [List.map_map, Function.comp] using hv2

/-- Reading the whole document written for `A` into the fresh animation `b`: the
reader ends without error, every element closed, on an animation whose track
list is as described for `parse_document_head`. -/
theorem parse_document (A b : CelAnimation) (l : List Track) (framerate : String)
    (playback_attributes : List (String × String)) (seqs : List XmlEvent)
    (hd : is_gint A.duration) (ho : is_gint A.onion_skins)
    (hseqs : serialize_tracks l = some seqs)
    (ht : ∀ t ∈ l, t.title ≠ none)
    (hg : ∀ t ∈ l, ∀ L ∈ t.frames, ∀ x ∈ L, is_gint x)
    (hlen : ∀ t ∈ l, t.frames.length < 2147483647)
    (hb : b.tracks = none) (hbc : b.comments = []) :
    ∃ c addrs,
      g_markup_parse_context_parse
          { animation := b
            status := { state := .START_STATE, track := none, frame_position := 0,
                        frame_duration := 0 }
            open_elements := []
            seen_element := false
            error := false }
          ((XmlEvent.start_element "animation"
              [("type", "cels"), ("framerate", framerate), ("duration", fmt_d A.duration),
                ("onion-skins", fmt_d A.onion_skins), ("width", fmt_d A.width),
                ("height", fmt_d A.height)] ::
            ([XmlEvent.start_element "playback" playback_attributes,
                XmlEvent.end_element "playback"] ++ seqs ++
              XmlEvent.start_element "camera" [] ::
                (serialize_camera A.camera A.duration.toNat 0 ++
                  XmlEvent.end_element "camera" ::
                    XmlEvent.start_element "comments" [("title", "")] ::
                      (serialize_comments A.comments 0 ++
                        [XmlEvent.end_element "comments",
                          XmlEvent.end_element "animation"])))).map
            g_markup_read_element) = some c ∧
      c.error = false ∧ c.seen_element = true ∧ c.open_elements = [] ∧
      c.animation.duration = A.duration ∧ c.animation.onion_skins = A.onion_skins ∧
      IsGList c.animation.heap c.animation.tracks addrs
        ((l.map fun t =>
          ({ title := t.title.map (unescape_gstring_inplace true),
             frames := drop_trailing_empty t.frames } : Track)).reverse) := by
  obtain ⟨c3, addrs2, hrun3, herr3, -, hstate3, hopen3, hdur3, hon3, -, hv3⟩ :=
    parse_document_head A b l framerate playback_attributes seqs hd ho hseqs ht hg hlen hb hbc
  obtain ⟨c4, hrun4, herr4, hseen4, hstate4, hopen4, hheap4, htr4, hdur4, hon4⟩ :=
    parse_comments A.comments c3 herr3 hstate3
  refine ⟨{ c4 with status := animation_cel_animation_end_element c4.status,
                    open_elements := [] }, addrs2, ?_, herr4, hseen4, rfl, ?_, ?_, ?_⟩
  · have hempty : unescape_gstring_inplace true "" = "" := by decide
    rw [hrun3]
    simp only [List.map_cons, List.map_append, List.map_nil, g_markup_read_element, hempty]
    rw [hrun4]
    have hopen : c4.open_elements = ["animation"] := by rw [hopen4, hopen3]
    simp [g_markup_parse_context_parse, herr4, hopen]
  · show c4.animation.duration = A.duration
    rw [hdur4, hdur3]
  · show c4.animation.onion_skins = A.onion_skins
    rw [hon4, hon3]
  · show IsGList c4.animation.heap c4.animation.tracks addrs2 _
    rw [hheap4, htr4]
    exact hv3

/-- C1, counterexample: the title `a<TAB>b` of the only track comes back from
the round trip as `a b`, GMarkup having turned the tab of the attribute value
into a space; the parse itself succeeds. -/
theorem cel_xml_round_trip_changes_title :
    (track_list tab_title_animation).map (fun l => l.map Track.title) = some [some "a\tb"] ∧
      ((animation_cel_animation_serialize tab_title_animation "24.000000" sample_playback).bind
        fun doc =>
          (animation_cel_animation_deserialize new_cel_animation doc).bind fun r =>
            (track_list r.1).map fun l => (r.2, l.map Track.title)) =
        some (true, [some "a b"]) ∧
      some "a b" ≠ some "a\tb" := by
  decide

/-- C1, as amended: for every cel animation `A` whose tracks all have a title
(and whose integers are `gint`s, with fewer than 2^31 - 1 slots per track),
serializing `A` and deserializing the document into a fresh animation `b`
without tracks and comments succeeds (returns `TRUE`) and yields an animation
with the same duration and onion-skin count and as many tracks, in document
order, whose titles are those of `A` as GMarkup reads attribute values (tab,
line feed and carriage return become a space), hence the same titles when no
title holds such a character; `get_layers` agrees with that of `A` at every
track and position, the frames of each track being the old ones without the
empty slots at the end. -/
theorem cel_xml_round_trip_tracks (A b : CelAnimation) (addrs : List Nat) (l : List Track)
    (framerate : String) (playback_attributes : List (String × String))
    (hv : IsFwdList A.heap A.tracks addrs l)
    (hd : is_gint A.duration) (ho : is_gint A.onion_skins)
    (ht : ∀ t ∈ l, t.title ≠ none)
    (hg : ∀ t ∈ l, ∀ L ∈ t.frames, ∀ x ∈ L, is_gint x)
    (hlen : ∀ t ∈ l, t.frames.length < 2147483647)
    (hb : b.tracks = none) (hbc : b.comments = []) :
    ∃ doc B l',
      animation_cel_animation_serialize A framerate
          [XmlEvent.start_element "playback" playback_attributes,
            XmlEvent.end_element "playback"] = some doc ∧
        animation_cel_animation_deserialize b doc = some (B, true) ∧
        B.duration = A.duration ∧ B.onion_skins = A.onion_skins ∧
        track_list B = some l' ∧ l'.length = l.length ∧
        l'.map Track.title = l.map (fun t => t.title.map (unescape_gstring_inplace true)) ∧
        ((∀ t ∈ l, ∀ s, t.title = some s → ∀ ch ∈ s.data, ch ≠ '\t' ∧ ch ≠ '\n' ∧ ch ≠ '\r') →
          l'.map Track.title = l.map Track.title) ∧
        (∀ T P : Int,
          animation_cel_animation_get_layers B T P = animation_cel_animation_get_layers A T P) ∧
        (∀ (i : Nat) (t : Track), l[i]? = some t →
          ∃ t1 : Track, l'[i]? = some t1 ∧ t1.frames = drop_trailing_empty t.frames) := by
  obtain ⟨seqs, hseqs⟩ : ∃ seqs, serialize_tracks l = some seqs := by
    clear hv hg hlen
    induction l with
    | nil => exact ⟨[], rfl⟩
    | cons t ts ih =>
      obtain ⟨es, hes⟩ := ih (fun x hx => ht x (List.mem_cons_of_mem _ hx))
      have h0 := ht t (List.mem_cons_self _ _)
      cases htt : t.title with
      | none => exact absurd htt h0
      | some s =>
        refine ⟨XmlEvent.start_element "sequence" [("name", s)] ::
          (serialize_frames t.frames 1 0 ++ XmlEvent.end_element "sequence" :: es), ?_⟩
        simp [serialize_tracks, serialize_track, htt, hes]
  have htl : track_list A = some l := hv.track_list
  obtain ⟨c, addrs2, hparse, herr, hseen, hopen, hdur, hon, hgl⟩ :=
    parse_document A b l framerate playback_attributes seqs hd ho hseqs ht hg hlen hb hbc
  obtain ⟨h', hrev, -, hgl'⟩ := g_list_reverse_spec hgl
  rw [List.reverse_reverse] at hgl'
  have hfw : IsFwdList
      ({ c.animation with heap := h', tracks := addrs2.getLast? } : CelAnimation).heap
      ({ c.animation with heap := h', tracks := addrs2.getLast? } : CelAnimation).tracks
      addrs2.reverse
      (l.map fun t =>
        ({ title := t.title.map (unescape_gstring_inplace true),
           frames := drop_trailing_empty t.frames } : Track)) := hgl'.1
  have htitles : (l.map fun t =>
        ({ title := t.title.map (unescape_gstring_inplace true),
           frames := drop_trailing_empty t.frames } : Track)).map Track.title =
      l.map (fun t => t.title.map (unescape_gstring_inplace true)) := by
    simp [List.map_map, Function.comp]
  refine ⟨XmlEvent.start_element "animation"
        [("type", "cels"), ("framerate", framerate), ("duration", fmt_d A.duration),
          ("onion-skins", fmt_d A.onion_skins), ("width", fmt_d A.width),
          ("height", fmt_d A.height)] ::
      ([XmlEvent.start_element "playback" playback_attributes,
          XmlEvent.end_element "playback"] ++ seqs ++
        XmlEvent.start_element "camera" [] ::
          (serialize_camera A.camera A.duration.toNat 0 ++
            XmlEvent.end_element "camera" ::
              XmlEvent.start_element "comments" [("title", "")] ::
                (serialize_comments A.comments 0 ++
                  [XmlEvent.end_element "comments", XmlEvent.end_element "animation"]))),
    { c.animation with heap := h', tracks := addrs2.getLast? }, _, ?_, ?_, hdur, hon,
    hfw.track_list, by simp, htitles, ?_, ?_, ?_⟩
  · unfold animation_cel_animation_serialize
    rw [htl, Option.some_bind, hseqs, Option.map_some']
  · unfold animation_cel_animation_deserialize
    rw [hparse, Option.some_bind, herr]
    simp only [Bool.false_eq_true, if_false, hrev, Option.map_some',
      g_markup_parse_context_end_parse, hopen, hseen]
    simp
  · intro hplain
    rw [htitles]
    apply List.map_congr_left
    intro t htm
    cases htt : t.title with
    | none => rfl
    | some s =>
      simp only [Option.map_some']
      unfold unescape_gstring_inplace
      rw [unescape_gstring_chars_id true _ (hplain t htm s htt)]
  · intro T P
    rw [get_layers_eq hfw, get_layers_eq hv]
    show some (match (l.map fun t =>
        ({ title := t.title.map (unescape_gstring_inplace true),
           frames := drop_trailing_empty t.frames } : Track))[guint_of_gint T]? with
      | none => []
      | some t => if P ≥ 0 ∧ P < c.animation.duration then
          glist_nth_data t.frames (guint_of_gint P) else []) = _
    rw [List.getElem?_map, hdur]
    cases l[guint_of_gint T]? with
    | none => rfl
    | some t =>
      simp only [Option.map_some']
      rw [glist_nth_data_drop_trailing_empty]
  · intro i t hi
    exact ⟨_, by rw [List.getElem?_map, hi]; rfl, rfl⟩

/-- C1, witness: the round trip of the sample animation into a new animation. -/
theorem cel_xml_round_trip_tracks_witness :
    IsFwdList sample_animation.heap sample_animation.tracks [0, 1, 2] sample_tracks ∧
      ∃ doc B l',
        animation_cel_animation_serialize sample_animation "24.000000"
            [XmlEvent.start_element "playback" [("position", "0")],
              XmlEvent.end_element "playback"] = some doc ∧
          animation_cel_animation_deserialize new_cel_animation doc = some (B, true) ∧
          B.duration = sample_animation.duration ∧
          B.onion_skins = sample_animation.onion_skins ∧
          track_list B = some l' ∧ l'.length = sample_tracks.length ∧
          l'.map Track.title =
            sample_tracks.map (fun t => t.title.map (unescape_gstring_inplace true)) ∧
          ((∀ t ∈ sample_tracks, ∀ s, t.title = some s →
              ∀ ch ∈ s.data, ch ≠ '\t' ∧ ch ≠ '\n' ∧ ch ≠ '\r') →
            l'.map Track.title = sample_tracks.map Track.title) ∧
          (∀ T P : Int,
            animation_cel_animation_get_layers B T P =
              animation_cel_animation_get_layers sample_animation T P) ∧
          (∀ (i : Nat) (t : Track), sample_tracks[i]? = some t →
            ∃ t1 : Track, l'[i]? = some t1 ∧ t1.frames = drop_trailing_empty t.frames) :=
  ⟨by decide,
    cel_xml_round_trip_tracks sample_animation new_cel_animation [0, 1, 2] sample_tracks
      "24.000000" [("position", "0")] (by decide) (by decide) (by decide) (by decide)
      (by decide) (by decide) rfl rfl⟩

/-- A track without title (`set_track_title` with `NULL`, or a `<sequence>`
read without `name`) is handed as `NULL` to the `%s` of the serializer, which no
rule of C gives a meaning to: the serializer has no defined result. -/
theorem serialize_untitled_track :
    (track_list (cel_animation_of 1 0 [] [{ title := none, frames := [[7]] }])).map
        (fun l => l.map Track.title) = some [none] ∧
      animation_cel_animation_serialize
        (cel_animation_of 1 0 [] [{ title := none, frames := [[7]] }]) "24.000000"
        sample_playback = none :=
  ⟨by decide, rfl⟩

/-! ### `cel_delete` -/

theorem cel_delete_hit {a : CelAnimation} {addrs : List Nat} {l : List Track}
    (hv : IsFwdList a.heap a.tracks addrs l) {T p : Int} {t : Track}
    (ht : l[guint_of_gint T]? = some t) (hp : guint_of_gint p < t.frames.length) :
    ∃ a', animation_cel_animation_cel_delete a T p = some (a', true) ∧
      a'.duration = a.duration ∧ a'.comments = a.comments ∧
      a'.onion_skins = a.onion_skins ∧
      IsFwdList a'.heap a'.tracks addrs
        (l.set (guint_of_gint T) { t with frames := t.frames.eraseIdx (guint_of_gint p) }) := by
  have hlt := getElem?_some_lt ht
  have hlt2 : guint_of_gint T < addrs.length := by have := hv.1; omega
  obtain ⟨addr, haddr⟩ : ∃ addr, addrs[guint_of_gint T]? = some addr :=
    ⟨_, List.getElem?_eq_getElem hlt2⟩
  obtain ⟨nd, hcell, hdata, -⟩ := hv.cell_at haddr
  have htd : t = nd.data := by rw [ht] at hdata; exact Option.some.inj hdata
  subst htd
  have hv1 := hv.set_data haddr hcell
    { nd.data with frames := nd.data.frames.eraseIdx (guint_of_gint p) }
  unfold animation_cel_animation_cel_delete
  rw [hv.nth_data, haddr]
  simp only [hcell, Option.some_bind, Heap.set_data, Option.map_some', if_pos hp]
  exact ⟨_, rfl, rfl, rfl, rfl, hv1⟩

theorem cel_delete_miss {a : CelAnimation} {addrs : List Nat} {l : List Track}
    (hv : IsFwdList a.heap a.tracks addrs l) {T p : Int}
    (h : ∀ t, l[guint_of_gint T]? = some t → ¬ guint_of_gint p < t.frames.length) :
    animation_cel_animation_cel_delete a T p = some (a, false) := by
  unfold animation_cel_animation_cel_delete
  rw [hv.nth_data]
  cases haddr : addrs[guint_of_gint T]? with
  | none => rfl
  | some addr =>
    obtain ⟨nd, hcell, hdata, -⟩ := hv.cell_at haddr
    simp only [hcell, Option.some_bind, if_neg (h _ hdata)]

theorem eraseIdx_take_cons_drop {α : Type} (x : α) :
    ∀ (l : List α) (n : Nat), n ≤ l.length → (l.take n ++ x :: l.drop n).eraseIdx n = l := by
  intro l
  induction l with
  | nil => intro n hn; have : n = 0 := by simpa using hn
           subst this; rfl
  | cons y ys ih =>
    intro n hn
    cases n with
    | zero => rfl
    | succ n =>
      simp only [List.take_succ_cons, List.drop_succ_cons, List.cons_append,
        List.eraseIdx_cons_succ]
      rw [ih n (by simpa using hn)]

/-- C12: `cel_delete (track, p)` returns `TRUE` and removes slot `p` of the
track when the track exists and `0 ≤ p < |F|`: the frame list gets one shorter,
the slots below `p` stay and the later ones move down by one, the title, every
other track, the duration and the comments are unchanged; in every other case
it returns `FALSE` and the animation is unchanged. -/
theorem cel_delete_contract (a : CelAnimation) (addrs : List Nat) (l : List Track)
    (hv : IsFwdList a.heap a.tracks addrs l) (hn : l.length ≤ 2147483647)
    (hF : ∀ t ∈ l, t.frames.length ≤ 2147483647)
    (T p : Int) (hTg : is_gint T) (hpg : is_gint p) :
    ∃ a' r, animation_cel_animation_cel_delete a T p = some (a', r) ∧
      (∀ t : Track, 0 ≤ T → l[T.toNat]? = some t → 0 ≤ p → p < t.frames.length →
        r = true ∧ a'.duration = a.duration ∧ a'.comments = a.comments ∧
          ∃ (l' : List Track) (t' : Track), track_list a' = some l' ∧ l'.length = l.length ∧
            (∀ i, i ≠ T.toNat → l'[i]? = l[i]?) ∧
            l'[T.toNat]? = some t' ∧ t'.title = t.title ∧
            t'.frames.length + 1 = t.frames.length ∧
            (∀ j, j < p.toNat → t'.frames[j]? = t.frames[j]?) ∧
            (∀ j, p.toNat ≤ j → t'.frames[j]? = t.frames[j + 1]?)) ∧
      (¬ (0 ≤ T ∧ ∃ t : Track, l[T.toNat]? = some t ∧ 0 ≤ p ∧ p < t.frames.length) →
        r = false ∧ a' = a) := by
  unfold is_gint at hTg hpg
  by_cases hit : 0 ≤ T ∧ ∃ t : Track, l[T.toNat]? = some t ∧ 0 ≤ p ∧ p < t.frames.length
  · obtain ⟨hT0, t, ht, hp0, hp1⟩ := hit
    have hgT : guint_of_gint T = T.toNat := guint_of_gint_nonneg hT0 (by omega)
    have hgp : guint_of_gint p = p.toNat := guint_of_gint_nonneg hp0 (by omega)
    have hpl : p.toNat < t.frames.length := by omega
    obtain ⟨a', hrun, hdur, hcom, -, hv'⟩ :=
      cel_delete_hit hv (by rw [hgT]; exact ht) (by rw [hgp]; exact hpl)
    rw [hgT, hgp] at hv'
    have hTl := getElem?_some_lt ht
    refine ⟨a', true, hrun, ?_, fun hno => absurd ⟨hT0, t, ht, hp0, hp1⟩ hno⟩
    intro t2 _ ht2 _ _
    have : t2 = t := by rw [ht] at ht2; exact (Option.some.inj ht2).symm
    subst this
    refine ⟨rfl, hdur, hcom, _, { t2 with frames := t2.frames.eraseIdx p.toNat },
      hv'.track_list, by simp, ?_, ?_, rfl, ?_, ?_, ?_⟩
    · intro i hi
      rw [List.getElem?_set_ne (Ne.symm hi)]
    · rw [List.getElem?_set_self hTl]
    · show (t2.frames.eraseIdx p.toNat).length + 1 = t2.frames.length
      rw [List.length_eraseIdx, if_pos hpl]
      omega
    · intro j hj
      show (t2.frames.eraseIdx p.toNat)[j]? = t2.frames[j]?
      rw [List.getElem?_eraseIdx, if_pos hj]
    · intro j hj
      show (t2.frames.eraseIdx p.toNat)[j]? = t2.frames[j + 1]?
      rw [List.getElem?_eraseIdx, if_neg (by omega)]
  · refine ⟨a, false, cel_delete_miss hv ?_, ?_, fun _ => ⟨rfl, rfl⟩⟩
    · intro t ht hlt
      apply hit
      have hTl := getElem?_some_lt ht
      have hgl := guint_of_gint_lt T
      have hT0 : 0 ≤ T := by
        by_contra hneg
        rw [guint_of_gint_neg (by omega) (by omega)] at hTl
        omega
      have hgT : guint_of_gint T = T.toNat := guint_of_gint_nonneg hT0 (by omega)
      have hFt := hF t (List.mem_iff_getElem?.2 ⟨_, ht⟩)
      have hp0 : 0 ≤ p := by
        by_contra hneg
        rw [guint_of_gint_neg (by omega) (by omega)] at hlt
        omega
      have hgp : guint_of_gint p = p.toNat := guint_of_gint_nonneg hp0 (by omega)
      exact ⟨hT0, t, by rw [← hgT]; exact ht, hp0, by rw [hgp] at hlt; omega⟩
    · intro t hT0 ht hp0 hp1
      exact absurd ⟨hT0, t, ht, hp0, hp1⟩ hit

/-- Witness of C12 on the sample animation: slot 1 of the first track is
deleted. -/
theorem cel_delete_contract_witness :
    ∃ a' r, animation_cel_animation_cel_delete sample_animation 0 1 = some (a', r) ∧
      (∀ t : Track, (0 : Int) ≤ 0 → sample_tracks[(0 : Int).toNat]? = some t → (0 : Int) ≤ 1 →
        (1 : Int) < t.frames.length →
        r = true ∧ a'.duration = sample_animation.duration ∧
          a'.comments = sample_animation.comments ∧
          ∃ (l' : List Track) (t' : Track), track_list a' = some l' ∧
            l'.length = sample_tracks.length ∧
            (∀ i, i ≠ (0 : Int).toNat → l'[i]? = sample_tracks[i]?) ∧
            l'[(0 : Int).toNat]? = some t' ∧ t'.title = t.title ∧
            t'.frames.length + 1 = t.frames.length ∧
            (∀ j, j < (1 : Int).toNat → t'.frames[j]? = t.frames[j]?) ∧
            (∀ j, (1 : Int).toNat ≤ j → t'.frames[j]? = t.frames[j + 1]?)) ∧
      (¬ ((0 : Int) ≤ 0 ∧ ∃ t : Track, sample_tracks[(0 : Int).toNat]? = some t ∧
            (0 : Int) ≤ 1 ∧ (1 : Int) < t.frames.length) →
        r = false ∧ a' = sample_animation) :=
  cel_delete_contract sample_animation [0, 1, 2] sample_tracks (by decide) (by decide)
    (by decide) 0 1 (by decide) (by decide)

/-- C11: on an existing track with frame list `F` and for `0 ≤ p ≤ |F|`,
`cel_add (track, p, dup)` followed by `cel_delete (track, p)`, which returns
`TRUE`, leaves the track list as it was before the two calls: the frame list of
the track is `F` again and every other track is unchanged.  Comments and
onion-skin count are unchanged too; the duration is the old one or, when
`cel_add` has grown it, `|F| + 1`. -/
theorem cel_add_cel_delete_inverse (a : CelAnimation) (addrs : List Nat) (l : List Track)
    (hv : IsFwdList a.heap a.tracks addrs l) (hd : is_gint a.duration)
    (T p : Int) (dup : Bool) (hTg : is_gint T) (hpg : is_gint p) (t : Track)
    (hT : 0 ≤ T) (ht : l[T.toNat]? = some t) (hp : 0 ≤ p ∧ p ≤ t.frames.length) :
    ∃ a1 r1 a2, animation_cel_animation_cel_add a T p dup = some (a1, r1) ∧
      animation_cel_animation_cel_delete a1 T p = some (a2, true) ∧
      track_list a2 = some l ∧ a2.comments = a.comments ∧ a2.onion_skins = a.onion_skins ∧
      (a2.duration = a.duration ∨ a2.duration = (t.frames.length : Int) + 1) := by
  have hTg1 := hTg
  have hpg1 := hpg
  unfold is_gint at hTg1 hpg1
  have hgT : guint_of_gint T = T.toNat := guint_of_gint_nonneg hT (by omega)
  have hgp : guint_of_gint p = p.toNat := guint_of_gint_nonneg hp.1 (by omega)
  have hTl := getElem?_some_lt ht
  obtain ⟨a1, r1, hadd, hcom1, hon1, hv1, hdur1⟩ :=
    cel_add_spec hv hd (by rw [hgT]; exact ht) p dup
  rw [hgT, glist_insert_eq _ _ hp.1 hp.2 hpg] at hv1
  obtain ⟨a2, hdel, hdur2, hcom2, hon2, hv2⟩ :=
    @cel_delete_hit a1 addrs _ hv1 T p
      { t with frames := t.frames.take p.toNat ++
          cel_add_contents t.frames p dup :: t.frames.drop p.toNat }
      (by rw [hgT, List.getElem?_set_self hTl])
      (by rw [hgp]; simp only [List.length_append, List.length_take, List.length_cons,
            List.length_drop]; omega)
  refine ⟨a1, r1, a2, hadd, hdel, ?_, by rw [hcom2, hcom1], by rw [hon2, hon1], ?_⟩
  · have hl : (l.set T.toNat
          { t with frames := t.frames.take p.toNat ++
              cel_add_contents t.frames p dup :: t.frames.drop p.toNat }).set
          (guint_of_gint T)
          { title := t.title,
            frames := (t.frames.take p.toNat ++
              cel_add_contents t.frames p dup :: t.frames.drop p.toNat).eraseIdx
                (guint_of_gint p) } = l := by
      rw [hgT, hgp, List.set_set, eraseIdx_take_cons_drop _ _ _ (by omega)]
      apply List.ext_getElem?
      intro j
      by_cases hj : T.toNat = j
      · subst hj
        rw [List.getElem?_set_self hTl, ht]
      · rw [List.getElem?_set_ne hj]
    rw [hl] at hv2
    exact hv2.track_list
  · rw [hdur2, hdur1]
    split_ifs
    · right; push_cast; rfl
    · left; rfl

/-- Witness of C11: `cel_add (0, 5, TRUE)` then `cel_delete (0, 5)` on a track
of ten frames. -/
theorem cel_add_cel_delete_inverse_witness :
    ∃ a1 r1 a2, animation_cel_animation_cel_add ten_frame_animation 0 5 true = some (a1, r1) ∧
      animation_cel_animation_cel_delete a1 0 5 = some (a2, true) ∧
      track_list a2 =
        some [{ title := some "Background",
                frames := [[10], [11], [12], [13], [14], [15], [16], [17], [18], [19]] },
              { title := some "Name me", frames := [] }] ∧
      a2.comments = ten_frame_animation.comments ∧
      a2.onion_skins = ten_frame_animation.onion_skins ∧
      (a2.duration = ten_frame_animation.duration ∨
        a2.duration =
          (([[10], [11], [12], [13], [14], [15], [16], [17], [18], [19]] :
            List (List Int)).length : Int) + 1) :=
  cel_add_cel_delete_inverse ten_frame_animation [0, 1]
    [{ title := some "Background",
       frames := [[10], [11], [12], [13], [14], [15], [16], [17], [18], [19]] },
     { title := some "Name me", frames := [] }]
    (by decide) (by decide) 0 5 true (by decide) (by decide)
    { title := some "Background",
      frames := [[10], [11], [12], [13], [14], [15], [16], [17], [18], [19]] }
    (by decide) (by decide) (by decide)

/-! ### Failed parses -/

/-- Counterexample to C13 as stated: on the sample animation (duration 5, three
tracks) the document `broken_document` is refused (`FALSE` is returned), and
the animation is left with the duration 7 read from the root element and with
the track opened before the error at the head of its track list. -/
theorem deserialize_failure_keeps_partial_state :
    sample_animation.duration = 5 ∧
      (track_list sample_animation).map (fun l => l.map Track.title) =
        some [some "Background", some "Name me", some "Figure"] ∧
      (animation_cel_animation_deserialize sample_animation broken_document).map
          (fun r => (r.2, r.1.duration, (track_list r.1).map (fun l => l.map Track.title))) =
        some (false, 7, some [some "New", some "Background", some "Name me", some "Figure"]) := by
  decide

/-- C13, as amended: a document refused at its first element, because this
element is not `<animation>` or because its first attribute is a `type` other
than `cels`, makes `deserialize` return `FALSE` with the animation unchanged. -/
theorem deserialize_root_refused_unchanged (b : CelAnimation) (element_name : String)
    (attributes : List (String × String)) (rest : List XmlEvent)
    (h : element_name ≠ "animation" ∨
      ∃ value more, attributes = ("type", value) :: more ∧
        unescape_gstring_inplace true value ≠ "cels") :
    animation_cel_animation_deserialize b
        (XmlEvent.start_element element_name attributes :: rest) = some (b, false) := by
  unfold animation_cel_animation_deserialize
  rw [List.map_cons, g_markup_read_element, g_markup_parse_context_parse]
  simp only [Bool.false_eq_true, if_false]
  by_cases hname : element_name ≠ "animation"
  · simp only [animation_cel_animation_start_element, hname, ne_eq, not_false_eq_true, if_true,
      Option.some_bind]
    rw [parse_of_error _ rfl]
    rfl
  · rcases h with h | ⟨value, more, hattr, hval⟩
    · exact absurd h hname
    · have hn : element_name = "animation" := by simpa using hname
      subst hn hattr
      simp only [animation_cel_animation_start_element, ne_eq, not_true_eq_false, if_false,
        List.map_cons, start_state_attributes, if_true, hval, not_false_eq_true, or_true,
        Option.map_some', Option.some_bind]
      rw [parse_of_error _ rfl]
      rfl

/-- Witness of the amended C13: a document of an animatic offered to the sample
cel animation. -/
theorem deserialize_root_refused_unchanged_witness :
    animation_cel_animation_deserialize sample_animation
        (XmlEvent.start_element "animation" [("type", "animatic"), ("duration", "7")] ::
          [XmlEvent.end_element "animation"]) = some (sample_animation, false) :=
  deserialize_root_refused_unchanged sample_animation "animation"
    [("type", "animatic"), ("duration", "7")] [XmlEvent.end_element "animation"]
    (Or.inr ⟨"animatic", [("duration", "7")], rfl, by decide⟩)

/-! ### Comments read back -/

theorem comment_attributes_position {i : Int} (hi : is_gint i) :
    comment_attributes (-1) [("frame-position", fmt_d i)] = i := by
  simp [comment_attributes, fmt_d_ne_empty, strtoll_fmt_d hi]

theorem parse_comment_element_at (c : MarkupContext) (i : Int) (content : String)
    (herr : c.error = false) (hstate : c.status.state = .COMMENTS_STATE)
    (hi : is_gint i) (h0 : 0 ≤ i) :
    ∃ c', (∀ rest : List XmlEvent, g_markup_parse_context_parse c
          (XmlEvent.start_element "comment" [("frame-position", fmt_d i)] ::
            XmlEvent.text content :: XmlEvent.end_element "comment" :: rest) =
        g_markup_parse_context_parse c' rest) ∧
      c'.error = false ∧ c'.seen_element = true ∧ c'.status.state = .COMMENTS_STATE ∧
      c'.open_elements = c.open_elements ∧
      c'.animation = animation_cel_animation_set_comment c.animation i (some content) := by
  have hne : i ≠ -1 := by omega
  refine ⟨
    { animation := animation_cel_animation_set_comment c.animation i (some content),
      status := { c.status with frame_position := -1, frame_duration := -1,
                                state := .COMMENTS_STATE },
      open_elements := c.open_elements, seen_element := true, error := false }, ?_,
    rfl, rfl, rfl, rfl, rfl⟩
  intro rest
  simp only [g_markup_parse_context_parse, herr, Bool.false_eq_true, if_false,
    animation_cel_animation_start_element, hstate, ne_eq, not_true_eq_false, Option.some_bind,
    animation_cel_animation_end_element, animation_cel_animation_text,
    comment_attributes_position hi, hne]

theorem set_comment_outside (a : CelAnimation) (i : Int) (x : Option String)
    (h : ¬ (0 ≤ i ∧ i < a.duration)) : animation_cel_animation_set_comment a i x = a := by
  unfold animation_cel_animation_set_comment
  rw [if_pos (by simpa using h)]

theorem set_comment_new_slot (a : CelAnimation) (n : Nat) (x : Option String)
    (hn : n ≤ 2147483647) (hlen : a.comments.length ≤ n) (hd : (n : Int) < a.duration) :
    (animation_cel_animation_set_comment a n x).comments =
      a.comments ++ List.replicate (n - a.comments.length) none ++ [x] := by
  unfold animation_cel_animation_set_comment
  rw [if_neg (by simp; omega)]
  have hg : guint_of_gint (n : Int) = n := guint_of_gint_natCast (by omega)
  simp only [hg]
  rw [if_neg (by omega)]
  simp only [glist_grow_eq, List.length_append, List.length_replicate]
  have h1 : ((n : Int) + 1 - (a.comments.length : Int)).toNat = (n - a.comments.length) + 1 := by
    omega
  rw [h1, List.replicate_succ', ← List.append_assoc]
  have h2 : a.comments.length + (n - a.comments.length + 1) - 1 =
      (a.comments ++ List.replicate (n - a.comments.length) none).length := by
    simp
  rw [h2]
  simp

theorem comment_read_back_skip {comment : Option String}
    (h : ∀ s, comment = some s → ¬ s.length > 0) : comment_read_back comment = none := by
  cases comment with
  | none => rfl
  | some s => simp [comment_read_back, h s rfl]

theorem parse_comment_list_read :
    ∀ (comments : List (Option String)) (n : Nat) (c : MarkupContext),
      c.error = false → c.seen_element = true → c.status.state = .COMMENTS_STATE →
      n + comments.length ≤ 2147483648 → c.animation.comments.length ≤ n →
      ∃ c', (∀ rest : List XmlEvent,
          g_markup_parse_context_parse c
              ((serialize_comments comments n).map g_markup_read_element ++ rest) =
            g_markup_parse_context_parse c' rest) ∧
        c'.error = false ∧ c'.seen_element = true ∧ c'.status.state = .COMMENTS_STATE ∧
        c'.open_elements = c.open_elements ∧ c'.animation.heap = c.animation.heap ∧
        c'.animation.tracks = c.animation.tracks ∧
        c'.animation.duration = c.animation.duration ∧
        c'.animation.onion_skins = c.animation.onion_skins ∧
        (∀ P, P < n → (c'.animation.comments[P]?).join = (c.animation.comments[P]?).join) ∧
        (∀ P, n ≤ P → (P : Int) < c.animation.duration →
          (c'.animation.comments[P]?).join = comment_read_back ((comments[P - n]?).join)) := by
  intro comments
  induction comments with
  | nil =>
    intro n c herr hseen hstate _ hlen
    refine ⟨c, fun _ => rfl, herr, hseen, hstate, rfl, rfl, rfl, rfl, rfl, fun _ _ => rfl, ?_⟩
    intro P hP _
    rw [List.getElem?_eq_none (by omega)]
    rfl
  | cons comment more ih =>
    intro n c herr hseen hstate hbound hlen
    have hcast : ((n : Int) + 1) = ((n + 1 : Nat) : Int) := by push_cast; rfl
    have hskip : (∀ s, comment = some s → ¬ s.length > 0) →
        ∃ c', (∀ rest : List XmlEvent,
          g_markup_parse_context_parse c
              ((serialize_comments (comment :: more) n).map g_markup_read_element ++ rest) =
            g_markup_parse_context_parse c' rest) ∧
        c'.error = false ∧ c'.seen_element = true ∧ c'.status.state = .COMMENTS_STATE ∧
        c'.open_elements = c.open_elements ∧ c'.animation.heap = c.animation.heap ∧
        c'.animation.tracks = c.animation.tracks ∧
        c'.animation.duration = c.animation.duration ∧
        c'.animation.onion_skins = c.animation.onion_skins ∧
        (∀ P, P < n → (c'.animation.comments[P]?).join = (c.animation.comments[P]?).join) ∧
        (∀ P, n ≤ P → (P : Int) < c.animation.duration →
          (c'.animation.comments[P]?).join =
            comment_read_back (((comment :: more)[P - n]?).join)) := by
      intro hno
      obtain ⟨c', hrun, herr', hseen', hstate', hopen', hheap', htr', hdur', hon', hlow, hhigh⟩ :=
        ih (n + 1) c herr hseen hstate (by simp at hbound; omega) (by omega)
      refine ⟨c', ?_, herr', hseen', hstate', hopen', hheap', htr', hdur', hon',
        fun P hP => hlow P (by omega), ?_⟩
      · intro rest
        have hs : serialize_comments (comment :: more) n =
            serialize_comments more ((n + 1 : Nat) : Int) := by
          rw [serialize_comments.eq_def]
          simp only
          rw [← hcast]
          cases comment with
          | none => rfl
          | some s => simp [hno s rfl]
        rw [hs, hrun]
      · intro P hP hPd
        by_cases hPn : P = n
        · subst hPn
          rw [hlow P (by omega), List.getElem?_eq_none hlen]
          simp [comment_read_back_skip hno]
        · rw [hhigh P (by omega) hPd]
          have : P - n = (P - (n + 1)) + 1 := by omega
          rw [this, List.getElem?_cons_succ]
    cases comment with
    | none => exact hskip (fun s hs => by cases hs)
    | some s =>
      by_cases hs : s.length > 0
      · have hgi : is_gint (n : Int) := by
          unfold is_gint; simp at hbound; omega
        obtain ⟨c1, hrun1, herr1, hseen1, hstate1, hopen1, han1⟩ :=
          parse_comment_element_at c n (unescape_gstring_inplace false s) herr hstate hgi
            (by omega)
        have hf := set_comment_fields c.animation n (some (unescape_gstring_inplace false s))
        rw [← han1] at hf
        have hlen1 : c1.animation.comments.length ≤ n + 1 := by
          by_cases hd : (n : Int) < c.animation.duration
          · rw [han1, set_comment_new_slot _ _ _ (by simp at hbound; omega) hlen hd]
            simp; omega
          · rw [han1, set_comment_outside _ _ _ (by omega)]; omega
        obtain ⟨c', hrun, herr', hseen', hstate', hopen', hheap', htr', hdur', hon', hlow,
            hhigh⟩ :=
          ih (n + 1) c1 herr1 hseen1 hstate1 (by simp at hbound; omega) hlen1
        refine ⟨c', ?_, herr', hseen', hstate', by rw [hopen', hopen1], by rw [hheap', hf.1],
          by rw [htr', hf.2.1], by rw [hdur', hf.2.2.1], by rw [hon', hf.2.2.2], ?_, ?_⟩
        · intro rest
          rw [serialize_comments.eq_def]
          simp only [hs, if_true, List.map_cons, List.map_append, List.map_nil,
            g_markup_read_element, unescape_fmt_d, List.cons_append, List.nil_append]
          rw [hrun1, hcast, hrun]
        · intro P hP
          rw [hlow P (by omega), han1]
          by_cases hd : (n : Int) < c.animation.duration
          · rw [set_comment_new_slot _ _ _ (by simp at hbound; omega) hlen hd]
            by_cases hPl : P < c.animation.comments.length
            · rw [List.append_assoc, List.getElem?_append_left hPl]
            · rw [List.getElem?_eq_none (Nat.le_of_not_lt hPl), List.append_assoc,
                List.getElem?_append_right (Nat.le_of_not_lt hPl),
                List.getElem?_append_left (by simp; omega),
                List.getElem?_eq_getElem (by simp; omega)]
              simp
          · rw [set_comment_outside _ _ _ (by omega)]
        · intro P hP hPd
          by_cases hPn : P = n
          · subst hPn
            rw [hlow P (by omega), han1,
              set_comment_new_slot _ _ _ (by simp at hbound; omega) hlen hPd,
              List.getElem?_append_right (by simp; omega)]
            have h0 : P - (c.animation.comments ++
                List.replicate (P - c.animation.comments.length) none).length = 0 := by
              simp; omega
            rw [h0]
            simp [comment_read_back, hs]
          · rw [hhigh P (by omega) (by rw [hf.2.2.1]; exact hPd)]
            have : P - n = (P - (n + 1)) + 1 := by omega
            rw [this, List.getElem?_cons_succ]
      · exact hskip (fun s' hs' => by cases hs'; exact hs)

theorem parse_comments_read (comments : List (Option String)) (c : MarkupContext)
    (herr : c.error = false) (hstate : c.status.state = .ANIMATION_STATE)
    (hnone : c.animation.comments = []) (hbound : comments.length ≤ 2147483647) :
    ∃ c', (∀ rest : List XmlEvent, g_markup_parse_context_parse c
          (XmlEvent.start_element "comments" [("title", "")] ::
            ((serialize_comments comments 0).map g_markup_read_element ++
              XmlEvent.end_element "comments" :: rest)) =
        g_markup_parse_context_parse c' rest) ∧
      c'.error = false ∧ c'.seen_element = true ∧ c'.status.state = .ANIMATION_STATE ∧
      c'.open_elements = c.open_elements ∧ c'.animation.heap = c.animation.heap ∧
      c'.animation.tracks = c.animation.tracks ∧
      c'.animation.duration = c.animation.duration ∧
      c'.animation.onion_skins = c.animation.onion_skins ∧
      (∀ P : Nat, (P : Int) < c.animation.duration →
        (c'.animation.comments[P]?).join = comment_read_back ((comments[P]?).join)) := by
  obtain ⟨c1, hrun1, herr1, hseen1, hstate1, hopen1, hheap1, htr1, hdur1, hon1, -, hhigh⟩ :=
    parse_comment_list_read comments 0
      { animation := c.animation, status := { c.status with state := .COMMENTS_STATE },
        open_elements := "comments" :: c.open_elements, seen_element := true, error := false }
      rfl rfl rfl (by omega) (by simp [hnone])
  refine ⟨
    { c1 with status := { c1.status with state := .ANIMATION_STATE },
              open_elements := c.open_elements }, ?_, herr1, hseen1, rfl, rfl, hheap1,
    htr1, hdur1, hon1, fun P hP => hhigh P (Nat.zero_le P) hP⟩
  intro rest
  have h0 : g_markup_parse_context_parse c
      (XmlEvent.start_element "comments" [("title", "")] ::
        ((serialize_comments comments 0).map g_markup_read_element ++
          XmlEvent.end_element "comments" :: rest)) =
      g_markup_parse_context_parse
        { animation := c.animation, status := { c.status with state := .COMMENTS_STATE },
          open_elements := "comments" :: c.open_elements, seen_element := true, error := false }
        ((serialize_comments comments 0).map g_markup_read_element ++
          XmlEvent.end_element "comments" :: rest) := by
    simp [g_markup_parse_context_parse, herr, animation_cel_animation_start_element, hstate]
  have hz : serialize_comments comments 0 = serialize_comments comments ((0 : Nat) : Int) := by
    rw [Nat.cast_zero]
  rw [h0, hz, hrun1]
  simp only [g_markup_parse_context_parse, herr1, Bool.false_eq_true, if_false, hopen1, ne_eq,
    not_true_eq_false, animation_cel_animation_end_element, hstate1]

theorem unescape_text_chars_id :
    ∀ cs : List Char, (∀ ch ∈ cs, ch ≠ '\r') → unescape_gstring_chars false cs = cs := by
  intro cs
  induction cs with
  | nil => intro _; rfl
  | cons c cs ih =>
    intro h
    have hc := h c (List.mem_cons_self _ _)
    have hu : unescape_char false c = c := by simp [unescape_char, hc]
    cases cs with
    | nil => simp [unescape_gstring_chars, hu]
    | cons d rest =>
      unfold unescape_gstring_chars
      rw [if_neg (fun hh => hc hh.1), hu, ih (fun x hx => h x (List.mem_cons_of_mem _ hx))]

theorem serialize_tracks_titled (l : List Track) (ht : ∀ t ∈ l, t.title ≠ none) :
    ∃ seqs, serialize_tracks l = some seqs := by
  induction l with
  | nil => exact ⟨[], rfl⟩
  | cons t ts ih =>
    obtain ⟨es, hes⟩ := ih (fun x hx => ht x (List.mem_cons_of_mem _ hx))
    have h0 := ht t (List.mem_cons_self _ _)
    cases htt : t.title with
    | none => exact absurd htt h0
    | some s =>
      refine ⟨XmlEvent.start_element "sequence" [("name", s)] ::
        (serialize_frames t.frames 1 0 ++ XmlEvent.end_element "sequence" :: es), ?_⟩
      simp [serialize_tracks, serialize_track, htt, hes]

/-- Counterexample to C14 as stated: the comment of the only frame is the empty
string; the serializer skips it (`strlen (iter->data) > 0`), so that after the
round trip, which succeeds, `get_comment (0)` is `NULL` and not the empty
string. -/
theorem cel_xml_round_trip_drops_empty_comment :
    animation_cel_animation_get_comment empty_comment_animation 0 = some "" ∧
      ((animation_cel_animation_serialize empty_comment_animation "24.000000"
          sample_playback).bind fun doc =>
        (animation_cel_animation_deserialize new_cel_animation doc).map fun r =>
          (r.2, animation_cel_animation_get_comment r.1 0)) = some (true, none) := by
  decide

/-- C14, as amended: for every cel animation `A` whose tracks all have a title
(integers being `gint`s, a track having fewer than 2^31 - 1 slots and the
comment list at most 2^31 - 1 entries), serializing `A` and deserializing the
document into a fresh animation without tracks and comments succeeds, and
`get_comment (P)` of the new animation is, at every position `P`, what
`comment_read_back` makes of `get_comment (P)` of `A`: no comment for an absent
or empty one, otherwise the text with every carriage return, alone or followed
by a line feed, turned into a line feed.  Hence a comment that is not empty and
holds no carriage return comes back as it is, and no comment as no comment. -/
theorem cel_xml_round_trip_comments (A b : CelAnimation) (addrs : List Nat) (l : List Track)
    (framerate : String) (playback_attributes : List (String × String))
    (hv : IsFwdList A.heap A.tracks addrs l)
    (hd : is_gint A.duration) (ho : is_gint A.onion_skins)
    (ht : ∀ t ∈ l, t.title ≠ none)
    (hg : ∀ t ∈ l, ∀ L ∈ t.frames, ∀ x ∈ L, is_gint x)
    (hlen : ∀ t ∈ l, t.frames.length < 2147483647)
    (hc : A.comments.length ≤ 2147483647)
    (hb : b.tracks = none) (hbc : b.comments = []) :
    ∃ doc B,
      animation_cel_animation_serialize A framerate
          [XmlEvent.start_element "playback" playback_attributes,
            XmlEvent.end_element "playback"] = some doc ∧
        animation_cel_animation_deserialize b doc = some (B, true) ∧
        (∀ P : Int, animation_cel_animation_get_comment B P =
          comment_read_back (animation_cel_animation_get_comment A P)) ∧
        (∀ (P : Int) (s : String), animation_cel_animation_get_comment A P = some s →
          s.length > 0 → (∀ ch ∈ s.data, ch ≠ '\r') →
          animation_cel_animation_get_comment B P = some s) ∧
        (∀ P : Int, animation_cel_animation_get_comment A P = none →
          animation_cel_animation_get_comment B P = none) := by
  obtain ⟨seqs, hseqs⟩ := serialize_tracks_titled l ht
  have htl : track_list A = some l := hv.track_list
  obtain ⟨c3, addrs2, hrun3, herr3, -, hstate3, hopen3, hdur3, -, hcom3, hv3⟩ :=
    parse_document_head A b l framerate playback_attributes seqs hd ho hseqs ht hg hlen hb hbc
  obtain ⟨c4, hrun4, herr4, hseen4, hstate4, hopen4, hheap4, htr4, hdur4, -, hcom4⟩ :=
    parse_comments_read A.comments c3 herr3 hstate3 hcom3 hc
  rw [← hheap4, ← htr4] at hv3
  obtain ⟨h', hrev, -, -⟩ := g_list_reverse_spec hv3
  have hread : ∀ P : Int,
      animation_cel_animation_get_comment
          ({ c4.animation with heap := h', tracks := addrs2.getLast? } : CelAnimation) P =
        comment_read_back (animation_cel_animation_get_comment A P) := by
    intro P
    unfold animation_cel_animation_get_comment
    show (if ¬ (P ≥ 0 ∧ P < c4.animation.duration) then none
      else (c4.animation.comments[guint_of_gint P]?).join) = _
    rw [hdur4, hdur3]
    by_cases hP : P ≥ 0 ∧ P < A.duration
    · rw [if_neg (not_not.mpr hP), if_neg (not_not.mpr hP)]
      have hgP : guint_of_gint P = P.toNat :=
        guint_of_gint_nonneg hP.1 (by unfold is_gint at hd; omega)
      rw [hgP]
      exact hcom4 P.toNat (by rw [hdur3]; omega)
    · rw [if_pos hP, if_pos hP]
      rfl
  refine ⟨XmlEvent.start_element "animation"
        [("type", "cels"), ("framerate", framerate), ("duration", fmt_d A.duration),
          ("onion-skins", fmt_d A.onion_skins), ("width", fmt_d A.width),
          ("height", fmt_d A.height)] ::
      ([XmlEvent.start_element "playback" playback_attributes,
          XmlEvent.end_element "playback"] ++ seqs ++
        XmlEvent.start_element "camera" [] ::
          (serialize_camera A.camera A.duration.toNat 0 ++
            XmlEvent.end_element "camera" ::
              XmlEvent.start_element "comments" [("title", "")] ::
                (serialize_comments A.comments 0 ++
                  [XmlEvent.end_element "comments", XmlEvent.end_element "animation"]))),
    { c4.animation with heap := h', tracks := addrs2.getLast? }, ?_, ?_, hread, ?_, ?_⟩
  · unfold animation_cel_animation_serialize
    rw [htl, Option.some_bind, hseqs, Option.map_some']
  · unfold animation_cel_animation_deserialize
    have hempty : unescape_gstring_inplace true "" = "" := by decide
    have hopen : c4.open_elements = ["animation"] := by rw [hopen4, hopen3]
    rw [hrun3]
    simp only [List.map_cons, List.map_append, List.map_nil, g_markup_read_element, hempty]
    rw [hrun4]
    simp [g_markup_parse_context_parse, herr4, hopen, hrev, g_markup_parse_context_end_parse,
      hseen4]
  · intro P s hs hpos hplain
    rw [hread P, hs]
    simp only [comment_read_back, Option.some_bind, hpos, if_true]
    unfold unescape_gstring_inplace
    rw [unescape_text_chars_id _ hplain]
  · intro P hnone
    rw [hread P, hnone]
    rfl

/-- Witness of the amended C14: the round trip of the sample animation, whose
comments are none and `intro`. -/
theorem cel_xml_round_trip_comments_witness :
    ∃ doc B,
      animation_cel_animation_serialize sample_animation "24.000000"
          [XmlEvent.start_element "playback" [("position", "0")],
            XmlEvent.end_element "playback"] = some doc ∧
        animation_cel_animation_deserialize new_cel_animation doc = some (B, true) ∧
        (∀ P : Int, animation_cel_animation_get_comment B P =
          comment_read_back (animation_cel_animation_get_comment sample_animation P)) ∧
        (∀ (P : Int) (s : String),
          animation_cel_animation_get_comment sample_animation P = some s →
          s.length > 0 → (∀ ch ∈ s.data, ch ≠ '\r') →
          animation_cel_animation_get_comment B P = some s) ∧
        (∀ P : Int, animation_cel_animation_get_comment sample_animation P = none →
          animation_cel_animation_get_comment B P = none) :=
  cel_xml_round_trip_comments sample_animation new_cel_animation [0, 1, 2] sample_tracks
    "24.000000" [("position", "0")] (by decide) (by decide) (by decide) (by decide)
    (by decide) (by decide) (by decide) rfl rfl

/-! ### Run-length encoding of the frames -/

theorem serialize_frames_eq_runs :
    ∀ (F : List (List Int)) (index duration : Nat), duration ≤ index →
      serialize_frames F ((index : Int) + 1) duration =
        ((frame_runs F index duration).map frame_element).flatten := by
  intro F
  induction F with
  | nil => intro _ _ _; rfl
  | cons layers rest ih =>
    intro index duration hle
    unfold serialize_frames frame_runs
    have hcast : ((index : Int) + 1 + 1) = ((index + 1 : Nat) : Int) + 1 := by push_cast; rfl
    by_cases hl : layers ≠ []
    · rw [if_pos hl, if_pos hl]
      simp only
      by_cases hn : ¬ next_identical layers rest = true
      · rw [if_pos hn, if_pos hn]
        have hpos : ((index : Int) + 1 - ((duration : Int) + 1)) = ((index - duration : Nat) : Int) := by
          omega
        have hdur : ((duration : Int) + 1) = ((duration + 1 : Nat) : Int) := by push_cast; rfl
        rw [hcast]
        have h0 := ih (index + 1) 0 (Nat.zero_le _)
        rw [Nat.cast_zero] at h0
        rw [h0, hpos, hdur]
        simp [frame_element]
      · rw [if_neg hn, if_neg hn, hcast]
        have h1 := ih (index + 1) (duration + 1) (by omega)
        rw [Nat.cast_add, Nat.cast_one] at h1
        exact h1
    · rw [if_neg hl, if_neg hl, hcast]
      exact ih (index + 1) duration (by omega)

theorem frame_runs_spec :
    ∀ (F pre : List (List Int)) (d : Nat), d ≤ pre.length →
      (d > 0 → ∃ L rest, F = L :: rest ∧ L ≠ []) →
      (∀ L rest, F = L :: rest → L ≠ [] →
        (∀ j, pre.length - d ≤ j → j < pre.length → pre[j]? = some L) ∧
        (pre.length - d = 0 ∨ pre[pre.length - d - 1]? ≠ some L)) →
      (∀ r ∈ frame_runs F pre.length d,
        1 ≤ r.duration ∧ r.layers ≠ [] ∧ pre.length - d ≤ r.position ∧
        (∀ j, r.position ≤ j → j < r.position + r.duration →
          (pre ++ F)[j]? = some r.layers) ∧
        (pre ++ F)[r.position + r.duration]? ≠ some r.layers ∧
        (r.position = 0 ∨ (pre ++ F)[r.position - 1]? ≠ some r.layers)) ∧
      (frame_runs F pre.length d).Pairwise
        (fun r1 r2 => r1.position + r1.duration ≤ r2.position) ∧
      (∀ j L, pre.length - d ≤ j → (pre ++ F)[j]? = some L → L ≠ [] →
        ∃ r ∈ frame_runs F pre.length d, r.position ≤ j ∧ j < r.position + r.duration) := by
  intro F
  induction F with
  | nil =>
    intro pre d hd h2 _
    have hd0 : d = 0 := by
      by_contra hne
      obtain ⟨L, rest, hF, -⟩ := h2 (Nat.pos_of_ne_zero hne)
      cases hF
    subst hd0
    refine ⟨fun r hr => absurd hr (List.not_mem_nil r), List.Pairwise.nil, ?_⟩
    intro j L hj hget _
    rw [List.append_nil, List.getElem?_eq_none (by omega)] at hget
    cases hget
  | cons layers rest ih =>
    intro pre d hd h2 h3
    have elen : (pre ++ [layers]).length = pre.length + 1 := by simp
    have eapp : pre ++ [layers] ++ rest = pre ++ layers :: rest := by simp
    have hat : (pre ++ layers :: rest)[pre.length]? = some layers := by
      rw [List.getElem?_append_right (Nat.le_refl _)]; simp
    have hat1 : (pre ++ [layers])[pre.length]? = some layers := by
      rw [List.getElem?_append_right (Nat.le_refl _)]; simp
    unfold frame_runs
    by_cases hl : layers ≠ []
    · rw [if_pos hl]
      obtain ⟨hrange, hleft⟩ := h3 layers rest rfl hl
      by_cases hn : ¬ next_identical layers rest = true
      · rw [if_pos hn]
        have hne : ∀ L rest', rest = L :: rest' → L ≠ layers := by
          intro L rest' hr hL
          subst hL
          exact hn ((next_identical_iff L rest hl).mpr ⟨rest', hr⟩)
        obtain ⟨ihr, ihp, ihc⟩ := ih (pre ++ [layers]) 0 (Nat.zero_le _)
          (fun h => absurd h (Nat.lt_irrefl 0))
          (by
            intro L rest' hr _
            refine ⟨fun j h1 h2 => by omega, Or.inr ?_⟩
            rw [elen, Nat.sub_zero, Nat.add_sub_cancel, hat1]
            intro h
            exact hne L rest' hr (Option.some.inj h).symm)
        rw [elen] at ihr ihp ihc
        rw [eapp] at ihr ihc
        refine ⟨?_, ?_, ?_⟩
        · intro r hr
          rcases List.mem_cons.mp hr with rfl | hr
          · refine ⟨by simp, hl, Nat.le_refl _, ?_, ?_, ?_⟩
            · intro j h1 h2
              simp only at h1 h2
              by_cases hj : j < pre.length
              · rw [List.getElem?_append_left hj]
                exact hrange j h1 hj
              · have : j = pre.length := by omega
                subst this
                exact hat
            · simp only
              have hidx : pre.length - d + (d + 1) = pre.length + 1 := by omega
              rw [hidx, List.getElem?_append_right (by omega)]
              cases rest with
              | nil => simp
              | cons L rest' =>
                simp only [Nat.add_sub_cancel_left, List.getElem?_cons_succ,
                  List.getElem?_cons_zero, ne_eq, Option.some.injEq]
                exact hne L rest' rfl
            · simp only
              rcases hleft with h0 | hleft
              · exact Or.inl h0
              · by_cases h0 : pre.length - d = 0
                · exact Or.inl h0
                · refine Or.inr ?_
                  rw [List.getElem?_append_left (by omega)]
                  exact hleft
          · obtain ⟨q1, q2, q3, q4, q5, q6⟩ := ihr r hr
            exact ⟨q1, q2, by omega, q4, q5, q6⟩
        · rw [List.pairwise_cons]
          refine ⟨?_, ihp⟩
          intro r hr
          have := (ihr r hr).2.2.1
          simp only
          omega
        · intro j L hj hget hL
          by_cases hjp : j ≤ pre.length
          · exact ⟨_, List.mem_cons_self _ _, by simpa using hj, by simp only; omega⟩
          · obtain ⟨r, hr, hr1, hr2⟩ := ihc j L (by omega) hget hL
            exact ⟨r, List.mem_cons_of_mem _ hr, hr1, hr2⟩
      · rw [if_neg hn]
        have hnext : next_identical layers rest = true := by simpa using hn
        obtain ⟨tail, htail⟩ := (next_identical_iff layers rest hl).mp hnext
        obtain ⟨ihr, ihp, ihc⟩ := ih (pre ++ [layers]) (d + 1) (by rw [elen]; omega)
          (fun _ => ⟨layers, tail, htail, hl⟩)
          (by
            intro L rest' hr _
            have hLl : L = layers := by
              rw [htail] at hr
              exact (List.cons.inj hr).1.symm
            subst hLl
            rw [elen]
            have hs : pre.length + 1 - (d + 1) = pre.length - d := by omega
            rw [hs]
            refine ⟨?_, ?_⟩
            · intro j h1 h2
              by_cases hj : j < pre.length
              · rw [List.getElem?_append_left hj]
                exact hrange j h1 hj
              · have : j = pre.length := by omega
                subst this
                exact hat1
            · rcases hleft with h0 | hleft
              · exact Or.inl h0
              · by_cases h0 : pre.length - d = 0
                · exact Or.inl h0
                · refine Or.inr ?_
                  rw [List.getElem?_append_left (by omega)]
                  exact hleft)
        rw [elen] at ihr ihp ihc
        rw [eapp] at ihr ihc
        have hs : pre.length + 1 - (d + 1) = pre.length - d := by omega
        rw [hs] at ihr ihc
        exact ⟨ihr, ihp, ihc⟩
    · rw [if_neg hl]
      have hl0 : layers = [] := by simpa using hl
      have hd0 : d = 0 := by
        by_contra hne
        obtain ⟨L, rest', hF, hL⟩ := h2 (Nat.pos_of_ne_zero hne)
        exact hL ((List.cons.inj hF).1 ▸ hl0)
      subst hd0
      obtain ⟨ihr, ihp, ihc⟩ := ih (pre ++ [layers]) 0 (Nat.zero_le _)
        (fun h => absurd h (Nat.lt_irrefl 0))
        (by
          intro L rest' _ hL
          refine ⟨fun j h1 h2 => by omega, Or.inr ?_⟩
          rw [elen, Nat.sub_zero, Nat.add_sub_cancel, hat1, hl0]
          intro h
          exact hL (Option.some.inj h).symm)
      rw [elen] at ihr ihp ihc
      rw [eapp] at ihr ihc
      refine ⟨?_, ihp, ?_⟩
      · intro r hr
        obtain ⟨q1, q2, q3, q4, q5, q6⟩ := ihr r hr
        exact ⟨q1, q2, by omega, q4, q5, q6⟩
      · intro j L hj hget hL
        by_cases hjp : j = pre.length
        · subst hjp
          rw [hat, hl0] at hget
          exact absurd (Option.some.inj hget).symm hL
        · exact ihc j L (by omega) hget hL

/-- The runs written for a track of six slots: two equal slots, a different one,
an empty one, two equal slots. -/
theorem frame_runs_example :
    frame_runs [[1], [1], [2], [], [4, 5], [4, 5]] 0 0 =
      [{ position := 0, duration := 2, layers := [1] },
       { position := 2, duration := 1, layers := [2] },
       { position := 4, duration := 2, layers := [4, 5] }] := by
  decide

/-- C15: the `<frame>` elements written for a track with frames `F` are the
elements of the runs `frame_runs F 0 0`, in this order, between the tags of the
`<sequence>`; each carries the position and the duration of its run and the
layers of the run in list order.  Every run is made of at least one slot, all
its slots hold the same non-empty layer list, and it is maximal: the slot after
it and the slot before it, if any, hold something else.  The runs come in
increasing position without overlap, every non-empty slot lies in one of them,
and no empty slot does. -/
theorem serialize_frames_maximal_runs (F : List (List Int)) (title : String) :
    serialize_track { title := some title, frames := F } =
        some (XmlEvent.start_element "sequence" [("name", title)] ::
          (((frame_runs F 0 0).map frame_element).flatten ++
            [XmlEvent.end_element "sequence"])) ∧
      (∀ r ∈ frame_runs F 0 0,
        1 ≤ r.duration ∧ r.layers ≠ [] ∧
        (∀ j, r.position ≤ j → j < r.position + r.duration → F[j]? = some r.layers) ∧
        F[r.position + r.duration]? ≠ some r.layers ∧
        (r.position = 0 ∨ F[r.position - 1]? ≠ some r.layers)) ∧
      (frame_runs F 0 0).Pairwise (fun r1 r2 => r1.position + r1.duration ≤ r2.position) ∧
      (∀ j L, F[j]? = some L → L ≠ [] →
        ∃ r ∈ frame_runs F 0 0, r.position ≤ j ∧ j < r.position + r.duration) ∧
      (∀ r ∈ frame_runs F 0 0, ∀ j, r.position ≤ j → j < r.position + r.duration →
        F[j]? ≠ some []) := by
  obtain ⟨hr, hp, hc⟩ := frame_runs_spec F [] 0 (Nat.le_refl _)
    (fun h => absurd h (Nat.lt_irrefl 0))
    (fun L rest _ _ => ⟨fun j _ h2 => absurd h2 (Nat.not_lt_zero j), Or.inl rfl⟩)
  simp only [List.length_nil, List.nil_append, Nat.sub_zero] at hr hp hc
  have hs := serialize_frames_eq_runs F 0 0 (Nat.le_refl _)
  simp only [Nat.cast_zero, zero_add] at hs
  refine ⟨?_, ?_, hp, ?_, ?_⟩
  · simp [serialize_track, hs]
  · intro r hr1
    obtain ⟨q1, q2, -, q4, q5, q6⟩ := hr r hr1
    exact ⟨q1, q2, q4, q5, q6⟩
  · intro j L hget hL
    exact hc j L (Nat.zero_le j) hget hL
  · intro r hr1 j h1 h2 hempty
    obtain ⟨-, q2, -, q4, -, -⟩ := hr r hr1
    rw [q4 j h1 h2] at hempty
    exact q2 (Option.some.inj hempty)

/-! ## Tags in layer names -/

theorem eat_spaces_spec :
    ∀ (l : List Char) (offset : Int),
      ∃ (a : Nat) (rest : List Char), l = List.replicate a ' ' ++ rest ∧
        eat_spaces l offset = (rest, offset + a) ∧ rest.head? ≠ some ' ' := by
  intro l
  induction l with
  | nil => intro offset; exact ⟨0, [], rfl, by simp [eat_spaces], by simp⟩
  | cons c cs ih =>
    intro offset
    by_cases hc : c = ' '
    · obtain ⟨a, rest, hl, he, hh⟩ := ih (offset + 1)
      refine ⟨a + 1, rest, ?_, ?_, hh⟩
      · rw [List.replicate_succ, List.cons_append, ← hl, hc]
      · rw [eat_spaces, if_pos hc, he]
        push_cast
        rw [add_assoc, add_comm 1]
    · exact ⟨0, c :: cs, rfl, by simp [eat_spaces, hc], by simpa using hc⟩

theorem eat_spaces_replicate (a : Nat) (rest : List Char) (offset : Int)
    (h : rest.head? ≠ some ' ') :
    eat_spaces (List.replicate a ' ' ++ rest) offset = (rest, offset + a) := by
  induction a generalizing offset with
  | zero =>
    cases rest with
    | nil => simp [eat_spaces]
    | cons c cs =>
      have hc : c ≠ ' ' := by simpa using h
      simp [eat_spaces, hc]
  | succ a ih =>
    rw [List.replicate_succ, List.cons_append, eat_spaces, if_pos rfl, ih]
    push_cast
    rw [add_assoc, add_comm 1]

theorem read_digits_spec :
    ∀ (l : List Char) (sum offset : Int),
      ∃ (ds rest : List Char), l = ds ++ rest ∧ (∀ ch ∈ ds, g_ascii_isdigit ch = true) ∧
        read_digits l sum offset = (ds.foldl add_digit sum, rest, offset + ds.length) ∧
        (∀ ch, rest.head? = some ch → g_ascii_isdigit ch = false) := by
  intro l
  induction l with
  | nil =>
    intro sum offset
    exact ⟨[], [], rfl, by simp, by simp [read_digits], by simp⟩
  | cons c cs ih =>
    intro sum offset
    by_cases hc : g_ascii_isdigit c = true
    · obtain ⟨ds, rest, hl, hd, he, hh⟩ := ih (add_digit sum c) (offset + 1)
      refine ⟨c :: ds, rest, by rw [hl]; rfl, ?_, ?_, hh⟩
      · intro ch hch
        rcases List.mem_cons.mp hch with rfl | hch
        · exact hc
        · exact hd ch hch
      · rw [read_digits, if_pos hc, he]
        simp only [List.foldl_cons, List.length_cons]
        push_cast
        rw [add_assoc, add_comm 1]
    · refine ⟨[], c :: cs, rfl, by simp, by simp [read_digits, hc], ?_⟩
      intro ch hch
      have : c = ch := by simpa using hch
      subst this
      simpa using hc

theorem read_digits_run (ds rest : List Char) (sum offset : Int)
    (hd : ∀ ch ∈ ds, g_ascii_isdigit ch = true)
    (hh : ∀ ch, rest.head? = some ch → g_ascii_isdigit ch = false) :
    read_digits (ds ++ rest) sum offset = (ds.foldl add_digit sum, rest, offset + ds.length) := by
  induction ds generalizing sum offset with
  | nil =>
    cases rest with
    | nil => simp [read_digits]
    | cons c cs =>
      have hc : g_ascii_isdigit c = false := hh c rfl
      simp [read_digits, hc]
  | cons d ds ih =>
    have h0 := hd d (List.mem_cons_self _ _)
    rw [List.cons_append, read_digits, if_pos h0, ih _ _ (fun ch h => hd ch (List.mem_cons_of_mem _ h))]
    simp only [List.foldl_cons, List.length_cons]
    push_cast
    rw [add_assoc, add_comm 1]

theorem g_ascii_toupper_eq_M (c : Char) : g_ascii_toupper c = 'M' ↔ (c = 'm' ∨ c = 'M') := by
  constructor
  · intro h
    unfold g_ascii_toupper at h
    by_cases hr : 97 ≤ c.toNat ∧ c.toNat ≤ 122
    · rw [if_pos hr] at h
      left
      have h1 : c.toNat = 109 := by
        obtain ⟨h97, h122⟩ := hr
        interval_cases hn : c.toNat <;> first | rfl | (exact absurd h (by decide))
      rw [← Char.ofNat_toNat c, h1]
    · rw [if_neg hr] at h
      exact Or.inr h
  · rintro (rfl | rfl) <;> decide

theorem g_ascii_toupper_eq_S (c : Char) : g_ascii_toupper c = 'S' ↔ (c = 's' ∨ c = 'S') := by
  constructor
  · intro h
    unfold g_ascii_toupper at h
    by_cases hr : 97 ≤ c.toNat ∧ c.toNat ≤ 122
    · rw [if_pos hr] at h
      left
      have h1 : c.toNat = 115 := by
        obtain ⟨h97, h122⟩ := hr
        interval_cases hn : c.toNat <;> first | rfl | (exact absurd h (by decide))
      rw [← Char.ofNat_toNat c, h1]
    · rw [if_neg hr] at h
      exact Or.inr h
  · rintro (rfl | rfl) <;> decide

theorem is_ms_tag_of_text (a : Nat) (d0 : Char) (ds : List Char) (b : Nat) (m s : Char)
    (c : Nat) (rest : List Char) (hd0 : g_ascii_isdigit d0 = true)
    (hds : ∀ ch ∈ ds, g_ascii_isdigit ch = true)
    (hm : m = 'm' ∨ m = 'M') (hs : s = 's' ∨ s = 'S') :
    is_ms_tag (ms_tag_text a (d0 :: ds) b m s c ++ rest) =
      some ((d0 :: ds).foldl add_digit 0, ((ms_tag_text a (d0 :: ds) b m s c).length : Int)) := by
  have hd0s : d0 ≠ ' ' := by
    intro h; subst h; exact absurd hd0 (by decide)
  have hms : m ≠ ' ' := by
    rcases hm with rfl | rfl <;> decide
  have hmd : g_ascii_isdigit m = false := by
    rcases hm with rfl | rfl <;> decide
  have e1 := eat_spaces_replicate a
    (d0 :: (ds ++ (List.replicate b ' ' ++ (m :: s :: (List.replicate c ' ' ++ ')' :: rest))))) 1
    (by simpa using hd0s)
  have e2 := read_digits_run ds
    (List.replicate b ' ' ++ (m :: s :: (List.replicate c ' ' ++ ')' :: rest)))
    (add_digit 0 d0) (1 + (a : Int) + 1) hds
    (by
      intro ch hch
      cases b with
      | zero =>
        have : m = ch := by simpa using hch
        subst this; exact hmd
      | succ b =>
        have : ' ' = ch := by simpa [List.replicate_succ] using hch
        subst this; decide)
  have e3 := eat_spaces_replicate b (m :: s :: (List.replicate c ' ' ++ ')' :: rest))
    (1 + (a : Int) + 1 + ds.length) (by simpa using hms)
  have e4 := eat_spaces_replicate c (')' :: rest)
    (1 + (a : Int) + 1 + ds.length + b + 2) (by simp)
  have hM : g_ascii_toupper m = 'M' := (g_ascii_toupper_eq_M m).mpr hm
  have hS : g_ascii_toupper s = 'S' := (g_ascii_toupper_eq_S s).mpr hs
  unfold is_ms_tag
  simp only [ms_tag_text, List.cons_append, List.append_assoc, List.nil_append, List.headD_cons, ne_eq,
    not_true_eq_false, if_false, List.drop_succ_cons, List.drop_zero, e1, hd0, e2, e3, e4,
    List.length_cons, List.length_append, List.length_replicate, hM, hS, List.singleton_append,
    List.foldl_cons]
  simp only [or_false, List.length_nil]
  rw [if_neg (by push_cast; omega), if_neg (by push_cast; omega), if_neg (by push_cast; omega),
    if_neg (by push_cast; omega)]
  simp only [Option.some.injEq, Prod.mk.injEq, true_and]
  push_cast
  omega

theorem ms_tag_text_of_is_ms_tag (str : List Char) (r : Int × Int)
    (h : is_ms_tag str = some r) :
    ∃ (a : Nat) (d0 : Char) (ds : List Char) (b : Nat) (m s : Char) (c : Nat)
      (rest : List Char),
      g_ascii_isdigit d0 = true ∧ (∀ ch ∈ ds, g_ascii_isdigit ch = true) ∧
      (m = 'm' ∨ m = 'M') ∧ (s = 's' ∨ s = 'S') ∧
      str = ms_tag_text a (d0 :: ds) b m s c ++ rest := by
  cases str with
  | nil => simp [is_ms_tag] at h
  | cons c0 l0 =>
    unfold is_ms_tag at h
    simp only [List.headD_cons, List.drop_succ_cons, List.drop_zero, List.length_cons] at h
    obtain ⟨a, r1, hl0, he1, -⟩ := eat_spaces_spec l0 1
    rw [he1] at h
    simp only at h
    split at h
    · cases h
    · rename_i hc0
      have hc0 : c0 = '(' := by simpa using hc0
      split at h
      · cases h
      · rename_i hc1
        cases r1 with
        | nil =>
          exfalso
          apply hc1
          left
          rw [hl0]
          simp only [List.append_nil, List.length_replicate]
          push_cast
          omega
        | cons d0 l1 =>
          have hd0 : g_ascii_isdigit d0 = true := by
            by_contra hno
            exact hc1 (Or.inr (by simpa using hno))
          simp only [List.headD_cons, List.drop_succ_cons, List.drop_zero] at h
          obtain ⟨ds, r2, hl1, hds, he2, -⟩ := read_digits_spec l1 (add_digit 0 d0) (1 + (a : Int) + 1)
          rw [he2] at h
          simp only at h
          split at h
          · cases h
          · obtain ⟨b, r3, hl2, he3, -⟩ := eat_spaces_spec r2 (1 + (a : Int) + 1 + ds.length)
            rw [he3] at h
            simp only at h
            split at h
            · cases h
            · rename_i hc3
              have hlen : ((l0.length + 1 : Nat) : Int) -
                  (1 + (a : Int) + 1 + ds.length + b) = r3.length := by
                rw [hl0, hl1, hl2]
                simp only [List.length_append, List.length_replicate, List.length_cons]
                push_cast
                omega
              match r3, hl2, hlen, hc3, h with
              | [], _, hlen, hc3, _ =>
                exact absurd (Or.inl (by rw [hlen]; simp)) hc3
              | [x], _, hlen, hc3, _ =>
                exact absurd (Or.inl (by rw [hlen]; simp)) hc3
              | m :: s :: r3', hl2, hlen, hc3, h =>
                have hm : g_ascii_toupper m = 'M' := by
                  by_contra hno
                  exact hc3 (Or.inr (Or.inl (by simpa using hno)))
                have hs : g_ascii_toupper s = 'S' := by
                  by_contra hno
                  exact hc3 (Or.inr (Or.inr (by simpa using hno)))
                simp only [List.drop_succ_cons, List.drop_zero] at h
                obtain ⟨c, r4, hl3, he4, -⟩ :=
                  eat_spaces_spec r3' (1 + (a : Int) + 1 + ds.length + b + 2)
                rw [he4] at h
                simp only at h
                split at h
                · cases h
                · rename_i hc4
                  cases r4 with
                  | nil => exact absurd (Or.inr (by simp)) hc4
                  | cons p rest =>
                    have hp : p = ')' := by
                      by_contra hno
                      exact hc4 (Or.inr (by simpa using hno))
                    refine ⟨a, d0, ds, b, m, s, c, rest, hd0, hds,
                      (g_ascii_toupper_eq_M m).mp hm, (g_ascii_toupper_eq_S s).mp hs, ?_⟩
                    rw [hc0, hl0, hl1, hl2, hl3, hp]
                    simp [ms_tag_text]

theorem parse_digits_ge : ∀ (cs : List Char) (acc : Nat), acc ≤ parse_digits cs acc := by
  intro cs
  induction cs with
  | nil => intro acc; exact Nat.le_refl _
  | cons c cs ih =>
    intro acc
    unfold parse_digits
    cases digit_value c with
    | none => exact Nat.le_refl _
    | some d =>
      have := ih (acc * 10 + d)
      simp only
      omega

theorem foldl_add_digit_eq :
    ∀ (ds : List Char) (acc : Nat), (∀ ch ∈ ds, g_ascii_isdigit ch = true) →
      parse_digits ds acc ≤ 2147483647 →
      ds.foldl add_digit (acc : Int) = (parse_digits ds acc : Int) := by
  intro ds
  induction ds with
  | nil => intro acc _ _; rfl
  | cons c cs ih =>
    intro acc hd hb
    have hc := hd c (List.mem_cons_self _ _)
    have hr : 48 ≤ c.toNat ∧ c.toNat ≤ 57 := by simpa [g_ascii_isdigit] using hc
    have hv : digit_value c = some (c.toNat - 48) := by
      unfold digit_value
      rw [if_pos hr]
    unfold parse_digits at hb ⊢
    rw [hv] at hb ⊢
    simp only at hb ⊢
    have hge := parse_digits_ge cs (acc * 10 + (c.toNat - 48))
    have hstep : add_digit (acc : Int) c = ((acc * 10 + (c.toNat - 48) : Nat) : Int) := by
      unfold add_digit to_gint
      push_cast
      omega
    rw [List.foldl_cons, hstep]
    exact ih _ (fun ch h => hd ch (List.mem_cons_of_mem _ h)) hb

/-- C19: `is_ms_tag (str)` returns `TRUE` exactly when `str` starts with a text
of the grammar `(`, spaces, one or more digits, spaces, `m` or `M`, `s` or `S`,
spaces, `)`; the tag length reported is then the length of this text, and the
duration reported is the sum built by the loop over the digits in `gint`
arithmetic, which is the decimal value of the digits when this value fits a
`gint`. -/
theorem is_ms_tag_grammar :
    (∀ (str : List Char) (r : Int × Int),
      is_ms_tag str = some r ↔
        ∃ (a : Nat) (digits : List Char) (b : Nat) (m s : Char) (c : Nat) (rest : List Char),
          digits ≠ [] ∧ (∀ ch ∈ digits, g_ascii_isdigit ch = true) ∧
          (m = 'm' ∨ m = 'M') ∧ (s = 's' ∨ s = 'S') ∧
          str = ms_tag_text a digits b m s c ++ rest ∧
          r = (digits.foldl add_digit 0, ((ms_tag_text a digits b m s c).length : Int))) ∧
      (∀ digits : List Char, (∀ ch ∈ digits, g_ascii_isdigit ch = true) →
        parse_digits digits 0 ≤ 2147483647 →
        digits.foldl add_digit 0 = (parse_digits digits 0 : Int)) := by
  refine ⟨?_, fun digits hd hb => by simpa using foldl_add_digit_eq digits 0 hd hb⟩
  intro str r
  constructor
  · intro h
    obtain ⟨a, d0, ds, b, m, s, c, rest, hd0, hds, hm, hs, hstr⟩ :=
      ms_tag_text_of_is_ms_tag str r h
    refine ⟨a, d0 :: ds, b, m, s, c, rest, by simp, ?_, hm, hs, hstr, ?_⟩
    · intro ch hch
      rcases List.mem_cons.mp hch with rfl | hch
      · exact hd0
      · exact hds ch hch
    · rw [hstr, is_ms_tag_of_text a d0 ds b m s c rest hd0 hds hm hs] at h
      exact (Option.some.inj h).symm
  · rintro ⟨a, digits, b, m, s, c, rest, hne, hd, hm, hs, hstr, hr⟩
    cases digits with
    | nil => exact absurd rfl hne
    | cons d0 ds =>
      rw [hstr, hr]
      exact is_ms_tag_of_text a d0 ds b m s c rest (hd d0 (List.mem_cons_self _ _))
        (fun ch h => hd ch (List.mem_cons_of_mem _ h)) hm hs

/-- Examples for `is_ms_tag`: a plain tag, a tag with spaces and capitals followed
by more text, and three texts that are no tags. -/
theorem is_ms_tag_examples :
    is_ms_tag "(2000ms)".data = some (2000, 8) ∧
      is_ms_tag "( 20 Ms )x".data = some (20, 9) ∧
      is_ms_tag "(ms)".data = none ∧ is_ms_tag "(12 m s)".data = none ∧
      is_ms_tag "(12ms".data = none := by
  decide

theorem is_ms_tag_nil : is_ms_tag [] = none := by decide

theorem parse_ms_tag_from_first (fps : GDouble) :
    ∀ (i : Nat) (l : List Char) (r : Int × Int), is_ms_tag (l.drop i) = some r →
      (∀ j, j < i → is_ms_tag (l.drop j) = none) →
      parse_ms_tag_from fps l =
        gint_of_gdouble
          (gdouble_div (gdouble_mul fps (gdouble_of_gint r.1)) (gdouble_of_gint 1000)) := by
  intro i
  induction i with
  | zero =>
    intro l r h _
    cases l with
    | nil => rw [List.drop_nil, is_ms_tag_nil] at h; cases h
    | cons c rest =>
      rw [List.drop_zero] at h
      rw [parse_ms_tag_from, h]
  | succ i ih =>
    intro l r h hfirst
    cases l with
    | nil => rw [List.drop_nil, is_ms_tag_nil] at h; cases h
    | cons c rest =>
      have h0 : is_ms_tag (c :: rest) = none := by simpa using hfirst 0 (Nat.succ_pos i)
      rw [parse_ms_tag_from, h0]
      exact ih rest r (by simpa using h)
        (fun j hj => by simpa using hfirst (j + 1) (Nat.succ_lt_succ hj))

theorem parse_ms_tag_from_none (fps : GDouble) :
    ∀ l : List Char, (∀ i, is_ms_tag (l.drop i) = none) → parse_ms_tag_from fps l = some 6 := by
  intro l
  induction l with
  | nil => intro _; rfl
  | cons c rest ih =>
    intro h
    have h0 : is_ms_tag (c :: rest) = none := by simpa using h 0
    rw [parse_ms_tag_from, h0]
    exact ih (fun i => by simpa using h (i + 1))

theorem gint_of_gdouble_eq_some (x : GDouble) (t : Int) :
    gint_of_gdouble x = some t ↔ x.den ≠ 0 ∧ t = x.num.tdiv x.den ∧ is_gint t := by
  unfold gint_of_gdouble
  by_cases hden : x.den = 0
  · rw [if_pos hden]
    constructor
    · intro h; cases h
    · intro h; exact absurd hden h.1
  · rw [if_neg hden]
    by_cases hr : is_gint (x.num.tdiv x.den)
    · rw [if_pos hr]
      constructor
      · intro h
        have e := Option.some.inj h
        exact ⟨hden, e.symm, e ▸ hr⟩
      · intro h
        rw [h.2.1]
    · rw [if_neg hr]
      constructor
      · intro h; cases h
      · intro h
        exact absurd (h.2.1 ▸ h.2.2) hr

set_option maxRecDepth 100000 in
/-- Values of the binary64 arithmetic: the decimal `0.7` is read as
`3152519739159347 / 2 ^ 52`; its product with 90000 is the number just below
63000; a third is rounded to 53 binary digits; `2 ^ 53 + 1` goes to the even
neighbour `2 ^ 53`, and `2 ^ 53 + 3` to `2 ^ 53 + 4`. -/
theorem binary64_examples :
    g_strtod "0.7" = { num := 3152519739159347, den := 4503599627370496 } ∧
      gdouble_mul (g_strtod "0.7") (gdouble_of_gint 90000) =
        { num := 8658654068735999, den := 137438953472 } ∧
      gdouble_div (gdouble_of_gint 1) (gdouble_of_gint 3) =
        { num := 6004799503160661, den := 18014398509481984 } ∧
      binary64_round 9007199254740993 1 = { num := 9007199254740992, den := 1 } ∧
      binary64_round 9007199254740995 1 = { num := 9007199254740996, den := 1 } := by
  decide

/-- Counterexample to C20 as stated: at 24 frames per second the name
`A (70ms)`, whose tag is worth 70 ms, gets 1 frame, the integer part of 1.68,
where the nearest integer is 2. -/
theorem parse_ms_tag_does_not_round :
    is_ms_tag "(70ms)".data = some (70, 6) ∧
      parse_ms_tag (gdouble_of_gint 24) (some "A (70ms)") = some 1 ∧
      frames_rounded (gdouble_of_gint 24) 70 = 2 := by
  decide

/-- C20, as amended: when a valid tag starts at index `i` of the name and at no
smaller index, `ms` being the duration of that tag, `parse_ms_tag` returns the
integer part (the value truncated toward zero) of the `gdouble`
`(fps * ms) / 1000.0`, the product and the quotient each rounded to binary64,
provided that this `gdouble` is finite and its integer part is in the range of
`gint`; otherwise the conversion has no defined result.  When the name holds no
valid tag `parse_ms_tag` returns 6. -/
theorem parse_ms_tag_truncates (fps : GDouble) (name : String) :
    (∀ (i : Nat) (r : Int × Int), is_ms_tag (name.data.drop i) = some r →
      (∀ j, j < i → is_ms_tag (name.data.drop j) = none) →
      ∀ t : Int, parse_ms_tag fps (some name) = some t ↔
        (gdouble_div (gdouble_mul fps (gdouble_of_gint r.1)) (gdouble_of_gint 1000)).den ≠ 0 ∧
        t = Int.tdiv
          (gdouble_div (gdouble_mul fps (gdouble_of_gint r.1)) (gdouble_of_gint 1000)).num
          (gdouble_div (gdouble_mul fps (gdouble_of_gint r.1)) (gdouble_of_gint 1000)).den ∧
        is_gint t) ∧
      ((∀ i, is_ms_tag (name.data.drop i) = none) → parse_ms_tag fps (some name) = some 6) := by
  constructor
  · intro i r h hfirst t
    rw [← gint_of_gdouble_eq_some]
    show parse_ms_tag_from fps name.data = some t ↔ _
    rw [parse_ms_tag_from_first fps i name.data r h hfirst]
  · intro h
    exact parse_ms_tag_from_none fps name.data h

/-- Witness of the amended C20, the example of the claim: `Background (2000ms)`
at 24 frames per second gives 48 frames. -/
theorem parse_ms_tag_truncates_witness :
    is_ms_tag ("Background (2000ms)".data.drop 11) = some (2000, 8) ∧
      (∀ j, j < 11 → is_ms_tag ("Background (2000ms)".data.drop j) = none) ∧
      (parse_ms_tag (gdouble_of_gint 24) (some "Background (2000ms)") = some 48 ↔
        (gdouble_div (gdouble_mul (gdouble_of_gint 24) (gdouble_of_gint 2000))
            (gdouble_of_gint 1000)).den ≠ 0 ∧
        48 = Int.tdiv
          (gdouble_div (gdouble_mul (gdouble_of_gint 24) (gdouble_of_gint 2000))
            (gdouble_of_gint 1000)).num
          (gdouble_div (gdouble_mul (gdouble_of_gint 24) (gdouble_of_gint 2000))
            (gdouble_of_gint 1000)).den ∧
        is_gint 48) ∧
      parse_ms_tag (gdouble_of_gint 24) (some "Background (2000ms)") = some 48 :=
  ⟨by decide, by decide,
    (parse_ms_tag_truncates (gdouble_of_gint 24) "Background (2000ms)").1 11 (2000, 8)
      (by decide) (by decide) 48,
    by decide⟩

set_option maxRecDepth 100000 in
/-- Frame counts where the rounding of the `gdouble` arithmetic shows: at 0.7
frames per second a tag of 90000 ms gives 62 frames, the product being the
number just below 63000, and a tag of 10000 ms gives 7 frames, the product being
rounded to 7000; at 2000000 frames per second a tag of 2000000000 ms has no
defined frame count, the quotient being outside the range of `gint`. -/
theorem parse_ms_tag_examples :
    parse_ms_tag (g_strtod "0.7") (some "(90000ms)") = some 62 ∧
      parse_ms_tag (g_strtod "0.7") (some "x (10000 ms)") = some 7 ∧
      parse_ms_tag (gdouble_of_gint 2000000) (some "(2000000000ms)") = none := by
  decide

/-! ## Positions and panels of an animatic -/

theorem to_gint_id {x : Int} (h0 : -2147483648 ≤ x) (h1 : x ≤ 2147483647) : to_gint x = x := by
  unfold to_gint
  omega

theorem sum_take_step (l : List Int) (hd : ∀ d ∈ l, 0 ≤ d) (k : Nat) :
    (l.take k).sum ≤ (l.take (k + 1)).sum := by
  by_cases hk : k < l.length
  · rw [List.sum_take_succ l k hk]
    have := hd l[k] (List.getElem_mem hk)
    omega
  · rw [List.take_of_length_le (by omega), List.take_of_length_le (by omega)]

theorem sum_take_mono (l : List Int) (hd : ∀ d ∈ l, 0 ≤ d) :
    ∀ j k, j ≤ k → (l.take j).sum ≤ (l.take k).sum := by
  intro j k hjk
  induction k with
  | zero =>
    have : j = 0 := by omega
    subst this
    exact le_refl _
  | succ k ih =>
    by_cases hj : j = k + 1
    · subst hj; exact le_refl _
    · exact le_trans (ih (by omega)) (sum_take_step l hd k)

theorem sum_take_le_sum (l : List Int) (hd : ∀ d ∈ l, 0 ≤ d) (k : Nat) :
    (l.take k).sum ≤ l.sum := by
  by_cases hk : k ≤ l.length
  · have := sum_take_mono l hd k l.length hk
    rwa [List.take_length] at this
  · rw [List.take_of_length_le (by omega)]

theorem sum_take_nonneg (l : List Int) (hd : ∀ d ∈ l, 0 ≤ d) (k : Nat) :
    0 ≤ (l.take k).sum := by
  have := sum_take_mono l hd 0 k (Nat.zero_le k)
  simpa using this

theorem get_length_loop_eq (l : List Int) (hd : ∀ d ∈ l, 0 ≤ d) (hs : l.sum ≤ 2147483647) :
    ∀ (n i : Nat), i + n = l.length →
      get_length_loop l n i (l.take i).sum = some l.sum := by
  intro n
  induction n with
  | zero =>
    intro i hi
    rw [get_length_loop, List.take_of_length_le (by omega)]
  | succ n ih =>
    intro i hi
    have hlt : i < l.length := by omega
    rw [get_length_loop, List.getElem?_eq_getElem hlt, Option.some_bind,
      ← List.sum_take_succ l i hlt,
      to_gint_id (by have := sum_take_nonneg l hd (i + 1); omega)
        (by have := sum_take_le_sum l hd (i + 1); omega)]
    exact ih (i + 1) (by omega)

theorem get_length_eq (a : AnimationAnimatic) (hn : a.n_panels = a.durations.length)
    (hd : ∀ d ∈ a.durations, 0 ≤ d) (hs : a.durations.sum ≤ 2147483647) :
    animation_animatic_get_length a = some a.durations.sum := by
  unfold animation_animatic_get_length
  have := get_length_loop_eq a.durations hd hs a.durations.length 0 (by omega)
  rw [hn]
  simpa using this

theorem get_panel_loop_spec (l : List Int) (hd : ∀ d ∈ l, 0 ≤ d) (hs : l.sum ≤ 2147483647)
    (pos : Int) (hpos : pos ≤ l.sum) :
    ∀ (n i : Nat), i + n = l.length → (l.take i).sum < pos →
      ∃ k : Nat, get_panel_loop l pos n i (l.take i).sum = some (k : Int) ∧ i ≤ k ∧
        k < l.length ∧ (l.take k).sum < pos ∧ pos ≤ (l.take (k + 1)).sum := by
  intro n
  induction n with
  | zero =>
    intro i hi hlt
    rw [List.take_of_length_le (by omega)] at hlt
    omega
  | succ n ih =>
    intro i hi hlt
    have hil : i < l.length := by omega
    rw [get_panel_loop, List.getElem?_eq_getElem hil, Option.some_bind,
      ← List.sum_take_succ l i hil,
      to_gint_id (by have := sum_take_nonneg l hd (i + 1); omega)
        (by have := sum_take_le_sum l hd (i + 1); omega)]
    by_cases hge : (l.take (i + 1)).sum ≥ pos
    · simp only [hge, if_true]
      exact ⟨i, rfl, le_refl _, hil, hlt, hge⟩
    · simp only [hge, if_false]
      obtain ⟨k, hk, h1, h2, h3, h4⟩ := ih (i + 1) (by omega) (by omega)
      exact ⟨k, hk, by omega, h2, h3, h4⟩

theorem get_panel_in_range (a : AnimationAnimatic) (hn : a.n_panels = a.durations.length)
    (hd : ∀ d ∈ a.durations, 0 ≤ d) (hs : a.durations.sum ≤ 2147483647)
    (pos : Int) (h1 : 1 ≤ pos) (h2 : pos ≤ a.durations.sum) :
    ∃ k : Nat, animation_animatic_get_panel a pos = some (k : Int) ∧ 1 ≤ k ∧
      k ≤ a.durations.length ∧ (a.durations.take (k - 1)).sum < pos ∧
      pos ≤ (a.durations.take k).sum := by
  obtain ⟨k, hk, -, hkl, hlo, hhi⟩ :=
    get_panel_loop_spec a.durations hd hs pos h2 a.durations.length 0 (by omega)
      (by simp; omega)
  refine ⟨k + 1, ?_, by omega, by omega, by simpa using hlo, hhi⟩
  unfold animation_animatic_get_panel
  simp only [ge_iff_le, h1, if_true, get_length_eq a hn hd hs, Option.some_bind, h2]
  rw [hn]
  simp only [Int.toNat_ofNat, List.take_zero, List.sum_nil] at hk ⊢
  rw [hk]
  simp only [Option.map_some', Option.some.injEq]
  rw [if_pos ⟨by omega, by omega⟩]
  push_cast
  rfl

theorem get_panel_out_of_range (a : AnimationAnimatic) (hn : a.n_panels = a.durations.length)
    (hd : ∀ d ∈ a.durations, 0 ≤ d) (hs : a.durations.sum ≤ 2147483647)
    (pos : Int) (h : ¬ (1 ≤ pos ∧ pos ≤ a.durations.sum)) :
    animation_animatic_get_panel a pos = some (-1) := by
  unfold animation_animatic_get_panel
  by_cases h1 : pos ≥ 1
  · have h2 : ¬ pos ≤ a.durations.sum := fun h2 => h ⟨h1, h2⟩
    simp [h1, get_length_eq a hn hd hs, h2]
  · simp [h1]

theorem panel_mono (l : List Int) (hd : ∀ d ∈ l, 0 ≤ d) {p q : Int} {j k : Nat}
    (hpq : p ≤ q) (hj : (l.take j).sum < p) (hk : q ≤ (l.take (k + 1)).sum) : j ≤ k := by
  by_contra hno
  have := sum_take_mono l hd (k + 1) j (by omega)
  omega

/-- C16: for an animatic whose durations are not negative (their sum fitting a
`gint`), `get_panel (pos)` with `1 ≤ pos ≤ d[0] + ... + d[n-1]` returns the
panel number `k` in `1..n` such that the first `k - 1` durations sum to less
than `pos` and the first `k` to at least `pos`; for every other `pos` it
returns -1; and over the positions from 1 to the total length the panel
returned does not decrease as `pos` grows. -/
theorem get_panel_contract (a : AnimationAnimatic) (hn : a.n_panels = a.durations.length)
    (hd : ∀ d ∈ a.durations, 0 ≤ d) (hs : a.durations.sum ≤ 2147483647) :
    (∀ pos : Int, 1 ≤ pos → pos ≤ a.durations.sum →
      ∃ k : Nat, animation_animatic_get_panel a pos = some (k : Int) ∧ 1 ≤ k ∧
        k ≤ a.durations.length ∧ (a.durations.take (k - 1)).sum < pos ∧
        pos ≤ (a.durations.take k).sum) ∧
      (∀ pos : Int, ¬ (1 ≤ pos ∧ pos ≤ a.durations.sum) →
        animation_animatic_get_panel a pos = some (-1)) ∧
      (∀ p q : Int, 1 ≤ p → p ≤ q → q ≤ a.durations.sum →
        ∃ kp kq : Int, animation_animatic_get_panel a p = some kp ∧
          animation_animatic_get_panel a q = some kq ∧ kp ≤ kq) := by
  refine ⟨fun pos h1 h2 => get_panel_in_range a hn hd hs pos h1 h2,
    fun pos h => get_panel_out_of_range a hn hd hs pos h, ?_⟩
  intro p q h1 hpq h2
  obtain ⟨kp, hkp, hp1, -, hplo, -⟩ := get_panel_in_range a hn hd hs p h1 (by omega)
  obtain ⟨kq, hkq, hq1, -, -, hqhi⟩ := get_panel_in_range a hn hd hs q (by omega) h2
  refine ⟨kp, kq, hkp, hkq, ?_⟩
  have := @panel_mono a.durations hd p q (kp - 1) (kq - 1) hpq hplo
    (by rw [Nat.sub_add_cancel hq1]; exact hqhi)
  omega

/-- Witness of C16: the animatic of three panels lasting 12, 6 and 6 frames. -/
theorem get_panel_contract_witness :
    (∀ pos : Int, 1 ≤ pos → pos ≤ sample_animatic.durations.sum →
      ∃ k : Nat, animation_animatic_get_panel sample_animatic pos = some (k : Int) ∧ 1 ≤ k ∧
        k ≤ sample_animatic.durations.length ∧
        (sample_animatic.durations.take (k - 1)).sum < pos ∧
        pos ≤ (sample_animatic.durations.take k).sum) ∧
      (∀ pos : Int, ¬ (1 ≤ pos ∧ pos ≤ sample_animatic.durations.sum) →
        animation_animatic_get_panel sample_animatic pos = some (-1)) ∧
      (∀ p q : Int, 1 ≤ p → p ≤ q → q ≤ sample_animatic.durations.sum →
        ∃ kp kq : Int, animation_animatic_get_panel sample_animatic p = some kp ∧
          animation_animatic_get_panel sample_animatic q = some kq ∧ kp ≤ kq) :=
  get_panel_contract sample_animatic (by decide) (by decide) (by decide)

/-- The panels found for some positions of the sample animatic, and -1 outside
of its 24 frames. -/
theorem get_panel_examples :
    animation_animatic_get_panel sample_animatic 1 = some 1 ∧
      animation_animatic_get_panel sample_animatic 12 = some 1 ∧
      animation_animatic_get_panel sample_animatic 13 = some 2 ∧
      animation_animatic_get_panel sample_animatic 24 = some 3 ∧
      animation_animatic_get_panel sample_animatic 25 = some (-1) ∧
      animation_animatic_get_panel sample_animatic 0 = some (-1) := by
  decide

theorem same_loop_spec (l : List Int) (hd : ∀ d ∈ l, 0 ≤ d) (hs : l.sum ≤ 2147483647)
    (p q : Int) (hp : p ≤ l.sum) :
    ∀ (n i : Nat), i + n = l.length → (l.take i).sum < p → (l.take i).sum < q →
      ∃ b : Bool, same_loop l p q n i (l.take i).sum = some b ∧
        (b = true ↔ ∃ k : Nat, (l.take k).sum < p ∧ p ≤ (l.take (k + 1)).sum ∧
          (l.take k).sum < q ∧ q ≤ (l.take (k + 1)).sum) := by
  intro n
  induction n with
  | zero =>
    intro i hi hlt _
    rw [List.take_of_length_le (by omega)] at hlt
    omega
  | succ n ih =>
    intro i hi hltp hltq
    have hil : i < l.length := by omega
    rw [same_loop, List.getElem?_eq_getElem hil, Option.some_bind,
      ← List.sum_take_succ l i hil,
      to_gint_id (by have := sum_take_nonneg l hd (i + 1); omega)
        (by have := sum_take_le_sum l hd (i + 1); omega)]
    simp only
    by_cases hboth : (l.take (i + 1)).sum ≥ p ∧ (l.take (i + 1)).sum ≥ q
    · rw [if_pos hboth]
      exact ⟨true, rfl, fun _ => ⟨i, hltp, hboth.1, hltq, hboth.2⟩, fun _ => rfl⟩
    · rw [if_neg hboth]
      by_cases hone : (l.take (i + 1)).sum ≥ p ∨ (l.take (i + 1)).sum ≥ q
      · rw [if_pos hone]
        refine ⟨false, rfl, ⟨fun h => Bool.noConfusion h, ?_⟩⟩
        rintro ⟨k, hk1, hk2, hk3, hk4⟩
        exfalso
        rcases hone with h1 | h1
        · have hki : k ≤ i := by
            by_contra hno
            have := sum_take_mono l hd (i + 1) k (by omega)
            omega
          have := sum_take_mono l hd (k + 1) (i + 1) (by omega)
          exact hboth ⟨h1, by omega⟩
        · have hki : k ≤ i := by
            by_contra hno
            have := sum_take_mono l hd (i + 1) k (by omega)
            omega
          have := sum_take_mono l hd (k + 1) (i + 1) (by omega)
          exact hboth ⟨by omega, h1⟩
      · rw [if_neg hone]
        exact ih (i + 1) (by omega) (by omega) (by omega)

/-- C17: for an animatic whose durations are not negative (their sum fitting a
`gint`) and positions `p`, `q` from 1 to the total length, `same (p, q)` is true
exactly when `get_panel (p)` and `get_panel (q)` are the same panel. -/
theorem same_iff_get_panel_eq (a : AnimationAnimatic) (hn : a.n_panels = a.durations.length)
    (hd : ∀ d ∈ a.durations, 0 ≤ d) (hs : a.durations.sum ≤ 2147483647)
    (p q : Int) (hp : 1 ≤ p ∧ p ≤ a.durations.sum) (hq : 1 ≤ q ∧ q ≤ a.durations.sum) :
    ∃ (b : Bool) (kp kq : Int), animation_animatic_same a p q = some b ∧
      animation_animatic_get_panel a p = some kp ∧
      animation_animatic_get_panel a q = some kq ∧ (b = true ↔ kp = kq) := by
  obtain ⟨kp, hkp, hp1, -, hplo, hphi⟩ := get_panel_in_range a hn hd hs p hp.1 hp.2
  obtain ⟨kq, hkq, hq1, -, hqlo, hqhi⟩ := get_panel_in_range a hn hd hs q hq.1 hq.2
  obtain ⟨b, hb, hiff⟩ := same_loop_spec a.durations hd hs p q hp.2 a.durations.length 0
    (by omega) (by simp; omega) (by simp; omega)
  refine ⟨b, kp, kq, ?_, hkp, hkq, ?_⟩
  · unfold animation_animatic_same
    rw [hn]
    simpa using hb
  · rw [hiff]
    constructor
    · rintro ⟨k, hk1, hk2, hk3, hk4⟩
      have e1 : kp - 1 ≤ k := panel_mono a.durations hd (le_refl p) hplo hk2
      have e2 : k ≤ kp - 1 :=
        panel_mono a.durations hd (le_refl p) hk1 (by rw [Nat.sub_add_cancel hp1]; exact hphi)
      have e3 : kq - 1 ≤ k := panel_mono a.durations hd (le_refl q) hqlo hk4
      have e4 : k ≤ kq - 1 :=
        panel_mono a.durations hd (le_refl q) hk3 (by rw [Nat.sub_add_cancel hq1]; exact hqhi)
      have : kp = kq := by omega
      rw [this]
    · intro h
      have hk : kp = kq := by exact_mod_cast h
      subst hk
      exact ⟨kp - 1, hplo, by rw [Nat.sub_add_cancel hp1]; exact hphi, hqlo,
        by rw [Nat.sub_add_cancel hp1]; exact hqhi⟩

/-- Witness of C17 on the sample animatic: positions 12 and 13 lie in the
panels 1 and 2. -/
theorem same_iff_get_panel_eq_witness :
    ∃ (b : Bool) (kp kq : Int), animation_animatic_same sample_animatic 12 13 = some b ∧
      animation_animatic_get_panel sample_animatic 12 = some kp ∧
      animation_animatic_get_panel sample_animatic 13 = some kq ∧ (b = true ↔ kp = kq) :=
  same_iff_get_panel_eq sample_animatic (by decide) (by decide) (by decide) 12 13
    (by decide) (by decide)

/-! ## Loading an animatic -/

/-- C18 (a document whose parsing fails leaves what `load` alone would have
produced): on an image of three layers named `C`, `B(combine)` and `A (500ms)`
and an animatic at 24 frames per second, `load` alone gives the durations 12,
6, 6 at 24 frames per second; `load_xml` on a document that sets the framerate
to 12 and is then refused ends with the reset by `load`, which keeps the
framerate 12 read from the document and computes the duration of the first
panel from it: 6 frames instead of 12. -/
theorem load_xml_failure_keeps_framerate :
    (animation_animatic_load sample_image blank_animatic (gdouble_of_gint 1)).map
        (fun a => (a.framerate, a.durations, a.combine, a.comments)) =
      some (gdouble_of_gint 24, [12, 6, 6], [false, false, false],
        [some "A (500ms)", some "B(combine)", some "C"]) ∧
      (animation_animatic_load_xml (gdouble_of_gint 300) (gdouble_of_gint 24) sample_image
          blank_animatic broken_animatic_document (gdouble_of_gint 1)).map
        (fun a => (a.framerate, a.durations, a.combine, a.comments)) =
      some (gdouble_of_gint 12, [6, 6, 6], [false, false, false],
        [some "A (500ms)", some "B(combine)", some "C"]) := by
  exact ⟨rfl, rfl⟩

/-! ## The combine tag -/

theorem parse_combine_tag_loop_true (str : List Char) :
    ∀ n, parse_combine_tag_loop str n = true ↔ (0 < n ∧ str = "(combine)".data) := by
  intro n
  induction n with
  | zero => simp [parse_combine_tag_loop]
  | succ n ih =>
    unfold parse_combine_tag_loop
    by_cases h9 : str.length ≠ 9
    · rw [if_pos h9, ih]
      constructor
      · rintro ⟨-, h⟩
        rw [h] at h9
        exact absurd rfl h9
      · rintro ⟨-, h⟩
        rw [h] at h9
        exact absurd rfl h9
    · rw [if_neg h9]
      have hlen : str.length = 9 := by simpa using h9
      have htake : str.take 9 = str := List.take_of_length_le (by omega)
      rw [htake]
      by_cases hc : str = "(combine)".data
      · rw [if_pos hc]
        exact ⟨fun _ => ⟨Nat.succ_pos n, hc⟩, fun _ => rfl⟩
      · rw [if_neg hc]
        by_cases hr : str = "(replace)".data
        · rw [if_pos hr]
          exact ⟨fun h => Bool.noConfusion h, fun h => absurd h.2 hc⟩
        · rw [if_neg hr, ih]
          exact ⟨fun h => absurd h.2 hc, fun h => absurd h.2 hc⟩

/-- C21: `parse_combine_tag` returns `TRUE` exactly for the name `(combine)`
itself; any other name, and `NULL`, gives `FALSE`. -/
theorem parse_combine_tag_exact (name : String) :
    (parse_combine_tag (some name) = true ↔ name = "(combine)") ∧
      parse_combine_tag none = false ∧
      parse_combine_tag (some "(replace)") = false ∧
      parse_combine_tag (some "") = false ∧
      parse_combine_tag (some "B(combine)") = false ∧
      parse_combine_tag (some "(combine) ") = false := by
  refine ⟨?_, rfl, by decide, by decide, by decide, by decide⟩
  unfold parse_combine_tag
  simp only
  rw [parse_combine_tag_loop_true]
  constructor
  · rintro ⟨-, h⟩
    exact String.ext h
  · intro h
    subst h
    exact ⟨by decide, rfl⟩

/-- C22 (loading, at 24 frames per second, the image whose layers are named
`A (500ms)`, `B(combine)` and `C`): the animatic has 3 panels lasting 12, 6 and
6 frames and its length is 24, but the combine flag of the second panel is
`FALSE`: `parse_combine_tag` compares the whole name, `B(combine)`, which has
10 characters, at every turn of its loop. -/
theorem load_three_layers :
    (animation_animatic_load sample_image blank_animatic (gdouble_of_gint 1)).map
        (fun a => (a.n_panels, a.durations, a.combine)) =
      some (3, [12, 6, 6], [false, false, false]) ∧
      (animation_animatic_load sample_image blank_animatic (gdouble_of_gint 1)).bind
        animation_animatic_get_length = some 24 := by
  exact ⟨rfl, rfl⟩

/-! ## Bounds of the track moves -/

/-- Counterexample to C23 as stated: on the sample animation of three tracks
`level_up (0)` is accepted: it returns 1 and exchanges the first two tracks. -/
theorem level_up_first_track_accepted :
    (animation_cel_animation_level_up sample_animation 0).map
        (fun r => (r.2, (track_list r.1).map (fun l => l.map Track.title))) =
      some (1, some [some "Name me", some "Background", some "Figure"]) := by
  decide

/-- C23, as amended: on a track list of `n ≥ 1` tracks `level_up` applied to
the last track (index `n - 1`) and `level_down` applied to the first track
(index 0) are rejected: the call returns the index it was given and the
animation is unchanged. -/
theorem level_moves_rejected_at_bounds (a : CelAnimation) (addrs : List Nat) (l : List Track)
    (hv : IsFwdList a.heap a.tracks addrs l) (h1 : 1 ≤ l.length)
    (hn : l.length ≤ 2147483647) :
    animation_cel_animation_level_up a ((l.length : Int) - 1) =
        some (a, (l.length : Int) - 1) ∧
      animation_cel_animation_level_down a 0 = some (a, 0) := by
  constructor
  · unfold animation_cel_animation_level_up
    rw [hv.length]
    simp only
    rw [if_pos]
    intro h
    have := h.2
    omega
  · unfold animation_cel_animation_level_down
    rw [hv.length]
    simp only
    rw [if_pos]
    intro h
    exact absurd h.1 (lt_irrefl 0)

/-- Witness of the amended C23 on the sample animation of three tracks. -/
theorem level_moves_rejected_at_bounds_witness :
    animation_cel_animation_level_up sample_animation ((sample_tracks.length : Int) - 1) =
        some (sample_animation, (sample_tracks.length : Int) - 1) ∧
      animation_cel_animation_level_down sample_animation 0 = some (sample_animation, 0) :=
  level_moves_rejected_at_bounds sample_animation [0, 1, 2] sample_tracks (by decide)
    (by decide) (by decide)

/-! ## More on `set_duration` and `cel_add` -/

/-- C28 (changing the duration leaves the track list alone): on the sample
animation of three tracks and duration 5, `set_duration (2)` leaves a track
list of two tracks; the third track was released with the nodes of the track
list from index 2 on. -/
theorem set_duration_drops_tracks :
    (track_list sample_animation).map (fun l => l.map Track.title) =
        some [some "Background", some "Name me", some "Figure"] ∧
      ((animation_cel_animation_set_duration sample_animation 2).bind track_list).map
          (fun l => l.map Track.title) =
        some [some "Background", some "Name me"] := by
  decide

/-- C29 (`cel_add` returning `FALSE` changes nothing): on the one-frame
animation whose track holds the frame `[7]`, `cel_add (0, 1, TRUE)` returns
`FALSE` after it has appended a copy of the frame and grown the duration to 2. -/
theorem cel_add_false_after_insertion :
    one_frame_animation.duration = 1 ∧
      (track_list one_frame_animation).map (fun l => l.map (fun t => t.frames)) =
        some [[[7]]] ∧
      (animation_cel_animation_cel_add one_frame_animation 0 1 true).map
          (fun r => (r.2, r.1.duration,
            (track_list r.1).map (fun l => l.map (fun t => t.frames)))) =
        some (false, 2, some [[[7], [7]]]) := by
  decide

/-! ## `set_duration` of an animatic -/

/-- C26 (`set_duration` emits `render` when the panel under the playback
position changes): on two panels of two frames each with the playback at
position 2, `set_duration (1, 1)` moves position 2 from panel 1 to panel 2, the
new length being 3, and emits no `render`: the test is made with
`animation_animatic_get_layer`, which adds the durations up from the last panel
and finds the same index 1 before and after. -/
theorem set_duration_misses_render :
    animation_animatic_get_panel two_panel_animatic 2 = some 1 ∧
      (animation_animatic_set_duration two_panel_animatic 1 1).map
          (fun a => (a.durations, a.position, a.render_signals)) =
        some ([1, 2], 2, []) ∧
      (animation_animatic_set_duration two_panel_animatic 1 1).bind
          (fun a => animation_animatic_get_panel a 2) = some 2 ∧
      (animation_animatic_set_duration two_panel_animatic 1 1).bind
          animation_animatic_get_length = some 3 ∧
      animation_animatic_get_layer two_panel_animatic 2 = some 1 ∧
      (animation_animatic_set_duration two_panel_animatic 1 1).bind
          (fun a => animation_animatic_get_layer a 2) = some 1 := by
  decide

/-! ## The hash of a frame -/

theorem nat_digits_aux_forall (P : Char → Prop) (hP : ∀ d, P (digit_char d)) :
    ∀ (fuel n : Nat) (acc : List Char), (∀ c ∈ acc, P c) →
      ∀ c ∈ nat_digits_aux fuel n acc, P c := by
  intro fuel
  induction fuel with
  | zero => intro n acc h; simpa [nat_digits_aux] using h
  | succ fuel ih =>
    intro n acc h
    unfold nat_digits_aux
    split_ifs
    · intro c hc
      rcases List.mem_cons.mp hc with rfl | hc
      · exact hP n
      · exact h c hc
    · apply ih
      intro c hc
      rcases List.mem_cons.mp hc with rfl | hc
      · exact hP _
      · exact h c hc

theorem digit_char_isdigit (d : Nat) : g_ascii_isdigit (digit_char d) = true := by
  unfold digit_char
  split <;> decide

theorem fmt_d_class (i : Int) :
    ∀ c ∈ (fmt_d i).data, c = '-' ∨ g_ascii_isdigit c = true := by
  have hn : ∀ n : Nat, ∀ c ∈ nat_digits n, c = '-' ∨ g_ascii_isdigit c = true := fun n =>
    nat_digits_aux_forall (fun c => c = '-' ∨ g_ascii_isdigit c = true)
      (fun d => Or.inr (digit_char_isdigit d)) (n + 1) n []
      (fun c hc => absurd hc (List.not_mem_nil c))
  unfold fmt_d
  split_ifs
  · intro c hc
    rcases List.mem_cons.mp hc with rfl | hc
    · exact Or.inl rfl
    · exact hn _ c hc
  · exact hn _

theorem fmt_d_no_delimiter (i : Int) :
    ';' ∉ (fmt_d i).data ∧ ',' ∉ (fmt_d i).data ∧ ']' ∉ (fmt_d i).data := by
  refine ⟨fun h => ?_, fun h => ?_, fun h => ?_⟩ <;>
    rcases fmt_d_class i _ h with h1 | h1 <;> exact absurd h1 (by decide)

theorem fmt_d_data_inj {i j : Int} (hi : is_gint i) (hj : is_gint j)
    (h : (fmt_d i).data = (fmt_d j).data) : i = j := by
  have hs : fmt_d i = fmt_d j := String.ext h
  rw [← strtoll_fmt_d hi, ← strtoll_fmt_d hj, hs]

theorem append_delim_inj {d : Char} :
    ∀ {s1 s2 r1 r2 : List Char}, d ∉ s1 → d ∉ s2 → s1 ++ d :: r1 = s2 ++ d :: r2 →
      s1 = s2 ∧ r1 = r2 := by
  intro s1
  induction s1 with
  | nil =>
    intro s2 r1 r2 _ h2 h
    cases s2 with
    | nil => exact ⟨rfl, by simpa using h⟩
    | cons c cs =>
      exfalso
      have hc : d = c := by simpa using (List.cons.inj h).1
      exact h2 (hc ▸ List.mem_cons_self _ _)
  | cons c cs ih =>
    intro s2 r1 r2 h1 h2 h
    cases s2 with
    | nil =>
      exfalso
      have hc : c = d := by simpa using (List.cons.inj h).1
      exact h1 (hc ▸ List.mem_cons_self _ _)
    | cons c2 cs2 =>
      have hh := List.cons.inj h
      obtain ⟨e1, e2⟩ := ih (fun hm => h1 (List.mem_cons_of_mem _ hm))
        (fun hm => h2 (List.mem_cons_of_mem _ hm)) hh.2
      exact ⟨by rw [hh.1, e1], e2⟩

theorem layer_tokens_inj :
    ∀ (s1 s2 : List Int), (∀ t ∈ s1, is_gint t) → (∀ t ∈ s2, is_gint t) →
      (s1.map layer_token).flatten = (s2.map layer_token).flatten → s1 = s2 := by
  intro s1
  induction s1 with
  | nil =>
    intro s2 _ _ h
    cases s2 with
    | nil => rfl
    | cons t ts => simp [layer_token] at h
  | cons t ts ih =>
    intro s2 h1 h2 h
    cases s2 with
    | nil => simp [layer_token] at h
    | cons u us =>
      simp only [List.map_cons, List.flatten_cons, layer_token, List.append_assoc,
        List.singleton_append] at h
      obtain ⟨e1, e2⟩ := append_delim_inj (fmt_d_no_delimiter t).1 (fmt_d_no_delimiter u).1 h
      have := fmt_d_data_inj (h1 t (List.mem_cons_self _ _)) (h2 u (List.mem_cons_self _ _)) e1
      rw [this, ih us (fun x hx => h1 x (List.mem_cons_of_mem _ hx))
        (fun x hx => h2 x (List.mem_cons_of_mem _ hx)) e2]

theorem full_tokens_inj (x y x' y' : Int) (hx : is_gint x) (hy : is_gint y)
    (hx' : is_gint x') (hy' : is_gint y') :
    ∀ (s1 s2 : List Int), (∀ t ∈ s1, is_gint t) → (∀ t ∈ s2, is_gint t) →
      (s1.map (full_token x y)).flatten = (s2.map (full_token x' y')).flatten →
      s1 = s2 ∧ (s1 ≠ [] → x = x' ∧ y = y') := by
  intro s1
  induction s1 with
  | nil =>
    intro s2 _ _ h
    cases s2 with
    | nil => exact ⟨rfl, fun h => absurd rfl h⟩
    | cons t ts => simp [full_token] at h
  | cons t ts ih =>
    intro s2 h1 h2 h
    cases s2 with
    | nil => simp [full_token] at h
    | cons u us =>
      simp only [List.map_cons, List.flatten_cons, full_token, List.append_assoc,
        List.cons_append, List.singleton_append, List.nil_append, List.cons.injEq,
        true_and] at h
      obtain ⟨e1, h⟩ := append_delim_inj (fmt_d_no_delimiter x).2.1
        (fmt_d_no_delimiter x').2.1 h
      obtain ⟨e2, h⟩ := append_delim_inj (fmt_d_no_delimiter y).2.2
        (fmt_d_no_delimiter y').2.2 h
      obtain ⟨e3, h⟩ := append_delim_inj (fmt_d_no_delimiter t).1 (fmt_d_no_delimiter u).1 h
      have ex := fmt_d_data_inj hx hx' e1
      have ey := fmt_d_data_inj hy hy' e2
      have et := fmt_d_data_inj (h1 t (List.mem_cons_self _ _))
        (h2 u (List.mem_cons_self _ _)) e3
      obtain ⟨es, -⟩ := ih us (fun z hz => h1 z (List.mem_cons_of_mem _ hz))
        (fun z hz => h2 z (List.mem_cons_of_mem _ hz)) h
      exact ⟨by rw [et, es], fun _ => ⟨ex, ey⟩⟩

theorem hash_layers_data (layers_only : Bool) (x y : Int) :
    ∀ (layers : List Int) (hash : String),
      (hash_layers layers_only x y layers hash).data =
        hash.data ++
          ((layers.filter fun tattoo => decide (tattoo ≠ 0)).map
            (if layers_only then layer_token else full_token x y)).flatten := by
  intro layers
  induction layers with
  | nil => intro hash; simp [hash_layers]
  | cons t ts ih =>
    intro hash
    unfold hash_layers
    by_cases ht : t ≠ 0
    · rw [if_pos ht, ih, List.filter_cons_of_pos (by simpa using ht)]
      cases layers_only with
      | true =>
        simp [layer_token, String.data_append]
      | false =>
        simp [full_token, String.data_append]
    · rw [if_neg ht, ih, List.filter_cons_of_neg (by simpa using ht)]

theorem hash_tracks_data (layers_only : Bool) (x y position : Int) :
    ∀ (tracks : List Track) (hash : String),
      (hash_tracks layers_only x y position tracks hash).data =
        hash.data ++
          ((frame_layer_ids tracks position).map
            (if layers_only then layer_token else full_token x y)).flatten := by
  intro tracks
  induction tracks with
  | nil => intro hash; simp [hash_tracks, frame_layer_ids]
  | cons t ts ih =>
    intro hash
    unfold hash_tracks
    rw [ih, hash_layers_data]
    simp [frame_layer_ids, List.append_assoc]

theorem tokens_nil_iff (f : Int → List Char) (hf : ∀ t, f t ≠ []) (s : List Int) :
    (s.map f).flatten = [] ↔ s = [] := by
  cases s with
  | nil => simp
  | cons t ts =>
    simp only [List.map_cons, List.flatten_cons, List.append_eq_nil, reduceCtorEq, iff_false,
      not_and]
    intro h
    exact absurd h (hf t)

theorem hash_or_null_eq_iff (s1 s2 : String) :
    ((if s1.length = 0 then none else some s1) = (if s2.length = 0 then none else some s2)) ↔
      s1.data = s2.data := by
  have e1 : s1.length = 0 ↔ s1.data = [] := by
    rw [String.length]; exact List.length_eq_zero
  have e2 : s2.length = 0 ↔ s2.data = [] := by
    rw [String.length]; exact List.length_eq_zero
  by_cases h1 : s1.length = 0
  · by_cases h2 : s2.length = 0
    · rw [if_pos h1, if_pos h2]
      simp [e1.mp h1, e2.mp h2]
    · rw [if_pos h1, if_neg h2]
      constructor
      · intro h; cases h
      · intro h
        exact absurd (e2.mpr (h ▸ e1.mp h1)) h2
  · by_cases h2 : s2.length = 0
    · rw [if_neg h1, if_pos h2]
      constructor
      · intro h; cases h
      · intro h
        exact absurd (e1.mpr (h.symm ▸ e2.mp h2)) h1
    · rw [if_neg h1, if_neg h2]
      constructor
      · intro h
        rw [Option.some.inj h]
      · intro h
        rw [String.ext h]

theorem hash_or_null_none_iff (s : String) :
    (if s.length = 0 then none else some s) = none ↔ s.data = [] := by
  have e1 : s.length = 0 ↔ s.data = [] := by
    rw [String.length]; exact List.length_eq_zero
  by_cases h : s.length = 0
  · rw [if_pos h]
    simp [e1.mp h]
  · rw [if_neg h]
    simp only [reduceCtorEq, false_iff]
    exact fun hd => h (e1.mpr hd)

theorem frame_layer_ids_gint (l : List Track)
    (hg : ∀ t ∈ l, ∀ L ∈ t.frames, ∀ x ∈ L, is_gint x) (p : Int) :
    ∀ x ∈ frame_layer_ids l p, is_gint x := by
  intro x hx
  unfold frame_layer_ids at hx
  rw [List.mem_flatten] at hx
  obtain ⟨L, hL, hxL⟩ := hx
  obtain ⟨t, ht, rfl⟩ := List.mem_map.mp hL
  have hx1 := (List.mem_filter.mp hxL).1
  rw [glist_nth_data_eq] at hx1
  rw [List.getD_eq_getElem?_getD] at hx1
  cases hget : t.frames[guint_of_gint p]? with
  | none => rw [hget] at hx1; simp at hx1
  | some F =>
    rw [hget] at hx1
    exact hg t ht F (List.mem_iff_getElem?.2 ⟨_, hget⟩) x (by simpa using hx1)

/-- C27: for every cel animation (its tattoos and camera offsets being `gint`s)
and all positions `p`, `q`: the hashes of the layers only at `p` and `q` are
equal, `NULL` counting as equal to `NULL` only, exactly when the sequences of
the non-zero tattoos shown at `p` and at `q` (tracks in list order, tattoos in
slot order) are equal; the full hashes are equal exactly when these sequences
are equal and, if they are not empty, the camera offsets at `p` and `q` are
equal; and a hash is `NULL` exactly when the sequence is empty. -/
theorem get_hash_faithful (a : CelAnimation) (addrs : List Nat) (l : List Track)
    (hv : IsFwdList a.heap a.tracks addrs l)
    (hg : ∀ t ∈ l, ∀ L ∈ t.frames, ∀ x ∈ L, is_gint x) (p q : Int)
    (hcp : is_gint (animation_camera_get a.camera p).1 ∧
      is_gint (animation_camera_get a.camera p).2)
    (hcq : is_gint (animation_camera_get a.camera q).1 ∧
      is_gint (animation_camera_get a.camera q).2) :
    ∃ lp lq fp fq : Option String,
      animation_cel_animation_get_hash a p true = some lp ∧
      animation_cel_animation_get_hash a q true = some lq ∧
      animation_cel_animation_get_hash a p false = some fp ∧
      animation_cel_animation_get_hash a q false = some fq ∧
      (lp = lq ↔ frame_layer_ids l p = frame_layer_ids l q) ∧
      (fp = fq ↔ frame_layer_ids l p = frame_layer_ids l q ∧
        (frame_layer_ids l p ≠ [] →
          animation_camera_get a.camera p = animation_camera_get a.camera q)) ∧
      (lp = none ↔ frame_layer_ids l p = []) ∧ (fp = none ↔ frame_layer_ids l p = []) := by
  have htl : track_list a = some l := hv.track_list
  have hgp := frame_layer_ids_gint l hg p
  have hgq := frame_layer_ids_gint l hg q
  have key : ∀ (r : Int) (lo : Bool), animation_cel_animation_get_hash a r lo =
      some (if (hash_tracks lo (animation_camera_get a.camera r).1
          (animation_camera_get a.camera r).2 r l "").length = 0 then none
        else some (hash_tracks lo (animation_camera_get a.camera r).1
          (animation_camera_get a.camera r).2 r l "")) := by
    intro r lo
    simp only [animation_cel_animation_get_hash, htl, Option.map_some']
  refine ⟨_, _, _, _, key p true, key q true, key p false, key q false, ?_, ?_, ?_, ?_⟩
  · rw [hash_or_null_eq_iff, hash_tracks_data, hash_tracks_data]
    simp only [show ("" : String).data = [] from rfl, List.nil_append, if_true]
    exact ⟨fun h => layer_tokens_inj _ _ hgp hgq h, fun h => by rw [h]⟩
  · rw [hash_or_null_eq_iff, hash_tracks_data, hash_tracks_data]
    simp only [show ("" : String).data = [] from rfl, List.nil_append, Bool.false_eq_true, if_false]
    constructor
    · intro h
      obtain ⟨e1, e2⟩ := full_tokens_inj _ _ _ _ hcp.1 hcp.2 hcq.1 hcq.2 _ _ hgp hgq h
      exact ⟨e1, fun hne => Prod.ext (e2 hne).1 (e2 hne).2⟩
    · rintro ⟨e1, e2⟩
      rw [← e1]
      by_cases hne : frame_layer_ids l p = []
      · rw [hne]; rfl
      · rw [e2 hne]
  · rw [hash_or_null_none_iff, hash_tracks_data]
    simp only [show ("" : String).data = [] from rfl, List.nil_append, if_true]
    exact tokens_nil_iff layer_token (fun t => by simp [layer_token]) _
  · rw [hash_or_null_none_iff, hash_tracks_data]
    simp only [show ("" : String).data = [] from rfl, List.nil_append, Bool.false_eq_true, if_false]
    exact tokens_nil_iff (full_token _ _) (fun t => by simp [full_token]) _

/-- Witness of C27 on the sample animation: positions 0 and 1 show the layers
1 and 3 and the layer 1. -/
theorem get_hash_faithful_witness :
    ∃ lp lq fp fq : Option String,
      animation_cel_animation_get_hash sample_animation 0 true = some lp ∧
      animation_cel_animation_get_hash sample_animation 1 true = some lq ∧
      animation_cel_animation_get_hash sample_animation 0 false = some fp ∧
      animation_cel_animation_get_hash sample_animation 1 false = some fq ∧
      (lp = lq ↔ frame_layer_ids sample_tracks 0 = frame_layer_ids sample_tracks 1) ∧
      (fp = fq ↔ frame_layer_ids sample_tracks 0 = frame_layer_ids sample_tracks 1 ∧
        (frame_layer_ids sample_tracks 0 ≠ [] →
          animation_camera_get sample_animation.camera 0 =
            animation_camera_get sample_animation.camera 1)) ∧
      (lp = none ↔ frame_layer_ids sample_tracks 0 = []) ∧
      (fp = none ↔ frame_layer_ids sample_tracks 0 = []) :=
  get_hash_faithful sample_animation [0, 1, 2] sample_tracks (by decide) (by decide) 0 1
    (by decide) (by decide)

/-- The hashes of some frames of the sample animation. -/
theorem get_hash_examples :
    animation_cel_animation_get_hash sample_animation 0 true = some (some "1;3;") ∧
      animation_cel_animation_get_hash sample_animation 2 false =
        some (some "[0,0]2;[0,0]4;[0,0]5;") ∧
      animation_cel_animation_get_hash sample_animation 7 false = some none := by
  decide

/-! ## Consistency of the cache of an animatic -/

/-- C25 (the cache is consistent after a document was read): on an image whose
layers are, from the bottom, `A`, `B` and `(combine)`, `load` gives the combine
flags false, false, true and the caches `[1]`, `[2]`, `[2, 3]`.  Reading a
document whose second and third panels are both in combine mode sets the flag of
the second panel and caches it again without recursion: the cache of the third
panel stays `[2, 3]`, while its render over the new cache of the second panel is
`[1, 2, 3]`, so the cache is not consistent.  `animation_animatic_set_combine`
on the loaded state, which caches with recursion, ends with `[1, 2, 3]`. -/
theorem load_xml_leaves_stale_cache :
    (animation_animatic_load combine_image blank_animatic (gdouble_of_gint 1)).map
        (fun a => (a.combine, a.cache)) =
      some ([false, false, true], [some [1], some [2], some [2, 3]]) ∧
    (animation_animatic_load_xml (gdouble_of_gint 300) (gdouble_of_gint 24) combine_image
        blank_animatic combine_document (gdouble_of_gint 1)).map
        (fun a => (a.combine, a.cache, panel_render combine_image a 2,
          decide (cache_consistent combine_image a))) =
      some ([false, true, true], [some [1], some [1, 2], some [2, 3]], some [1, 2, 3], false) ∧
    ((animation_animatic_load combine_image blank_animatic (gdouble_of_gint 1)).bind
        (fun a => animation_animatic_set_combine combine_image a 2 true)).map
        (fun a => (a.combine, a.cache, decide (cache_consistent combine_image a))) =
      some ([false, true, true], [some [1], some [1, 2], some [1, 2, 3]], true) := by
  exact ⟨rfl, rfl, rfl⟩

theorem array_get_nat {α : Type} (l : List α) (j : Nat) : array_get l (j : Int) = l[j]? := by
  unfold array_get
  rw [if_neg (by omega)]
  rfl

theorem array_set_nat {α : Type} (l : List α) (j : Nat) (x : α) (h : j < l.length) :
    array_set l (j : Int) x = some (l.set j x) := by
  unfold array_set
  rw [if_pos ⟨by omega, by simpa using h⟩]
  rfl

theorem get_length_loop_total (durations : List Int) :
    ∀ (n i : Nat) (count : Int), i + n ≤ durations.length →
      ∃ r, get_length_loop durations n i count = some r := by
  intro n
  induction n with
  | zero => intro i count _; exact ⟨count, rfl⟩
  | succ n ih =>
    intro i count h
    unfold get_length_loop
    rw [List.getElem?_eq_getElem (by omega)]
    exact ih (i + 1) _ (by omega)

theorem get_panel_loop_total (durations : List Int) (pos : Int) :
    ∀ (n i : Nat) (count : Int), i + n ≤ durations.length →
      ∃ r, get_panel_loop durations pos n i count = some r := by
  intro n
  induction n with
  | zero => intro i count _; exact ⟨i, rfl⟩
  | succ n ih =>
    intro i count h
    unfold get_panel_loop
    rw [List.getElem?_eq_getElem (by omega)]
    simp only [Option.some_bind]
    split_ifs
    · exact ⟨_, rfl⟩
    · exact ih (i + 1) _ (by omega)

theorem get_panel_total (a : AnimationAnimatic) (h : a.n_panels.toNat ≤ a.durations.length)
    (pos : Int) : ∃ r, animation_animatic_get_panel a pos = some r := by
  unfold animation_animatic_get_panel
  obtain ⟨len, hlen⟩ := get_length_loop_total a.durations a.n_panels.toNat 0 0 (by omega)
  obtain ⟨r, hr⟩ := get_panel_loop_total a.durations pos a.n_panels.toNat 0 0 (by omega)
  simp only [animation_animatic_get_length, hlen, hr, Option.some_bind]
  split_ifs <;> exact ⟨_, rfl⟩

theorem cache_aux_succ (image : List Layer) (fuel : Nat) (a : AnimationAnimatic) (j : Nat)
    (recursion : Bool) (buffer : GeglBuffer)
    (hr : panel_render image a j = some buffer) (hj : j < a.cache.length) :
    animation_animatic_cache_aux image (fuel + 1) a ((j : Int) + 1) recursion =
      (if recursion = true ∧ (j : Int) + 1 < a.n_panels then a.combine[j + 1]?
        else some false).bind fun next_combined =>
      (if next_combined = true then
          animation_animatic_cache_aux image fuel { a with cache := a.cache.set j (some buffer) }
            ((j : Int) + 1 + 1) true
        else some { a with cache := a.cache.set j (some buffer) }).bind fun a2 =>
      (animation_animatic_get_panel a2 a2.position).map fun shown =>
        if shown = (j : Int) + 1 then
          { a2 with render_signals := a2.position :: a2.render_signals }
        else a2 := by
  unfold panel_render at hr
  rw [animation_animatic_cache_aux]
  have e1 : (j : Int) + 1 - 1 = (j : Int) := by omega
  have e2 : (j : Int) + 1 = ((j + 1 : Nat) : Int) := by omega
  rw [e1, array_get_nat, array_get_nat]
  cases ht : a.tattoos[j]? with
  | none => rw [ht] at hr; simp at hr
  | some tattoo =>
    rw [ht] at hr
    simp only [Option.some_bind] at hr ⊢
    cases hl : gimp_image_get_layer_by_tattoo image tattoo with
    | none => rw [hl] at hr; simp at hr
    | some layer =>
      rw [hl] at hr
      simp only [Option.some_bind] at hr ⊢
      rw [List.getElem?_eq_getElem hj]
      simp only [Option.some_bind]
      have hb : (if (j : Int) + 1 > 1 then array_get a.combine (j : Int) else some false) =
          (if 0 < j then a.combine[j]? else some false) := by
        by_cases h0 : 0 < j
        · rw [if_pos h0, if_pos (by omega), array_get_nat]
        · rw [if_neg h0, if_neg (by omega)]
      rw [hb]
      cases hc : (if 0 < j then a.combine[j]? else some false) with
      | none => rw [hc] at hr; simp at hr
      | some combined =>
        rw [hc] at hr
        simp only [Option.some_bind] at hr ⊢
        have hbuf : (if combined = true then
              Option.map (fun backdrop => backdrop.getD [] ++ [layer.tattoo])
                (array_get a.cache ((j : Int) + 1 - 2))
            else some [layer.tattoo]) = some buffer := by
          rw [← hr]
          by_cases hcomb : combined = true
          · rw [if_pos hcomb, if_pos hcomb]
            have h0 : 0 < j := by
              by_contra h0
              rw [if_neg h0] at hc
              rw [hcomb] at hc
              cases hc
            have e3 : (j : Int) + 1 - 2 = ((j - 1 : Nat) : Int) := by omega
            rw [e3, array_get_nat]
          · rw [if_neg hcomb, if_neg hcomb]
        rw [hbuf]
        simp only [Option.some_bind]
        rw [array_set_nat _ _ _ hj]
        simp only [Option.some_bind]
        have e4 : array_get a.combine ((j : Int) + 1) = a.combine[j + 1]? := by
          rw [e2, array_get_nat]
        rw [e4]

theorem panel_render_congr (image : List Layer) (a b : AnimationAnimatic) (i : Nat)
    (ht : b.tattoos[i]? = a.tattoos[i]?) (hc : 0 < i → b.combine[i]? = a.combine[i]?)
    (hb : 0 < i → a.combine[i]? = some true → b.cache[i - 1]? = a.cache[i - 1]?) :
    panel_render image b i = panel_render image a i := by
  unfold panel_render
  rw [ht]
  cases a.tattoos[i]? with
  | none => rfl
  | some tattoo =>
    simp only [Option.some_bind]
    cases gimp_image_get_layer_by_tattoo image tattoo with
    | none => rfl
    | some layer =>
      simp only [Option.some_bind]
      by_cases h0 : 0 < i
      · rw [if_pos h0, if_pos h0, hc h0]
        cases hcomb : a.combine[i]? with
        | none => rfl
        | some combined =>
          simp only [Option.some_bind]
          cases combined with
          | false => rfl
          | true => simp only [if_true]; rw [hb h0 hcomb]
      · rw [if_neg h0, if_neg h0]
        rfl

theorem cache_consistent_at_congr (image : List Layer) (a b : AnimationAnimatic) (i : Nat)
    (ht : b.tattoos[i]? = a.tattoos[i]?) (hc : 0 < i → b.combine[i]? = a.combine[i]?)
    (hb : 0 < i → a.combine[i]? = some true → b.cache[i - 1]? = a.cache[i - 1]?)
    (hi : b.cache[i]? = a.cache[i]?) (h : cache_consistent_at image a i) :
    cache_consistent_at image b i := by
  unfold cache_consistent_at at h ⊢
  rw [panel_render_congr image a b i ht hc hb, hi]
  exact h

theorem panel_render_defined (image : List Layer) (a : AnimationAnimatic)
    (hs : animatic_arrays_sized a) (i : Nat) (hi : i < a.n_panels.toNat)
    (hres : ∃ layer, (a.tattoos[i]?).bind (gimp_image_get_layer_by_tattoo image) = some layer) :
    ∃ buffer, panel_render image a i = some buffer := by
  obtain ⟨hst, -, hsc, -, hsk⟩ := hs
  obtain ⟨layer, hl⟩ := hres
  unfold panel_render
  cases ht : a.tattoos[i]? with
  | none => rw [ht] at hl; cases hl
  | some tattoo =>
    rw [ht] at hl
    simp only [Option.some_bind] at hl ⊢
    rw [hl]
    simp only [Option.some_bind]
    rw [List.getElem?_eq_getElem (show i < a.combine.length by omega)]
    rw [List.getElem?_eq_getElem (show i - 1 < a.cache.length by omega)]
    by_cases h0 : 0 < i
    · rw [if_pos h0]
      simp only [Option.some_bind, Option.map_some']
      by_cases hcomb : a.combine[i] = true
      · rw [if_pos hcomb]
        exact ⟨_, rfl⟩
      · rw [if_neg hcomb]
        exact ⟨_, rfl⟩
    · rw [if_neg h0]
      exact ⟨_, rfl⟩

theorem cache_write_consistent (image : List Layer) (a : AnimationAnimatic) (j : Nat)
    (buffer : GeglBuffer) (hbuf : panel_render image a j = some buffer)
    (hj : j < a.cache.length) :
    cache_consistent_at image { a with cache := a.cache.set j (some buffer) } j := by
  have e : panel_render image { a with cache := a.cache.set j (some buffer) } j =
      panel_render image a j := by
    exact panel_render_congr image a { a with cache := a.cache.set j (some buffer) } j rfl
      (fun _ => rfl) (fun h0 _ => List.getElem?_set_ne (by omega))
  unfold cache_consistent_at
  rw [e, hbuf]
  exact ⟨rfl, by simp [List.getElem?_set_self hj]⟩

theorem cache_write_frame (image : List Layer) (a : AnimationAnimatic) (j : Nat)
    (x : Option GeglBuffer) (i : Nat) (hij : i ≠ j)
    (hnext : i = j + 1 → a.combine[i]? = some false)
    (h : cache_consistent_at image a i) :
    cache_consistent_at image { a with cache := a.cache.set j x } i := by
  refine cache_consistent_at_congr image a { a with cache := a.cache.set j x } i rfl
    (fun _ => rfl) ?_ ?_ h
  · intro h0 hcomb
    have hne : j ≠ i - 1 := by
      intro he
      have hc := hnext (by omega)
      rw [hc] at hcomb
      cases hcomb
    exact List.getElem?_set_ne hne
  · exact List.getElem?_set_ne (Ne.symm hij)

theorem cache_aux_recursion (image : List Layer) :
    ∀ (fuel : Nat) (a : AnimationAnimatic) (j : Nat), animatic_arrays_sized a →
      (∀ i, i < a.n_panels.toNat →
        ∃ layer, (a.tattoos[i]?).bind (gimp_image_get_layer_by_tattoo image) = some layer) →
      j < a.n_panels.toNat → a.n_panels.toNat ≤ j + fuel →
      (∀ i, i < a.n_panels.toNat → i ≠ j → (i = j + 1 → a.combine[i]? = some false) →
        cache_consistent_at image a i) →
      ∃ a1, animation_animatic_cache_aux image fuel a ((j : Int) + 1) true = some a1 ∧
        animatic_arrays_sized a1 ∧ cache_consistent image a1 := by
  intro fuel
  induction fuel with
  | zero => intro a j _ _ hj hf; omega
  | succ fuel ih =>
    intro a j hs hres hj hf hinv
    obtain ⟨buffer, hbuf⟩ := panel_render_defined image a hs j hj (hres j hj)
    have hjc : j < a.cache.length := by
      obtain ⟨-, -, -, -, hsk⟩ := hs
      omega
    rw [cache_aux_succ image fuel a j true buffer hbuf hjc]
    have hs1 : animatic_arrays_sized { a with cache := a.cache.set j (some buffer) } := by
      obtain ⟨h1, h2, h3, h4, h5⟩ := hs
      exact ⟨h1, h2, h3, h4, by simpa using h5⟩
    have hcj := cache_write_consistent image a j buffer hbuf hjc
    have finish : ∀ a2 : AnimationAnimatic, animatic_arrays_sized a2 → cache_consistent image a2 →
        ∃ a1, ((animation_animatic_get_panel a2 a2.position).map fun shown =>
          if shown = (j : Int) + 1 then
            { a2 with render_signals := a2.position :: a2.render_signals }
          else a2) = some a1 ∧ animatic_arrays_sized a1 ∧ cache_consistent image a1 := by
      intro a2 hs2 hc2
      obtain ⟨shown, hshown⟩ := get_panel_total a2 (by
        obtain ⟨-, h2, -, -, -⟩ := hs2
        omega) a2.position
      rw [hshown]
      simp only [Option.map_some']
      split_ifs
      · exact ⟨_, rfl, hs2, hc2⟩
      · exact ⟨_, rfl, hs2, hc2⟩
    by_cases hnext : (j : Int) + 1 < a.n_panels
    · have hlen : j + 1 < a.combine.length := by
        obtain ⟨-, -, h3, -, -⟩ := hs
        omega
      rw [if_pos ⟨rfl, hnext⟩, List.getElem?_eq_getElem hlen]
      simp only [Option.some_bind]
      cases hcomb : a.combine[j + 1] with
      | true =>
        rw [if_pos rfl]
        obtain ⟨a2, ha2, hs2, hc2⟩ := ih { a with cache := a.cache.set j (some buffer) } (j + 1)
          hs1 hres (by show j + 1 < a.n_panels.toNat; omega)
          (by show a.n_panels.toNat ≤ j + 1 + fuel; omega)
          (by
            intro i hi hij hnx
            by_cases hij0 : i = j
            · rw [hij0]; exact hcj
            · exact cache_write_frame image a j _ i hij0 (fun h => absurd h hij)
                (hinv i hi hij0 (fun h => absurd h hij)))
        have e2 : ((j + 1 : Nat) : Int) + 1 = (j : Int) + 1 + 1 := by push_cast; ring
        rw [e2] at ha2
        rw [ha2]
        simp only [Option.some_bind]
        exact finish a2 hs2 hc2
      | false =>
        rw [if_neg (by simp)]
        simp only [Option.some_bind]
        apply finish _ hs1
        intro i hi
        by_cases hij0 : i = j
        · rw [hij0]; exact hcj
        · have hnx : i = j + 1 → a.combine[i]? = some false := by
            intro h
            rw [h, List.getElem?_eq_getElem hlen, hcomb]
          exact cache_write_frame image a j _ i hij0 hnx (hinv i hi hij0 hnx)
    · rw [if_neg (fun h => hnext h.2)]
      simp only [Option.some_bind]
      rw [if_neg (by simp)]
      simp only [Option.some_bind]
      apply finish _ hs1
      intro i hi
      by_cases hij0 : i = j
      · rw [hij0]; exact hcj
      · have hnx : i = j + 1 → a.combine[i]? = some false := by
          intro h
          have : i < a.n_panels.toNat := hi
          omega
        exact cache_write_frame image a j _ i hij0 hnx (hinv i hi hij0 hnx)

theorem resolvable_of_consistent_at (image : List Layer) (a : AnimationAnimatic) (i : Nat)
    (h : cache_consistent_at image a i) :
    ∃ layer, (a.tattoos[i]?).bind (gimp_image_get_layer_by_tattoo image) = some layer := by
  have h1 := h.1
  unfold panel_render at h1
  cases ht : a.tattoos[i]? with
  | none => rw [ht] at h1; cases h1
  | some tattoo =>
    rw [ht] at h1
    simp only [Option.some_bind] at h1 ⊢
    cases hl : gimp_image_get_layer_by_tattoo image tattoo with
    | none => rw [hl] at h1; cases h1
    | some layer => exact ⟨layer, rfl⟩

theorem set_combine_preserves (image : List Layer) (a : AnimationAnimatic)
    (hs : animatic_arrays_sized a) (hc : cache_consistent image a) (k : Int) (c : Bool) :
    ∃ a1, animation_animatic_set_combine image a k c = some a1 ∧
      animatic_arrays_sized a1 ∧ cache_consistent image a1 := by
  unfold animation_animatic_set_combine
  by_cases hk : k > 0 ∧ k ≤ a.n_panels
  · rw [if_neg (not_not.mpr hk)]
    obtain ⟨j, hj⟩ : ∃ j : Nat, k = (j : Int) + 1 := ⟨(k - 1).toNat, by omega⟩
    subst hj
    have hjn : j < a.n_panels.toNat := by omega
    have e1 : (j : Int) + 1 - 1 = (j : Int) := by omega
    have hlen : j < a.combine.length := by
      obtain ⟨-, -, h3, -, -⟩ := hs
      omega
    rw [e1, array_get_nat, List.getElem?_eq_getElem hlen]
    simp only [Option.some_bind]
    by_cases hne : a.combine[j] ≠ c
    · rw [if_pos hne, array_set_nat _ _ _ hlen]
      simp only [Option.some_bind]
      unfold animation_animatic_cache
      apply cache_aux_recursion image _ { a with combine := a.combine.set j c } j
      · obtain ⟨h1, h2, h3, h4, h5⟩ := hs
        exact ⟨h1, h2, by simpa using h3, h4, h5⟩
      · intro i hi
        exact resolvable_of_consistent_at image a i (hc i hi)
      · exact hjn
      · show a.n_panels.toNat ≤ j + (a.n_panels.toNat + 1)
        omega
      · intro i hi hij _
        exact cache_consistent_at_congr image a { a with combine := a.combine.set j c } i rfl
          (fun _ => List.getElem?_set_ne (Ne.symm hij)) (fun _ _ => rfl) rfl (hc i hi)
    · rw [if_neg hne]
      exact ⟨a, rfl, hs, hc⟩
  · rw [if_pos hk]
    exact ⟨a, rfl, hs, hc⟩

theorem layer_by_tattoo_of_mem (image : List Layer) (layer : Layer) (h : layer ∈ image) :
    ∃ found, gimp_image_get_layer_by_tattoo image layer.tattoo = some found := by
  unfold gimp_image_get_layer_by_tattoo
  cases hf : image.find? fun l => decide (l.tattoo = layer.tattoo) with
  | some found => exact ⟨found, rfl⟩
  | none =>
    rw [List.find?_eq_none] at hf
    have := hf layer h
    simp at this

theorem load_panels_consistent (image : List Layer) (fps : GDouble)
    (hms : ∀ layer ∈ image, ∃ d, parse_ms_tag fps (some layer.name) = some d) :
    ∀ (m i : Nat) (a : AnimationAnimatic), a.framerate = fps → animatic_arrays_sized a →
      a.n_panels = (image.length : Int) → i + m = image.length →
      (∀ k, k < i → cache_consistent_at image a k) →
      ∃ a1, animation_animatic_load_panels image m (i : Int) a = some a1 ∧
        animatic_arrays_sized a1 ∧ cache_consistent image a1 ∧
        a1.n_panels = (image.length : Int) := by
  intro m
  induction m with
  | zero =>
    intro i a _ hs hn him hc
    refine ⟨a, rfl, hs, ?_, hn⟩
    intro k hk
    exact hc k (by rw [hn] at hk; simp at hk; omega)
  | succ m ih =>
    intro i a hfps hs hn him hc
    obtain ⟨h1, h2, h3, h4, h5⟩ := hs
    have hnn : a.n_panels.toNat = image.length := by rw [hn]; simp
    rw [animation_animatic_load_panels]
    have e1 : a.n_panels - ((i : Int) + 1) = ((image.length - 1 - i : Nat) : Int) := by
      rw [hn]; omega
    have hidx : image.length - 1 - i < image.length := by omega
    rw [e1, array_get_nat, List.getElem?_eq_getElem hidx]
    simp only [Option.some_bind]
    generalize hlayer : image[image.length - 1 - i] = layer
    have hmem : layer ∈ image := by rw [← hlayer]; exact List.getElem_mem _
    obtain ⟨d, hd⟩ := hms layer hmem
    rw [← hfps] at hd
    rw [hd]
    simp only [Option.some_bind]
    rw [array_set_nat _ _ _ (by omega), array_set_nat _ _ _ (by omega),
      array_set_nat _ _ _ (by omega), array_set_nat _ _ _ (by omega)]
    simp only [Option.some_bind]
    generalize hb : ({ a with
        tattoos := a.tattoos.set i layer.tattoo
        durations := a.durations.set i d
        combine := a.combine.set i (parse_combine_tag (some layer.name))
        comments := a.comments.set i (some layer.name) } : AnimationAnimatic) = b
    have hbf : b.framerate = fps := by rw [← hb]; exact hfps
    have hbt : b.tattoos = a.tattoos.set i layer.tattoo := by rw [← hb]
    have hbc : b.combine = a.combine.set i (parse_combine_tag (some layer.name)) := by rw [← hb]
    have hbk : b.cache = a.cache := by rw [← hb]
    have hbn : b.n_panels = a.n_panels := by rw [← hb]
    have hbs : animatic_arrays_sized b := by
      rw [← hb]
      exact ⟨by simpa using h1, by simpa using h2, by simpa using h3, by simpa using h4, h5⟩
    have hin : i < b.n_panels.toNat := by rw [hbn]; omega
    obtain ⟨found, hfound⟩ := layer_by_tattoo_of_mem image layer hmem
    obtain ⟨buffer, hbuf⟩ := panel_render_defined image b hbs i hin (by
      rw [hbt, List.getElem?_set_self (by omega)]
      exact ⟨found, hfound⟩)
    have hic : i < b.cache.length := by rw [hbk]; omega
    unfold animation_animatic_cache
    rw [cache_aux_succ image _ b i false buffer hbuf hic]
    rw [if_neg (fun h => Bool.noConfusion h.1)]
    simp only [Option.some_bind]
    rw [if_neg (by simp)]
    simp only [Option.some_bind]
    have hs1 : animatic_arrays_sized { b with cache := b.cache.set i (some buffer) } := by
      obtain ⟨g1, g2, g3, g4, g5⟩ := hbs
      exact ⟨g1, g2, g3, g4, by simpa using g5⟩
    have hc1 : ∀ k, k < i + 1 →
        cache_consistent_at image { b with cache := b.cache.set i (some buffer) } k := by
      intro k hk
      by_cases hki : k = i
      · rw [hki]
        exact cache_write_consistent image b i buffer hbuf hic
      · apply cache_write_frame image b i _ k hki (fun h => by omega)
        refine cache_consistent_at_congr image a b k ?_ ?_ ?_ ?_ (hc k (by omega))
        · rw [hbt]; exact List.getElem?_set_ne (Ne.symm hki)
        · intro _; rw [hbc]; exact List.getElem?_set_ne (Ne.symm hki)
        · intro _ _; rw [hbk]
        · rw [hbk]
    obtain ⟨shown, hshown⟩ := get_panel_total { b with cache := b.cache.set i (some buffer) }
      (by
        obtain ⟨-, g2, -, -, -⟩ := hs1
        omega) b.position
    rw [hshown]
    simp only [Option.map_some', Option.some_bind]
    have e2 : (i : Int) + 1 = ((i + 1 : Nat) : Int) := by omega
    have hn1 : b.n_panels = (image.length : Int) := by rw [hbn, hn]
    by_cases hsh : shown = (i : Int) + 1
    · rw [if_pos hsh, e2]
      exact ih (i + 1) _ hbf hs1 hn1 (by omega) hc1
    · rw [if_neg hsh, e2]
      exact ih (i + 1) _ hbf hs1 hn1 (by omega) hc1

theorem load_consistent (image : List Layer) (a : AnimationAnimatic) (proxy_ratio : GDouble)
    (himage : image ≠ [])
    (hratio : proxy_ratio.num > 0 ∧ gdouble_le proxy_ratio (gdouble_of_gint 1) = true)
    (hms : ∀ layer ∈ image, ∃ d, parse_ms_tag a.framerate (some layer.name) = some d) :
    ∃ a1, animation_animatic_load image a proxy_ratio = some a1 ∧
      animatic_arrays_sized a1 ∧ cache_consistent image a1 ∧
      a1.n_panels = (image.length : Int) := by
  unfold animation_animatic_load
  rw [if_neg (not_not.mpr hratio)]
  have hlen : image.length ≠ 0 := fun h => himage (List.length_eq_zero.mp h)
  rw [if_neg hlen]
  have h := load_panels_consistent image a.framerate hms image.length 0
    { a with n_panels := image.length
             tattoos := List.replicate image.length 0
             durations := List.replicate image.length 0
             combine := List.replicate image.length false
             comments := List.replicate image.length none
             cache := List.replicate image.length none
             proxy_ratio := proxy_ratio }
    rfl (by simp [animatic_arrays_sized]) rfl (by omega) (fun k hk => by omega)
  exact h

/-- C24: call the cache of an animatic consistent when the arrays have
`n_panels` entries and, for every panel, the layer of the panel is found in the
image and the cache of the panel is the render of this layer, over the cache of
the panel before when the panel is not the first one and is in combine mode.
On an image with a layer and with a proxy ratio in `(0, 1]`, the conversion of
the duration tag of every layer name to a `gint` having a result,
`animation_animatic_load` returns a consistent state; and on a consistent state
`animation_animatic_set_combine` returns, for every panel number and every
flag, a consistent state: the recursion on the next panels ends. -/
theorem cache_consistency_invariant (image : List Layer) (a : AnimationAnimatic) :
    (∀ proxy_ratio : GDouble, image ≠ [] →
      (proxy_ratio.num > 0 ∧ gdouble_le proxy_ratio (gdouble_of_gint 1) = true) →
      (∀ layer ∈ image, parse_ms_tag a.framerate (some layer.name) ≠ none) →
      ∃ a1, animation_animatic_load image a proxy_ratio = some a1 ∧
        animatic_arrays_sized a1 ∧ cache_consistent image a1) ∧
    (animatic_arrays_sized a → cache_consistent image a →
      ∀ (k : Int) (c : Bool), ∃ a1, animation_animatic_set_combine image a k c = some a1 ∧
        animatic_arrays_sized a1 ∧ cache_consistent image a1) :=
  ⟨fun proxy_ratio himage hratio hms =>
      (load_consistent image a proxy_ratio himage hratio
        (fun layer hl => Option.ne_none_iff_exists'.mp (hms layer hl))).imp
        fun _ h => ⟨h.1, h.2.1, h.2.2.1⟩,
    fun hs hc k c => set_combine_preserves image a hs hc k c⟩

/-- Witness of C24: the load of the image `combine_image`, and the second panel
of the loaded state put in combine mode. -/
theorem cache_consistency_invariant_witness :
    (∃ a1, animation_animatic_load combine_image blank_animatic (gdouble_of_gint 1) = some a1 ∧
        animatic_arrays_sized a1 ∧ cache_consistent combine_image a1) ∧
    (animatic_arrays_sized combine_animatic ∧ cache_consistent combine_image combine_animatic ∧
      ∃ a1, animation_animatic_set_combine combine_image combine_animatic 2 true = some a1 ∧
        animatic_arrays_sized a1 ∧ cache_consistent combine_image a1) :=
  ⟨(cache_consistency_invariant combine_image blank_animatic).1 (gdouble_of_gint 1)
      (by decide) (by decide) (by decide),
    by decide, by decide,
    (cache_consistency_invariant combine_image combine_animatic).2 (by decide) (by decide)
      2 true⟩

/-! ## The document of an animatic read back -/

/-- C30 (a serialized animatic read back has the same durations and combine
flags): the animatic of the image `combine_image` with the durations 6, 0, 6 is
written with `duration="0"` for the second panel; read back on the same image,
the combine flags are as before but the durations are 6, 6, 6: the reader takes
a duration from the document only when it is positive, and the second panel
keeps the 6 frames that the default load gives to the layer `B`. -/
theorem animatic_round_trip_loses_zero_duration :
    (zero_duration_animatic.durations, zero_duration_animatic.combine) =
      ([6, 0, 6], [false, false, true]) ∧
    (animation_animatic_serialize zero_duration_animatic "24.000000").map
        (fun xml => xml.take 7) =
      some [XmlEvent.start_element "animation"
          [("type", "animatic"), ("framerate", "24.000000"), ("duration", "3"),
            ("width", ""), ("height", "")],
        XmlEvent.start_element "sequence" [],
        XmlEvent.start_element "panel" [("duration", "6")],
        XmlEvent.start_element "layer" [("id", "1")],
        XmlEvent.end_element "layer", XmlEvent.end_element "panel",
        XmlEvent.start_element "panel" [("duration", "0")]] ∧
    ((animation_animatic_serialize zero_duration_animatic "24.000000").bind fun xml =>
        animation_animatic_load_xml (gdouble_of_gint 300) (gdouble_of_gint 24) combine_image
          blank_animatic xml (gdouble_of_gint 1)).map
        (fun a => (a.durations, a.combine)) =
      some ([6, 6, 6], [false, false, true]) := by
  exact ⟨rfl, rfl, rfl⟩

theorem cache_no_recursion (image : List Layer) (b : AnimationAnimatic) (j : Nat)
    (hs : animatic_arrays_sized b) (hj : j < b.n_panels.toNat)
    (hres : ∃ layer, (b.tattoos[j]?).bind (gimp_image_get_layer_by_tattoo image) = some layer) :
    ∃ b1, animation_animatic_cache image b ((j : Int) + 1) false = some b1 ∧
      b1.tattoos = b.tattoos ∧ b1.durations = b.durations ∧ b1.combine = b.combine ∧
      b1.n_panels = b.n_panels ∧ b1.comments = b.comments ∧
      b1.cache.length = b.cache.length := by
  obtain ⟨buffer, hbuf⟩ := panel_render_defined image b hs j hj hres
  have hjc : j < b.cache.length := by
    obtain ⟨-, -, -, -, h5⟩ := hs
    omega
  unfold animation_animatic_cache
  rw [cache_aux_succ image _ b j false buffer hbuf hjc]
  rw [if_neg (fun h => Bool.noConfusion h.1)]
  simp only [Option.some_bind]
  rw [if_neg (by simp)]
  simp only [Option.some_bind]
  obtain ⟨shown, hshown⟩ := get_panel_total { b with cache := b.cache.set j (some buffer) }
    (by
      obtain ⟨-, h2, -, -, -⟩ := hs
      show b.n_panels.toNat ≤ b.durations.length
      omega) b.position
  rw [hshown]
  simp only [Option.map_some']
  by_cases hsh : shown = (j : Int) + 1
  · rw [if_pos hsh]
    exact ⟨_, rfl, rfl, rfl, rfl, rfl, rfl, by simp⟩
  · rw [if_neg hsh]
    exact ⟨_, rfl, rfl, rfl, rfl, rfl, rfl, by simp⟩

theorem panel_attributes_serialized (i : Nat) (durations : List Int) (d : Int) (hd : is_gint d)
    (hi : i < durations.length) (comb : Bool) :
    panel_attributes ((i : Int) + 1) durations false
        ((if comb = true then [("duration", fmt_d d), ("blend-mode", "normal")]
          else [("duration", fmt_d d)]).map
          fun nv => (nv.1, unescape_gstring_inplace true nv.2)) =
      some (if d > 0 then durations.set i d else durations, comb) := by
  have e1 : (i : Int) + 1 - 1 = (i : Int) := by omega
  have hne := fmt_d_ne_empty d
  have hnormal : unescape_gstring_inplace true "normal" = "normal" := by decide
  cases comb with
  | false =>
    simp only [Bool.false_eq_true, if_false, List.map_cons, List.map_nil, unescape_fmt_d]
    unfold panel_attributes
    rw [if_pos ⟨rfl, hne⟩]
    simp only [strtoll_fmt_d hd]
    by_cases hpos : d > 0
    · rw [if_pos hpos, if_pos hpos, e1, array_set_nat _ _ _ hi]
      rfl
    · rw [if_neg hpos, if_neg hpos]
      rfl
  | true =>
    simp only [if_true, List.map_cons, List.map_nil, unescape_fmt_d, hnormal]
    unfold panel_attributes
    rw [if_pos ⟨rfl, hne⟩]
    simp only [strtoll_fmt_d hd]
    by_cases hpos : d > 0
    · rw [if_pos hpos, if_pos hpos, e1, array_set_nat _ _ _ hi]
      simp only [Option.some_bind]
      unfold panel_attributes
      rw [if_neg (by decide), if_pos (by decide)]
      rfl
    · rw [if_neg hpos, if_neg hpos]
      unfold panel_attributes
      rw [if_neg (by decide), if_pos (by decide)]
      rfl

theorem start_element_panel (max_framerate default_framerate : GDouble) (image : List Layer)
    (b : AnimationAnimatic) (i : Nat) (duration xml_level : Int) (d : Int) (comb : Bool)
    (hs : animatic_arrays_sized b) (hi : i < b.n_panels.toNat) (hd : is_gint d)
    (hres : ∃ layer, (b.tattoos[i]?).bind (gimp_image_get_layer_by_tattoo image) = some layer) :
    ∃ b2, animation_animatic_start_element max_framerate default_framerate image b
        { state := .SEQUENCE_STATE, panel := (i : Int), duration := duration,
          xml_level := xml_level } "panel"
        ((if comb = true then [("duration", fmt_d d), ("blend-mode", "normal")]
          else [("duration", fmt_d d)]).map
          fun nv => (nv.1, unescape_gstring_inplace true nv.2)) =
        some (b2,
          { state := .PANEL_STATE, panel := (i : Int) + 1, duration := duration,
            xml_level := xml_level + 1 }, false) ∧
      animatic_arrays_sized b2 ∧ b2.n_panels = b.n_panels ∧ b2.tattoos = b.tattoos ∧
      b2.durations = (if d > 0 then b.durations.set i d else b.durations) ∧
      b2.combine = b.combine.set i comb := by
  obtain ⟨h1, h2, h3, h4, h5⟩ := hs
  have e1 : (i : Int) + 1 - 1 = (i : Int) := by omega
  have hic : i < b.combine.length := by omega
  unfold animation_animatic_start_element
  simp only [if_neg (not_not.mpr rfl)]
  rw [panel_attributes_serialized i b.durations d hd (by omega) comb]
  simp only [Option.some_bind]
  rw [e1, array_get_nat, List.getElem?_eq_getElem hic]
  simp only [Option.some_bind]
  have hdl : (if d > 0 then b.durations.set i d else b.durations).length = b.n_panels.toNat := by
    split_ifs
    · simpa using h2
    · exact h2
  by_cases hne : b.combine[i] ≠ comb
  · rw [if_pos hne, array_set_nat _ _ _ hic]
    simp only [Option.some_bind]
    obtain ⟨b1, hb1, g1, g2, g3, g4, g5, g6⟩ := cache_no_recursion image
      { b with durations := (if d > 0 then b.durations.set i d else b.durations),
               combine := b.combine.set i comb } i
      ⟨h1, hdl, by simpa using h3, h4, h5⟩ hi hres
    rw [hb1]
    refine ⟨b1, rfl, ⟨?_, ?_, ?_, ?_, ?_⟩, g4, g1, g2, g3⟩
    · rw [g1, g4]; exact h1
    · rw [g2, g4]; exact hdl
    · rw [g3, g4]; simpa using h3
    · rw [g5, g4]; exact h4
    · rw [g6, g4]; exact h5
  · rw [if_neg hne]
    have heq : b.combine[i] = comb := not_not.mp hne
    refine ⟨_, rfl, ⟨h1, hdl, h3, h4, h5⟩, rfl, rfl, rfl, ?_⟩
    show b.combine = b.combine.set i comb
    rw [← heq]
    apply List.ext_getElem?
    intro k
    by_cases hk : k = i
    · rw [hk, List.getElem?_set_self hic, List.getElem?_eq_getElem hic]
    · rw [List.getElem?_set_ne (Ne.symm hk)]

theorem parse_panel_block (max_framerate default_framerate : GDouble) (image : List Layer)
    (b : AnimationAnimatic) (i : Nat) (duration xml_level : Int) (d : Int) (comb : Bool)
    (hs : animatic_arrays_sized b) (hi : i < b.n_panels.toNat) (hd : is_gint d)
    (hres : ∃ layer, (b.tattoos[i]?).bind (gimp_image_get_layer_by_tattoo image) = some layer)
    (ids : List (String × String)) (opens : List String) (seen : Bool) :
    ∃ (b2 : AnimationAnimatic) (xml_level2 : Int),
      (∀ rest : List XmlEvent,
        animatic_markup_parse max_framerate default_framerate image
          { animation := b
            status := { state := .SEQUENCE_STATE, panel := (i : Int), duration := duration,
                        xml_level := xml_level }
            open_elements := opens
            seen_element := seen
            error := false }
          (XmlEvent.start_element "panel"
              ((if comb = true then [("duration", fmt_d d), ("blend-mode", "normal")]
                else [("duration", fmt_d d)]).map
                fun nv => (nv.1, unescape_gstring_inplace true nv.2)) ::
            XmlEvent.start_element "layer" ids :: XmlEvent.end_element "layer" ::
              XmlEvent.end_element "panel" :: rest) =
        animatic_markup_parse max_framerate default_framerate image
          { animation := b2
            status := { state := .SEQUENCE_STATE, panel := (i : Int) + 1, duration := duration,
                        xml_level := xml_level2 }
            open_elements := opens
            seen_element := true
            error := false } rest) ∧
      animatic_arrays_sized b2 ∧ b2.n_panels = b.n_panels ∧ b2.tattoos = b.tattoos ∧
      b2.durations = (if d > 0 then b.durations.set i d else b.durations) ∧
      b2.combine = b.combine.set i comb := by
  obtain ⟨b2, hstart, hprops⟩ := start_element_panel max_framerate default_framerate image b i
    duration xml_level d comb hs hi hd hres
  refine ⟨b2, xml_level + 1 + 1 - 1 - 1, ?_, hprops⟩
  intro rest
  rw [animatic_markup_parse]
  simp only [Bool.false_eq_true, if_false, hstart, Option.some_bind]
  rw [animatic_markup_parse]
  simp only [Bool.false_eq_true, if_false, animation_animatic_start_element,
    if_neg (not_not.mpr rfl), Option.some_bind]
  rw [animatic_markup_parse]
  simp only [Bool.false_eq_true, if_false, if_neg (not_not.mpr rfl),
    animation_animatic_end_element]
  rw [animatic_markup_parse]
  simp only [Bool.false_eq_true, if_false, if_neg (not_not.mpr rfl),
    animation_animatic_end_element]

theorem parse_panels (max_framerate default_framerate : GDouble) (image : List Layer)
    (a : AnimationAnimatic) (hsa : animatic_arrays_sized a)
    (hda : ∀ d ∈ a.durations, is_gint d) :
    ∀ (m i : Nat) (b : AnimationAnimatic) (duration xml_level : Int) (opens : List String),
      i + m = a.n_panels.toNat → animatic_arrays_sized b →
      b.n_panels = a.n_panels →
      (∀ k, k < b.n_panels.toNat →
        ∃ layer, (b.tattoos[k]?).bind (gimp_image_get_layer_by_tattoo image) = some layer) →
      ∃ (evs : List XmlEvent) (b2 : AnimationAnimatic) (xml_level2 : Int),
        serialize_panels a m i = some evs ∧
        (∀ rest : List XmlEvent,
          animatic_markup_parse max_framerate default_framerate image
            { animation := b
              status := { state := .SEQUENCE_STATE, panel := (i : Int), duration := duration,
                          xml_level := xml_level }
              open_elements := opens
              seen_element := true
              error := false } (evs.map g_markup_read_element ++ rest) =
          animatic_markup_parse max_framerate default_framerate image
            { animation := b2
              status := { state := .SEQUENCE_STATE, panel := ((i + m : Nat) : Int),
                          duration := duration, xml_level := xml_level2 }
              open_elements := opens
              seen_element := true
              error := false } rest) ∧
        animatic_arrays_sized b2 ∧ b2.n_panels = b.n_panels ∧ b2.tattoos = b.tattoos ∧
        (∀ k, i ≤ k → k < i + m → b2.durations[k]? =
          some (if a.durations.getD k 0 > 0 then a.durations.getD k 0
            else b.durations.getD k 0)) ∧
        (∀ k, k < i → b2.durations[k]? = b.durations[k]?) ∧
        (∀ k, i ≤ k → k < i + m → b2.combine[k]? = a.combine[k]?) ∧
        (∀ k, k < i → b2.combine[k]? = b.combine[k]?) := by
  intro m
  induction m with
  | zero =>
    intro i b duration xml_level opens _ hsb _ _
    exact ⟨[], b, xml_level, rfl, fun _ => rfl, hsb, rfl, rfl, fun k h1 h2 => by omega, fun _ _ => rfl,
      fun k h1 h2 => by omega, fun _ _ => rfl⟩
  | succ m ih =>
    intro i b duration xml_level opens him hsb hnb hres
    obtain ⟨ha1, ha2, ha3, ha4, ha5⟩ := hsa
    have hin : i < a.n_panels.toNat := by omega
    have hic : i < a.combine.length := by omega
    have hid : i < a.durations.length := by omega
    have hit : i < a.tattoos.length := by omega
    have hib : i < b.n_panels.toNat := by rw [hnb]; exact hin
    obtain ⟨b1, lv1, hblock, hs1, hn1, ht1, hd1, hc1⟩ := parse_panel_block max_framerate
      default_framerate image b i duration xml_level a.durations[i] a.combine[i] hsb hib
      (hda _ (List.getElem_mem _)) (hres i hib)
      ([("id", fmt_d a.tattoos[i])].map fun nv => (nv.1, unescape_gstring_inplace true nv.2))
      opens true
    obtain ⟨evs, b2, lv2, hser, hparse, hs2, hn2, ht2, hd2, hd2b, hc2, hc2b⟩ :=
      ih (i + 1) b1 duration lv1 opens (by omega) hs1 (by rw [hn1, hnb])
        (by
          intro k hk
          rw [ht1]
          exact hres k (by rw [← hn1]; exact hk))
    have hbd : i < b.durations.length := by
      obtain ⟨-, g2, -, -, -⟩ := hsb
      omega
    have hbc : i < b.combine.length := by
      obtain ⟨-, -, g3, -, -⟩ := hsb
      omega
    refine ⟨XmlEvent.start_element "panel"
          (if a.combine[i] = true then
            [("duration", fmt_d a.durations[i]), ("blend-mode", "normal")]
          else [("duration", fmt_d a.durations[i])]) ::
        XmlEvent.start_element "layer" [("id", fmt_d a.tattoos[i])] ::
          XmlEvent.end_element "layer" :: XmlEvent.end_element "panel" :: evs,
      b2, lv2, ?_, ?_, hs2, by rw [hn2, hn1], by rw [ht2, ht1], ?_, ?_, ?_, ?_⟩
    · rw [serialize_panels, List.getElem?_eq_getElem hic, List.getElem?_eq_getElem hid,
        List.getElem?_eq_getElem hit, hser]
      rfl
    · intro rest
      refine (hblock (evs.map g_markup_read_element ++ rest)).trans ?_
      have e : ((i : Nat) : Int) + 1 = ((i + 1 : Nat) : Int) := by omega
      rw [e, hparse rest]
      have e2 : i + 1 + m = i + (m + 1) := by omega
      rw [e2]
    · intro k hk1 hk2
      by_cases hki : k = i
      · subst hki
        rw [hd2b k (by omega), hd1]
        rw [List.getD_eq_getElem?_getD, List.getElem?_eq_getElem hid]
        rw [List.getD_eq_getElem?_getD, List.getElem?_eq_getElem hbd]
        simp only [Option.getD_some]
        by_cases hpos : a.durations[k] > 0
        · rw [if_pos hpos, if_pos hpos, List.getElem?_set_self hbd]
        · rw [if_neg hpos, if_neg hpos, List.getElem?_eq_getElem hbd]
      · rw [hd2 k (by omega) (by omega), hd1]
        have hsame : (if a.durations[i] > 0 then b.durations.set i a.durations[i]
            else b.durations).getD k 0 = b.durations.getD k 0 := by
          rw [List.getD_eq_getElem?_getD, List.getD_eq_getElem?_getD]
          split_ifs
          · rw [List.getElem?_set_ne (Ne.symm hki)]
          · rfl
        rw [hsame]
    · intro k hk
      rw [hd2b k (by omega), hd1]
      split_ifs
      · rw [List.getElem?_set_ne (by omega)]
      · rfl
    · intro k hk1 hk2
      by_cases hki : k = i
      · subst hki
        rw [hc2b k (by omega), hc1, List.getElem?_set_self hbc, List.getElem?_eq_getElem hic]
      · exact hc2 k (by omega) (by omega)
    · intro k hk
      rw [hc2b k (by omega), hc1, List.getElem?_set_ne (by omega)]

theorem text_in_comment_state (b : AnimationAnimatic) (panel duration xml_level : Int)
    (content : String) (hb : b.comments.length = b.n_panels.toNat) :
    ∃ (b1 : AnimationAnimatic) (panel1 : Int),
      animation_animatic_text b
          { state := .COMMENT_STATE, panel := panel, duration := duration,
            xml_level := xml_level } content =
        some (b1,
          { state := .COMMENT_STATE, panel := panel1, duration := duration,
            xml_level := xml_level }) ∧
      b1.durations = b.durations ∧ b1.combine = b.combine ∧ b1.n_panels = b.n_panels ∧
      b1.comments.length = b.comments.length := by
  unfold animation_animatic_text
  simp only
  by_cases hp : panel = -1
  · rw [if_pos hp]
    exact ⟨b, panel, rfl, rfl, rfl, rfl, rfl⟩
  · rw [if_neg hp]
    unfold animation_animatic_set_comment
    by_cases hr : panel > 0 ∧ panel ≤ b.n_panels
    · rw [if_neg (not_not.mpr hr)]
      obtain ⟨j, hj⟩ : ∃ j : Nat, panel = (j : Int) + 1 := ⟨(panel - 1).toNat, by omega⟩
      subst hj
      have e1 : (j : Int) + 1 - 1 = (j : Int) := by omega
      rw [e1, array_set_nat _ _ _ (by omega)]
      exact ⟨_, -1, rfl, rfl, rfl, rfl, by simp⟩
    · rw [if_pos hr]
      exact ⟨b, -1, rfl, rfl, rfl, rfl, rfl⟩

theorem parse_panel_comment_element (max_framerate default_framerate : GDouble) (image : List Layer)
    (b : AnimationAnimatic) (panel duration xml_level : Int) (opens : List String)
    (attributes : List (String × String)) (texts : List XmlEvent)
    (htexts : texts = [] ∨ ∃ content, texts = [XmlEvent.text content])
    (hb : b.comments.length = b.n_panels.toNat) :
    ∃ (b2 : AnimationAnimatic) (panel2 xml_level2 : Int),
      (∀ rest : List XmlEvent,
        animatic_markup_parse max_framerate default_framerate image
          { animation := b
            status := { state := .COMMENTS_STATE, panel := panel, duration := duration,
                        xml_level := xml_level }
            open_elements := opens
            seen_element := true
            error := false }
          (XmlEvent.start_element "comment" attributes ::
            (texts ++ XmlEvent.end_element "comment" :: rest)) =
        animatic_markup_parse max_framerate default_framerate image
          { animation := b2
            status := { state := .COMMENTS_STATE, panel := panel2, duration := duration,
                        xml_level := xml_level2 }
            open_elements := opens
            seen_element := true
            error := false } rest) ∧
      b2.durations = b.durations ∧ b2.combine = b.combine ∧ b2.n_panels = b.n_panels ∧
      b2.comments.length = b.comments.length := by
  rcases htexts with h | ⟨content, h⟩
  · subst h
    refine ⟨b, comment_panel_attribute (-1) attributes, xml_level + 1 - 1, ?_,
      rfl, rfl, rfl, rfl⟩
    intro rest
    rw [animatic_markup_parse]
    simp only [Bool.false_eq_true, if_false, animation_animatic_start_element,
      if_neg (not_not.mpr rfl), Option.some_bind, List.nil_append]
    rw [animatic_markup_parse]
    simp only [Bool.false_eq_true, if_false, if_neg (not_not.mpr rfl),
      animation_animatic_end_element]
  · subst h
    obtain ⟨b1, panel1, htext, hprops⟩ := text_in_comment_state b
      (comment_panel_attribute (-1) attributes) duration (xml_level + 1) content hb
    refine ⟨b1, panel1, xml_level + 1 - 1, ?_, hprops⟩
    intro rest
    rw [animatic_markup_parse]
    simp only [Bool.false_eq_true, if_false, animation_animatic_start_element,
      if_neg (not_not.mpr rfl), Option.some_bind, List.cons_append, List.nil_append]
    rw [animatic_markup_parse]
    simp only [Bool.false_eq_true, if_false, htext, Option.some_bind]
    rw [animatic_markup_parse]
    simp only [Bool.false_eq_true, if_false, if_neg (not_not.mpr rfl),
      animation_animatic_end_element]

theorem parse_panel_comments (max_framerate default_framerate : GDouble) (image : List Layer)
    (a : AnimationAnimatic) :
    ∀ (m i : Nat) (b : AnimationAnimatic) (panel duration xml_level : Int)
      (opens : List String), i + m ≤ a.comments.length →
      b.comments.length = b.n_panels.toNat →
      ∃ (evs : List XmlEvent) (b2 : AnimationAnimatic) (panel2 xml_level2 : Int),
        serialize_panel_comments a m i = some evs ∧
        (∀ rest : List XmlEvent,
          animatic_markup_parse max_framerate default_framerate image
            { animation := b
              status := { state := .COMMENTS_STATE, panel := panel, duration := duration,
                          xml_level := xml_level }
              open_elements := opens
              seen_element := true
              error := false } (evs.map g_markup_read_element ++ rest) =
          animatic_markup_parse max_framerate default_framerate image
            { animation := b2
              status := { state := .COMMENTS_STATE, panel := panel2, duration := duration,
                          xml_level := xml_level2 }
              open_elements := opens
              seen_element := true
              error := false } rest) ∧
        b2.durations = b.durations ∧ b2.combine = b.combine ∧ b2.n_panels = b.n_panels ∧
        b2.comments.length = b.comments.length := by
  intro m
  induction m with
  | zero =>
    intro i b panel duration xml_level opens _ _
    exact ⟨[], b, panel, xml_level, rfl, fun _ => rfl, rfl, rfl, rfl, rfl⟩
  | succ m ih =>
    intro i b panel duration xml_level opens him hb
    have hi : i < a.comments.length := by omega
    cases hcomment : a.comments[i] with
    | none =>
      obtain ⟨evs, b2, panel2, lv2, hser, hparse, hprops⟩ :=
        ih (i + 1) b panel duration xml_level opens (by omega) hb
      refine ⟨evs, b2, panel2, lv2, ?_, hparse, hprops⟩
      rw [serialize_panel_comments, List.getElem?_eq_getElem hi, hcomment, hser]
      rfl
    | some c =>
      obtain ⟨b1, panel1, lv1, hel, g1, g2, g3, g4⟩ := parse_panel_comment_element
        max_framerate default_framerate image b panel duration xml_level opens
        ([("panel", fmt_d ((i : Int) + 1))].map
          fun nv => (nv.1, unescape_gstring_inplace true nv.2))
        (if c = "" then [] else [XmlEvent.text (unescape_gstring_inplace false c)])
        (by
          by_cases hc : c = ""
          · rw [if_pos hc]; exact Or.inl rfl
          · rw [if_neg hc]; exact Or.inr ⟨_, rfl⟩)
        hb
      obtain ⟨evs, b2, panel2, lv2, hser, hparse, h1, h2, h3, h4⟩ :=
        ih (i + 1) b1 panel1 duration lv1 opens (by omega) (by rw [g4, g3]; exact hb)
      refine ⟨XmlEvent.start_element "comment" [("panel", fmt_d ((i : Int) + 1))] ::
          ((if c = "" then [] else [XmlEvent.text c]) ++ [XmlEvent.end_element "comment"]) ++ evs,
        b2, panel2, lv2, ?_, ?_, by rw [h1, g1], by rw [h2, g2], by rw [h3, g3],
        by rw [h4, g4]⟩
      · rw [serialize_panel_comments, List.getElem?_eq_getElem hi, hcomment, hser]
        rfl
      · intro rest
        have hlist : (XmlEvent.start_element "comment" [("panel", fmt_d ((i : Int) + 1))] ::
              ((if c = "" then [] else [XmlEvent.text c]) ++
                [XmlEvent.end_element "comment"]) ++ evs).map g_markup_read_element ++ rest =
            XmlEvent.start_element "comment"
                ([("panel", fmt_d ((i : Int) + 1))].map
                  fun nv => (nv.1, unescape_gstring_inplace true nv.2)) ::
              ((if c = "" then [] else [XmlEvent.text (unescape_gstring_inplace false c)]) ++
                XmlEvent.end_element "comment" ::
                  (evs.map g_markup_read_element ++ rest)) := by
          by_cases hc : c = ""
          · simp [hc, g_markup_read_element]
          · simp [hc, g_markup_read_element]
        rw [hlist, hel _, hparse rest]

theorem start_state_attributes_serialized (max_framerate default_framerate : GDouble)
    (a : AnimationAnimatic) (framerate duration : String) :
    ∃ fps : GDouble,
      animatic_start_state_attributes max_framerate default_framerate a
          ([("type", "animatic"), ("framerate", framerate), ("duration", duration),
              ("width", ""), ("height", "")].map
            fun nv => (nv.1, unescape_gstring_inplace true nv.2)) =
        ({ a with framerate := fps }, false) := by
  have htype : unescape_gstring_inplace true "animatic" = "animatic" := by decide
  simp only [List.map_cons, List.map_nil, htype]
  rw [animatic_start_state_attributes]
  rw [if_pos rfl, if_neg (by decide)]
  rw [animatic_start_state_attributes]
  rw [if_neg (by decide)]
  by_cases hf : unescape_gstring_inplace true framerate ≠ ""
  · rw [if_pos ⟨rfl, hf⟩]
    simp only [animation_set_framerate]
    rw [animatic_start_state_attributes, if_neg (by decide), if_neg (by simp)]
    rw [animatic_start_state_attributes, if_neg (by decide), if_neg (by simp)]
    rw [animatic_start_state_attributes, if_neg (by decide), if_neg (by simp)]
    rw [animatic_start_state_attributes]
    exact ⟨_, rfl⟩
  · rw [if_neg (fun h => hf h.2)]
    rw [animatic_start_state_attributes, if_neg (by decide), if_neg (by simp)]
    rw [animatic_start_state_attributes, if_neg (by decide), if_neg (by simp)]
    rw [animatic_start_state_attributes, if_neg (by decide), if_neg (by simp)]
    rw [animatic_start_state_attributes]
    exact ⟨a.framerate, rfl⟩

/-- What the reading of a written animatic keeps: an animatic `a` of the image
(`n_panels` layers, arrays of `n_panels` entries, durations in the range of
`gint`) is written by `animation_animatic_serialize` and the document is read
back by `animation_animatic_load_xml` on the same image, the default load
having a result: the outcome has the same number of panels and the same combine
flags as `a`; a panel whose duration is positive has the same duration as in
`a`, and every other panel has the duration of the default load. -/
theorem animatic_xml_round_trip (max_framerate default_framerate : GDouble)
    (image : List Layer) (a a0 : AnimationAnimatic) (framerate : String)
    (proxy_ratio : GDouble) (himage : image ≠ [])
    (hratio : proxy_ratio.num > 0 ∧ gdouble_le proxy_ratio (gdouble_of_gint 1) = true)
    (hms : ∀ layer ∈ image, parse_ms_tag a0.framerate (some layer.name) ≠ none)
    (hsa : animatic_arrays_sized a) (hna : a.n_panels = (image.length : Int))
    (hda : ∀ d ∈ a.durations, is_gint d) :
    ∃ (xml : List XmlEvent) (loaded a1 : AnimationAnimatic),
      animation_animatic_serialize a framerate = some xml ∧
      animation_animatic_load image a0 proxy_ratio = some loaded ∧
      animation_animatic_load_xml max_framerate default_framerate image a0 xml proxy_ratio =
        some a1 ∧
      a1.n_panels = a.n_panels ∧ a1.combine = a.combine ∧
      a1.durations =
        List.zipWith (fun d d0 => if d > 0 then d else d0) a.durations loaded.durations := by
  obtain ⟨loaded, hload, hsl, hcl, hnl⟩ := load_consistent image a0 proxy_ratio himage hratio
    (fun layer hl => Option.ne_none_iff_exists'.mp (hms layer hl))
  obtain ⟨fps, hattrs⟩ := start_state_attributes_serialized max_framerate default_framerate
    loaded framerate (fmt_d a.n_panels)
  have hs1 : animatic_arrays_sized { loaded with framerate := fps } := hsl
  have hres : ∀ k, k < loaded.n_panels.toNat →
      ∃ layer, (loaded.tattoos[k]?).bind (gimp_image_get_layer_by_tattoo image) = some layer :=
    fun k hk => resolvable_of_consistent_at image loaded k (hcl k hk)
  obtain ⟨panels, b2, lv2, hpanels, hparse2, hs2, hn2, -, hd2, -, hc2, -⟩ :=
    parse_panels max_framerate default_framerate image a hsa hda a.n_panels.toNat 0
      { loaded with framerate := fps } 0 (0 + 1 + 1) ["sequence", "animation"]
      (by omega) hs1 (by show loaded.n_panels = a.n_panels; rw [hnl, hna]) hres
  obtain ⟨ha1, ha2, ha3, ha4, ha5⟩ := hsa
  obtain ⟨comments, b3, panel3, lv3, hcomments, hparse3, hd3, hc3, hn3, -⟩ :=
    parse_panel_comments max_framerate default_framerate image a a.n_panels.toNat 0 b2
      ((0 + a.n_panels.toNat : Nat) : Int) 0 (lv2 - 1 + 1) ["comments", "animation"]
      (by omega) hs2.2.2.2.1
  have hn3a : b3.n_panels = a.n_panels := by
    rw [hn3, hn2]
    show loaded.n_panels = a.n_panels
    rw [hnl, hna]
  refine ⟨XmlEvent.start_element "animation"
        [("type", "animatic"), ("framerate", framerate), ("duration", fmt_d a.n_panels),
          ("width", ""), ("height", "")] ::
      XmlEvent.start_element "sequence" [] ::
        (panels ++ XmlEvent.end_element "sequence" :: XmlEvent.start_element "comments" [] ::
          (comments ++ [XmlEvent.end_element "comments", XmlEvent.end_element "animation"])),
    loaded, b3, ?_, hload, ?_, hn3a, ?_, ?_⟩
  · unfold animation_animatic_serialize
    rw [hpanels, hcomments]
    rfl
  · have hstep1 : ∀ rest : List XmlEvent,
        animatic_markup_parse max_framerate default_framerate image
          { animation := loaded
            status := { state := .START_STATE, panel := 0, duration := 0, xml_level := 0 }
            open_elements := []
            seen_element := false
            error := false }
          (XmlEvent.start_element "animation"
              ([("type", "animatic"), ("framerate", framerate),
                  ("duration", fmt_d a.n_panels), ("width", ""), ("height", "")].map
                fun nv => (nv.1, unescape_gstring_inplace true nv.2)) ::
            XmlEvent.start_element "sequence" [] :: rest) =
        animatic_markup_parse max_framerate default_framerate image
          { animation := { loaded with framerate := fps }
            status := { state := .SEQUENCE_STATE, panel := ((0 : Nat) : Int), duration := 0,
                        xml_level := 0 + 1 + 1 }
            open_elements := ["sequence", "animation"]
            seen_element := true
            error := false } rest := by
      intro rest
      simp only [animatic_markup_parse, Bool.false_eq_true, if_false,
        animation_animatic_start_element, if_neg (not_not.mpr rfl), hattrs, Option.some_bind]
      rfl
    have hstep2 : ∀ rest : List XmlEvent,
        animatic_markup_parse max_framerate default_framerate image
          { animation := b2
            status := { state := .SEQUENCE_STATE, panel := ((0 + a.n_panels.toNat : Nat) : Int),
                        duration := 0, xml_level := lv2 }
            open_elements := ["sequence", "animation"]
            seen_element := true
            error := false }
          (XmlEvent.end_element "sequence" :: XmlEvent.start_element "comments" [] :: rest) =
        animatic_markup_parse max_framerate default_framerate image
          { animation := b2
            status := { state := .COMMENTS_STATE, panel := ((0 + a.n_panels.toNat : Nat) : Int),
                        duration := 0, xml_level := lv2 - 1 + 1 }
            open_elements := ["comments", "animation"]
            seen_element := true
            error := false } rest := by
      intro rest
      simp only [animatic_markup_parse, Bool.false_eq_true, if_false,
        animation_animatic_start_element, animation_animatic_end_element,
        if_neg (not_not.mpr rfl), Option.some_bind]
    have hstep3 :
        animatic_markup_parse max_framerate default_framerate image
          { animation := b3
            status := { state := .COMMENTS_STATE, panel := panel3, duration := 0,
                        xml_level := lv3 }
            open_elements := ["comments", "animation"]
            seen_element := true
            error := false }
          [XmlEvent.end_element "comments", XmlEvent.end_element "animation"] =
        some
          { animation := b3
            status := { state := .END_STATE, panel := panel3, duration := 0,
                        xml_level := lv3 - 1 - 1 }
            open_elements := []
            seen_element := true
            error := false } := by
      simp only [animatic_markup_parse, Bool.false_eq_true, if_false,
        animation_animatic_end_element, if_neg (not_not.mpr rfl)]
    unfold animation_animatic_load_xml
    rw [hload]
    simp only [Option.some_bind]
    have hdoc : (XmlEvent.start_element "animation"
          [("type", "animatic"), ("framerate", framerate), ("duration", fmt_d a.n_panels),
            ("width", ""), ("height", "")] ::
        XmlEvent.start_element "sequence" [] ::
          (panels ++ XmlEvent.end_element "sequence" :: XmlEvent.start_element "comments" [] ::
            (comments ++ [XmlEvent.end_element "comments",
              XmlEvent.end_element "animation"]))).map g_markup_read_element =
        XmlEvent.start_element "animation"
            ([("type", "animatic"), ("framerate", framerate),
                ("duration", fmt_d a.n_panels), ("width", ""), ("height", "")].map
              fun nv => (nv.1, unescape_gstring_inplace true nv.2)) ::
          XmlEvent.start_element "sequence" [] ::
            (panels.map g_markup_read_element ++
              (XmlEvent.end_element "sequence" :: XmlEvent.start_element "comments" [] ::
                (comments.map g_markup_read_element ++
                  [XmlEvent.end_element "comments", XmlEvent.end_element "animation"]))) := by
      simp [g_markup_read_element]
    rw [hdoc, hstep1, hparse2, hstep2, hparse3, hstep3]
    rfl
  · apply List.ext_getElem?
    intro k
    rw [hc3]
    by_cases hk : k < a.n_panels.toNat
    · exact hc2 k (by omega) (by omega)
    · rw [List.getElem?_eq_none (by
        obtain ⟨-, -, g3, -, -⟩ := hs2
        rw [g3, hn2]
        show loaded.n_panels.toNat ≤ k
        rw [hnl, ← hna]
        omega), List.getElem?_eq_none (by omega)]
  · apply List.ext_getElem?
    intro k
    rw [hd3]
    have hll : loaded.durations.length = a.n_panels.toNat := by
      obtain ⟨-, g2, -, -, -⟩ := hsl
      rw [g2, hnl, ← hna]
    by_cases hk : k < a.n_panels.toNat
    · rw [hd2 k (by omega) (by omega)]
      rw [List.getElem?_eq_getElem (by simp; omega)]
      rw [List.getElem_zipWith]
      rw [List.getD_eq_getElem?_getD, List.getElem?_eq_getElem (by omega)]
      rw [List.getD_eq_getElem?_getD]
      show _ = some (if a.durations[k] > 0 then a.durations[k] else loaded.durations[k])
      rw [List.getElem?_eq_getElem (show k < loaded.durations.length by omega)]
      rfl
    · rw [List.getElem?_eq_none (by
        obtain ⟨-, g2, -, -, -⟩ := hs2
        rw [g2, hn2]
        show loaded.n_panels.toNat ≤ k
        rw [hnl, ← hna]
        omega), List.getElem?_eq_none (by simp; omega)]

/-- Example: the animatic of the image `combine_image` with the durations 6, 0,
6, read back on this image at 24 frames per second. -/
theorem animatic_xml_round_trip_example :
    ∃ (xml : List XmlEvent) (loaded a1 : AnimationAnimatic),
      animation_animatic_serialize zero_duration_animatic "24.000000" = some xml ∧
      animation_animatic_load combine_image blank_animatic (gdouble_of_gint 1) = some loaded ∧
      animation_animatic_load_xml (gdouble_of_gint 300) (gdouble_of_gint 24) combine_image
        blank_animatic xml (gdouble_of_gint 1) = some a1 ∧
      a1.n_panels = zero_duration_animatic.n_panels ∧
      a1.combine = zero_duration_animatic.combine ∧
      a1.durations =
        List.zipWith (fun d d0 => if d > 0 then d else d0) zero_duration_animatic.durations
          loaded.durations :=
  animatic_xml_round_trip (gdouble_of_gint 300) (gdouble_of_gint 24) combine_image
    zero_duration_animatic blank_animatic "24.000000" (gdouble_of_gint 1) (by decide)
    (by decide) (by decide) (by decide) (by decide) (by decide)

end AnimationPlay
